import Mathlib

/-!
# Volumetric engine of the photo editor: embedding and checked properties

The C++ sources `Volume.cpp`, `Filters3D.cpp`, `Projections3D.cpp` and
`Slicing3D.cpp`, the median blur, the brightness filter and the buffer
accesses of the blurs and of the edge detection of `Filters2D.cpp` over the
class of `Image.cpp`, and the projection of the volume mode of `main.cpp`
are embedded as executable Lean functions, and the properties of the
written specification are stated and proved over them.

Conventions of the embedding.

* `unsigned char` samples are `Fin 256`; conversions to `unsigned char`
  reduce modulo 256.
* `std::vector<unsigned char>` is `List Byte`.  An unchecked read
  `data[idx]` is `List.getD data idx 0`: under the buffer-length invariant
  every such read of the functions below is in range and the default is
  never used.
* The dimensions `width`, `height`, `depth`, `channels` are `int` fields
  that hold non-negative values; they are natural numbers here.
* Signed `int` arithmetic on coordinates, indices and kernel sizes is
  exact (in `Int` or `Nat`).  Where an `int` counts samples or takes a sum
  or product that can leave 32 bits for arguments the caller may pass, the
  bins, the running count and the cube of the kernel size of the median
  blur and the sum of a sample and the brightness value, the result is
  reduced to 32 bits in two's complement (`wrapInt32`), as the compiled
  code computes it.  Unsigned arithmetic wraps in C++ and carries an explicit
  `%`: the `unsigned int` accumulators of the average projections are
  reduced modulo `2^32`, the `size_t` element count of the constructor
  modulo `2^64`.  A `size_t` buffer index is below the length of an
  existing buffer and is therefore exact.
* `a / b` and `a % b` on `int` truncate toward zero (`Int.tdiv`,
  `Int.tmod`).
* A function that throws returns `Except.error`; a `void` member function
  that mutates its volume returns the outcome together with the volume as
  it is after the call.
* The Gaussian blur is parametrised by the operations on `double` that it
  uses (`FloatOps`).  The instance `binary64Ops` interprets them in IEEE
  754 binary64 with rounding to nearest, ties to even; the values of
  `std::exp` away from zero are an argument of the instance.  The fixture
  `exactOps` interprets them in exact fractions, with a given value for
  the one exponential that is not 1, for runs on concrete volumes.
* Where a property is about the indices at which a filter reads and writes
  its buffers, the filter is embedded as the list of these accesses
  (`Access`), in the order of the source.
* The recursion of `quickSort` carries a fuel and returns `none` when it is
  used up; `customSort` is shown to return within the fuel it passes.
* The projections hand their result to `writeGrayPNG` and the slices
  theirs to `stbi_write_png`; the embedding returns that buffer.
* The loader reads the file system and decodes images through a record of
  functions, `LoadEnv`; the messages it prints before `return false` are
  the constructors of `LoadResult`.
-/

namespace PhotoEditor

/-! ## Data model -/

/-- An 8-bit intensity sample, `unsigned char` in the source. -/
abbrev Byte := Fin 256

/-- Exceptions thrown by the volume accessors. -/
inductive Exception where
  | out_of_range (what : String)
  deriving DecidableEq, Repr

/-- The class `Volume` of `Volume.h`: the dimensions, the channel count, the
raw storage and the load-time parameters with their default member
initialisers. -/
structure Volume where
  width : Nat
  height : Nat
  depth : Nat
  channels : Nat
  data : List Byte
  firstSlice : Int := 1
  lastSlice : Int := -1
  extension : String := "png"
  deriving DecidableEq, Repr

namespace Volume

/-- The default constructor `Volume::Volume()`: the empty volume. -/
def empty : Volume :=
  { width := 0, height := 0, depth := 0, channels := 1, data := [] }

/-- The constructor `Volume::Volume(int w, int h, int d, int c)`: the buffer is resized to
`static_cast<size_t>(w)*h*d*c` zero samples, a product taken in the 64-bit
unsigned type `size_t`. -/
def presized (w h d : Nat) (c : Nat := 1) : Volume :=
  { width := w, height := h, depth := d, channels := c,
    data := List.replicate ((w * h * d * c) % 2 ^ 64) 0 }

/-- The bounds test shared by `getVoxel` and `setVoxel`. -/
def outOfRange (v : Volume) (x y z c : Int) : Prop :=
  x < 0 ∨ x ≥ v.width ∨ y < 0 ∨ y ≥ v.height ∨ z < 0 ∨ z ≥ v.depth ∨
    c < 0 ∨ c ≥ v.channels

instance (v : Volume) (x y z c : Int) : Decidable (v.outOfRange x y z c) := by
  unfold outOfRange; infer_instance

/-- The index expression of `getVoxel` and `setVoxel`:
`c + channels * (x + width * (y + height * z))`. -/
def voxelIndex (v : Volume) (x y z c : Int) : Nat :=
  c.toNat + v.channels * (x.toNat + v.width * (y.toNat + v.height * z.toNat))

/-- The accessor `Volume::getVoxel(x, y, z, c = 0)`. -/
def getVoxel (v : Volume) (x y z : Int) (c : Int := 0) : Except Exception Byte :=
  if v.outOfRange x y z c then
    .error (.out_of_range "getVoxel: index out of range")
  else
    .ok (v.data.getD (v.voxelIndex x y z c) 0)

/-- The mutator `Volume::setVoxel(x, y, z, value, c = 0)`: the outcome of the call and
the volume after it. -/
def setVoxel (v : Volume) (x y z : Int) (value : Byte) (c : Int := 0) :
    Except Exception Unit × Volume :=
  if v.outOfRange x y z c then
    (.error (.out_of_range "setVoxel: index out of range"), v)
  else
    (.ok (), { v with data := v.data.set (v.voxelIndex x y z c) value })

/-- The buffer-length invariant of the data model: the buffer holds exactly
`width * height * depth` samples. -/
def LengthInv (v : Volume) : Prop :=
  v.data.length = v.width * v.height * v.depth

instance (v : Volume) : Decidable v.LengthInv := by
  unfold LengthInv; infer_instance

/-- The sample at `(x, y, z)` of a single-channel volume, read at the fixed
linearisation `x + width * (y + height * z)` as the filters and projections
do. -/
def voxel (v : Volume) (x y z : Nat) : Byte :=
  v.data.getD (x + v.width * (y + v.height * z)) 0

end Volume

/-! ## Loops -/

/-- The values of `i` in `for (int i = lo; i <= hi; ++i)`. -/
def intRange (lo hi : Int) : List Int :=
  (List.range (hi + 1 - lo).toNat).map (fun (i : Nat) => lo + (i : Int))

/-- The loop nest `for (y = 0; y < h; ++y) for (x = 0; x < w; ++x)` whose
body stores `f x y` at position `x + w * y` of the buffer. -/
def fillXY {α : Type} (w h : Nat) (f : Nat → Nat → α) (output : List α) : List α :=
  (List.range h).foldl
    (fun out y => (List.range w).foldl (fun out x => out.set (x + w * y) (f x y)) out)
    output

/-- The same loop nest with a body that may fail: the first failure ends
the loops. -/
def fillXYM {ε α : Type} (w h : Nat) (f : Nat → Nat → Except ε α) (output : List α) :
    Except ε (List α) :=
  (List.range h).foldlM
    (fun out y => (List.range w).foldlM
      (fun out x => do
        let val ← f x y
        pure (out.set (x + w * y) val))
      out)
    output

/-- Conversion of a non-negative integer value to `unsigned char`. -/
def toByte (n : Nat) : Byte := ⟨n % 256, Nat.mod_lt n (by decide)⟩

/-- The value that a 32-bit `int` holds after an operation whose exact
result is `i`: the reduction of `i` modulo `2^32` into
`[-2^31, 2^31)`. -/
def wrapInt32 (i : Int) : Int := (i + 2147483648) % 4294967296 - 2147483648

/-! ## Filters (`Filters3D.cpp`) -/

/-- The operations on `double` that the Gaussian blur uses; the embedding
does not interpret them. -/
structure FloatOps (F : Type) where
  /-- Conversion of an `int` (and the literals `0.0`, `2.0`) to `double`. -/
  ofInt : Int → F
  /-- Promotion of an `unsigned char` to `double`. -/
  ofByte : Byte → F
  add : F → F → F
  mul : F → F → F
  div : F → F → F
  exp : F → F
  /-- The conversion `static_cast<unsigned char>(double)`. -/
  toByte : F → Byte

/-- The function `generateGaussianKernel(kernelSize, sigma)`: the weights
`exp(-(i * i) / (2.0 * sigma * sigma))` for `i` from `-radius` to `radius`,
each then divided by their sum. -/
def generateGaussianKernel {F : Type} (ops : FloatOps F) (kernelSize : Int) (sigma : F) :
    List F :=
  let radius := kernelSize.tdiv 2
  let filled := (intRange (-radius) radius).foldl
    (fun (acc : List F × F) (i : Int) =>
      let value := ops.exp (ops.div (ops.ofInt (-(i * i)))
        (ops.mul (ops.mul (ops.ofInt 2) sigma) sigma))
      (acc.1.set (i + radius).toNat value, ops.add acc.2 value))
    (List.replicate kernelSize.toNat (ops.ofInt 0), ops.ofInt 0)
  filled.1.map (fun val => ops.div val filled.2)

/-- One output sample of a convolution pass: the loop over the `2 * radius +
1` taps accumulates `sum` and `weightSum`, and the sample is
`static_cast<unsigned char>(sum / weightSum)`.  The tap at offset `t` is read
by `read t`, which in the X pass is the throwing `getVoxel`. -/
def convolveTaps {F : Type} (ops : FloatOps F) (kernel : List F) (radius : Int)
    (read : Int → Except Exception Byte) : Except Exception Byte := do
  let acc ← (intRange (-radius) radius).foldlM
    (fun (acc : F × F) (t : Int) => do
      let weight := kernel.getD (t + radius).toNat (ops.ofInt 0)
      let sample ← read t
      pure (ops.add acc.1 (ops.mul (ops.ofByte sample) weight), ops.add acc.2 weight))
    (ops.ofInt 0, ops.ofInt 0)
  pure (ops.toByte (ops.div acc.1 acc.2))

/-- The filter `Filters3D::apply3DGaussianBlur(volume, kernelSize, sigma)`:
the outcome of the call and the volume after it.  Only the X pass can throw
(through `getVoxel`), and it writes to `tempData`; the Z pass writes into the
buffer of the volume. -/
def apply3DGaussianBlur {F : Type} (ops : FloatOps F) (volume : Volume) (kernelSize : Int)
    (sigma : F) : Except Exception Unit × Volume :=
  let kernelSize := if kernelSize.tmod 2 = 0 then kernelSize + 1 else kernelSize
  let width := volume.width
  let height := volume.height
  let depth := volume.depth
  let radius := kernelSize.tdiv 2
  let kernel := generateGaussianKernel ops kernelSize sigma
  let clampTo (t : Int) (n : Nat) : Int := max 0 (min t ((n : Int) - 1))
  -- Step 1: X direction, `for z, for y, for x`
  let step1 : Except Exception (List Byte) :=
    (List.range depth).foldlM (fun tempData (z : Nat) =>
      (List.range height).foldlM (fun tempData (y : Nat) =>
        (List.range width).foldlM (fun tempData (x : Nat) => do
          let val ← convolveTaps ops kernel radius
            (fun dx => volume.getVoxel (clampTo ((x : Int) + dx) width) y z)
          pure (tempData.set (x + width * (y + height * z)) val))
          tempData) tempData)
      (List.replicate volume.data.length 0)
  match step1 with
  | .error e => (.error e, volume)
  | .ok tempData =>
    -- Step 2: Y direction, `for z, for x, for y`
    let step2 : Except Exception (List Byte) :=
      (List.range depth).foldlM (fun tempData2 (z : Nat) =>
        (List.range width).foldlM (fun tempData2 (x : Nat) =>
          (List.range height).foldlM (fun tempData2 (y : Nat) => do
            let val ← convolveTaps ops kernel radius
              (fun dy => pure (tempData.getD
                (x + width * ((clampTo ((y : Int) + dy) height).toNat + height * z)) 0))
            pure (tempData2.set (x + width * (y + height * z)) val))
            tempData2) tempData2)
        (List.replicate volume.data.length 0)
    match step2 with
    | .error e => (.error e, volume)
    | .ok tempData2 =>
      -- Step 3: Z direction, `for y, for x, for z`, written into `volume.data`
      let step3 : Except Exception (List Byte) :=
        (List.range height).foldlM (fun data (y : Nat) =>
          (List.range width).foldlM (fun data (x : Nat) =>
            (List.range depth).foldlM (fun data (z : Nat) => do
              let val ← convolveTaps ops kernel radius
                (fun dz => pure (tempData2.getD
                  (x + width * (y + height * (clampTo ((z : Int) + dz) depth).toNat)) 0))
              pure (data.set (x + width * (y + height * z)) val))
              data) data)
          volume.data
      match step3 with
      | .error e => (.error e, volume)
      | .ok data => (.ok (), { volume with data := data })

/-- The array `int histogram[256]`, indexed by intensity; the statements
that change a bin keep it in 32 bits. -/
abbrev Histogram := Nat → Int

/-- The statement `histogram[val]++`. -/
def histInc (histogram : Histogram) (val : Byte) : Histogram :=
  fun i => if i = val.val then wrapInt32 (histogram i + 1) else histogram i

/-- The statement `histogram[val]--`. -/
def histDec (histogram : Histogram) (val : Byte) : Histogram :=
  fun i => if i = val.val then wrapInt32 (histogram i - 1) else histogram i

/-- The scan `for (i ...) { count += histogram[i]; if (count > medianPos)
{ medianValue = i; break; } }` over the remaining bins, from the running
`count`, an `int`; `medianValue` keeps its initial 0 when the loop runs to
its end. -/
def scanBins (histogram : Histogram) (medianPos : Int) : List Nat → Int → Nat
  | [], _ => 0
  | i :: rest, count =>
    if wrapInt32 (count + histogram i) > medianPos then i
    else scanBins histogram medianPos rest (wrapInt32 (count + histogram i))

/-- The median scan over the 256 bins, from `count = 0`. -/
def medianScan (histogram : Histogram) (medianPos : Int) : Nat :=
  scanBins histogram medianPos (List.range 256) 0

/-- The double loop `for dz, for dy` of the slide step, which applies
`update` to the histogram with the voxel of column `nx` at the clamped
`(y + dy, z + dz)`. -/
def updateColumn (volume : Volume) (radius : Int) (y z : Nat) (nx : Int)
    (update : Histogram → Byte → Histogram) (histogram : Histogram) :
    Except Exception Histogram :=
  (intRange (-radius) radius).foldlM (fun histogram (dz : Int) =>
    (intRange (-radius) radius).foldlM (fun histogram (dy : Int) => do
      let nz := max 0 (min ((z : Int) + dz) ((volume.depth : Int) - 1))
      let ny := max 0 (min ((y : Int) + dy) ((volume.height : Int) - 1))
      let val ← volume.getVoxel nx ny nz
      pure (update histogram val))
      histogram) histogram

/-- The histogram of the window centred at `x = 0` of row `(y, z)`: after the
`memset`, the triple loop `for dz, for dy, for dx` counts every voxel of the
window, each coordinate clamped to the volume. -/
def firstWindowHistogram (volume : Volume) (radius : Int) (y z : Nat) :
    Except Exception Histogram :=
  (intRange (-radius) radius).foldlM (fun (histogram : Histogram) (dz : Int) =>
    (intRange (-radius) radius).foldlM (fun (histogram : Histogram) (dy : Int) =>
      (intRange (-radius) radius).foldlM (fun (histogram : Histogram) (dx : Int) => do
        let nz := max 0 (min ((z : Int) + dz) ((volume.depth : Int) - 1))
        let ny := max 0 (min ((y : Int) + dy) ((volume.height : Int) - 1))
        let nx := max 0 (min dx ((volume.width : Int) - 1))
        let val ← volume.getVoxel nx ny nz
        pure (histInc histogram val))
        histogram) histogram)
    (fun _ => 0)

/-- The body of the loop `for (x = 1; x < width; ++x)`: the outgoing column
`max(0, x - radius - 1)` is removed from the histogram, the incoming column
`min(width - 1, x + radius)` added, and the new median stored at
`z * width * height + y * width + x`. -/
def slideWindow (volume : Volume) (radius medianPos : Int) (y z : Nat)
    (state : Histogram × List Byte) (x : Nat) : Except Exception (Histogram × List Byte) := do
  let oldNx := max 0 ((x : Int) - radius - 1)
  let histogram ← updateColumn volume radius y z oldNx histDec state.1
  let newNx := min ((volume.width : Int) - 1) ((x : Int) + radius)
  let histogram ← updateColumn volume radius y z newNx histInc histogram
  pure (histogram, state.2.set (z * volume.width * volume.height + y * volume.width + x)
    (toByte (medianScan histogram medianPos)))

/-- The body of the loops `for z, for y` of the median blur: the histogram of
the window at `x = 0` is built, its median stored at
`z * width * height + y * width`, and the window slid along the row. -/
def medianRow (volume : Volume) (radius medianPos : Int) (z y : Nat) (newData : List Byte) :
    Except Exception (List Byte) := do
  let histogram ← firstWindowHistogram volume radius y z
  let newData := newData.set (z * volume.width * volume.height + y * volume.width)
    (toByte (medianScan histogram medianPos))
  let moved ← (List.range' 1 (volume.width - 1)).foldlM
    (slideWindow volume radius medianPos y z) (histogram, newData)
  pure moved.2

/-- The filter `Filters3D::apply3DMedianBlur(volume, kernelSize)`: the
outcome of the call and the volume after it.  The results go to `newData`,
which replaces the buffer of the volume after the last row; a `getVoxel`
that throws leaves the volume as it was.  The product
`kernelSize * kernelSize * kernelSize` is taken in 32-bit `int`. -/
def apply3DMedianBlur (volume : Volume) (kernelSize : Int) : Except Exception Unit × Volume :=
  let kernelSize := if kernelSize.tmod 2 = 0 then kernelSize + 1 else kernelSize
  let radius := kernelSize.tdiv 2
  let height := volume.height
  let depth := volume.depth
  let medianPos := (wrapInt32 (wrapInt32 (kernelSize * kernelSize) * kernelSize)).tdiv 2
  let filtered : Except Exception (List Byte) :=
    (List.range depth).foldlM (fun newData (z : Nat) =>
      (List.range height).foldlM (fun newData (y : Nat) =>
        medianRow volume radius medianPos z y newData) newData)
      (List.replicate volume.data.length 0)
  match filtered with
  | .error e => (.error e, volume)
  | .ok newData => (.ok (), { volume with data := newData })

/-- The dispatcher `Filters3D::apply3DBlur(volume, blurType, kernelSize,
sigma)`, whose `float` arguments are values of `F`: `toInt` is the cast
`(int)kernelSize`, and the promotion of `sigma` to `double` keeps its
value.  An unknown blur type is reported and nothing else is done. -/
def apply3DBlur {F : Type} (ops : FloatOps F) (toInt : F → Int) (volume : Volume)
    (blurType : String) (kernelSize sigma : F) : Except Exception Unit × Volume :=
  if blurType = "Gaussian" then apply3DGaussianBlur ops volume (toInt kernelSize) sigma
  else if blurType = "Median" then apply3DMedianBlur volume (toInt kernelSize)
  else (.ok (), volume)

/-! ## Projections (`Projections3D.cpp`) -/

/-- Ways a projection ends without handing a buffer to `writeGrayPNG`. -/
inductive ProjectionFailure where
  /-- The guard `w <= 0 || h <= 0 || d <= 0` printed its message and
  returned. -/
  | zeroDimensions
  /-- The quotient `sumVal / d` was evaluated with `d = 0`. -/
  | divisionByZero
  deriving DecidableEq, Repr

/-- The loop body of the maximum scans: `if (val > maxVal) maxVal = val`. -/
def maxStep (maxVal val : Byte) : Byte := if val > maxVal then val else maxVal

/-- The loop body of the minimum scans: `if (val < minVal) minVal = val`. -/
def minStep (minVal val : Byte) : Byte := if val < minVal then val else minVal

/-- The loop body of the sums: `sumVal += (unsigned int) val` on a 32-bit
`unsigned int`. -/
def sumStep (sumVal : Nat) (val : Byte) : Nat := (sumVal + val.val) % 2 ^ 32

/-- The average `(unsigned char)(sumVal / d)` of the average projections. -/
def meanOf (sumVal d : Nat) : Except ProjectionFailure Byte :=
  if d = 0 then .error .divisionByZero else .ok (toByte (sumVal / d))

/-- The projection `Projections3D::MIP`. -/
def MIP (vol : Volume) : Except ProjectionFailure (List Byte) :=
  let w := vol.width
  let h := vol.height
  let d := vol.depth
  if w ≤ 0 ∨ h ≤ 0 ∨ d ≤ 0 then .error .zeroDimensions
  else
    .ok (fillXY w h
      (fun x y => (List.range d).foldl (fun maxVal z => maxStep maxVal (vol.voxel x y z)) 0)
      (List.replicate (w * h) 0))

/-- The projection `Projections3D::MinIP`. -/
def MinIP (vol : Volume) : Except ProjectionFailure (List Byte) :=
  let w := vol.width
  let h := vol.height
  let d := vol.depth
  .ok (fillXY w h
    (fun x y => (List.range d).foldl (fun minVal z => minStep minVal (vol.voxel x y z)) 255)
    (List.replicate (w * h) 255))

/-- The projection `Projections3D::AIP`: a first loop nest fills the 32-bit
accumulators, a second one divides them by the depth. -/
def AIP (vol : Volume) : Except ProjectionFailure (List Byte) :=
  let w := vol.width
  let h := vol.height
  let d := vol.depth
  let accum : List Nat := fillXY w h
    (fun x y => (List.range d).foldl (fun sumVal z => sumStep sumVal (vol.voxel x y z)) 0)
    (List.replicate (w * h) 0)
  fillXYM w h (fun x y => meanOf (accum.getD (x + w * y) 0) d) (List.replicate (w * h) 0)

/-- The clamping and ordering of the slab bounds, shared by the three slab
projections: each bound is `std::max(0, std::min(bound, depth - 1))` and
the two are swapped when `startZ > endZ`. -/
def slabBounds (vol : Volume) (zStart zEnd : Int) : Int × Int :=
  let startZ := max 0 (min zStart ((vol.depth : Int) - 1))
  let endZ := max 0 (min zEnd ((vol.depth : Int) - 1))
  if startZ > endZ then (endZ, startZ) else (startZ, endZ)

/-- The projection `Projections3D::MIPSlab`. -/
def MIPSlab (vol : Volume) (zStart zEnd : Int) : Except ProjectionFailure (List Byte) :=
  let (startZ, endZ) := slabBounds vol zStart zEnd
  let w := vol.width
  let h := vol.height
  .ok (fillXY w h
    (fun x y => (intRange startZ endZ).foldl
      (fun maxVal z => maxStep maxVal (vol.voxel x y z.toNat)) 0)
    (List.replicate (w * h) 0))

/-- The projection `Projections3D::MinIPSlab`. -/
def MinIPSlab (vol : Volume) (zStart zEnd : Int) : Except ProjectionFailure (List Byte) :=
  let (startZ, endZ) := slabBounds vol zStart zEnd
  let w := vol.width
  let h := vol.height
  .ok (fillXY w h
    (fun x y => (intRange startZ endZ).foldl
      (fun minVal z => minStep minVal (vol.voxel x y z.toNat)) 255)
    (List.replicate (w * h) 255))

/-- The projection `Projections3D::AIPSlab`; the divisor is
`d = endZ - startZ + 1`. -/
def AIPSlab (vol : Volume) (zStart zEnd : Int) : Except ProjectionFailure (List Byte) :=
  let (startZ, endZ) := slabBounds vol zStart zEnd
  let w := vol.width
  let h := vol.height
  let d := endZ - startZ + 1
  let accum : List Nat := fillXY w h
    (fun x y => (intRange startZ endZ).foldl
      (fun sumVal z => sumStep sumVal (vol.voxel x y z.toNat)) 0)
    (List.replicate (w * h) 0)
  fillXYM w h (fun x y => meanOf (accum.getD (x + w * y) 0) d.toNat) (List.replicate (w * h) 0)

/-- The median of a column as `AIPMedian` computes it from the `d` collected
values: they are sorted ascending (`std::sort`), then the middle one is
taken for odd `d` and `(v1 + v2) / 2` of the two middle ones for even `d`. -/
def columnMedian (d : Nat) (collected : List Byte) : Byte :=
  let vals := collected.insertionSort (· ≤ ·)
  if d % 2 = 1 then vals.getD (d / 2) 0
  else
    let v1 := vals.getD (d / 2 - 1) 0
    let v2 := vals.getD (d / 2) 0
    toByte ((v1.val + v2.val) / 2)

/-- The projection `Projections3D::AIPMedian`. -/
def AIPMedian (vol : Volume) : Except ProjectionFailure (List Byte) :=
  let w := vol.width
  let h := vol.height
  let d := vol.depth
  if w ≤ 0 ∨ h ≤ 0 ∨ d ≤ 0 then .error .zeroDimensions
  else
    .ok (fillXY w h
      (fun x y =>
        let vals := (List.range d).foldl (fun vals z => vals.set z (vol.voxel x y z))
          (List.replicate d 0)
        columnMedian d vals)
      (List.replicate (w * h) 0))

/-- The dispatcher `Projections3D::applyProjection3D`: the outcome of the
projection it calls, or `none` when the projection type is not implemented
and no projection is called. -/
def applyProjection3D (vol : Volume) (projType : String) (zStart zEnd : Int) :
    Option (Except ProjectionFailure (List Byte)) :=
  if projType = "MIP" then
    if zStart > 0 ∨ zEnd ≥ 0 then
      let zs := max zStart 0
      let ze := if zEnd < 0 then (vol.depth : Int) - 1 else min zEnd ((vol.depth : Int) - 1)
      some (MIPSlab vol zs ze)
    else some (MIP vol)
  else if projType = "MinIP" then
    if zStart > 0 ∨ zEnd ≥ 0 then
      let zs := max zStart 0
      let ze := if zEnd < 0 then (vol.depth : Int) - 1 else min zEnd ((vol.depth : Int) - 1)
      some (MinIPSlab vol zs ze)
    else some (MinIP vol)
  else if projType = "AIP" then
    if zStart > 0 ∨ zEnd ≥ 0 then
      let zs := max zStart 0
      let ze := if zEnd < 0 then (vol.depth : Int) - 1 else min zEnd ((vol.depth : Int) - 1)
      some (AIPSlab vol zs ze)
    else some (AIP vol)
  else if projType = "AIPMedian" then some (AIPMedian vol)
  else none

/-- The arguments of a call of the encoder `stbi_write_png`. -/
structure EncoderCall where
  width : Nat
  height : Nat
  channels : Nat
  data : List Byte
  stride_in_bytes : Nat
  deriving DecidableEq, Repr

/-- The function `Projections3D::writeGrayPNG(filename, buffer, width,
height)`: the call of the encoder it makes, with the buffer `rgb` its loop
has filled. -/
def writeGrayPNG (buffer : List Byte) (width height : Nat) : EncoderCall :=
  let rgb := (List.range (width * height)).foldl
    (fun rgb i =>
      let g := buffer.getD i 0
      ((rgb.set (3 * i + 0) g).set (3 * i + 1) g).set (3 * i + 2) g)
    (List.replicate (3 * width * height) 0)
  { width := width, height := height, channels := 3, data := rgb,
    stride_in_bytes := 3 * width }

/-! ## Slicing (`Slicing3D.cpp`) -/

/-- Ways `slice3D` ends without a slice being written. -/
inductive SliceFailure where
  /-- The guard `vol.width <= 0 || vol.height <= 0 || vol.depth <= 0`. -/
  | invalidDimensions
  /-- The coordinate along the named axis (`"Z"`, `"Y"` or `"X"`) is
  outside the volume. -/
  | coordinateOutOfRange (axis : String)
  /-- The plane is none of `XY`, `XZ`, `YZ`. -/
  | unknownPlane
  /-- An exception of the slice extraction, caught by `slice3D`. -/
  | caught (e : Exception)
  deriving DecidableEq, Repr

/-- The slice `Slicing3D::sliceXY`: the buffer handed to `stbi_write_png`,
of line length `vol.width`. -/
def sliceXY (vol : Volume) (z : Int) : Except Exception (List Byte) :=
  let outWidth := vol.width
  let outHeight := vol.height
  fillXYM outWidth outHeight (fun (x y : Nat) => vol.getVoxel x y z)
    (List.replicate (outWidth * outHeight) 0)

/-- The slice `Slicing3D::sliceXZ`: `z` is the row of the output, of line
length `vol.width`. -/
def sliceXZ (vol : Volume) (y : Int) : Except Exception (List Byte) :=
  let outWidth := vol.width
  let outHeight := vol.depth
  fillXYM outWidth outHeight (fun (x z : Nat) => vol.getVoxel x y z)
    (List.replicate (outWidth * outHeight) 0)

/-- The slice `Slicing3D::sliceYZ`: `y` is the column and `z` the row of
the output, of line length `vol.height`. -/
def sliceYZ (vol : Volume) (x : Int) : Except Exception (List Byte) :=
  let outWidth := vol.height
  let outHeight := vol.depth
  fillXYM outWidth outHeight (fun (y z : Nat) => vol.getVoxel x y z)
    (List.replicate (outWidth * outHeight) 0)

/-- The call `std::transform(s.begin(), s.end(), s.begin(), ::toupper)`. -/
def upperCase (s : String) : String := String.mk (s.data.map Char.toUpper)

/-- The entry point `Slicing3D::slice3D`: the buffer written on success,
the reason for which nothing is written otherwise. -/
def slice3D (vol : Volume) (plane : String) (coordinate : Int) :
    Except SliceFailure (List Byte) :=
  if vol.width ≤ 0 ∨ vol.height ≤ 0 ∨ vol.depth ≤ 0 then .error .invalidDimensions
  else
    let upperPlane := upperCase plane
    if upperPlane = "XY" then
      if coordinate < 0 ∨ coordinate ≥ vol.depth then .error (.coordinateOutOfRange "Z")
      else (sliceXY vol coordinate).mapError SliceFailure.caught
    else if upperPlane = "XZ" then
      if coordinate < 0 ∨ coordinate ≥ vol.height then .error (.coordinateOutOfRange "Y")
      else (sliceXZ vol coordinate).mapError SliceFailure.caught
    else if upperPlane = "YZ" then
      if coordinate < 0 ∨ coordinate ≥ vol.width then .error (.coordinateOutOfRange "X")
      else (sliceYZ vol coordinate).mapError SliceFailure.caught
    else .error .unknownPlane

/-! ## Loading a volume from slice files (`Volume.cpp`)

A `std::string` is the list of its `char`s.  The file system and the image
decoder are parameters of the loader (`LoadEnv`); so is `std::sort`, which
leaves the order of files of equal index unspecified. -/

/-- The conversion `std::stoi` of a string of decimal digits: its value, or
the exception `std::out_of_range` when the value does not fit an `int`. -/
def stoi (digits : List Char) : Except Exception Int :=
  let value := digits.foldl (fun (n : Nat) (c : Char) => 10 * n + (c.toNat - 48)) 0
  if value > 2147483647 then .error (.out_of_range "stoi") else .ok (value : Int)

/-- The function `parseSliceNumber`: `.ok none` when it returns `false`,
`.ok (some sliceNumber)` when it returns `true`.  The two backward scans
are read off the reversed base name: the first skips the trailing
non-digits, the second takes the digits that follow. -/
def parseSliceNumber (filename : String) : Except Exception (Option Int) :=
  let chars := filename.data
  if chars.length < 5 then .ok none
  else if chars.drop (chars.length - 4) ≠ ['.', 'p', 'n', 'g'] then .ok none
  else
    let base := chars.take (chars.length - 4)
    let fromLastDigit := base.reverse.dropWhile (fun c => !c.isDigit)
    if fromLastDigit.isEmpty then .ok none
    else
      let digits := (fromLastDigit.takeWhile Char.isDigit).reverse
      (stoi digits).map some

/-- A decoded slice, the result of `stbi_load(path, &w, &h, &c, 1)`: the
dimensions and the single-channel pixels, row by row. -/
structure DecodedSlice where
  w : Nat
  h : Nat
  pixels : List Byte
  deriving DecidableEq, Repr

/-- What the loader asks of its surroundings. -/
structure LoadEnv where
  /-- The test `stat(path, &sb) == 0 && (sb.st_mode & S_IFDIR)`. -/
  isDirectory : String → Bool
  /-- The names `readdir` yields for a directory, in its order; `none` when
  `opendir` fails. -/
  readdir : String → Option (List String)
  /-- The test `stat(path, &sb) == 0 && S_ISREG(sb.st_mode)`. -/
  isRegularFile : String → Bool
  /-- The decoder `stbi_load` with one requested channel; `none` when it
  returns a null pointer. -/
  stbi_load : String → Option DecodedSlice
  /-- The call `std::sort` with the comparison `a.second < b.second`. -/
  sort : List (String × Int) → List (String × Int)

/-- The static function `splitDirectoryAndPrefix`. -/
def splitDirectoryAndPrefix (env : LoadEnv) (userPath : String) : String × String :=
  if env.isDirectory userPath then (userPath, "")
  else
    let chars := userPath.data
    let prefixPart := (chars.reverse.takeWhile (fun c => c ≠ '/' ∧ c ≠ '\\')).reverse
    if prefixPart.length = chars.length then (".", userPath)
    else
      let dirPart := chars.take (chars.length - prefixPart.length - 1)
      (if dirPart.isEmpty then "." else String.mk dirPart, String.mk prefixPart)

/-- The full path of a directory entry: `actualDir`, a `/` when it is not
empty and does not end in a separator, then the name. -/
def fullPathOf (actualDir fname : String) : String :=
  match actualDir.data.getLast? with
  | none => fname
  | some c => if c ≠ '/' ∧ c ≠ '\\' then actualDir ++ "/" ++ fname else actualDir ++ fname

/-- The body of the `readdir` loop of `loadVolumeFromSlices`: the list
`filesWithIndex` after the entry `fname`. -/
def scanEntry (env : LoadEnv) (firstSlice lastSlice : Int) (actualDir prefixPart : String)
    (filesWithIndex : List (String × Int)) (fname : String) :
    Except Exception (List (String × Int)) :=
  if fname = "." ∨ fname = ".." then .ok filesWithIndex
  else if prefixPart ≠ "" ∧ ¬ prefixPart.data.isPrefixOf fname.data then .ok filesWithIndex
  else
    let fullPath := fullPathOf actualDir fname
    if env.isRegularFile fullPath then
      match parseSliceNumber fname with
      | .error e => .error e
      | .ok none => .ok filesWithIndex
      | .ok (some sliceNum) =>
        if sliceNum ≥ firstSlice ∧ (lastSlice < 0 ∨ sliceNum ≤ lastSlice) then
          .ok (filesWithIndex ++ [(fullPath, sliceNum)])
        else .ok filesWithIndex
    else .ok filesWithIndex

/-- How a call of `loadVolumeFromSlices` ends. -/
inductive LoadResult where
  /-- It returns `true`. -/
  | success
  /-- "Cannot open directory", it returns `false`. -/
  | cannotOpenDirectory
  /-- "No slices found", it returns `false`. -/
  | noSlicesFound
  /-- "Failed to load first slice", it returns `false`. -/
  | firstSliceFailed
  /-- "Failed to load slice", it returns `false`. -/
  | sliceFailed
  /-- "Slice dimension mismatch", it returns `false`. -/
  | dimensionMismatch
  /-- An exception of `std::stoi` leaves the function. -/
  | thrown (e : Exception)
  deriving DecidableEq, Repr

/-- The copy loops of `loadVolumeFromSlices` for slice `z`:
`data[col + width * (row + height * z)] = sliceData[row * width + col]`. -/
def copySlice (width height z : Nat) (sliceData : List Byte) (data : List Byte) : List Byte :=
  (List.range height).foldl
    (fun data row => (List.range width).foldl
      (fun data col =>
        data.set (col + width * (row + height * z)) (sliceData.getD (row * width + col) 0))
      data)
    data

/-- The body of the loop over `z` of `loadVolumeFromSlices`: the buffer
after slice `z`, or the reason of the `return false` with the buffer as it
is then. -/
def loadSlice (env : LoadEnv) (filesWithIndex : List (String × Int)) (width height : Nat)
    (data : List Byte) (z : Nat) : Except (LoadResult × List Byte) (List Byte) :=
  let filepath := (filesWithIndex.getD z ("", 0)).1
  match env.stbi_load filepath with
  | none => .error (.sliceFailed, data)
  | some sliceData =>
    if sliceData.w ≠ width ∨ sliceData.h ≠ height then .error (.dimensionMismatch, data)
    else .ok (copySlice width height z sliceData.pixels data)

/-- The loop over `z` of `loadVolumeFromSlices`, left at the first
`return false`. -/
def loadSlices (env : LoadEnv) (filesWithIndex : List (String × Int)) (width height depth : Nat)
    (data : List Byte) : Except (LoadResult × List Byte) (List Byte) :=
  (List.range depth).foldlM (loadSlice env filesWithIndex width height) data

/-- The `readdir` loop of `loadVolumeFromSlices` over the entries of the
directory: the list `filesWithIndex` after it. -/
def scanDirectory (env : LoadEnv) (firstSlice lastSlice : Int) (actualDir prefixPart : String)
    (entries : List String) : Except Exception (List (String × Int)) :=
  entries.foldlM (scanEntry env firstSlice lastSlice actualDir prefixPart) []

/-- The first statements of `loadVolumeFromSlices`: `data.clear()`,
`width = height = depth = 0` and `channels = 1`. -/
def Volume.cleared (vol : Volume) : Volume :=
  { vol with data := [], width := 0, height := 0, depth := 0, channels := 1 }

/-- The member function `Volume::loadVolumeFromSlices`: how the call ends
and the volume as it is then.  The buffer is resized to
`static_cast<size_t>(width)*height*depth` samples, a product taken in the
64-bit unsigned type `size_t`. -/
def loadVolumeFromSlices (env : LoadEnv) (vol : Volume) (folderPath : String) :
    LoadResult × Volume :=
  let parts := splitDirectoryAndPrefix env folderPath
  let actualDir := parts.1
  let prefixPart := parts.2
  match env.readdir actualDir with
  | none => (.cannotOpenDirectory, vol.cleared)
  | some entries =>
    match scanDirectory env vol.firstSlice vol.lastSlice actualDir prefixPart entries with
    | .error e => (.thrown e, vol.cleared)
    | .ok filesWithIndex =>
      if filesWithIndex.isEmpty then (.noSlicesFound, vol.cleared)
      else
        let sorted := env.sort filesWithIndex
        let depth := sorted.length
        match env.stbi_load (sorted.getD 0 ("", 0)).1 with
        | none => (.firstSliceFailed, { vol.cleared with depth := depth })
        | some first =>
          let width := first.w
          let height := first.h
          let data : List Byte := List.replicate ((width * height * depth) % 2 ^ 64) 0
          match loadSlices env sorted width height depth data with
          | .error (why, data) =>
            (why, { vol.cleared with width := width, height := height, depth := depth,
                                     data := data })
          | .ok data =>
            (.success, { vol.cleared with width := width, height := height, depth := depth,
                                          data := data })

/-! ## Images and their median blur (`Image.cpp`, `Filters2D.cpp`)

The recursion of `quickSort` is given a fuel; `none` stands for a run that
used it up, which is then shown not to happen. -/

/-- The class `Image`: the dimensions, the channel count and the
interleaved samples, row by row. -/
structure Image where
  width : Nat
  height : Nat
  channels : Nat
  data : List Byte
  deriving DecidableEq, Repr

/-- The call `std::swap(vec[i], vec[j])`. -/
def swapAt (vec : List Int) (i j : Int) : List Int :=
  let a := vec.getD i.toNat 0
  let b := vec.getD j.toNat 0
  (vec.set i.toNat b).set j.toNat a

/-- The body of the loop `for (j = low; j < high; j++)` of `partition` on
the vector and `i`. -/
def partitionStep (pivot : Int) (state : List Int × Int) (j : Int) : List Int × Int :=
  if state.1.getD j.toNat 0 < pivot then
    let i := state.2 + 1
    (swapAt state.1 i j, i)
  else state

/-- The function `Filters2D::partition(vec, low, high)` for `T = int`: the
vector after the call and the returned position of the pivot. -/
def partition (vec : List Int) (low high : Int) : List Int × Int :=
  let pivot := vec.getD high.toNat 0
  let i := low - 1
  let looped := (intRange low (high - 1)).foldl (partitionStep pivot) (vec, i)
  (swapAt looped.1 (looped.2 + 1) high, looped.2 + 1)

/-- The function `Filters2D::quickSort(vec, low, high)` for `T = int`, with
fuel for the depth of the recursion. -/
def quickSort : Nat → List Int → Int → Int → Option (List Int)
  | 0, vec, low, high => if low < high then none else some vec
  | fuel + 1, vec, low, high =>
    if low < high then
      let parted := partition vec low high
      (quickSort fuel parted.1 low (parted.2 - 1)).bind fun vec =>
        quickSort fuel vec (parted.2 + 1) high
    else some vec

/-- The function `Filters2D::customSort(vec)`, `quickSort(vec, 0,
vec.size() - 1)`; the fuel is the number of elements. -/
def customSort (vec : List Int) : List Int :=
  (quickSort vec.length vec 0 ((vec.length : Int) - 1)).getD vec

/-- The body of the loops `for ky, for kx` of `medianBlur`: the samples of
the three channels of the clamped neighbour are appended to `rVals`,
`gVals` and `bVals`. -/
def collectSample (img : Image) (x y : Nat) (vals : List Int × List Int × List Int)
    (ky kx : Int) : List Int × List Int × List Int :=
  let nx := min (max ((x : Int) + kx) 0) ((img.width : Int) - 1)
  let ny := min (max ((y : Int) + ky) 0) ((img.height : Int) - 1)
  let offset := (ny * img.width + nx) * img.channels
  (vals.1 ++ [((img.data.getD offset.toNat 0).val : Int)],
    vals.2.1 ++ [((img.data.getD (offset + 1).toNat 0).val : Int)],
    vals.2.2 ++ [((img.data.getD (offset + 2).toNat 0).val : Int)])

/-- The conversion of an `int` to `unsigned char`. -/
def toByteOfInt (i : Int) : Byte := toByte (i % 256).toNat

/-- The filter `Filters2D::medianBlur(img, kernelSize)`: the image after the
call.  The samples are read from the data of the image and the medians
written to the copy `output`, which `setData` copies back. -/
def medianBlur (img : Image) (kernelSize : Int) : Image :=
  let kernelSize := if kernelSize.tmod 2 = 0 then kernelSize + 1 else kernelSize
  let halfKernel := kernelSize.tdiv 2
  let width := img.width
  let height := img.height
  let channels := img.channels
  let output := img.data.take (width * height * channels)
  let output := (List.range height).foldl
    (fun output y => (List.range width).foldl
      (fun output x =>
        let vals := (intRange (-halfKernel) halfKernel).foldl
          (fun vals ky => (intRange (-halfKernel) halfKernel).foldl
            (fun vals kx => collectSample img x y vals ky kx) vals)
          (([], [], []) : List Int × List Int × List Int)
        let rVals := customSort vals.1
        let gVals := customSort vals.2.1
        let bVals := customSort vals.2.2
        let offset := (y * width + x) * channels
        ((output.set offset (toByteOfInt (rVals.getD (rVals.length / 2) 0))).set (offset + 1)
          (toByteOfInt (gVals.getD (gVals.length / 2) 0))).set (offset + 2)
          (toByteOfInt (bVals.getD (bVals.length / 2) 0)))
      output)
    output
  { img with data := output ++ img.data.drop (width * height * channels) }

/-! ## Brightness (`Filters2D.cpp`) -/

/-- The function `std::clamp(v, lo, hi)` on `int`:
`(v < lo) ? lo : (hi < v) ? hi : v`. -/
def stdClamp (v lo hi : Int) : Int :=
  if v < lo then lo else if hi < v then hi else v

/-- The filter `Filters2D::apply_Brightness(img, value)`: the image after
the call, or `none` when the automatic mode divides by `total_pixels = 0`.
In the automatic mode (`value == 0`) the loop over the pixels adds to the
`long` sum either the first sample, a sum that is exact, or, for three
channels and more, the weighted sum `0.2126 r + 0.7152 g + 0.0722 b` in
`double`: `luminance sum r g b` is the sum after that statement.  The sum
`output[j] + value` of the adjustment loop is taken in 32-bit `int`. -/
def apply_Brightness (luminance : Int → Byte → Byte → Byte → Int) (img : Image)
    (value : Int) : Option Image :=
  let width := img.width
  let height := img.height
  let channels := img.channels
  let total_pixels := width * height
  let output := img.data.take (total_pixels * channels)
  let chosen : Option Int :=
    if value = 0 then
      let sum := ((List.range (total_pixels * channels)).filter
          (fun j => j % channels = 0)).foldl
        (fun (sum : Int) (j : Nat) =>
          if channels ≥ 3 then
            luminance sum (output.getD j 0) (output.getD (j + 1) 0) (output.getD (j + 2) 0)
          else sum + ((output.getD j 0).val : Int))
        0
      if total_pixels = 0 then none
      else some (stdClamp (128 - sum.tdiv (total_pixels : Int)) (-255) 255)
    else some value
  chosen.map fun value =>
    let output := (List.range (total_pixels * channels)).foldl
      (fun output j =>
        let ch := j % channels
        if channels = 4 ∧ ch = 3 then output
        else output.set j
          (toByteOfInt (stdClamp (wrapInt32 (((output.getD j 0).val : Int) + value)) 0 255)))
      output
    { img with data := output ++ img.data.drop (total_pixels * channels) }

/-! ## The buffer accesses of the blurs and of the edge detection (`Filters2D.cpp`)

For the accesses of a filter to the buffer `data` of the image and to its
copy `output`, the filter is embedded as the sequence of the indices it
reads and writes, in the order of the source.  The indices do not depend on
the samples. -/

/-- An access to the buffer of an image: a read of `data[index]` or a write
of `output[index]`. -/
inductive Access where
  | read (index : Int)
  | write (index : Int)
  deriving DecidableEq, Repr

/-- The index of an access. -/
def Access.index : Access → Int
  | .read index => index
  | .write index => index

/-- The loops `for ky, for kx` of `boxBlur`, `gaussianBlur` and `medianBlur`
at the pixel `(x, y)`: each of the three functions reads `data[offset]`,
`data[offset + 1]` and `data[offset + 2]` at the clamped neighbour. -/
def windowAccesses (img : Image) (halfKernel : Int) (x y : Nat) : List Access :=
  (intRange (-halfKernel) halfKernel).flatMap fun ky =>
    (intRange (-halfKernel) halfKernel).flatMap fun kx =>
      let nx := min (max ((x : Int) + kx) 0) ((img.width : Int) - 1)
      let ny := min (max ((y : Int) + ky) 0) ((img.height : Int) - 1)
      let offset := (ny * img.width + nx) * img.channels
      [Access.read offset, Access.read (offset + 1), Access.read (offset + 2)]

/-- The loops `for y, for x` of `boxBlur`, `gaussianBlur` and `medianBlur`
after `validateKernelSize`: the reads of the window, then the writes of
`output[offset]`, `output[offset + 1]` and `output[offset + 2]`. -/
def blurAccesses (img : Image) (kernelSize : Int) : List Access :=
  let kernelSize := if kernelSize.tmod 2 = 0 then kernelSize + 1 else kernelSize
  let halfKernel := kernelSize.tdiv 2
  (List.range img.height).flatMap fun y =>
    (List.range img.width).flatMap fun x =>
      let offset := (((y * img.width + x) * img.channels : Nat) : Int)
      windowAccesses img halfKernel x y ++
        [Access.write offset, Access.write (offset + 1), Access.write (offset + 2)]

/-- The accesses of `Filters2D::boxBlur(img, kernelSize)`. -/
def boxBlurAccesses (img : Image) (kernelSize : Int) : List Access :=
  blurAccesses img kernelSize

/-- The accesses of `Filters2D::gaussianBlur(img, kernelSize, sigma)` to the
buffers of the image; they do not depend on `sigma`. -/
def gaussianBlurAccesses (img : Image) (kernelSize : Int) : List Access :=
  blurAccesses img kernelSize

/-- The accesses of `Filters2D::medianBlur(img, kernelSize)`. -/
def medianBlurAccesses (img : Image) (kernelSize : Int) : List Access :=
  blurAccesses img kernelSize

/-- The enumeration `EdgeDetectorType`. -/
inductive EdgeDetectorType where
  | Sobel
  | Prewitt
  | Scharr
  | RobertsCross
  deriving DecidableEq, Repr

/-- The accesses of `Filters2D::DetectEdges(img, type)`: for every pixel the
reads of `data`, twice at each clamped neighbour of the 3x3 window, or for
`RobertsCross` at `index1`, `index2`, `index3` and `index4`, then the write
of `output[y * width + x]`. -/
def detectEdgesAccesses (img : Image) (type : EdgeDetectorType) : List Access :=
  let isRobertsCross := decide (type = EdgeDetectorType.RobertsCross)
  let width := img.width
  let height := img.height
  (List.range height).flatMap fun y =>
    (List.range width).flatMap fun x =>
      (if ¬ isRobertsCross then
        (intRange (-1) 1).flatMap fun ky =>
          (intRange (-1) 1).flatMap fun kx =>
            let neighbor_x := min (max ((x : Int) + kx) 0) ((width : Int) - 1)
            let neighbor_y := min (max ((y : Int) + ky) 0) ((height : Int) - 1)
            let index := neighbor_y * width + neighbor_x
            [Access.read index, Access.read index]
      else
        let index1 : Int := y * width + x
        let index2 : Int := (y + 1) * width + (x + 1)
        let index3 : Int := (y + 1) * width + x
        let index4 : Int := y * width + (x + 1)
        [Access.read index1, Access.read index2, Access.read index3, Access.read index4]) ++
      [Access.write ((y * width + x : Nat) : Int)]

/-! ## The volume mode of `main` (`CommandLine.h`, `main.cpp`) -/

/-- The members of `CommandOptions` that the volume mode reads, with their
default member initialisers; `-f` sets `firstIndex`, `-l` sets `lastIndex`
and `-x` sets `volumeExt`. -/
structure CommandOptions where
  inputPath : String
  firstIndex : Int := -1
  lastIndex : Int := -1
  volumeExt : String := "png"
  deriving DecidableEq, Repr

/-- The volume that `main` hands to the loader: a default `Volume` with
`firstSlice = (firstIndex < 1 ? 1 : firstIndex)`, `lastSlice = lastIndex`
and `extension = volumeExt`. -/
def mainVolume (opts : CommandOptions) : Volume :=
  { Volume.empty with
    firstSlice := if opts.firstIndex < 1 then 1 else opts.firstIndex,
    lastSlice := opts.lastIndex,
    extension := opts.volumeExt }

/-- The volume mode of `main` when the first operation is a projection of
subtype `projType`: `none` when the load does not return `true` and no
projection is computed, else the loaded volume and the outcome of
`applyProjection3D(vol, projType, outputPath, firstIndex, lastIndex)`. -/
def mainProjection (env : LoadEnv) (opts : CommandOptions) (projType : String) :
    Option (Volume × Option (Except ProjectionFailure (List Byte))) :=
  match loadVolumeFromSlices env (mainVolume opts) opts.inputPath with
  | (.success, vol) =>
    some (vol, applyProjection3D vol projType opts.firstIndex opts.lastIndex)
  | _ => none

/-! ## Vocabulary of the specification -/

/-- Clamping of `t` into the interval `[lo, hi]`, as the specification uses
the word. -/
def clamp (t lo hi : Int) : Int :=
  if t < lo then lo else if hi < t then hi else t

/-- The lower end of a slab in the words of the specification: the lesser
of the two bounds after each is clamped into `[0, depth - 1]`. -/
def slabLo (depth : Nat) (zStart zEnd : Int) : Int :=
  min (clamp zStart 0 ((depth : Int) - 1)) (clamp zEnd 0 ((depth : Int) - 1))

/-- The upper end of a slab in the words of the specification: the greater
of the two clamped bounds. -/
def slabHi (depth : Nat) (zStart zEnd : Int) : Int :=
  max (clamp zStart 0 ((depth : Int) - 1)) (clamp zEnd 0 ((depth : Int) - 1))

/-- The pre-filter samples of the cubic window of radius `r` centred at
`(x, y, z)`, every coordinate clamped to the volume (replicate border):
`voxel(clamp(x+dx, 0, w-1), clamp(y+dy, 0, h-1), clamp(z+dz, 0, d-1))` for
`dx, dy, dz` in `[-r, r]`. -/
def windowSamples (v : Volume) (r : Nat) (x y z : Nat) : List Byte :=
  (intRange (-(r : Int)) r).flatMap fun dz =>
    (intRange (-(r : Int)) r).flatMap fun dy =>
      (intRange (-(r : Int)) r).map fun dx =>
        v.voxel (clamp ((x : Int) + dx) 0 ((v.width : Int) - 1)).toNat
          (clamp ((y : Int) + dy) 0 ((v.height : Int) - 1)).toNat
          (clamp ((z : Int) + dz) 0 ((v.depth : Int) - 1)).toNat

/-- The brute-force median of the specification: the
`(kernelSize^3 / 2 + 1)`-th smallest of the `kernelSize^3` window samples,
that is the entry at position `kernelSize^3 / 2` of their ascending sort. -/
def bruteForceMedian (v : Volume) (kernelSize : Nat) (x y z : Nat) : Byte :=
  ((windowSamples v (kernelSize / 2) x y z).insertionSort (· ≤ ·)).getD
    (kernelSize ^ 3 / 2) 0

/-- The samples of column `nx` over the cross-section of the window of
radius `r` of row `(y, z)`: `voxel(nx, clamp(y+dy, 0, h-1), clamp(z+dz, 0,
d-1))` for `dy, dz` in `[-r, r]`. -/
def columnSamples (v : Volume) (r : Nat) (nx y z : Nat) : List Byte :=
  (intRange (-(r : Int)) r).flatMap fun dz =>
    (intRange (-(r : Int)) r).map fun dy =>
      v.voxel nx (clamp ((y : Int) + dy) 0 ((v.height : Int) - 1)).toNat
        (clamp ((z : Int) + dz) 0 ((v.depth : Int) - 1)).toNat

/-- The number of samples of intensity `i` in a list of samples, the
histogram of the list. -/
def countOf (samples : List Byte) : Histogram :=
  fun i => ((samples.countP (fun b => decide (b.val = i)) : Nat) : Int)

/-- A histogram as 32-bit bins hold it. -/
def wrapHist (histogram : Histogram) : Histogram :=
  fun i => wrapInt32 (histogram i)

/-- The order that `std::sort` establishes with the comparison
`a.second < b.second`: the result holds the same files, ascending by
index. -/
def SortsByIndex (sort : List (String × Int) → List (String × Int)) : Prop :=
  ∀ files, (sort files).Perm files ∧ (sort files).Pairwise (fun a b => a.2 ≤ b.2)

/-- The slice range of the specification: `firstSlice <= i` and, unless
`lastSlice` is negative, `i <= lastSlice`. -/
def inSliceRange (firstSlice lastSlice i : Int) : Prop :=
  firstSlice ≤ i ∧ (lastSlice < 0 ∨ i ≤ lastSlice)

instance (firstSlice lastSlice i : Int) : Decidable (inSliceRange firstSlice lastSlice i) := by
  unfold inSliceRange; infer_instance

/-- The index of a candidate file in the words of the specification: the
entry is a regular file whose name begins with the prefix and from which
`parseSliceNumber` reads an index. -/
def candidateIndex (env : LoadEnv) (actualDir prefixPart fname : String) : Option Int :=
  if prefixPart.data.isPrefixOf fname.data = true ∧
      env.isRegularFile (fullPathOf actualDir fname) = true then
    match parseSliceNumber fname with
    | .ok (some i) => some i
    | _ => none
  else none

/-- An accepted file in the words of the specification: a candidate whose
index lies in the slice range, with its path and index. -/
def acceptedFile (env : LoadEnv) (firstSlice lastSlice : Int) (actualDir prefixPart : String)
    (fname : String) : Option (String × Int) :=
  match candidateIndex env actualDir prefixPart fname with
  | some i =>
    if inSliceRange firstSlice lastSlice i then some (fullPathOf actualDir fname, i) else none
  | none => none

/-- The number of accepted files of a directory listing in the words of the
specification: the entries that are candidates with an index in the slice
range. -/
def acceptedCount (env : LoadEnv) (firstSlice lastSlice : Int) (actualDir prefixPart : String)
    (entries : List String) : Nat :=
  entries.countP fun fname =>
    match candidateIndex env actualDir prefixPart fname with
    | some i => decide (inSliceRange firstSlice lastSlice i)
    | none => false

/-- One sample of a one-dimensional convolution in the words of the
specification: the weighted sum of the taps `read t`, `t` from `-radius`
to `radius`, divided by the sum of the weights and stored as an 8-bit
sample. -/
def blurSample {F : Type} (ops : FloatOps F) (kernel : List F) (radius : Int)
    (read : Int → Byte) : Byte :=
  let acc := (intRange (-radius) radius).foldl
    (fun (acc : F × F) (t : Int) =>
      let weight := kernel.getD (t + radius).toNat (ops.ofInt 0)
      (ops.add acc.1 (ops.mul (ops.ofByte (read t)) weight), ops.add acc.2 weight))
    (ops.ofInt 0, ops.ofInt 0)
  ops.toByte (ops.div acc.1 acc.2)

/-- The replicate-border policy: the coordinate `t` clamped into
`[0, n - 1]`. -/
def clampIndex (t : Int) (n : Nat) : Nat := (max 0 (min t ((n : Int) - 1))).toNat

/-- The sample at `(x, y, z)` after the pass along X over the volume. -/
def passX {F : Type} (ops : FloatOps F) (kernel : List F) (radius : Int) (v : Volume)
    (x y z : Nat) : Byte :=
  blurSample ops kernel radius fun dx => v.voxel (clampIndex ((x : Int) + dx) v.width) y z

/-- The sample at `(x, y, z)` after the pass along Y over the 8-bit result
of the pass along X. -/
def passXY {F : Type} (ops : FloatOps F) (kernel : List F) (radius : Int) (v : Volume)
    (x y z : Nat) : Byte :=
  blurSample ops kernel radius fun dy =>
    passX ops kernel radius v x (clampIndex ((y : Int) + dy) v.height) z

/-- The sample at `(x, y, z)` after the pass along Z over the 8-bit result
of the passes along X and Y. -/
def passXYZ {F : Type} (ops : FloatOps F) (kernel : List F) (radius : Int) (v : Volume)
    (x y z : Nat) : Byte :=
  blurSample ops kernel radius fun dz =>
    passXY ops kernel radius v x y (clampIndex ((z : Int) + dz) v.depth)

/-- The sample at `(x, y, z)` of one three-dimensional convolution of the
volume with the product kernel `weight[i] * weight[j] * weight[k]`, under
the replicate-border policy, stored as an 8-bit sample. -/
def productConvolution {F : Type} (ops : FloatOps F) (kernel : List F) (radius : Int)
    (v : Volume) (x y z : Nat) : Byte :=
  let weightAt (t : Int) : F := kernel.getD (t + radius).toNat (ops.ofInt 0)
  let acc := (intRange (-radius) radius).foldl
    (fun (acc : F × F) (dz : Int) => (intRange (-radius) radius).foldl
      (fun (acc : F × F) (dy : Int) => (intRange (-radius) radius).foldl
        (fun (acc : F × F) (dx : Int) =>
          let weight := ops.mul (ops.mul (weightAt dx) (weightAt dy)) (weightAt dz)
          let sample := v.voxel (clampIndex ((x : Int) + dx) v.width)
            (clampIndex ((y : Int) + dy) v.height) (clampIndex ((z : Int) + dz) v.depth)
          (ops.add acc.1 (ops.mul (ops.ofByte sample) weight), ops.add acc.2 weight))
        acc) acc)
    (ops.ofInt 0, ops.ofInt 0)
  ops.toByte (ops.div acc.1 acc.2)

/-- The facts of double arithmetic on which a blur with a one-tap kernel
rests: `exp(0 / (2 sigma^2))` is 1, which holds when `2 sigma^2` is a
non-zero number; `0 + 1 = 1` and `1 / 1 = 1`; and for every 8-bit sample
`s`, `s * 1 = s`, `0 + s = s`, `s / 1 = s` and the conversion of `s` back
to 8 bits is `s`. -/
def OneTapLaws {F : Type} (ops : FloatOps F) (sigma : F) : Prop :=
  ops.exp (ops.div (ops.ofInt 0) (ops.mul (ops.mul (ops.ofInt 2) sigma) sigma)) =
      ops.ofInt 1 ∧
    ops.add (ops.ofInt 0) (ops.ofInt 1) = ops.ofInt 1 ∧
    ops.div (ops.ofInt 1) (ops.ofInt 1) = ops.ofInt 1 ∧
    ∀ s : Byte, ops.mul (ops.ofByte s) (ops.ofInt 1) = ops.ofByte s ∧
      ops.add (ops.ofInt 0) (ops.ofByte s) = ops.ofByte s ∧
      ops.div (ops.ofByte s) (ops.ofInt 1) = ops.ofByte s ∧
      ops.toByte (ops.ofByte s) = s

/-- The samples of channel `c` in the square window of radius `r` centred
at `(x, y)` of an image, every coordinate clamped to the image (replicate
border), row by row. -/
def windowSamples2D (img : Image) (r : Nat) (x y c : Nat) : List Byte :=
  (intRange (-(r : Int)) r).flatMap fun ky =>
    (intRange (-(r : Int)) r).map fun kx =>
      img.data.getD ((clampIndex ((y : Int) + ky) img.height * img.width +
        clampIndex ((x : Int) + kx) img.width) * img.channels + c) 0

/-- The decimal value of a string of digits. -/
def decimalValue (digits : List Char) : Nat :=
  Nat.ofDigits 10 ((digits.map fun c => c.toNat - 48).reverse)

/-- The reset state of a volume: zero dimensions and an empty buffer. -/
def Volume.IsReset (v : Volume) : Prop :=
  v.width = 0 ∧ v.height = 0 ∧ v.depth = 0 ∧ v.data = []

instance (v : Volume) : Decidable v.IsReset := by
  unfold Volume.IsReset; infer_instance

/-- The histogram that the row loop of the median blur holds when it
computes the output at `x` of row `(y, z)`: the histogram of the first
window after the slide steps for `1, ..., x`. -/
def histogramAt (volume : Volume) (radius medianPos : Int) (y z x : Nat) :
    Except Exception Histogram := do
  let histogram ← firstWindowHistogram volume radius y z
  let moved ← (List.range' 1 x).foldlM (slideWindow volume radius medianPos y z)
    (histogram, [])
  pure moved.1

/-- An access inside a buffer of `size` samples. -/
def Access.InBounds (size : Nat) (a : Access) : Prop :=
  0 ≤ a.index ∧ a.index < size

instance (size : Nat) (a : Access) : Decidable (a.InBounds size) := by
  unfold Access.InBounds; infer_instance

/-! ## The type `double`

The values and the operations of IEEE 754 binary64 with rounding to
nearest, ties to even, as the compiled program computes with `double`.  A
finite value is kept as sign, mantissa and exponent; the operations take
the exact result of two values and round it. -/

/-- A value of the type `double`: NaN, an infinity, or the finite value
`(-1)^negative * mantissa * 2^exponent`.  The values of the format have
`exponent = -1074` and `mantissa < 2^52` (zero and the subnormal values) or
`2^52 ≤ mantissa < 2^53` and `-1074 ≤ exponent ≤ 971`. -/
inductive Double where
  | nan : Double
  | infinity (negative : Bool) : Double
  | finite (negative : Bool) (mantissa : Nat) (exponent : Int) : Double
  deriving DecidableEq

/-- The number of binary digits of `n`, by halving at most `fuel` times. -/
def bitLengthAux : Nat → Nat → Nat
  | 0, _ => 0
  | fuel + 1, n => if n = 0 then 0 else bitLengthAux fuel (n / 2) + 1

/-- The number of binary digits of `n`. -/
def bitLength (n : Nat) : Nat := bitLengthAux n n

/-- The quotient of `m` by `2^shift`, for `shift ≥ 1`, rounded to nearest,
ties to even; with `sticky` the number divided is a little more than `m`
and a tie is rounded up. -/
def roundShift (m shift : Nat) (sticky : Bool) : Nat :=
  let kept := m / 2 ^ shift
  let rest := m % 2 ^ shift
  let half := 2 ^ (shift - 1)
  if rest > half ∨ (rest = half ∧ (sticky = true ∨ kept % 2 = 1)) then kept + 1 else kept

/-- The `double` nearest to the number of magnitude `m * 2^e` and the given
sign, ties to even; with `sticky` the magnitude is strictly between
`m * 2^e` and `(m + 1) * 2^e`, and `m` then has more than 53 digits.  The
result is subnormal below `2^-1022` and an infinity from `2^1024` on. -/
def roundToDouble (negative : Bool) (m : Nat) (e : Int) (sticky : Bool) : Double :=
  if m = 0 then .finite negative 0 (-1074)
  else
    let exponent := max (e + (bitLength m : Int) - 53) (-1074)
    let rounded :=
      if exponent ≤ e then m * 2 ^ (e - exponent).toNat
      else roundShift m (exponent - e).toNat sticky
    if rounded = 2 ^ 53 then
      (if exponent + 1 > 971 then .infinity negative
       else .finite negative (2 ^ 52) (exponent + 1))
    else if exponent > 971 then .infinity negative
    else .finite negative rounded exponent

namespace Double

/-- The conversion of an `int` to `double`, which is exact. -/
def ofInt (i : Int) : Double := roundToDouble (decide (i < 0)) i.natAbs 0 false

/-- The product of two values of `double`. -/
def mul : Double → Double → Double
  | .nan, _ => .nan
  | _, .nan => .nan
  | .infinity s, .infinity t => .infinity (xor s t)
  | .infinity s, .finite t n _ => if n = 0 then .nan else .infinity (xor s t)
  | .finite s m _, .infinity t => if m = 0 then .nan else .infinity (xor s t)
  | .finite s m e, .finite t n f => roundToDouble (xor s t) (m * n) (e + f) false

/-- The quotient of two values of `double`: `0 / 0` and `inf / inf` are NaN
and `x / 0` is an infinity; the quotient of two finite values is taken with
128 more binary digits than the numerator has, and rounded. -/
def div : Double → Double → Double
  | .nan, _ => .nan
  | _, .nan => .nan
  | .infinity _, .infinity _ => .nan
  | .infinity s, .finite t _ _ => .infinity (xor s t)
  | .finite s _ _, .infinity t => .finite (xor s t) 0 (-1074)
  | .finite s m e, .finite t n f =>
    if n = 0 then (if m = 0 then .nan else .infinity (xor s t))
    else roundToDouble (xor s t) (m * 2 ^ 128 / n) (e - f - 128)
      (decide (m * 2 ^ 128 % n ≠ 0))

/-- The sum of two values of `double`; an exact sum of zero is `-0` when
both terms are negative and `+0` otherwise. -/
def add : Double → Double → Double
  | .nan, _ => .nan
  | _, .nan => .nan
  | .infinity s, .infinity t => if s = t then .infinity s else .nan
  | .infinity s, .finite _ _ _ => .infinity s
  | .finite _ _ _, .infinity t => .infinity t
  | .finite s m e, .finite t n f =>
    let low := min e f
    let a : Int := (if s then -1 else 1) * ((m * 2 ^ (e - low).toNat : Nat) : Int)
    let b : Int := (if t then -1 else 1) * ((n * 2 ^ (f - low).toNat : Nat) : Int)
    if a + b = 0 then .finite (s && t) 0 (-1074)
    else roundToDouble (decide (a + b < 0)) (a + b).natAbs low false

/-- The function `std::exp`: NaN at NaN, `+inf` at `+inf`, 0 at `-inf`,
exactly 1 at `+0` and `-0`, and elsewhere the value `expFinite` that the
library returns. -/
def exp (expFinite : Double → Double) : Double → Double
  | .nan => .nan
  | .infinity negative => if negative then .finite false 0 (-1074) else .infinity false
  | .finite negative m e => if m = 0 then ofInt 1 else expFinite (.finite negative m e)

/-- The conversion `static_cast<unsigned char>(double)`: the value with its
fraction discarded when that is in the range of `unsigned char`; for NaN
and for the values out of the range, whose conversion C++ leaves undefined,
0. -/
def toByte : Double → Byte
  | .finite negative m e =>
    let t := if 0 ≤ e then m * 2 ^ e.toNat else m / 2 ^ (-e).toNat
    if t = 0 then 0 else if negative then 0 else if t ≤ 255 then PhotoEditor.toByte t else 0
  | _ => 0

end Double

/-- The operations of the Gaussian blur in binary64.  The argument
`expFinite` gives the values of `std::exp` away from zero and the
infinities. -/
def binary64Ops (expFinite : Double → Double) : FloatOps Double :=
  { ofInt := Double.ofInt,
    ofByte := fun b => Double.ofInt (b.val : Int),
    add := Double.add,
    mul := Double.mul,
    div := Double.div,
    exp := Double.exp expFinite,
    toByte := Double.toByte }

/-- A `double` that is a number other than zero: an infinity or a finite
value with a non-zero mantissa. -/
def Double.IsNonzeroNumber : Double → Prop
  | .nan => False
  | .infinity _ => True
  | .finite _ m _ => m ≠ 0

instance (d : Double) : Decidable d.IsNonzeroNumber := by
  cases d <;> unfold Double.IsNonzeroNumber <;> infer_instance

/-- The mantissa and the exponent of a finite value of the format
binary64. -/
def IsBinary64 (m : Nat) (e : Int) : Prop :=
  (e = -1074 ∧ m < 2 ^ 52) ∨ (2 ^ 52 ≤ m ∧ m < 2 ^ 53 ∧ -1074 ≤ e ∧ e ≤ 971)

instance (m : Nat) (e : Int) : Decidable (IsBinary64 m e) := by
  unfold IsBinary64; infer_instance

/-! ## Test fixtures -/

/-- The 3x2x2 volume built by the constructor of `Projections3DTests`:
slice `z = 0` holds 10..15 and slice `z = 1` holds 50..55. -/
def testVolume : Volume :=
  { width := 3, height := 2, depth := 2, channels := 1,
    data := [10, 11, 12, 13, 14, 15, 50, 51, 52, 53, 54, 55] }

/-- A single column of 16843010 slices, every voxel 255: the least depth at
which a column sum reaches `2^32`. -/
def deepColumn : Volume :=
  { width := 1, height := 1, depth := 16843010, channels := 1,
    data := List.replicate 16843010 255 }

/-- Byte arithmetic as a stand-in for the floating-point operations, to
instantiate statements that hold for all of them. -/
def byteOps : FloatOps Byte :=
  { ofInt := fun i => toByte i.toNat, ofByte := id, add := (· + ·), mul := (· * ·),
    div := (· / ·), exp := id, toByte := id }

/-- A directory `scans` for the loader: the two layers of the 3x2x2 test
volume as `vol1.png` and `vol2.png`, a slice `vol10.png` of another size, a
file `bad1.png` that does not decode, and a series `mix1.png`, `mix2.png`,
`mix3.png` whose second file does not decode and whose third has another
size than the first.  Sorting is by insertion. -/
def scansFolder : LoadEnv :=
  { isDirectory := fun path => path = "scans",
    readdir := fun path =>
      if path = "scans" then
        some [".", "..", "vol2.png", "notes.txt", "vol1.png", "vol10.png", "bad1.png",
          "mix3.png", "mix1.png", "mix2.png"]
      else none,
    isRegularFile := fun path => path ≠ "scans/." ∧ path ≠ "scans/..",
    stbi_load := fun path =>
      if path = "scans/vol1.png" then some { w := 3, h := 2, pixels := [10, 11, 12, 13, 14, 15] }
      else if path = "scans/vol2.png" then
        some { w := 3, h := 2, pixels := [50, 51, 52, 53, 54, 55] }
      else if path = "scans/vol10.png" then some { w := 2, h := 2, pixels := [1, 2, 3, 4] }
      else if path = "scans/mix1.png" then some { w := 1, h := 1, pixels := [7] }
      else if path = "scans/mix3.png" then some { w := 2, h := 1, pixels := [8, 9] }
      else none,
    sort := List.insertionSort (fun a b => a.2 ≤ b.2) }

/-- A volume of the single voxel 7. -/
def pointVolume : Volume :=
  { width := 1, height := 1, depth := 1, channels := 1, data := [7] }

/-- A 3x2x2 volume with every voxel 7. -/
def sevens : Volume :=
  { width := 3, height := 2, depth := 2, channels := 1, data := List.replicate 12 7 }

/-- The 3x3 image of `Filters2DTests::testMedianBlur` whose pixels are 1 to
9 in the three channels. -/
def sequentialImg : Image :=
  { width := 3, height := 3, channels := 3,
    data := [1, 1, 1, 2, 2, 2, 3, 3, 3,
             4, 4, 4, 5, 5, 5, 6, 6, 6,
             7, 7, 7, 8, 8, 8, 9, 9, 9] }

/-- The 2x2 image of `Filters2DTests::testMedianBlur` for kernel size 1. -/
def originalImg : Image :=
  { width := 2, height := 2, channels := 3,
    data := [100, 150, 200, 50, 100, 150, 200, 250, 100, 0, 0, 0] }

/-- A fraction `num / den`, not reduced. -/
structure Fraction where
  num : Int
  den : Nat
  deriving DecidableEq, Repr

/-- Exact arithmetic on fractions, with `none` for NaN, in the place of
double arithmetic: sums, products and quotients are exact, `0 / 0` is NaN
and NaN propagates.  The function `exp` is 1 at 0 and the parameter `e`
elsewhere: a three-tap kernel evaluates it at 0 and at
`-1 / (2 sigma^2)` only.  The conversion to 8 bits truncates; NaN, whose
conversion C++ leaves undefined, is converted to 0. -/
def exactOps (e : Fraction) : FloatOps (Option Fraction) :=
  { ofInt := fun i => some { num := i, den := 1 },
    ofByte := fun b => some { num := (b.val : Int), den := 1 },
    add := fun a b =>
      match a, b with
      | some p, some q => some { num := p.num * q.den + q.num * p.den, den := p.den * q.den }
      | _, _ => none,
    mul := fun a b =>
      match a, b with
      | some p, some q => some { num := p.num * q.num, den := p.den * q.den }
      | _, _ => none,
    div := fun a b =>
      match a, b with
      | some p, some q =>
        if q.num = 0 then none
        else if q.num > 0 then some { num := p.num * q.den, den := p.den * q.num.toNat }
        else some { num := -(p.num * q.den), den := p.den * (-q.num).toNat }
      | _, _ => none,
    exp := fun a =>
      match a with
      | some p => if p.num = 0 then some { num := 1, den := 1 } else some e
      | none => none,
    toByte := fun a =>
      match a with
      | some p => toByte (p.num.tdiv (p.den : Int)).toNat
      | none => 0 }

/-- A 2x2x1 volume with the voxel 7 at the origin and 0 elsewhere. -/
def cornerVolume : Volume :=
  { width := 2, height := 2, depth := 1, channels := 1, data := [7, 0, 0, 0] }

/-- A directory `mixed` with two slices `s1.jpg`, `s2.jpg` and one slice
`s1.png`, each of one pixel.  Sorting is by insertion. -/
def mixedFolder : LoadEnv :=
  { isDirectory := fun path => path = "mixed",
    readdir := fun path =>
      if path = "mixed" then some [".", "..", "s1.jpg", "s2.jpg", "s1.png"] else none,
    isRegularFile := fun path => path ≠ "mixed/." ∧ path ≠ "mixed/..",
    stbi_load := fun path =>
      if path = "mixed/s1.jpg" then some { w := 1, h := 1, pixels := [1] }
      else if path = "mixed/s2.jpg" then some { w := 1, h := 1, pixels := [2] }
      else if path = "mixed/s1.png" then some { w := 1, h := 1, pixels := [9] }
      else none,
    sort := List.insertionSort (fun a b => a.2 ≤ b.2) }

/-- The 3x3 grayscale image of `Filters2DTests::testBoxBlur`. -/
def grayImg : Image :=
  { width := 3, height := 3, channels := 1,
    data := [100, 150, 200, 150, 200, 100, 50, 100, 150] }

/-- The 2x2 grayscale image of `Filters2DTests::testApplyBrightness`. -/
def brightnessImg : Image :=
  { width := 2, height := 2, channels := 1, data := [100, 150, 200, 250] }

/-- A 1x1 image of four channels, the last one alpha. -/
def alphaImg : Image :=
  { width := 1, height := 1, channels := 4, data := [250, 10, 128, 77] }

/-- A 2x2 grayscale image for the edge detection. -/
def edgeImg : Image :=
  { width := 2, height := 2, channels := 1, data := [10, 20, 30, 40] }

/-- A directory `stack` with the slices `s1.png`, `s2.png` and `s3.png`, each
of one pixel: 10, 110 and 210.  Sorting is by insertion. -/
def stackFolder : LoadEnv :=
  { isDirectory := fun path => path = "stack",
    readdir := fun path =>
      if path = "stack" then some [".", "..", "s1.png", "s2.png", "s3.png"] else none,
    isRegularFile := fun path => path ≠ "stack/." ∧ path ≠ "stack/..",
    stbi_load := fun path =>
      if path = "stack/s1.png" then some { w := 1, h := 1, pixels := [10] }
      else if path = "stack/s2.png" then some { w := 1, h := 1, pixels := [110] }
      else if path = "stack/s3.png" then some { w := 1, h := 1, pixels := [210] }
      else none,
    sort := List.insertionSort (fun a b => a.2 ≤ b.2) }

/-! # Properties -/

/-! ## Lists as buffers -/

theorem getD_set_self {α : Type} (l : List α) (i : Nat) (a d : α) (h : i < l.length) :
    (l.set i a).getD i d = a := by
  simp [List.getD_eq_getElem?_getD, List.getElem?_set, h]

theorem getD_set_of_ne {α : Type} (l : List α) {i j : Nat} (a d : α) (h : i ≠ j) :
    (l.set i a).getD j d = l.getD j d := by
  simp [List.getD_eq_getElem?_getD, List.getElem?_set, h]

/-! ## Loop rules -/

/-- Invariant rule for `for (i = 0; i < n; ++i)`. -/
theorem foldl_range_invariant {σ : Type} (P : Nat → σ → Prop) (step : σ → Nat → σ)
    (init : σ) (n : Nat) (h0 : P 0 init)
    (hstep : ∀ i s, i < n → P i s → P (i + 1) (step s i)) :
    P n ((List.range n).foldl step init) := by
  induction n with
  | zero => simpa using h0
  | succ k ih =>
    rw [List.range_succ, List.foldl_append]
    simp only [List.foldl_cons, List.foldl_nil]
    apply hstep k _ (Nat.lt_succ_self k)
    exact ih (fun i s hi hP => hstep i s (Nat.lt_succ_of_lt hi) hP)

/-- A loop whose body never fails is the loop of its results. -/
theorem foldlM_eq_ok_foldl {ε σ α : Type} (f : σ → α → Except ε σ) (g : σ → α → σ)
    (l : List α) (init : σ) (h : ∀ a ∈ l, ∀ s, f s a = .ok (g s a)) :
    l.foldlM f init = .ok (l.foldl g init) := by
  induction l generalizing init with
  | nil => rfl
  | cons a t ih =>
    rw [List.foldlM_cons, h a (List.mem_cons_self a t) init]
    show t.foldlM f (g init a) = _
    rw [ih _ (fun b hb s => h b (List.mem_cons_of_mem a hb) s)]
    rfl

theorem index2_inj {w x y x' y' : Nat} (hx : x < w) (hx' : x' < w)
    (e : x + w * y = x' + w * y') : x = x' ∧ y = y' := by
  have hw : 0 < w := by omega
  have m1 : (x + w * y) % w = x := by
    rw [Nat.add_mul_mod_self_left, Nat.mod_eq_of_lt hx]
  have m2 : (x' + w * y') % w = x' := by
    rw [Nat.add_mul_mod_self_left, Nat.mod_eq_of_lt hx']
  have exx : x = x' := by rw [← m1, ← m2, e]
  subst exx
  exact ⟨rfl, Nat.eq_of_mul_eq_mul_left hw (Nat.add_left_cancel e)⟩

theorem index2_lt {w h x y : Nat} (hx : x < w) (hy : y < h) : x + w * y < w * h := by
  have h1 : w * (y + 1) ≤ w * h := Nat.mul_le_mul_left w hy
  have e : w * (y + 1) = w * y + w := by ring
  omega

/-- The loop nest over `(x, y)` keeps the length of the buffer and leaves
`f x y` at `x + w * y`. -/
theorem fillXY_spec {α : Type} (w h : Nat) (f : Nat → Nat → α) (output : List α)
    (hlen : output.length = w * h) :
    (fillXY w h f output).length = w * h ∧
      ∀ x y, x < w → y < h → ∀ d, (fillXY w h f output).getD (x + w * y) d = f x y := by
  unfold fillXY
  have key := foldl_range_invariant
    (fun k (out : List α) => out.length = w * h ∧
      ∀ x y, x < w → y < k → ∀ d, out.getD (x + w * y) d = f x y)
    (fun out y => (List.range w).foldl (fun out x => out.set (x + w * y) (f x y)) out)
    output h ⟨hlen, fun x y _ hy => absurd hy (Nat.not_lt_zero y)⟩ ?_
  · exact ⟨key.1, fun x y hx hy => key.2 x y hx hy⟩
  · intro k out hk ⟨hl, hprev⟩
    have inner := foldl_range_invariant
      (fun i (o : List α) => o.length = w * h ∧
        (∀ x y, x < w → y < k → ∀ d, o.getD (x + w * y) d = f x y) ∧
        (∀ x, x < i → ∀ d, o.getD (x + w * k) d = f x k))
      (fun o x => o.set (x + w * k) (f x k)) out w
      ⟨hl, hprev, fun x hx => absurd hx (Nat.not_lt_zero x)⟩ ?_
    · refine ⟨inner.1, ?_⟩
      intro x y hx hy d
      rcases Nat.lt_succ_iff_lt_or_eq.mp hy with hlt | heq
      · exact inner.2.1 x y hx hlt d
      · subst heq; exact inner.2.2 x hx d
    · intro i o hi ⟨ol, oprev, orow⟩
      refine ⟨by rw [List.length_set]; exact ol, ?_, ?_⟩
      · intro x y hx hy d
        rw [getD_set_of_ne]
        · exact oprev x y hx hy d
        · intro e
          have := (index2_inj hi hx e).2
          omega
      · intro x hx d
        rcases Nat.lt_succ_iff_lt_or_eq.mp hx with hlt | heq
        · rw [getD_set_of_ne]
          · exact orow x hlt d
          · intro e
            have := (index2_inj hi (by omega) e).1
            omega
        · subst heq
          rw [getD_set_self]
          rw [ol]; exact index2_lt hi hk

/-- The failing loop nest with a body that succeeds at every `(x, y)` of
the nest. -/
theorem fillXYM_eq_ok {ε α : Type} (w h : Nat) (f : Nat → Nat → Except ε α)
    (g : Nat → Nat → α) (output : List α)
    (hf : ∀ x y, x < w → y < h → f x y = .ok (g x y)) :
    fillXYM w h f output = .ok (fillXY w h g output) := by
  unfold fillXYM fillXY
  apply foldlM_eq_ok_foldl
  intro y hy out
  apply foldlM_eq_ok_foldl
  intro x hx o
  rw [hf x y (List.mem_range.mp hx) (List.mem_range.mp hy)]
  rfl

/-! ## Index arithmetic -/

theorem flat_index_lt {w h d x y z : Nat} (hx : x < w) (hy : y < h) (hz : z < d) :
    x + w * (y + h * z) < w * h * d := by
  have h1 : y + h * z + 1 ≤ h * d := by
    have : h * (z + 1) ≤ h * d := Nat.mul_le_mul_left h hz
    have e : h * (z + 1) = h * z + h := by ring
    omega
  have h2 : w * (y + h * z + 1) ≤ w * (h * d) := Nat.mul_le_mul_left w h1
  have e2 : w * (y + h * z + 1) = w * (y + h * z) + w := by ring
  have e3 : w * (h * d) = w * h * d := by ring
  omega

theorem flat_index_inj {w h x y z x' y' z' : Nat} (hx : x < w) (hy : y < h)
    (hx' : x' < w) (hy' : y' < h)
    (e : x + w * (y + h * z) = x' + w * (y' + h * z')) :
    x = x' ∧ y = y' ∧ z = z' := by
  have hw : 0 < w := by omega
  have hh : 0 < h := by omega
  have m1 : (x + w * (y + h * z)) % w = x := by
    rw [Nat.add_mul_mod_self_left, Nat.mod_eq_of_lt hx]
  have m2 : (x' + w * (y' + h * z')) % w = x' := by
    rw [Nat.add_mul_mod_self_left, Nat.mod_eq_of_lt hx']
  have exx : x = x' := by rw [← m1, ← m2, e]
  subst exx
  have e' : y + h * z = y' + h * z' := by
    have := Nat.add_left_cancel e
    exact Nat.eq_of_mul_eq_mul_left hw this
  have n1 : (y + h * z) % h = y := by
    rw [Nat.add_mul_mod_self_left, Nat.mod_eq_of_lt hy]
  have n2 : (y' + h * z') % h = y' := by
    rw [Nat.add_mul_mod_self_left, Nat.mod_eq_of_lt hy']
  have eyy : y = y' := by rw [← n1, ← n2, e']
  subst eyy
  have := Nat.add_left_cancel e'
  exact ⟨rfl, rfl, Nat.eq_of_mul_eq_mul_left hh this⟩

namespace Volume

theorem outOfRange_iff (v : Volume) (hc : v.channels = 1) (x y z : Int) :
    v.outOfRange x y z 0 ↔
      ¬ (0 ≤ x ∧ x < v.width) ∨ ¬ (0 ≤ y ∧ y < v.height) ∨ ¬ (0 ≤ z ∧ z < v.depth) := by
  unfold outOfRange
  rw [hc]
  omega

theorem voxelIndex_eq (v : Volume) (hc : v.channels = 1) (x y z : Int)
    (hx : 0 ≤ x) (hy : 0 ≤ y) (hz : 0 ≤ z) :
    v.voxelIndex x y z 0 = (x + v.width * (y + v.height * z)).toNat := by
  lift x to ℕ using hx
  lift y to ℕ using hy
  lift z to ℕ using hz
  unfold voxelIndex
  rw [hc]
  have e : ((x : Int) + v.width * (y + v.height * z)) =
      ((x + v.width * (y + v.height * z) : Nat) : Int) := by
    push_cast; ring
  rw [e, Int.toNat_ofNat, Int.toNat_ofNat, Int.toNat_ofNat, Int.toNat_ofNat]
  show 0 + 1 * _ = _
  omega

theorem voxelIndex_nat (v : Volume) (hc : v.channels = 1) (x y z : Nat) :
    v.voxelIndex x y z 0 = x + v.width * (y + v.height * z) := by
  unfold voxelIndex
  rw [hc]
  simp

/-- The checked accessor agrees with the unchecked read at in-range
coordinates of a single-channel volume. -/
theorem getVoxel_eq_voxel (v : Volume) (hc : v.channels = 1) {x y z : Nat}
    (hx : x < v.width) (hy : y < v.height) (hz : z < v.depth) :
    v.getVoxel x y z = .ok (v.voxel x y z) := by
  have hr : ¬ v.outOfRange x y z 0 := by
    rw [outOfRange_iff v hc]; omega
  unfold getVoxel
  rw [if_neg hr, voxelIndex_nat v hc]
  rfl

/-- C2: on a single-channel volume `getVoxel` and `setVoxel` throw
`out_of_range` exactly when `x` is outside `[0, width)`, `y` outside
`[0, height)` or `z` outside `[0, depth)`; otherwise `setVoxel` returns
normally and `getVoxel` returns the buffer entry at index
`x + width * (y + height * z)`, which under the buffer-length invariant is a
position of the buffer.  No coordinate is clamped. -/
theorem getVoxel_setVoxel_out_of_range_iff (v : Volume) (hc : v.channels = 1)
    (x y z : Int) (value : Byte) :
    (v.getVoxel x y z = .error (.out_of_range "getVoxel: index out of range") ↔
      ¬ (0 ≤ x ∧ x < v.width) ∨ ¬ (0 ≤ y ∧ y < v.height) ∨ ¬ (0 ≤ z ∧ z < v.depth)) ∧
    ((v.setVoxel x y z value).1 = .error (.out_of_range "setVoxel: index out of range") ↔
      ¬ (0 ≤ x ∧ x < v.width) ∨ ¬ (0 ≤ y ∧ y < v.height) ∨ ¬ (0 ≤ z ∧ z < v.depth)) ∧
    ((0 ≤ x ∧ x < v.width) ∧ (0 ≤ y ∧ y < v.height) ∧ (0 ≤ z ∧ z < v.depth) →
      (v.setVoxel x y z value).1 = .ok () ∧
      v.getVoxel x y z =
        .ok (v.data.getD (x + v.width * (y + v.height * z)).toNat 0) ∧
      (v.LengthInv → (x + v.width * (y + v.height * z)).toNat < v.data.length)) := by
  have hiff := outOfRange_iff v hc x y z
  refine ⟨?_, ?_, ?_⟩
  · rw [← hiff]
    unfold getVoxel
    by_cases hr : v.outOfRange x y z 0
    · simp [hr]
    · simp [hr]
  · rw [← hiff]
    unfold setVoxel
    by_cases hr : v.outOfRange x y z 0
    · simp [hr]
    · simp [hr]
  · rintro ⟨⟨hx0, hx⟩, ⟨hy0, hy⟩, ⟨hz0, hz⟩⟩
    have hr : ¬ v.outOfRange x y z 0 := by rw [hiff]; omega
    refine ⟨?_, ?_, ?_⟩
    · unfold setVoxel; simp [hr]
    · unfold getVoxel
      rw [if_neg hr, voxelIndex_eq v hc x y z hx0 hy0 hz0]
    · intro hinv
      lift x to ℕ using hx0
      lift y to ℕ using hy0
      lift z to ℕ using hz0
      have hlt := flat_index_lt (Int.ofNat_lt.mp hx) (Int.ofNat_lt.mp hy) (Int.ofNat_lt.mp hz)
      rw [← voxelIndex_eq v hc x y z (by omega) (by omega) (by omega), voxelIndex_nat v hc, hinv]
      exact hlt

/-- Witness for C2 on the 3x2x2 test volume at `(1, 1, 1)`. -/
theorem getVoxel_setVoxel_out_of_range_iff_witness :
    testVolume.channels = 1 ∧
      testVolume.getVoxel 1 1 1 = .ok 54 ∧
      (testVolume.getVoxel 3 0 0 = .error (.out_of_range "getVoxel: index out of range")) := by
  have h := getVoxel_setVoxel_out_of_range_iff testVolume rfl 1 1 1 0
  have h2 := getVoxel_setVoxel_out_of_range_iff testVolume rfl 3 0 0 0
  refine ⟨rfl, ?_, ?_⟩
  · rw [(h.2.2 (by decide)).2.1]; rfl
  · rw [h2.1]; decide

theorem getVoxel_with_data (v : Volume) (d' : List Byte) (x y z c : Int) :
    ({ v with data := d' } : Volume).getVoxel x y z c =
      if v.outOfRange x y z c then .error (.out_of_range "getVoxel: index out of range")
      else .ok (d'.getD (v.voxelIndex x y z c) 0) := rfl

/-- C3: on a single-channel volume satisfying the buffer-length invariant, a
`setVoxel` at an in-range `(x, y, z)` returns normally, after it `getVoxel`
at `(x, y, z)` returns the value written, `getVoxel` at every other in-range
coordinate returns what it returned before, and width, height, depth and the
buffer length are unchanged; a `setVoxel` that throws leaves the volume as
it was. -/
theorem setVoxel_getVoxel_frame (v : Volume) (hc : v.channels = 1) (hinv : v.LengthInv)
    (x y z : Int) (value : Byte) :
    ((0 ≤ x ∧ x < v.width) ∧ (0 ≤ y ∧ y < v.height) ∧ (0 ≤ z ∧ z < v.depth) →
      (v.setVoxel x y z value).1 = .ok () ∧
      (v.setVoxel x y z value).2.getVoxel x y z = .ok value ∧
      (∀ x' y' z' : Int, (0 ≤ x' ∧ x' < v.width) → (0 ≤ y' ∧ y' < v.height) →
        (0 ≤ z' ∧ z' < v.depth) → (x', y', z') ≠ (x, y, z) →
        (v.setVoxel x y z value).2.getVoxel x' y' z' = v.getVoxel x' y' z') ∧
      (v.setVoxel x y z value).2.width = v.width ∧
      (v.setVoxel x y z value).2.height = v.height ∧
      (v.setVoxel x y z value).2.depth = v.depth ∧
      (v.setVoxel x y z value).2.data.length = v.data.length) ∧
    (∀ e, (v.setVoxel x y z value).1 = .error e → (v.setVoxel x y z value).2 = v) := by
  constructor
  · rintro ⟨⟨hx0, hx⟩, ⟨hy0, hy⟩, ⟨hz0, hz⟩⟩
    have hr : ¬ v.outOfRange x y z 0 := by rw [outOfRange_iff v hc]; omega
    have hset : v.setVoxel x y z value =
        (.ok (), { v with data := v.data.set (v.voxelIndex x y z 0) value }) := by
      unfold setVoxel; rw [if_neg hr]
    rw [hset]
    lift x to ℕ using hx0
    lift y to ℕ using hy0
    lift z to ℕ using hz0
    have hx1 : x < v.width := Int.ofNat_lt.mp hx
    have hy1 : y < v.height := Int.ofNat_lt.mp hy
    have hz1 : z < v.depth := Int.ofNat_lt.mp hz
    have hlt : x + v.width * (y + v.height * z) < v.data.length := by
      rw [hinv]; exact flat_index_lt hx1 hy1 hz1
    rw [voxelIndex_nat v hc]
    refine ⟨rfl, ?_, ?_, rfl, rfl, rfl, ?_⟩
    · show ({ v with data := _ } : Volume).getVoxel x y z 0 = _
      rw [getVoxel_with_data, if_neg hr, voxelIndex_nat v hc, getD_set_self _ _ _ _ hlt]
    · intro x' y' z' ⟨hx0', hx'⟩ ⟨hy0', hy'⟩ ⟨hz0', hz'⟩ hne
      lift x' to ℕ using hx0'
      lift y' to ℕ using hy0'
      lift z' to ℕ using hz0'
      have hx2 : x' < v.width := Int.ofNat_lt.mp hx'
      have hy2 : y' < v.height := Int.ofNat_lt.mp hy'
      have hr' : ¬ v.outOfRange x' y' z' 0 := by rw [outOfRange_iff v hc]; omega
      have hidx : x + v.width * (y + v.height * z) ≠ x' + v.width * (y' + v.height * z') := by
        intro e
        obtain ⟨e1, e2, e3⟩ := flat_index_inj hx1 hy1 hx2 hy2 e
        exact hne (by rw [e1, e2, e3])
      show ({ v with data := _ } : Volume).getVoxel x' y' z' 0 = _
      rw [getVoxel_with_data, if_neg hr', voxelIndex_nat v hc, getD_set_of_ne _ _ _ hidx]
      unfold getVoxel
      rw [if_neg hr', voxelIndex_nat v hc]
    · simp
  · intro e he
    unfold setVoxel at he ⊢
    by_cases hr : v.outOfRange x y z 0
    · rw [if_pos hr]
    · rw [if_neg hr] at he
      cases he

/-- Witness for C3 on the 3x2x2 test volume: writing 99 at `(1, 1, 1)`. -/
theorem setVoxel_getVoxel_frame_witness :
    testVolume.channels = 1 ∧ testVolume.LengthInv ∧
      (testVolume.setVoxel 1 1 1 99).2.getVoxel 1 1 1 = .ok 99 ∧
      (testVolume.setVoxel 1 1 1 99).2.getVoxel 2 1 1 = testVolume.getVoxel 2 1 1 :=
  have h := (setVoxel_getVoxel_frame testVolume rfl (by decide) 1 1 1 99).1 (by decide)
  ⟨rfl, by decide, h.2.1, h.2.2.1 2 1 1 (by decide) (by decide) (by decide) (by decide)⟩

end Volume

/-! ## Column scans -/

theorem foldl_maxStep_spec (l : List Byte) (init : Byte) :
    init ≤ l.foldl maxStep init ∧ (∀ b ∈ l, b ≤ l.foldl maxStep init) ∧
      (l.foldl maxStep init = init ∨ l.foldl maxStep init ∈ l) := by
  induction l generalizing init with
  | nil => simp
  | cons a t ih =>
    obtain ⟨h1, h2, h3⟩ := ih (maxStep init a)
    have hi : init ≤ maxStep init a := by
      unfold maxStep; split
      · exact le_of_lt (by assumption)
      · exact le_refl _
    have ha : a ≤ maxStep init a := by
      unfold maxStep; split
      · exact le_refl _
      · exact not_lt.mp (by assumption)
    simp only [List.foldl_cons, List.mem_cons]
    refine ⟨le_trans hi h1, ?_, ?_⟩
    · intro b hb
      rcases hb with rfl | hb
      · exact le_trans ha h1
      · exact h2 b hb
    · rcases h3 with h3 | h3
      · rw [h3]
        unfold maxStep; split
        · right; left; rfl
        · left; rfl
      · right; right; exact h3

theorem foldl_minStep_spec (l : List Byte) (init : Byte) :
    l.foldl minStep init ≤ init ∧ (∀ b ∈ l, l.foldl minStep init ≤ b) ∧
      (l.foldl minStep init = init ∨ l.foldl minStep init ∈ l) := by
  induction l generalizing init with
  | nil => simp
  | cons a t ih =>
    obtain ⟨h1, h2, h3⟩ := ih (minStep init a)
    have hi : minStep init a ≤ init := by
      unfold minStep; split
      · exact le_of_lt (by assumption)
      · exact le_refl _
    have ha : minStep init a ≤ a := by
      unfold minStep; split
      · exact le_refl _
      · exact not_lt.mp (by assumption)
    simp only [List.foldl_cons, List.mem_cons]
    refine ⟨le_trans h1 hi, ?_, ?_⟩
    · intro b hb
      rcases hb with rfl | hb
      · exact le_trans h1 ha
      · exact h2 b hb
    · rcases h3 with h3 | h3
      · rw [h3]
        unfold minStep; split
        · right; left; rfl
        · left; rfl
      · right; right; exact h3

/-- The maximum scan seeded at 0 over a non-empty list of samples returns
the greatest of them. -/
theorem foldl_maxStep_zero {ι : Type} (zs : List ι) (f : ι → Byte) (hne : zs ≠ []) :
    (∀ z ∈ zs, f z ≤ zs.foldl (fun m z => maxStep m (f z)) 0) ∧
      ∃ z ∈ zs, zs.foldl (fun m z => maxStep m (f z)) 0 = f z := by
  have e : zs.foldl (fun m z => maxStep m (f z)) 0 = (zs.map f).foldl maxStep 0 := by
    rw [List.foldl_map]
  rw [e]
  obtain ⟨_, h2, h3⟩ := foldl_maxStep_spec (zs.map f) 0
  refine ⟨fun z hz => h2 (f z) (List.mem_map_of_mem f hz), ?_⟩
  rcases h3 with h3 | h3
  · obtain ⟨z0, hz0⟩ := List.exists_mem_of_ne_nil zs hne
    refine ⟨z0, hz0, ?_⟩
    have := h2 (f z0) (List.mem_map_of_mem f hz0)
    rw [h3] at this ⊢
    exact le_antisymm (Fin.zero_le _) this
  · obtain ⟨z, hz, hfz⟩ := List.mem_map.mp h3
    exact ⟨z, hz, hfz.symm⟩

/-- The minimum scan seeded at 255 over a non-empty list of samples returns
the least of them. -/
theorem foldl_minStep_top {ι : Type} (zs : List ι) (f : ι → Byte) (hne : zs ≠ []) :
    (∀ z ∈ zs, zs.foldl (fun m z => minStep m (f z)) 255 ≤ f z) ∧
      ∃ z ∈ zs, zs.foldl (fun m z => minStep m (f z)) 255 = f z := by
  have e : zs.foldl (fun m z => minStep m (f z)) 255 = (zs.map f).foldl minStep 255 := by
    rw [List.foldl_map]
  rw [e]
  obtain ⟨_, h2, h3⟩ := foldl_minStep_spec (zs.map f) 255
  refine ⟨fun z hz => h2 (f z) (List.mem_map_of_mem f hz), ?_⟩
  rcases h3 with h3 | h3
  · obtain ⟨z0, hz0⟩ := List.exists_mem_of_ne_nil zs hne
    refine ⟨z0, hz0, ?_⟩
    have := h2 (f z0) (List.mem_map_of_mem f hz0)
    rw [h3] at this ⊢
    exact le_antisymm this (Fin.le_last (f z0))
  · obtain ⟨z, hz, hfz⟩ := List.mem_map.mp h3
    exact ⟨z, hz, hfz.symm⟩

theorem foldl_sumStep {ι : Type} (zs : List ι) (f : ι → Byte) (s : Nat) (hs : s < 2 ^ 32) :
    zs.foldl (fun acc z => sumStep acc (f z)) s =
      (s + (zs.map (fun z => (f z).val)).sum) % 2 ^ 32 := by
  induction zs generalizing s with
  | nil =>
    simp only [List.foldl_nil, List.map_nil, List.sum_nil, Nat.add_zero]
    exact (Nat.mod_eq_of_lt hs).symm
  | cons a t ih =>
    simp only [List.foldl_cons, List.map_cons, List.sum_cons]
    have hlt : sumStep s (f a) < 2 ^ 32 := Nat.mod_lt _ (by norm_num)
    rw [ih _ hlt]
    unfold sumStep
    rw [Nat.mod_add_mod, Nat.add_assoc]

theorem sum_map_range (g : Nat → Nat) (d : Nat) :
    ((List.range d).map g).sum = ∑ z ∈ Finset.range d, g z := by
  induction d with
  | zero => simp
  | succ k ih =>
    rw [List.range_succ, List.map_append, List.sum_append, ih, Finset.sum_range_succ]
    simp

theorem toByte_val_of_lt {n : Nat} (h : n < 256) : (toByte n).val = n := by
  unfold toByte
  exact Nat.mod_eq_of_lt h

/-- A 32-bit sum of `d` samples divided by `d` fits a byte, whether or not
the sum wrapped. -/
theorem wrapped_mean_lt (total d : Nat) (hd : 1 ≤ d) (hle : total ≤ 255 * d) :
    (total % 2 ^ 32) / d < 256 := by
  rw [Nat.div_lt_iff_lt_mul (by omega)]
  by_cases h : total < 2 ^ 32
  · rw [Nat.mod_eq_of_lt h]; omega
  · have : total % 2 ^ 32 < 2 ^ 32 := Nat.mod_lt _ (by norm_num)
    omega

theorem sum_range_le (g : Nat → Nat) (d c : Nat) (h : ∀ z, g z ≤ c) :
    ∑ z ∈ Finset.range d, g z ≤ c * d := by
  calc ∑ z ∈ Finset.range d, g z ≤ ∑ _z ∈ Finset.range d, c :=
        Finset.sum_le_sum (fun z _ => h z)
    _ = c * d := by simp [Nat.mul_comm]

theorem byte_val_le (b : Byte) : b.val ≤ 255 := by
  have := b.isLt
  omega

/-- The loop `for (z = 0; z < d; ++z) vals[z] = f z` over a buffer of `d`
entries leaves the list of the `f z`. -/
theorem fill_range_eq_map {α : Type} (d : Nat) (f : Nat → α) (init : List α)
    (hlen : init.length = d) :
    (List.range d).foldl (fun vals z => vals.set z (f z)) init = (List.range d).map f := by
  have key := foldl_range_invariant
    (fun i (vals : List α) => vals.length = d ∧ ∀ j, j < i → vals[j]? = some (f j))
    (fun vals z => vals.set z (f z)) init d
    ⟨hlen, fun j hj => absurd hj (Nat.not_lt_zero j)⟩ ?_
  · apply List.ext_getElem?
    intro n
    by_cases hn : n < d
    · rw [key.2 n hn, List.getElem?_map, List.getElem?_range hn]
      rfl
    · rw [List.getElem?_eq_none (by rw [key.1]; omega),
        List.getElem?_eq_none (by simp; omega)]
  · intro i vals hi ⟨hl, hprev⟩
    refine ⟨by rw [List.length_set]; exact hl, ?_⟩
    intro j hj
    rw [List.getElem?_set]
    by_cases hij : i = j
    · subst hij
      rw [if_pos rfl, if_pos (by omega)]
    · rw [if_neg hij]
      exact hprev j (by omega)

theorem range_ne_nil {d : Nat} (hd : 1 ≤ d) : List.range d ≠ [] := by
  intro e
  have := congrArg List.length e
  simp at this
  omega

/-! ## Full-volume projections -/

theorem clamp_eq_max_min (t hi : Int) (h : 0 ≤ hi) : clamp t 0 hi = max 0 (min t hi) := by
  unfold clamp
  split_ifs <;> omega

theorem clamp_range (t hi : Int) (h : 0 ≤ hi) : 0 ≤ clamp t 0 hi ∧ clamp t 0 hi ≤ hi := by
  unfold clamp
  split_ifs <;> omega

theorem mem_intRange {lo hi z : Int} : z ∈ intRange lo hi ↔ lo ≤ z ∧ z ≤ hi := by
  unfold intRange
  rw [List.mem_map]
  constructor
  · rintro ⟨i, hi', rfl⟩
    have := List.mem_range.mp hi'
    omega
  · rintro ⟨h1, h2⟩
    refine ⟨(z - lo).toNat, List.mem_range.mpr (by omega), by omega⟩

theorem intRange_ne_nil {lo hi : Int} (h : lo ≤ hi) : intRange lo hi ≠ [] := by
  intro e
  have hmem : lo ∈ intRange lo hi := mem_intRange.mpr ⟨le_refl _, h⟩
  rw [e] at hmem
  exact List.not_mem_nil _ hmem

/-- The sum of `g` over the loop `for (z = lo; z <= hi; ++z)`. -/
theorem sum_map_intRange (g : Nat → Nat) {lo hi : Int} (h0 : 0 ≤ lo) (hle : lo ≤ hi) :
    ((intRange lo hi).map (fun z => g z.toNat)).sum =
      ∑ z ∈ Finset.Icc lo.toNat hi.toNat, g z := by
  unfold intRange
  rw [List.map_map]
  have hfun : ((fun z : Int => g z.toNat) ∘ fun i : Nat => lo + (i : Int)) =
      fun i : Nat => g (lo.toNat + i) := by
    funext i
    show g (lo + (i : Int)).toNat = g (lo.toNat + i)
    congr 1
    omega
  rw [hfun, sum_map_range (fun i => g (lo.toNat + i)), ← Nat.Ico_succ_right,
    Finset.sum_Ico_eq_sum_range]
  congr 2
  omega

/-- The bounds the slab projections scan are the clamped bounds in
ascending order. -/
theorem slabBounds_eq (v : Volume) (hd : 1 ≤ v.depth) (zStart zEnd : Int) :
    slabBounds v zStart zEnd =
      (min (clamp zStart 0 ((v.depth : Int) - 1)) (clamp zEnd 0 ((v.depth : Int) - 1)),
        max (clamp zStart 0 ((v.depth : Int) - 1)) (clamp zEnd 0 ((v.depth : Int) - 1))) := by
  unfold slabBounds clamp
  simp only []
  split_ifs <;> (rw [Prod.mk.injEq]; constructor <;> omega)

theorem slabBounds_range (v : Volume) (zStart zEnd : Int) :
    0 ≤ (slabBounds v zStart zEnd).1 ∧
      (slabBounds v zStart zEnd).1 ≤ (slabBounds v zStart zEnd).2 := by
  unfold slabBounds
  simp only []
  split_ifs <;> constructor <;> simp only [] <;> omega

theorem slabBounds_comm (v : Volume) (zStart zEnd : Int) :
    slabBounds v zStart zEnd = slabBounds v zEnd zStart := by
  unfold slabBounds
  simp only []
  split_ifs <;> (rw [Prod.mk.injEq]; constructor <;> omega)

/-- The entry of `MIPSlab` at `(x, y)`: the scan of the slab. -/
theorem MIPSlab_entry (v : Volume) (zStart zEnd : Int) (x y : Nat) (hx : x < v.width)
    (hy : y < v.height) :
    ∃ out, MIPSlab v zStart zEnd = .ok out ∧ out.length = v.width * v.height ∧
      out.getD (x + v.width * y) 0 =
        (intRange (slabBounds v zStart zEnd).1 (slabBounds v zStart zEnd).2).foldl
          (fun maxVal z => maxStep maxVal (v.voxel x y z.toNat)) 0 := by
  obtain ⟨hl, hget⟩ := fillXY_spec v.width v.height
    (fun x y => (intRange (slabBounds v zStart zEnd).1 (slabBounds v zStart zEnd).2).foldl
      (fun maxVal z => maxStep maxVal (v.voxel x y z.toNat)) 0)
    (List.replicate (v.width * v.height) 0) (by simp)
  exact ⟨_, rfl, hl, hget x y hx hy 0⟩

/-- The entry of `MinIPSlab` at `(x, y)`: the scan of the slab. -/
theorem MinIPSlab_entry (v : Volume) (zStart zEnd : Int) (x y : Nat) (hx : x < v.width)
    (hy : y < v.height) :
    ∃ out, MinIPSlab v zStart zEnd = .ok out ∧ out.length = v.width * v.height ∧
      out.getD (x + v.width * y) 0 =
        (intRange (slabBounds v zStart zEnd).1 (slabBounds v zStart zEnd).2).foldl
          (fun minVal z => minStep minVal (v.voxel x y z.toNat)) 255 := by
  obtain ⟨hl, hget⟩ := fillXY_spec v.width v.height
    (fun x y => (intRange (slabBounds v zStart zEnd).1 (slabBounds v zStart zEnd).2).foldl
      (fun minVal z => minStep minVal (v.voxel x y z.toNat)) 255)
    (List.replicate (v.width * v.height) 255) (by simp)
  exact ⟨_, rfl, hl, hget x y hx hy 0⟩

/-- The entry of `AIPSlab` at `(x, y)` when the ordered, clamped bounds are
`a ≤ b`: the 32-bit sum of the slab divided by the number of its slices. -/
theorem AIPSlab_entry (v : Volume) (zStart zEnd : Int) (a b : Nat)
    (hb : slabBounds v zStart zEnd = ((a : Int), (b : Int))) (hab : a ≤ b)
    (x y : Nat) (hx : x < v.width) (hy : y < v.height) :
    ∃ out, AIPSlab v zStart zEnd = .ok out ∧ out.length = v.width * v.height ∧
      (out.getD (x + v.width * y) 0).val =
        ((∑ z ∈ Finset.Icc a b, (v.voxel x y z).val) % 2 ^ 32) / (b - a + 1) := by
  unfold AIPSlab
  rw [hb]
  simp only []
  have hd : ((b : Int) - (a : Int) + 1).toNat = b - a + 1 := by omega
  rw [hd]
  have hn : b - a + 1 ≠ 0 := by omega
  obtain ⟨_, hacc⟩ := fillXY_spec v.width v.height
    (fun x y => (intRange (a : Int) (b : Int)).foldl
      (fun sumVal z => sumStep sumVal (v.voxel x y z.toNat)) 0)
    (List.replicate (v.width * v.height) 0) (by simp)
  obtain ⟨hl, hget⟩ := fillXY_spec v.width v.height
    (fun x y => toByte ((fillXY v.width v.height
        (fun x y => (intRange (a : Int) (b : Int)).foldl
          (fun sumVal z => sumStep sumVal (v.voxel x y z.toNat)) 0)
        (List.replicate (v.width * v.height) 0)).getD (x + v.width * y) 0 / (b - a + 1)))
    (List.replicate (v.width * v.height) 0) (by simp)
  refine ⟨_, ?_, hl, ?_⟩
  · apply fillXYM_eq_ok
    intro x y _ _
    unfold meanOf
    rw [if_neg hn]
  · rw [hget x y hx hy, hacc x y hx hy,
      foldl_sumStep (intRange (a : Int) (b : Int)) (fun z => v.voxel x y z.toNat) 0
        (by norm_num),
      Nat.zero_add,
      sum_map_intRange (fun z => (v.voxel x y z).val) (Int.ofNat_nonneg a)
        (Int.ofNat_le.mpr hab),
      Int.toNat_ofNat, Int.toNat_ofNat]
    apply toByte_val_of_lt
    have hsum : ∑ z ∈ Finset.Icc a b, (v.voxel x y z).val ≤ 255 * (b - a + 1) := by
      calc ∑ z ∈ Finset.Icc a b, (v.voxel x y z).val
          ≤ ∑ _z ∈ Finset.Icc a b, 255 :=
            Finset.sum_le_sum (fun z _ => byte_val_le _)
        _ = 255 * (b - a + 1) := by
            rw [Finset.sum_const, Nat.card_Icc, smul_eq_mul, Nat.mul_comm]
            congr 1
            omega
    exact wrapped_mean_lt _ _ (by omega) hsum

theorem deepColumn_voxel (z : Nat) (hz : z < 16843010) : deepColumn.voxel 0 0 z = 255 := by
  unfold Volume.voxel deepColumn
  simp only []
  rw [List.getD_eq_getElem?_getD, List.getElem?_replicate_of_lt (by omega)]
  rfl

theorem deepColumn_sum :
    ∑ z ∈ Finset.Icc 0 16843009, (deepColumn.voxel 0 0 z).val = 255 * 16843010 := by
  have h : ∀ z ∈ Finset.Icc 0 16843009, (deepColumn.voxel 0 0 z).val = 255 := by
    intro z hz
    rw [deepColumn_voxel z (by have := (Finset.mem_Icc.mp hz).2; omega)]
    rfl
  rw [Finset.sum_congr rfl h, Finset.sum_const, Nat.card_Icc, smul_eq_mul]

/-- C10: for every volume and all integers `zStart`, `zEnd` each slab
projection is symmetric in its bounds; a call with `zStart > zEnd` yields the
buffer of the call with the bounds swapped. -/
theorem slab_projections_symmetric (v : Volume) (zStart zEnd : Int) :
    MIPSlab v zStart zEnd = MIPSlab v zEnd zStart ∧
      MinIPSlab v zStart zEnd = MinIPSlab v zEnd zStart ∧
      AIPSlab v zStart zEnd = AIPSlab v zEnd zStart := by
  unfold MIPSlab MinIPSlab AIPSlab
  rw [slabBounds_comm v zStart zEnd]
  exact ⟨rfl, rfl, rfl⟩

/-! ## The buffer-length invariant -/

/-- Invariant rule for a loop whose body may throw: what holds before and is
kept by every body that returns holds when the loop returns. -/
theorem foldlM_preserves {ε σ α : Type} (P : σ → Prop) (f : σ → α → Except ε σ)
    (l : List α) (init r : σ) (h0 : P init)
    (hstep : ∀ s a s', P s → f s a = .ok s' → P s')
    (hrun : l.foldlM f init = .ok r) : P r := by
  induction l generalizing init with
  | nil =>
    have e : Except.ok init = Except.ok r := hrun
    cases e
    exact h0
  | cons a t ih =>
    rw [List.foldlM_cons] at hrun
    cases hfa : f init a with
    | error e =>
      rw [hfa] at hrun
      cases hrun
    | ok s =>
      rw [hfa] at hrun
      exact ih s (hstep init a s h0 hfa) hrun

theorem except_bind_ok {ε α β : Type} {m : Except ε α} {k : α → Except ε β} {r : β}
    (h : (m >>= k) = Except.ok r) : ∃ a, m = .ok a ∧ k a = .ok r := by
  cases m with
  | error e => cases h
  | ok a => exact ⟨a, rfl, h⟩

/-- A loop body that computes a value, possibly throwing, and stores it
keeps the length of the buffer. -/
theorem bind_set_length {ε α β : Type} (m : Except ε α) (g : α → β) (s s' : List β)
    (idx : Nat) (h : (m >>= fun val => pure (s.set idx (g val))) = Except.ok s') :
    s'.length = s.length := by
  cases m with
  | error e => cases h
  | ok val =>
    have e : Except.ok (s.set idx (g val)) = Except.ok s' := h
    cases e
    exact List.length_set _ _ _

/-- Three nested loops over ranges whose body stores one computed value keep
the length of the buffer. -/
theorem nested_set_length {ε : Type} (n1 n2 n3 : Nat)
    (idx : Nat → Nat → Nat → Nat) (val : Nat → Nat → Nat → Except ε Byte)
    (init r : List Byte)
    (hrun : (List.range n1).foldlM (fun buf (a : Nat) =>
      (List.range n2).foldlM (fun buf (b : Nat) =>
        (List.range n3).foldlM (fun buf (c : Nat) => do
          let v ← val a b c
          pure (buf.set (idx a b c) v)) buf) buf) init = .ok r) :
    r.length = init.length := by
  refine foldlM_preserves (fun buf => buf.length = init.length) _ _ init r rfl ?_ hrun
  intro s a s' hs h1
  refine foldlM_preserves (fun buf => buf.length = init.length) _ _ s s' hs ?_ h1
  intro s2 b s2' hs2 h2
  refine foldlM_preserves (fun buf => buf.length = init.length) _ _ s2 s2' hs2 ?_ h2
  intro s3 c s3' hs3 h3
  rw [bind_set_length (val a b c) id s3 s3' (idx a b c) h3]
  exact hs3

/-- The Gaussian blur keeps the dimensions and the length of the buffer,
whatever the kernel size, sigma and the floating-point operations. -/
theorem apply3DGaussianBlur_shape {F : Type} (ops : FloatOps F) (v : Volume)
    (kernelSize : Int) (sigma : F) :
    (apply3DGaussianBlur ops v kernelSize sigma).2.width = v.width ∧
      (apply3DGaussianBlur ops v kernelSize sigma).2.height = v.height ∧
      (apply3DGaussianBlur ops v kernelSize sigma).2.depth = v.depth ∧
      (apply3DGaussianBlur ops v kernelSize sigma).2.data.length = v.data.length := by
  unfold apply3DGaussianBlur
  simp only []
  split
  · exact ⟨rfl, rfl, rfl, rfl⟩
  · split
    · exact ⟨rfl, rfl, rfl, rfl⟩
    · split
      · exact ⟨rfl, rfl, rfl, rfl⟩
      · rename_i data hdata
        refine ⟨rfl, rfl, rfl, ?_⟩
        exact nested_set_length _ _ _ (fun y x z => x + v.width * (y + v.height * z)) _ _ _ hdata

/-- A row of the median blur keeps the length of the output buffer. -/
theorem medianRow_length (v : Volume) (radius medianPos : Int) (z y : Nat)
    (newData r : List Byte) (h : medianRow v radius medianPos z y newData = .ok r) :
    r.length = newData.length := by
  unfold medianRow at h
  obtain ⟨histogram, _, h⟩ := except_bind_ok h
  obtain ⟨moved, hmoved, h⟩ := except_bind_ok h
  have e : Except.ok moved.2 = Except.ok r := h
  cases e
  refine foldlM_preserves (fun st : Histogram × List Byte => st.2.length = newData.length)
    _ _ _ moved (by simp) ?_ hmoved
  intro st x st' hst hstep
  unfold slideWindow at hstep
  obtain ⟨h1, _, hstep⟩ := except_bind_ok hstep
  obtain ⟨h2, _, hstep⟩ := except_bind_ok hstep
  have e : Except.ok (h2, st.2.set (z * v.width * v.height + y * v.width + x)
      (toByte (medianScan h2 medianPos))) = Except.ok st' := hstep
  cases e
  simp only [List.length_set]
  exact hst

/-- The median blur keeps the dimensions and the length of the buffer,
whatever the kernel size. -/
theorem apply3DMedianBlur_shape (v : Volume) (kernelSize : Int) :
    (apply3DMedianBlur v kernelSize).2.width = v.width ∧
      (apply3DMedianBlur v kernelSize).2.height = v.height ∧
      (apply3DMedianBlur v kernelSize).2.depth = v.depth ∧
      (apply3DMedianBlur v kernelSize).2.data.length = v.data.length := by
  unfold apply3DMedianBlur
  simp only []
  split
  · exact ⟨rfl, rfl, rfl, rfl⟩
  · rename_i newData hrun
    refine ⟨rfl, rfl, rfl, ?_⟩
    have key := foldlM_preserves (fun buf : List Byte => buf.length = v.data.length) _ _ _
      newData (by simp) ?_ hrun
    · exact key
    · intro s z s' hs h1
      refine foldlM_preserves (fun buf : List Byte => buf.length = v.data.length) _ _ s s' hs
        ?_ h1
      intro s2 y s2' hs2 h2
      rw [medianRow_length _ _ _ _ _ _ _ h2]
      exact hs2

theorem setVoxel_shape (v : Volume) (x y z : Int) (value : Byte) :
    (v.setVoxel x y z value).2.width = v.width ∧
      (v.setVoxel x y z value).2.height = v.height ∧
      (v.setVoxel x y z value).2.depth = v.depth ∧
      (v.setVoxel x y z value).2.data.length = v.data.length := by
  unfold Volume.setVoxel
  split
  · exact ⟨rfl, rfl, rfl, rfl⟩
  · exact ⟨rfl, rfl, rfl, List.length_set _ _ _⟩

/-- C4, amended: the invariant `buffer length = width * height * depth` holds
for the empty volume and for the volume pre-sized to `w`, `h`, `d` with one
channel (all voxels 0) when `w * h * d < 2^64`, and it is preserved, together
with the values of width, height and depth, by `setVoxel`, by
`apply3DGaussianBlur` and by `apply3DMedianBlur` for every non-negative
kernel size and every sigma. -/
theorem lengthInv_established_and_preserved {F : Type} (ops : FloatOps F) (sigma : F)
    (v : Volume) (hinv : v.LengthInv) (kernelSize : Int) (_hk : 0 ≤ kernelSize)
    (x y z : Int) (value : Byte) (w h d : Nat) (hsize : w * h * d < 2 ^ 64) :
    Volume.empty.LengthInv ∧
    ((Volume.presized w h d 1).LengthInv ∧ (Volume.presized w h d 1).width = w ∧
      (Volume.presized w h d 1).height = h ∧ (Volume.presized w h d 1).depth = d ∧
      (Volume.presized w h d 1).channels = 1 ∧
      ∀ b ∈ (Volume.presized w h d 1).data, b = 0) ∧
    ((v.setVoxel x y z value).2.LengthInv ∧ (v.setVoxel x y z value).2.width = v.width ∧
      (v.setVoxel x y z value).2.height = v.height ∧
      (v.setVoxel x y z value).2.depth = v.depth) ∧
    ((apply3DGaussianBlur ops v kernelSize sigma).2.LengthInv ∧
      (apply3DGaussianBlur ops v kernelSize sigma).2.width = v.width ∧
      (apply3DGaussianBlur ops v kernelSize sigma).2.height = v.height ∧
      (apply3DGaussianBlur ops v kernelSize sigma).2.depth = v.depth) ∧
    ((apply3DMedianBlur v kernelSize).2.LengthInv ∧
      (apply3DMedianBlur v kernelSize).2.width = v.width ∧
      (apply3DMedianBlur v kernelSize).2.height = v.height ∧
      (apply3DMedianBlur v kernelSize).2.depth = v.depth) := by
  refine ⟨rfl, ⟨?_, rfl, rfl, rfl, rfl, ?_⟩, ?_, ?_, ?_⟩
  · show (List.replicate ((w * h * d * 1) % 2 ^ 64) (0 : Byte)).length = w * h * d
    rw [List.length_replicate, Nat.mul_one, Nat.mod_eq_of_lt hsize]
  · intro b hb
    exact List.eq_of_mem_replicate hb
  · obtain ⟨h1, h2, h3, h4⟩ := setVoxel_shape v x y z value
    refine ⟨?_, h1, h2, h3⟩
    unfold Volume.LengthInv
    rw [h4, h1, h2, h3]
    exact hinv
  · obtain ⟨h1, h2, h3, h4⟩ := apply3DGaussianBlur_shape ops v kernelSize sigma
    refine ⟨?_, h1, h2, h3⟩
    unfold Volume.LengthInv
    rw [h4, h1, h2, h3]
    exact hinv
  · obtain ⟨h1, h2, h3, h4⟩ := apply3DMedianBlur_shape v kernelSize
    refine ⟨?_, h1, h2, h3⟩
    unfold Volume.LengthInv
    rw [h4, h1, h2, h3]
    exact hinv

/-- Witness for C4: the 3x2x2 test volume, kernel size 3, a write at
`(1, 1, 1)` and a pre-sized 3x2x2 volume. -/
theorem lengthInv_established_and_preserved_witness :
    testVolume.LengthInv ∧ (0 : Int) ≤ 3 ∧ 3 * 2 * 2 < 2 ^ 64 ∧
      (Volume.presized 3 2 2 1).LengthInv ∧
      (testVolume.setVoxel 1 1 1 7).2.LengthInv ∧
      (apply3DGaussianBlur byteOps testVolume 3 2).2.LengthInv ∧
      (apply3DMedianBlur testVolume 3).2.LengthInv := by
  have h := lengthInv_established_and_preserved byteOps 2 testVolume (by decide) 3
    (by decide) 1 1 1 7 3 2 2 (by norm_num)
  exact ⟨by decide, by decide, by norm_num, h.2.1.1, h.2.2.1.1, h.2.2.2.1.1, h.2.2.2.2.1⟩

/-- Counterexample to C4 as stated: the volume pre-sized to
4194304 x 4194304 x 4194304 with one channel is constructed with an empty
buffer, because the element count `2^66` is reduced modulo `2^64` in
`size_t`, while `width * height * depth` is `2^66`. -/
theorem presized_overflow_counterexample :
    (Volume.presized 4194304 4194304 4194304 1).data.length = 0 ∧
      (Volume.presized 4194304 4194304 4194304 1).width *
        (Volume.presized 4194304 4194304 4194304 1).height *
        (Volume.presized 4194304 4194304 4194304 1).depth = 2 ^ 66 ∧
      ¬ (Volume.presized 4194304 4194304 4194304 1).LengthInv := by
  have hlen : (Volume.presized 4194304 4194304 4194304 1).data.length = 0 := by
    show (List.replicate ((4194304 * 4194304 * 4194304 * 1) % 2 ^ 64) (0 : Byte)).length = 0
    rw [List.length_replicate]
    norm_num
  have hprod : (Volume.presized 4194304 4194304 4194304 1).width *
      (Volume.presized 4194304 4194304 4194304 1).height *
      (Volume.presized 4194304 4194304 4194304 1).depth = 2 ^ 66 := by
    show 4194304 * 4194304 * 4194304 = 2 ^ 66
    norm_num
  refine ⟨hlen, hprod, ?_⟩
  unfold Volume.LengthInv
  rw [hlen, hprod]
  norm_num

/-! ## Histograms of sample lists -/

theorem countOf_nil (i : Nat) : countOf [] i = 0 := rfl

theorem countOf_cons (b : Byte) (l : List Byte) (i : Nat) :
    countOf (b :: l) i = countOf l i + (if i = b.val then 1 else 0) := by
  unfold countOf
  rw [List.countP_cons]
  by_cases h : i = b.val
  · rw [if_pos h, if_pos (decide_eq_true h.symm)]
    push_cast
    rfl
  · rw [if_neg h, if_neg (by simpa using fun e : b.val = i => h e.symm)]
    push_cast
    rfl

theorem countOf_append (l₁ l₂ : List Byte) (i : Nat) :
    countOf (l₁ ++ l₂) i = countOf l₁ i + countOf l₂ i := by
  unfold countOf
  rw [List.countP_append]
  push_cast
  rfl

theorem countOf_singleton (b : Byte) (i : Nat) :
    countOf [b] i = if i = b.val then 1 else 0 := by
  rw [countOf_cons, countOf_nil, Int.zero_add]

theorem countOf_flatMap {ι : Type} (l : List ι) (g : ι → List Byte) (i : Nat) :
    countOf (l.flatMap g) i = (l.map (fun a => countOf (g a) i)).sum := by
  induction l with
  | nil => rfl
  | cons a t ih =>
    rw [List.flatMap_cons, countOf_append, ih, List.map_cons, List.sum_cons]

theorem countOf_nonneg (l : List Byte) (i : Nat) : 0 ≤ countOf l i := by
  unfold countOf
  exact Int.ofNat_nonneg _

/-- A value inside the range of `int` is held as it is. -/
theorem wrapInt32_of_range (i : Int) (h0 : -2147483648 ≤ i) (h1 : i < 2147483648) :
    wrapInt32 i = i := by
  unfold wrapInt32
  omega

/-- The value held is in the range of `int`. -/
theorem wrapInt32_range (i : Int) : -2147483648 ≤ wrapInt32 i ∧ wrapInt32 i < 2147483648 := by
  unfold wrapInt32
  omega

/-- Reducing an operand before an addition does not change the reduced
sum. -/
theorem wrapInt32_add (a b : Int) : wrapInt32 (wrapInt32 a + b) = wrapInt32 (a + b) := by
  unfold wrapInt32
  omega

theorem wrapInt32_idem (a : Int) : wrapInt32 (wrapInt32 a) = wrapInt32 a := by
  unfold wrapInt32
  omega

/-- Removing a column from a 32-bit bin and adding another gives the exact
result reduced to 32 bits. -/
theorem wrapInt32_slide (c a b : Int) :
    wrapInt32 (wrapInt32 (wrapInt32 c - a) + b) = wrapInt32 (c - a + b) := by
  unfold wrapInt32
  omega

/-- Counting the samples one by one into a histogram of 32-bit bins adds the
histogram of the list, in 32 bits. -/
theorem foldl_histInc (l : List Byte) (h : Histogram) (hh : ∀ i, wrapInt32 (h i) = h i) :
    l.foldl histInc h = fun i => wrapInt32 (h i + countOf l i) := by
  induction l generalizing h with
  | nil =>
    funext i
    rw [List.foldl_nil, countOf_nil, Int.add_zero, hh]
  | cons b t ih =>
    have hnext : ∀ i, wrapInt32 (histInc h b i) = histInc h b i := by
      intro i
      unfold histInc
      by_cases e : i = b.val
      · rw [if_pos e, wrapInt32_idem]
      · rw [if_neg e, hh]
    rw [List.foldl_cons, ih _ hnext]
    funext i
    rw [countOf_cons]
    unfold histInc
    by_cases e : i = b.val
    · rw [if_pos e, if_pos e, wrapInt32_add]
      congr 1
      omega
    · rw [if_neg e, if_neg e, Int.add_zero]

/-- Removing the samples one by one from a histogram of 32-bit bins
subtracts the histogram of the list, in 32 bits. -/
theorem foldl_histDec (l : List Byte) (h : Histogram) (hh : ∀ i, wrapInt32 (h i) = h i) :
    l.foldl histDec h = fun i => wrapInt32 (h i - countOf l i) := by
  induction l generalizing h with
  | nil =>
    funext i
    rw [List.foldl_nil, countOf_nil, Int.sub_zero, hh]
  | cons b t ih =>
    have hnext : ∀ i, wrapInt32 (histDec h b i) = histDec h b i := by
      intro i
      unfold histDec
      by_cases e : i = b.val
      · rw [if_pos e, wrapInt32_idem]
      · rw [if_neg e, hh]
    rw [List.foldl_cons, ih _ hnext]
    funext i
    rw [countOf_cons]
    unfold histDec
    by_cases e : i = b.val
    · rw [if_pos e, if_pos e, Int.sub_eq_add_neg, wrapInt32_add]
      congr 1
      omega
    · rw [if_neg e, if_neg e, Int.add_zero]

/-- A loop over `l` whose body is itself a loop over the list `g a` is the
loop over the concatenation of those lists. -/
theorem foldl_flatMap_eq {σ ι β : Type} (f : σ → β → σ) (l : List ι) (g : ι → List β)
    (init : σ) :
    l.foldl (fun acc a => (g a).foldl f acc) init = (l.flatMap g).foldl f init := by
  induction l generalizing init with
  | nil => rfl
  | cons a t ih =>
    rw [List.foldl_cons, ih, List.flatMap_cons, List.foldl_append]

/-! ## The median scan -/

/-- The scan returns the first bin at which the cumulative count exceeds
`medianPos`, when there is one and the cumulative counts stay in the range
of `int`. -/
theorem scanBins_finds (h : Histogram) (pos : Int) (t : Nat) (ht : t < 256)
    (hrange : ∀ a, a ≤ 256 → -2147483648 ≤ ∑ i ∈ Finset.range a, h i ∧
      ∑ i ∈ Finset.range a, h i < 2147483648)
    (hbelow : ∀ j, j < t → (∑ i ∈ Finset.range (j + 1), h i) ≤ pos)
    (hat : pos < ∑ i ∈ Finset.range (t + 1), h i) :
    medianScan h pos = t := by
  have key : ∀ m a, a + m = 256 → a ≤ t →
      scanBins h pos (List.range' a m) (∑ i ∈ Finset.range a, h i) = t := by
    intro m
    induction m with
    | zero => intro a ha hat'; omega
    | succ m ih =>
      intro a ha hle
      rw [List.range'_succ]
      unfold scanBins
      rw [← Finset.sum_range_succ,
        wrapInt32_of_range _ (hrange (a + 1) (by omega)).1 (hrange (a + 1) (by omega)).2]
      by_cases hgt : (∑ i ∈ Finset.range (a + 1), h i) > pos
      · rw [if_pos hgt]
        by_contra hne
        have hlt : a < t := by omega
        have := hbelow a hlt
        omega
      · rw [if_neg hgt]
        have hne : a ≠ t := by
          intro e
          subst e
          exact hgt hat
        exact ih (a + 1) (by omega) (by omega)
  have := key 256 0 (by omega) (by omega)
  unfold medianScan
  rw [List.range_eq_range']
  simpa using this

/-- The cumulative histogram of a list up to bin `j` counts the samples of
value at most `j`. -/
theorem sum_countOf_range (S : List Byte) (j : Nat) :
    ∑ i ∈ Finset.range (j + 1), countOf S i =
      ((S.countP (fun b => decide (b.val ≤ j)) : Nat) : Int) := by
  induction S with
  | nil => simp [countOf_nil]
  | cons b l ih =>
    have hsplit : ∑ i ∈ Finset.range (j + 1), countOf (b :: l) i =
        ∑ i ∈ Finset.range (j + 1), countOf l i +
          ∑ i ∈ Finset.range (j + 1), (if i = b.val then (1 : Int) else 0) := by
      rw [← Finset.sum_add_distrib]
      exact Finset.sum_congr rfl (fun i _ => countOf_cons b l i)
    rw [hsplit, ih, List.countP_cons, Finset.sum_ite_eq' (Finset.range (j + 1)) b.val
      (fun _ => (1 : Int))]
    by_cases hb : b.val ≤ j
    · rw [if_pos (Finset.mem_range.mpr (by omega)), if_pos (decide_eq_true hb)]
      push_cast
      rfl
    · rw [if_neg (by rw [Finset.mem_range]; omega), if_neg (by simpa using hb)]
      push_cast
      rfl

/-- In an ascending list, more than `pos` entries are at most `j` exactly
when the entry at position `pos` is. -/
theorem sorted_countP_le_iff (s : List Byte) (hs : s.Sorted (· ≤ ·)) (pos : Nat)
    (hpos : pos < s.length) (j : Nat) :
    pos < s.countP (fun b => decide (b.val ≤ j)) ↔ (s.getD pos 0).val ≤ j := by
  induction s generalizing pos with
  | nil => simp at hpos
  | cons a t ih =>
    have hs' := List.sorted_cons.mp hs
    rw [List.countP_cons]
    by_cases ha : a.val ≤ j
    · rw [if_pos (decide_eq_true ha)]
      cases pos with
      | zero =>
        constructor
        · intro _; exact ha
        · intro _; omega
      | succ p =>
        have hp : p < t.length := by simpa using hpos
        have := ih hs'.2 p hp
        show p + 1 < _ + 1 ↔ (t.getD p 0).val ≤ j
        rw [← this]
        omega
    · rw [if_neg (by simpa using ha)]
      have hall : ∀ b ∈ a :: t, ¬ b.val ≤ j := by
        intro b hb
        rcases List.mem_cons.mp hb with rfl | hb
        · exact ha
        · have : a ≤ b := hs'.1 b hb
          have : a.val ≤ b.val := this
          omega
      have hzero : t.countP (fun b => decide (b.val ≤ j)) = 0 := by
        rw [List.countP_eq_zero]
        intro b hb
        simpa using hall b (List.mem_cons_of_mem a hb)
      rw [hzero]
      constructor
      · intro h; omega
      · intro h
        exfalso
        have hmem : (a :: t).getD pos 0 ∈ a :: t := by
          rw [List.getD_eq_getElem _ _ hpos]
          exact List.getElem_mem _
        exact hall _ hmem h

theorem countOf_le_length (l : List Byte) (i : Nat) : countOf l i ≤ (l.length : Int) := by
  unfold countOf
  exact_mod_cast List.countP_le_length _

/-- The histogram of fewer than `2^31` samples fits the 32-bit bins. -/
theorem wrapHist_countOf (S : List Byte) (hS : S.length < 2147483648) :
    wrapHist (countOf S) = countOf S := by
  funext i
  have h0 := countOf_nonneg S i
  have h1 := countOf_le_length S i
  exact wrapInt32_of_range _ (by omega) (by omega)

/-- The cumulative counts of the histogram of fewer than `2^31` samples are
in the range of `int`. -/
theorem countOf_partial_range (S : List Byte) (hS : S.length < 2147483648) (a : Nat) :
    -2147483648 ≤ ∑ i ∈ Finset.range a, countOf S i ∧
      ∑ i ∈ Finset.range a, countOf S i < 2147483648 := by
  cases a with
  | zero => simp
  | succ j =>
    rw [sum_countOf_range]
    have := List.countP_le_length (fun b => decide (b.val ≤ j)) (l := S)
    omega

/-- The scan of the histogram of a list of fewer than `2^31` samples returns
the entry at position `pos` of the ascending sort of the list. -/
theorem medianScan_countOf (S : List Byte) (hS : S.length < 2147483648) (pos : Nat)
    (hpos : pos < S.length) :
    toByte (medianScan (countOf S) (pos : Int)) = (S.insertionSort (· ≤ ·)).getD pos 0 := by
  have hperm : (S.insertionSort (· ≤ ·)).Perm S := List.perm_insertionSort _ S
  have hsorted : (S.insertionSort (· ≤ ·)).Sorted (· ≤ ·) := List.sorted_insertionSort _ S
  have hlen : pos < (S.insertionSort (· ≤ ·)).length := by rw [hperm.length_eq]; exact hpos
  have hcount : ∀ j, S.countP (fun b => decide (b.val ≤ j)) =
      (S.insertionSort (· ≤ ·)).countP (fun b => decide (b.val ≤ j)) :=
    fun j => (hperm.countP_eq _).symm
  have ht : ((S.insertionSort (· ≤ ·)).getD pos 0).val < 256 := Fin.isLt _
  have hscan : medianScan (countOf S) (pos : Int) = ((S.insertionSort (· ≤ ·)).getD pos 0).val := by
    apply scanBins_finds _ _ _ ht
    · exact fun a _ => countOf_partial_range S hS a
    · intro j hj
      rw [sum_countOf_range, hcount]
      have := (sorted_countP_le_iff _ hsorted pos hlen j).not.mpr (by omega)
      exact_mod_cast Nat.le_of_not_lt this
    · rw [sum_countOf_range, hcount]
      have := (sorted_countP_le_iff _ hsorted pos hlen
        ((S.insertionSort (· ≤ ·)).getD pos 0).val).mpr (le_refl _)
      exact_mod_cast this
  rw [hscan]
  exact Fin.ext (toByte_val_of_lt ht)

/-! ## The histogram loops of the median blur -/

/-- The checked accessor at in-range integer coordinates of a single-channel
volume. -/
theorem getVoxel_of_inRange (v : Volume) (hc : v.channels = 1) (nx ny nz : Int)
    (hx : 0 ≤ nx ∧ nx < v.width) (hy : 0 ≤ ny ∧ ny < v.height) (hz : 0 ≤ nz ∧ nz < v.depth) :
    v.getVoxel nx ny nz = .ok (v.voxel nx.toNat ny.toNat nz.toNat) := by
  obtain ⟨hx0, hx1⟩ := hx
  obtain ⟨hy0, hy1⟩ := hy
  obtain ⟨hz0, hz1⟩ := hz
  lift nx to ℕ using hx0
  lift ny to ℕ using hy0
  lift nz to ℕ using hz0
  rw [Int.toNat_ofNat, Int.toNat_ofNat, Int.toNat_ofNat]
  exact Volume.getVoxel_eq_voxel v hc (Int.ofNat_lt.mp hx1) (Int.ofNat_lt.mp hy1)
    (Int.ofNat_lt.mp hz1)

/-- Two nested loops whose body reads a value, without failure on the lists
looped over, and updates the state with it. -/
theorem nested2_foldlM_ok {ε ι κ σ β : Type} (l1 : List ι) (l2 : List κ)
    (read : ι → κ → Except ε β) (val : ι → κ → β) (upd : σ → β → σ)
    (hread : ∀ a ∈ l1, ∀ b ∈ l2, read a b = .ok (val a b)) (init : σ) :
    l1.foldlM (fun s a => l2.foldlM (fun s b => do
        let x ← read a b
        pure (upd s x)) s) init =
      .ok ((l1.flatMap fun a => l2.map (val a)).foldl upd init) := by
  rw [← foldl_flatMap_eq]
  apply foldlM_eq_ok_foldl
  intro a ha s
  rw [List.foldl_map]
  apply foldlM_eq_ok_foldl
  intro b hb s2
  rw [hread a ha b hb]
  rfl

/-- Three nested loops whose body reads a value, without failure on the
lists looped over, and updates the state with it. -/
theorem nested3_foldlM_ok {ε ι κ μ σ β : Type} (l1 : List ι) (l2 : List κ) (l3 : List μ)
    (read : ι → κ → μ → Except ε β) (val : ι → κ → μ → β) (upd : σ → β → σ)
    (hread : ∀ a ∈ l1, ∀ b ∈ l2, ∀ c ∈ l3, read a b c = .ok (val a b c)) (init : σ) :
    l1.foldlM (fun s a => l2.foldlM (fun s b => l3.foldlM (fun s c => do
        let x ← read a b c
        pure (upd s x)) s) s) init =
      .ok ((l1.flatMap fun a => l2.flatMap fun b => l3.map (val a b)).foldl upd init) := by
  rw [← foldl_flatMap_eq]
  apply foldlM_eq_ok_foldl
  intro a ha s
  rw [← foldl_flatMap_eq]
  apply foldlM_eq_ok_foldl
  intro b hb s2
  rw [List.foldl_map]
  apply foldlM_eq_ok_foldl
  intro c hc s3
  rw [hread a ha b hb c hc]
  rfl

/-- The column update of the slide step succeeds on an in-range column and
applies the update to every sample of the column. -/
theorem updateColumn_ok (v : Volume) (hc : v.channels = 1) (hh : 1 ≤ v.height)
    (hd : 1 ≤ v.depth) (r : Nat) (y z : Nat) (nx : Int) (hnx : 0 ≤ nx ∧ nx < v.width)
    (upd : Histogram → Byte → Histogram) (hist : Histogram) :
    updateColumn v (r : Int) y z nx upd hist =
      .ok ((columnSamples v r nx.toNat y z).foldl upd hist) := by
  have key := nested2_foldlM_ok (intRange (-(r : Int)) r) (intRange (-(r : Int)) r)
    (fun dz dy => v.getVoxel nx
      (max 0 (min ((y : Int) + dy) ((v.height : Int) - 1)))
      (max 0 (min ((z : Int) + dz) ((v.depth : Int) - 1))))
    (fun dz dy => v.voxel nx.toNat
      (clamp ((y : Int) + dy) 0 ((v.height : Int) - 1)).toNat
      (clamp ((z : Int) + dz) 0 ((v.depth : Int) - 1)).toNat)
    upd ?_ hist
  · exact key
  · intro dz _ dy _
    simp only []
    rw [clamp_eq_max_min _ _ (by omega), clamp_eq_max_min _ _ (by omega)]
    exact getVoxel_of_inRange v hc _ _ _ hnx (by omega) (by omega)

/-- The histogram built for the first window of a row is the histogram of
the window samples at `x = 0`, as 32-bit bins hold it. -/
theorem firstWindowHistogram_ok (v : Volume) (hc : v.channels = 1) (hw : 1 ≤ v.width)
    (hh : 1 ≤ v.height) (hd : 1 ≤ v.depth) (r : Nat) (y z : Nat) :
    firstWindowHistogram v (r : Int) y z =
      .ok (wrapHist (countOf (windowSamples v r 0 y z))) := by
  have key := nested3_foldlM_ok (intRange (-(r : Int)) r) (intRange (-(r : Int)) r)
    (intRange (-(r : Int)) r)
    (fun dz dy dx => v.getVoxel
      (max 0 (min dx ((v.width : Int) - 1)))
      (max 0 (min ((y : Int) + dy) ((v.height : Int) - 1)))
      (max 0 (min ((z : Int) + dz) ((v.depth : Int) - 1))))
    (fun dz dy dx => v.voxel
      (clamp (((0 : Nat) : Int) + dx) 0 ((v.width : Int) - 1)).toNat
      (clamp ((y : Int) + dy) 0 ((v.height : Int) - 1)).toNat
      (clamp ((z : Int) + dz) 0 ((v.depth : Int) - 1)).toNat)
    histInc ?_ (fun _ => 0)
  · have e : firstWindowHistogram v (r : Int) y z =
        .ok ((windowSamples v r 0 y z).foldl histInc (fun _ => 0)) := key
    rw [e, foldl_histInc _ _ (fun _ => wrapInt32_of_range 0 (by omega) (by omega))]
    refine congrArg Except.ok (funext fun i => ?_)
    show wrapInt32 (0 + countOf _ i) = wrapInt32 (countOf _ i)
    rw [Int.zero_add]
  · intro dz _ dy _ dx _
    simp only []
    rw [clamp_eq_max_min _ _ (by omega), clamp_eq_max_min _ _ (by omega),
      clamp_eq_max_min _ _ (by omega)]
    have e0 : ((0 : Nat) : Int) + dx = dx := by simp
    rw [e0]
    exact getVoxel_of_inRange v hc _ _ _ (by omega) (by omega) (by omega)

/-! ## Sliding the window by one column -/

theorem countOf_map {ι : Type} (l : List ι) (g : ι → Byte) (i : Nat) :
    countOf (l.map g) i = (l.map (fun a => countOf [g a] i)).sum := by
  induction l with
  | nil => rfl
  | cons a t ih =>
    rw [List.map_cons, countOf_cons, ih, List.map_cons, List.sum_cons, countOf_singleton]
    omega

/-- A row of `n` consecutive samples shifted by one position loses its
first sample and gains the one after its last. -/
theorem countOf_shift_row (G : Int → Byte) (a : Int) (n i : Nat) :
    countOf ((List.range n).map (fun (j : Nat) => G (a + 1 + (j : Int)))) i + countOf [G a] i =
      countOf ((List.range n).map (fun (j : Nat) => G (a + (j : Int)))) i +
        countOf [G (a + (n : Int))] i := by
  have hall : countOf ((List.range (n + 1)).map (fun (j : Nat) => G (a + (j : Int)))) i =
      countOf ((List.range n).map (fun (j : Nat) => G (a + (j : Int)))) i +
        countOf [G (a + (n : Int))] i := by
    rw [List.range_succ, List.map_append, countOf_append]
    rfl
  have hall' : countOf ((List.range (n + 1)).map (fun (j : Nat) => G (a + (j : Int)))) i =
      countOf ((List.range n).map (fun (j : Nat) => G (a + 1 + (j : Int)))) i +
        countOf [G a] i := by
    rw [List.range_succ_eq_map, List.map_cons, List.map_map, countOf_cons, countOf_singleton]
    have e0 : a + ((0 : Nat) : Int) = a := by simp
    rw [e0]
    have ef : ((fun (j : Nat) => G (a + (j : Int))) ∘ Nat.succ) =
        fun (j : Nat) => G (a + 1 + (j : Int)) := by
      funext j
      show G (a + ((j + 1 : Nat) : Int)) = G (a + 1 + (j : Int))
      congr 1
      push_cast
      ring
    rw [ef]
  rw [← hall, hall']

/-- Pointwise equal double sums. -/
theorem sum2_add_congr {ι κ : Type} (l1 : List ι) (l2 : List κ) (A B C D : ι → κ → Int)
    (h : ∀ a b, A a b + B a b = C a b + D a b) :
    (l1.map fun a => (l2.map fun b => A a b).sum).sum +
        (l1.map fun a => (l2.map fun b => B a b).sum).sum =
      (l1.map fun a => (l2.map fun b => C a b).sum).sum +
        (l1.map fun a => (l2.map fun b => D a b).sum).sum := by
  rw [← List.sum_map_add, ← List.sum_map_add]
  congr 1
  apply List.map_congr_left
  intro a _
  rw [← List.sum_map_add, ← List.sum_map_add]
  congr 1
  apply List.map_congr_left
  intro b _
  exact h a b

theorem countOf_windowSamples (v : Volume) (r x y z i : Nat) :
    countOf (windowSamples v r x y z) i =
      ((intRange (-(r : Int)) r).map fun dz => ((intRange (-(r : Int)) r).map fun dy =>
        countOf ((List.range (2 * r + 1)).map fun (j : Nat) =>
          v.voxel (clamp ((x : Int) - r + (j : Int)) 0 ((v.width : Int) - 1)).toNat
            (clamp ((y : Int) + dy) 0 ((v.height : Int) - 1)).toNat
            (clamp ((z : Int) + dz) 0 ((v.depth : Int) - 1)).toNat) i).sum).sum := by
  unfold windowSamples
  rw [countOf_flatMap]
  congr 1
  apply List.map_congr_left
  intro dz _
  rw [countOf_flatMap]
  congr 1
  apply List.map_congr_left
  intro dy _
  congr 1
  unfold intRange
  rw [List.map_map]
  have hn : ((r : Int) + 1 - -(r : Int)).toNat = 2 * r + 1 := by omega
  rw [hn]
  apply List.map_congr_left
  intro j _
  show v.voxel (clamp ((x : Int) + (-(r : Int) + (j : Int))) 0 _).toNat _ _ = _
  have e : (x : Int) + (-(r : Int) + (j : Int)) = (x : Int) - r + (j : Int) := by ring
  rw [e]

theorem countOf_columnSamples (v : Volume) (r nx y z i : Nat) :
    countOf (columnSamples v r nx y z) i =
      ((intRange (-(r : Int)) r).map fun dz => ((intRange (-(r : Int)) r).map fun dy =>
        countOf [v.voxel nx (clamp ((y : Int) + dy) 0 ((v.height : Int) - 1)).toNat
          (clamp ((z : Int) + dz) 0 ((v.depth : Int) - 1)).toNat] i).sum).sum := by
  unfold columnSamples
  rw [countOf_flatMap]
  congr 1
  apply List.map_congr_left
  intro dz _
  rw [countOf_map]

/-- The window at `x + 1` is the window at `x` without the column
`max(0, x - r)` and with the column `min(width - 1, x + 1 + r)`. -/
theorem countOf_window_slide (v : Volume) (r x y z i : Nat) (hx : x + 1 < v.width) :
    countOf (windowSamples v r (x + 1) y z) i +
        countOf (columnSamples v r (max 0 ((x : Int) - r)).toNat y z) i =
      countOf (windowSamples v r x y z) i +
        countOf (columnSamples v r
          (min ((v.width : Int) - 1) ((x : Int) + 1 + r)).toNat y z) i := by
  rw [countOf_windowSamples, countOf_windowSamples, countOf_columnSamples,
    countOf_columnSamples]
  apply sum2_add_congr
  intro dz dy
  have hold : (max 0 ((x : Int) - r)).toNat =
      (clamp ((x : Int) - r) 0 ((v.width : Int) - 1)).toNat := by
    rw [clamp_eq_max_min _ _ (by omega)]
    congr 1
    omega
  have hnew : (min ((v.width : Int) - 1) ((x : Int) + 1 + r)).toNat =
      (clamp ((x : Int) - r + ((2 * r + 1 : Nat) : Int)) 0 ((v.width : Int) - 1)).toNat := by
    rw [clamp_eq_max_min _ _ (by omega)]
    congr 1
    push_cast
    omega
  rw [hold, hnew]
  have key := countOf_shift_row
    (fun t => v.voxel (clamp t 0 ((v.width : Int) - 1)).toNat
      (clamp ((y : Int) + dy) 0 ((v.height : Int) - 1)).toNat
      (clamp ((z : Int) + dz) 0 ((v.depth : Int) - 1)).toNat)
    ((x : Int) - r) (2 * r + 1) i
  have e1 : (((x + 1 : Nat) : Int) - r) = (x : Int) - r + 1 := by push_cast; ring
  rw [e1]
  exact key

/-! ## A row of the median blur -/

/-- Invariant rule for a loop whose body may throw: when every body started
in a state satisfying the invariant returns and re-establishes it, the loop
returns in a state satisfying it. -/
theorem foldlM_invariant_ok {ε σ α : Type} (f : σ → α → Except ε σ) (l : List α)
    (P : Nat → σ → Prop) (init : σ) (h0 : P 0 init)
    (hstep : ∀ k (hk : k < l.length) s, P k s → ∃ s', f s (l.get ⟨k, hk⟩) = .ok s' ∧ P (k + 1) s') :
    ∃ r, l.foldlM f init = .ok r ∧ P l.length r := by
  induction l generalizing P init with
  | nil => exact ⟨init, rfl, h0⟩
  | cons a t ih =>
    obtain ⟨s1, hs1, hP1⟩ := hstep 0 (by simp) init h0
    obtain ⟨r, hr, hPr⟩ := ih (fun k s => P (k + 1) s) s1 hP1
      (fun k hk s hs => hstep (k + 1) (by simpa using hk) s hs)
    refine ⟨r, ?_, hPr⟩
    rw [List.foldlM_cons]
    have e : f init a = .ok s1 := hs1
    rw [e]
    exact hr

theorem ok_bind {ε α β : Type} (a : α) (f : α → Except ε β) :
    (Except.ok a >>= f) = f a := rfl

/-- The slide step from the window at `x` to the window at `x + 1`, on
32-bit bins. -/
theorem slideWindow_ok (v : Volume) (hc : v.channels = 1) (hh : 1 ≤ v.height)
    (hd : 1 ≤ v.depth) (r : Nat) (pos : Int) (y z x : Nat) (hx : x + 1 < v.width)
    (st : Histogram × List Byte) (hst : st.1 = wrapHist (countOf (windowSamples v r x y z))) :
    slideWindow v (r : Int) pos y z st (x + 1) =
      .ok (wrapHist (countOf (windowSamples v r (x + 1) y z)),
        st.2.set (z * v.width * v.height + y * v.width + (x + 1))
          (toByte (medianScan (wrapHist (countOf (windowSamples v r (x + 1) y z))) pos))) := by
  have eold : max 0 (((x + 1 : Nat) : Int) - (r : Int) - 1) = max 0 ((x : Int) - r) := by
    congr 1
    push_cast
    ring
  have enew : min ((v.width : Int) - 1) (((x + 1 : Nat) : Int) + (r : Int)) =
      min ((v.width : Int) - 1) ((x : Int) + 1 + r) := by
    congr 1
  have hhist : (columnSamples v r (min ((v.width : Int) - 1) ((x : Int) + 1 + r)).toNat
      y z).foldl histInc
        ((columnSamples v r (max 0 ((x : Int) - r)).toNat y z).foldl histDec st.1) =
      wrapHist (countOf (windowSamples v r (x + 1) y z)) := by
    have hwrap : ∀ i, wrapInt32 (st.1 i) = st.1 i := by
      intro i
      rw [hst]
      exact wrapInt32_idem _
    rw [foldl_histDec _ _ hwrap, foldl_histInc _ _ (fun i => wrapInt32_idem _), hst]
    funext i
    have := countOf_window_slide v r x y z i hx
    show wrapInt32 (wrapInt32 (wrapInt32 (countOf (windowSamples v r x y z) i) - _) + _) =
      wrapInt32 (countOf (windowSamples v r (x + 1) y z) i)
    rw [wrapInt32_slide]
    congr 1
    omega
  unfold slideWindow
  dsimp only []
  rw [eold, enew, updateColumn_ok v hc hh hd r y z _ (by omega), ok_bind,
    updateColumn_ok v hc hh hd r y z _ (by omega), ok_bind, hhist]
  rfl

/-- A row of the median blur on a buffer that holds the row: the call
returns, keeps the length of the buffer, stores at `base + x` the scan of
the histogram of the window at `x`, and leaves the positions outside the
row as they were. -/
theorem medianRow_ok (v : Volume) (hc : v.channels = 1) (hw : 1 ≤ v.width)
    (hh : 1 ≤ v.height) (hd : 1 ≤ v.depth) (r : Nat) (pos : Int) (y z : Nat)
    (newData : List Byte)
    (hroom : z * v.width * v.height + y * v.width + v.width ≤ newData.length) :
    ∃ out, medianRow v (r : Int) pos z y newData = .ok out ∧
      out.length = newData.length ∧
      (∀ x, x < v.width → out.getD (z * v.width * v.height + y * v.width + x) 0 =
        toByte (medianScan (wrapHist (countOf (windowSamples v r x y z))) pos)) ∧
      (∀ idx, idx < z * v.width * v.height + y * v.width ∨
          z * v.width * v.height + y * v.width + v.width ≤ idx →
        out.getD idx 0 = newData.getD idx 0) := by
  generalize hbase : z * v.width * v.height + y * v.width = base at hroom ⊢
  have hloop := foldlM_invariant_ok (slideWindow v (r : Int) pos y z)
    (List.range' 1 (v.width - 1))
    (fun k (st : Histogram × List Byte) =>
      st.1 = wrapHist (countOf (windowSamples v r k y z)) ∧ st.2.length = newData.length ∧
      (∀ x, x ≤ k → st.2.getD (base + x) 0 =
        toByte (medianScan (wrapHist (countOf (windowSamples v r x y z))) pos)) ∧
      (∀ idx, idx < base ∨ base + v.width ≤ idx → st.2.getD idx 0 = newData.getD idx 0))
    (wrapHist (countOf (windowSamples v r 0 y z)),
      newData.set base (toByte (medianScan (wrapHist (countOf (windowSamples v r 0 y z))) pos)))
    ?_ ?_
  · obtain ⟨moved, hmoved, h1, h2, h3, h4⟩ := hloop
    rw [List.length_range'] at h1 h3
    refine ⟨moved.2, ?_, h2, fun x hx => h3 x (by omega), h4⟩
    unfold medianRow
    rw [firstWindowHistogram_ok v hc hw hh hd r y z, ok_bind]
    dsimp only []
    rw [hbase, hmoved, ok_bind]
    rfl
  · refine ⟨rfl, by simp, ?_, ?_⟩
    · intro x hx
      have hx0 : x = 0 := by omega
      subst hx0
      exact getD_set_self _ _ _ _ (by omega)
    · intro idx hidx
      exact getD_set_of_ne _ _ _ (by omega)
  · intro k hk st ⟨hs1, hs2, hs3, hs4⟩
    rw [List.length_range'] at hk
    have hget : (List.range' 1 (v.width - 1)).get ⟨k, by rw [List.length_range']; exact hk⟩ =
        k + 1 := by
      show (List.range' 1 (v.width - 1))[k] = k + 1
      rw [List.getElem_range']
      omega
    rw [hget, slideWindow_ok v hc hh hd r pos y z k (by omega) st hs1, hbase]
    refine ⟨_, rfl, rfl, by simpa using hs2, ?_, ?_⟩
    · intro x hx
      rcases Nat.lt_succ_iff_lt_or_eq.mp (Nat.lt_succ_of_le hx) with hlt | heq
      · show List.getD (st.2.set _ _) _ _ = _
        rw [getD_set_of_ne _ _ _ (by omega)]
        exact hs3 x (by omega)
      · subst heq
        exact getD_set_self _ _ _ _ (by omega)
    · intro idx hidx
      show List.getD (st.2.set _ _) _ _ = _
      rw [getD_set_of_ne _ _ _ (by omega)]
      exact hs4 idx hidx

/-! ## The median blur -/

theorem length_intRange (lo hi : Int) : (intRange lo hi).length = (hi + 1 - lo).toNat := by
  unfold intRange
  rw [List.length_map, List.length_range]

theorem length_flatMap_const {ι β : Type} (l : List ι) (g : ι → List β) (c : Nat)
    (h : ∀ a ∈ l, (g a).length = c) : (l.flatMap g).length = l.length * c := by
  induction l with
  | nil => simp
  | cons a t ih =>
    rw [List.flatMap_cons, List.length_append, h a (List.mem_cons_self a t),
      ih (fun b hb => h b (List.mem_cons_of_mem a hb)), List.length_cons]
    ring

/-- The window of radius `r` holds `(2 r + 1)^3` samples. -/
theorem length_windowSamples (v : Volume) (r x y z : Nat) :
    (windowSamples v r x y z).length = (2 * r + 1) ^ 3 := by
  have hn : (intRange (-(r : Int)) r).length = 2 * r + 1 := by
    rw [length_intRange]; omega
  unfold windowSamples
  rw [length_flatMap_const _ _ ((2 * r + 1) * (2 * r + 1)), hn]
  · ring
  · intro dz _
    rw [length_flatMap_const _ _ (2 * r + 1), hn]
    intro dy _
    rw [List.length_map, hn]

theorem row_room {w h d y z : Nat} (hy : y < h) (hz : z < d) :
    z * w * h + y * w + w ≤ w * h * d := by
  have h1 : (y + 1) * w ≤ h * w := Nat.mul_le_mul_right w hy
  have h2 : (z + 1) * (w * h) ≤ d * (w * h) := Nat.mul_le_mul_right (w * h) hz
  have e1 : (y + 1) * w = y * w + w := by ring
  have e2 : (z + 1) * (w * h) = z * w * h + h * w := by ring
  have e3 : d * (w * h) = w * h * d := by ring
  omega

theorem earlier_slice_lt {w h x' y' z' y z : Nat} (hx : x' < w) (hy : y' < h) (hz : z' < z) :
    z' * w * h + y' * w + x' < z * w * h + y * w := by
  have h1 : (y' + 1) * w ≤ h * w := Nat.mul_le_mul_right w hy
  have h2 : (z' + 1) * (w * h) ≤ z * (w * h) := Nat.mul_le_mul_right (w * h) hz
  have e1 : (y' + 1) * w = y' * w + w := by ring
  have e2 : (z' + 1) * (w * h) = z' * w * h + h * w := by ring
  have e3 : z * (w * h) = z * w * h := by ring
  omega

theorem earlier_row_lt {w x' y' y : Nat} (b : Nat) (hx : x' < w) (hy : y' < y) :
    b + y' * w + x' < b + y * w := by
  have h1 : (y' + 1) * w ≤ y * w := Nat.mul_le_mul_right w hy
  have e1 : (y' + 1) * w = y' * w + w := by ring
  omega

/-- The loops `for z, for y` of the median blur return a buffer of the same
length that holds, at `z * width * height + y * width + x`, the scan of the
histogram of the window at `(x, y, z)` of the volume. -/
theorem medianRows_ok (v : Volume) (hc : v.channels = 1) (hw : 1 ≤ v.width)
    (hh : 1 ≤ v.height) (hd : 1 ≤ v.depth) (hinv : v.LengthInv) (r : Nat) (pos : Int) :
    ∃ out, (List.range v.depth).foldlM (fun newData (z : Nat) =>
        (List.range v.height).foldlM (fun newData (y : Nat) =>
          medianRow v (r : Int) pos z y newData) newData)
        (List.replicate v.data.length 0) = .ok out ∧
      out.length = v.data.length ∧
      ∀ x y z, x < v.width → y < v.height → z < v.depth →
        out.getD (z * v.width * v.height + y * v.width + x) 0 =
          toByte (medianScan (wrapHist (countOf (windowSamples v r x y z))) pos) := by
  have houter := foldlM_invariant_ok
    (fun newData (z : Nat) => (List.range v.height).foldlM (fun newData (y : Nat) =>
      medianRow v (r : Int) pos z y newData) newData)
    (List.range v.depth)
    (fun k (buf : List Byte) => buf.length = v.data.length ∧
      ∀ x y z, x < v.width → y < v.height → z < k →
        buf.getD (z * v.width * v.height + y * v.width + x) 0 =
          toByte (medianScan (wrapHist (countOf (windowSamples v r x y z))) pos))
    (List.replicate v.data.length 0) ⟨by simp, fun x y z _ _ hz => absurd hz (Nat.not_lt_zero z)⟩
    ?_
  · obtain ⟨out, hrun, hlen, hval⟩ := houter
    rw [List.length_range] at hval
    exact ⟨out, hrun, hlen, hval⟩
  · intro k hk buf ⟨hlen, hprev⟩
    rw [List.length_range] at hk
    have hgetk : (List.range v.depth).get ⟨k, by rw [List.length_range]; exact hk⟩ = k := by
      show (List.range v.depth)[k] = k
      rw [List.getElem_range]
    rw [hgetk]
    have hinner := foldlM_invariant_ok
      (fun newData (y : Nat) => medianRow v (r : Int) pos k y newData)
      (List.range v.height)
      (fun j (b : List Byte) => b.length = v.data.length ∧
        (∀ x y z, x < v.width → y < v.height → z < k →
          b.getD (z * v.width * v.height + y * v.width + x) 0 =
            toByte (medianScan (wrapHist (countOf (windowSamples v r x y z))) pos)) ∧
        (∀ x y, x < v.width → y < j →
          b.getD (k * v.width * v.height + y * v.width + x) 0 =
            toByte (medianScan (wrapHist (countOf (windowSamples v r x y k))) pos)))
      buf ⟨hlen, hprev, fun x y _ hy => absurd hy (Nat.not_lt_zero y)⟩ ?_
    · obtain ⟨out, hrun, hl, hp, hrow⟩ := hinner
      rw [List.length_range] at hrow
      refine ⟨out, hrun, hl, ?_⟩
      intro x y z hx hy hz
      rcases Nat.lt_succ_iff_lt_or_eq.mp hz with hlt | heq
      · exact hp x y z hx hy hlt
      · subst heq
        exact hrow x y hx hy
    · intro j hj b ⟨bl, bp, brow⟩
      rw [List.length_range] at hj
      have hgetj : (List.range v.height).get ⟨j, by rw [List.length_range]; exact hj⟩ = j := by
        show (List.range v.height)[j] = j
        rw [List.getElem_range]
      rw [hgetj]
      obtain ⟨out, hrun, hl, hfill, hframe⟩ := medianRow_ok v hc hw hh hd r pos j k b
        (by rw [bl, hinv]; exact row_room hj hk)
      refine ⟨out, hrun, by rw [hl, bl], ?_, ?_⟩
      · intro x y z hx hy hz
        rw [hframe _ (Or.inl (earlier_slice_lt hx hy hz))]
        exact bp x y z hx hy hz
      · intro x y hx hy
        rcases Nat.lt_succ_iff_lt_or_eq.mp hy with hlt | heq
        · rw [hframe _ (Or.inl (earlier_row_lt _ hx hlt))]
          exact brow x y hx hlt
        · subst heq
          exact hfill x hx

/-- For a kernel size whose cube is below `2^31` the 32-bit product
`kernelSize * kernelSize * kernelSize` is the cube. -/
theorem cube_fits (k : Nat) (hb : k ^ 3 < 2 ^ 31) :
    wrapInt32 (wrapInt32 ((k : Int) * k) * k) = ((k ^ 3 : Nat) : Int) := by
  have h3 : k ^ 3 = k * k * k := by ring
  have hlit : (2 : Nat) ^ 31 = 2147483648 := by norm_num
  rw [h3, hlit] at hb
  have hsq : k * k < 2147483648 := by
    rcases Nat.eq_zero_or_pos k with h | h
    · subst h
      omega
    · have : k * k ≤ k * k * k := Nat.le_mul_of_pos_right _ h
      omega
  have e2 : wrapInt32 ((k : Int) * k) = ((k * k : Nat) : Int) := by
    rw [show (k : Int) * k = ((k * k : Nat) : Int) by push_cast; rfl]
    exact wrapInt32_of_range ((k * k : Nat) : Int) (by omega) (by omega)
  have e3 : wrapInt32 (((k * k : Nat) : Int) * k) = ((k * k * k : Nat) : Int) := by
    rw [show ((k * k : Nat) : Int) * k = ((k * k * k : Nat) : Int) by push_cast; rfl]
    exact wrapInt32_of_range ((k * k * k : Nat) : Int) (by omega) (by omega)
  rw [e2, e3, h3]

/-- For a kernel size whose cube is below `2^31` the threshold of the scan
is half the cube. -/
theorem medianPos_fits (k : Nat) (hb : k ^ 3 < 2 ^ 31) :
    (wrapInt32 (wrapInt32 ((k : Int) * k) * k)).tdiv 2 = ((k ^ 3 / 2 : Nat) : Int) := by
  rw [cube_fits k hb, show (2 : Int) = ((2 : Nat) : Int) from rfl, ← Int.ofNat_tdiv]

/-- The median blur with an odd kernel size of radius `r`, whatever the
size of the kernel: the call returns, keeps the length of the buffer and
stores at `(x, y, z)` the result of the scan of the 32-bit histogram of the
window with the 32-bit threshold. -/
theorem apply3DMedianBlur_scans (v : Volume) (hc : v.channels = 1)
    (hw : 1 ≤ v.width) (hh : 1 ≤ v.height) (hd : 1 ≤ v.depth) (hinv : v.LengthInv)
    (kernelSize : Int) (hodd : ¬ (kernelSize.tmod 2 = 0)) (r : Nat)
    (hrad : kernelSize.tdiv 2 = (r : Int)) :
    ∃ out, apply3DMedianBlur v kernelSize = (.ok (), { v with data := out }) ∧
      out.length = v.data.length ∧
      ∀ x y z, x < v.width → y < v.height → z < v.depth →
        out.getD (x + v.width * (y + v.height * z)) 0 =
          toByte (medianScan (wrapHist (countOf (windowSamples v r x y z)))
            ((wrapInt32 (wrapInt32 (kernelSize * kernelSize) * kernelSize)).tdiv 2)) := by
  obtain ⟨out, hrun, hlen, hval⟩ := medianRows_ok v hc hw hh hd hinv r
    ((wrapInt32 (wrapInt32 (kernelSize * kernelSize) * kernelSize)).tdiv 2)
  have hres : apply3DMedianBlur v kernelSize = (.ok (), { v with data := out }) := by
    unfold apply3DMedianBlur
    simp only []
    rw [if_neg hodd, hrad, hrun]
  refine ⟨out, hres, hlen, ?_⟩
  intro x y z hx hy hz
  have hidx : x + v.width * (y + v.height * z) = z * v.width * v.height + y * v.width + x := by
    ring
  rw [hidx, hval x y z hx hy hz]

/-- C11: `applyProjection3D` dispatches, for every volume and all integers
`zStart`, `zEnd`: for `MIP`, `MinIP` and `AIP` it returns the slab
projection with bounds `(max(zStart, 0), zEnd < 0 ? depth - 1 :
min(zEnd, depth - 1))` when `zStart > 0` or `zEnd >= 0` and the full-volume
projection otherwise; for `AIPMedian` it returns the full-volume
`AIPMedian` whatever the bounds are. -/
theorem applyProjection3D_dispatch (vol : Volume) (zStart zEnd : Int) :
    applyProjection3D vol "MIP" zStart zEnd =
        some (if zStart > 0 ∨ zEnd ≥ 0 then
          MIPSlab vol (max zStart 0)
            (if zEnd < 0 then (vol.depth : Int) - 1 else min zEnd ((vol.depth : Int) - 1))
          else MIP vol) ∧
      applyProjection3D vol "MinIP" zStart zEnd =
        some (if zStart > 0 ∨ zEnd ≥ 0 then
          MinIPSlab vol (max zStart 0)
            (if zEnd < 0 then (vol.depth : Int) - 1 else min zEnd ((vol.depth : Int) - 1))
          else MinIP vol) ∧
      applyProjection3D vol "AIP" zStart zEnd =
        some (if zStart > 0 ∨ zEnd ≥ 0 then
          AIPSlab vol (max zStart 0)
            (if zEnd < 0 then (vol.depth : Int) - 1 else min zEnd ((vol.depth : Int) - 1))
          else AIP vol) ∧
      applyProjection3D vol "AIPMedian" zStart zEnd = some (AIPMedian vol) := by
  refine ⟨?_, ?_, ?_, ?_⟩
  · unfold applyProjection3D
    rw [if_pos rfl]
    split <;> rfl
  · unfold applyProjection3D
    rw [if_neg (by decide), if_pos rfl]
    split <;> rfl
  · unfold applyProjection3D
    rw [if_neg (by decide), if_neg (by decide), if_pos rfl]
    split <;> rfl
  · unfold applyProjection3D
    rw [if_neg (by decide), if_neg (by decide), if_neg (by decide), if_pos rfl]

/-! ## Slices -/

/-- A slice loop whose reads are all in range produces a buffer of
`w * h` entries holding the value read for `(a, b)` at `b * w + a`. -/
theorem slice_fill (w h : Nat) (f : Nat → Nat → Except Exception Byte) (g : Nat → Nat → Byte)
    (hf : ∀ a b, a < w → b < h → f a b = .ok (g a b)) :
    ∃ out, fillXYM w h f (List.replicate (w * h) 0) = .ok out ∧ out.length = w * h ∧
      ∀ a b, a < w → b < h → out.getD (b * w + a) 0 = g a b := by
  refine ⟨fillXY w h g (List.replicate (w * h) 0), fillXYM_eq_ok w h f g _ hf, ?_, ?_⟩
  · exact (fillXY_spec w h g _ (List.length_replicate _ _)).1
  · intro a b ha hb
    rw [show b * w + a = a + w * b by ring]
    exact (fillXY_spec w h g _ (List.length_replicate _ _)).2 a b ha hb 0

theorem sliceXY_ok (vol : Volume) (hc : vol.channels = 1) (z : Nat) (hz : z < vol.depth) :
    ∃ out, sliceXY vol z = .ok out ∧ out.length = vol.width * vol.height ∧
      ∀ x y, x < vol.width → y < vol.height →
        out.getD (y * vol.width + x) 0 = vol.voxel x y z :=
  slice_fill vol.width vol.height _ (fun x y => vol.voxel x y z)
    (fun _ _ hx hy => Volume.getVoxel_eq_voxel vol hc hx hy hz)

theorem sliceXZ_ok (vol : Volume) (hc : vol.channels = 1) (y : Nat) (hy : y < vol.height) :
    ∃ out, sliceXZ vol y = .ok out ∧ out.length = vol.width * vol.depth ∧
      ∀ x z, x < vol.width → z < vol.depth →
        out.getD (z * vol.width + x) 0 = vol.voxel x y z :=
  slice_fill vol.width vol.depth _ (fun x z => vol.voxel x y z)
    (fun _ _ hx hz => Volume.getVoxel_eq_voxel vol hc hx hy hz)

theorem sliceYZ_ok (vol : Volume) (hc : vol.channels = 1) (x : Nat) (hx : x < vol.width) :
    ∃ out, sliceYZ vol x = .ok out ∧ out.length = vol.height * vol.depth ∧
      ∀ y z, y < vol.height → z < vol.depth →
        out.getD (z * vol.height + y) 0 = vol.voxel x y z :=
  slice_fill vol.height vol.depth _ (fun y z => vol.voxel x y z)
    (fun _ _ hy hz => Volume.getVoxel_eq_voxel vol hc hx hy hz)

/-- The three branches of `slice3D` on a volume with positive dimensions. -/
theorem slice3D_branches (vol : Volume) (hw : 1 ≤ vol.width) (hh : 1 ≤ vol.height)
    (hd : 1 ≤ vol.depth) (plane : String) (coordinate : Int) :
    (upperCase plane = "XY" → slice3D vol plane coordinate =
      if coordinate < 0 ∨ coordinate ≥ vol.depth then .error (.coordinateOutOfRange "Z")
      else (sliceXY vol coordinate).mapError SliceFailure.caught) ∧
    (upperCase plane = "XZ" → slice3D vol plane coordinate =
      if coordinate < 0 ∨ coordinate ≥ vol.height then .error (.coordinateOutOfRange "Y")
      else (sliceXZ vol coordinate).mapError SliceFailure.caught) ∧
    (upperCase plane = "YZ" → slice3D vol plane coordinate =
      if coordinate < 0 ∨ coordinate ≥ vol.width then .error (.coordinateOutOfRange "X")
      else (sliceYZ vol coordinate).mapError SliceFailure.caught) ∧
    (upperCase plane ≠ "XY" → upperCase plane ≠ "XZ" → upperCase plane ≠ "YZ" →
      slice3D vol plane coordinate = .error .unknownPlane) := by
  have hdim : ¬ (vol.width ≤ 0 ∨ vol.height ≤ 0 ∨ vol.depth ≤ 0) := by omega
  refine ⟨?_, ?_, ?_, ?_⟩
  · intro hp
    unfold slice3D
    rw [if_neg hdim]
    simp only []
    rw [if_pos hp]
  · intro hp
    unfold slice3D
    rw [if_neg hdim]
    simp only []
    rw [hp, if_neg (by decide), if_pos rfl]
  · intro hp
    unfold slice3D
    rw [if_neg hdim]
    simp only []
    rw [hp, if_neg (by decide), if_neg (by decide), if_pos rfl]
  · intro h1 h2 h3
    unfold slice3D
    rw [if_neg hdim]
    simp only []
    rw [if_neg h1, if_neg h2, if_neg h3]

theorem slice3D_invalid_dimensions (vol : Volume) (plane : String) (coordinate : Int)
    (h : ¬ (1 ≤ vol.width ∧ 1 ≤ vol.height ∧ 1 ≤ vol.depth)) :
    slice3D vol plane coordinate = .error .invalidDimensions := by
  have hdim : vol.width ≤ 0 ∨ vol.height ≤ 0 ∨ vol.depth ≤ 0 := by omega
  unfold slice3D
  rw [if_pos hdim]

/-- A loop that ends normally has run every iteration normally. -/
theorem range_foldlM_ok {ε σ : Type} (f : σ → Nat → Except ε σ) (init r : σ) (n : Nat)
    (h : (List.range n).foldlM f init = .ok r) :
    ∀ k, k < n → ∃ s s', (List.range k).foldlM f init = .ok s ∧ f s k = .ok s' := by
  induction n generalizing r with
  | zero => intro k hk; exact absurd hk (Nat.not_lt_zero k)
  | succ m ih =>
    rw [List.range_succ, List.foldlM_append] at h
    obtain ⟨s, hs, hstep⟩ := except_bind_ok h
    intro k hk
    rcases Nat.lt_succ_iff_lt_or_eq.mp hk with hlt | heq
    · exact ih s hs k hlt
    · subst heq
      cases hf : f s k with
      | error e =>
        rw [List.foldlM_cons, hf] at hstep
        cases hstep
      | ok s' => exact ⟨s, s', hs, hf⟩

/-- A loop that fails has run normally up to an iteration that failed. -/
theorem range_foldlM_error {ε σ : Type} (f : σ → Nat → Except ε σ) (init : σ) (e : ε) (n : Nat)
    (h : (List.range n).foldlM f init = .error e) :
    ∃ k s, k < n ∧ (List.range k).foldlM f init = .ok s ∧ f s k = .error e := by
  induction n with
  | zero => cases h
  | succ m ih =>
    rw [List.range_succ, List.foldlM_append] at h
    cases hm : (List.range m).foldlM f init with
    | error e' =>
      rw [hm] at h
      have e1 : e' = e := by cases h; rfl
      obtain ⟨k, s, hk, hs, hf⟩ := ih (by rw [hm, e1])
      exact ⟨k, s, Nat.lt_succ_of_lt hk, hs, hf⟩
    | ok s =>
      rw [hm] at h
      refine ⟨m, s, Nat.lt_succ_self m, hm, ?_⟩
      cases hf : f s m with
      | error e' =>
        have h2 : (Except.ok s >>= fun s => [m].foldlM f s) = Except.error e := h
        rw [ok_bind, List.foldlM_cons, hf] at h2
        exact h2
      | ok s' =>
        have h2 : (Except.ok s >>= fun s => [m].foldlM f s) = Except.error e := h
        rw [ok_bind, List.foldlM_cons, hf] at h2
        cases h2

/-- A loop in which an iteration fails after normal ones fails there. -/
theorem range_foldlM_fails {ε σ : Type} (f : σ → Nat → Except ε σ) (init s : σ) (e : ε)
    (k n : Nat) (hk : k < n) (hs : (List.range k).foldlM f init = .ok s)
    (hf : f s k = .error e) : (List.range n).foldlM f init = .error e := by
  induction n with
  | zero => exact absurd hk (Nat.not_lt_zero k)
  | succ m ih =>
    rw [List.range_succ, List.foldlM_append]
    rcases Nat.lt_succ_iff_lt_or_eq.mp hk with hlt | heq
    · rw [ih hlt]
      rfl
    · subst heq
      rw [hs, ok_bind, List.foldlM_cons, hf]
      rfl

/-! ## The directory scan of the loader -/

theorem parseSliceNumber_short (fname : String) (h : fname.data.length < 5) :
    parseSliceNumber fname = .ok none := by
  unfold parseSliceNumber
  simp only []
  rw [if_pos h]

/-- An entry that the scan passes without an exception adds the accepted
file of the specification, if it is one, to the list. -/
theorem scanEntry_ok (env : LoadEnv) (firstSlice lastSlice : Int) (actualDir prefixPart : String)
    (files files' : List (String × Int)) (fname : String)
    (h : scanEntry env firstSlice lastSlice actualDir prefixPart files fname = .ok files') :
    files' = files ++
      (acceptedFile env firstSlice lastSlice actualDir prefixPart fname).toList := by
  have hnone : candidateIndex env actualDir prefixPart fname = none →
      files ++ (acceptedFile env firstSlice lastSlice actualDir prefixPart fname).toList =
        files := by
    intro hc
    unfold acceptedFile
    rw [hc]
    simp
  unfold scanEntry at h
  by_cases hdot : fname = "." ∨ fname = ".."
  · rw [if_pos hdot] at h
    have hp : parseSliceNumber fname = .ok none := by
      apply parseSliceNumber_short
      rcases hdot with e | e <;> subst e <;> decide
    have hc : candidateIndex env actualDir prefixPart fname = none := by
      unfold candidateIndex
      rw [hp]
      split <;> rfl
    cases h
    exact (hnone hc).symm
  · rw [if_neg hdot] at h
    by_cases hpre : prefixPart ≠ "" ∧ ¬ prefixPart.data.isPrefixOf fname.data
    · rw [if_pos hpre] at h
      have hc : candidateIndex env actualDir prefixPart fname = none := by
        unfold candidateIndex
        rw [if_neg (fun hc => hpre.2 hc.1)]
      cases h
      exact (hnone hc).symm
    · rw [if_neg hpre] at h
      have hpre' : prefixPart.data.isPrefixOf fname.data = true := by
        by_cases he : prefixPart = ""
        · subst he
          show List.isPrefixOf [] fname.data = true
          cases fname.data <;> rfl
        · by_contra hn
          exact hpre ⟨he, hn⟩
      simp only [] at h
      by_cases hreg : env.isRegularFile (fullPathOf actualDir fname) = true
      · rw [if_pos hreg] at h
        cases hparse : parseSliceNumber fname with
        | error e =>
          rw [hparse] at h
          cases h
        | ok r =>
          rw [hparse] at h
          cases r with
          | none =>
            have hc : candidateIndex env actualDir prefixPart fname = none := by
              unfold candidateIndex
              rw [if_pos ⟨hpre', hreg⟩, hparse]
            cases h
            exact (hnone hc).symm
          | some i =>
            have hc : candidateIndex env actualDir prefixPart fname = some i := by
              unfold candidateIndex
              rw [if_pos ⟨hpre', hreg⟩, hparse]
            simp only [] at h
            unfold acceptedFile inSliceRange
            rw [hc]
            simp only []
            by_cases hr : i ≥ firstSlice ∧ (lastSlice < 0 ∨ i ≤ lastSlice)
            · rw [if_pos hr] at h
              rw [if_pos hr]
              cases h
              rfl
            · rw [if_neg hr] at h
              rw [if_neg hr]
              cases h
              simp
      · rw [if_neg hreg] at h
        have hc : candidateIndex env actualDir prefixPart fname = none := by
          unfold candidateIndex
          rw [if_neg (fun hc => hreg hc.2)]
        cases h
        exact (hnone hc).symm

theorem scan_foldlM_ok (env : LoadEnv) (firstSlice lastSlice : Int)
    (actualDir prefixPart : String) (entries : List String) (init files : List (String × Int))
    (h : entries.foldlM (scanEntry env firstSlice lastSlice actualDir prefixPart) init =
      .ok files) :
    files = init ++
      entries.filterMap (acceptedFile env firstSlice lastSlice actualDir prefixPart) := by
  induction entries generalizing init with
  | nil =>
    have e : Except.ok init = Except.ok files := h
    cases e
    simp
  | cons a t ih =>
    rw [List.foldlM_cons] at h
    obtain ⟨mid, hmid, hrest⟩ := except_bind_ok h
    rw [ih mid hrest, scanEntry_ok env firstSlice lastSlice actualDir prefixPart init mid a hmid]
    cases hacc : acceptedFile env firstSlice lastSlice actualDir prefixPart a with
    | none => simp [List.filterMap_cons, hacc]
    | some p => simp [List.filterMap_cons, hacc]

/-- A scan that ends without an exception has collected the accepted files
of the specification, in the order of the directory. -/
theorem scanDirectory_ok (env : LoadEnv) (firstSlice lastSlice : Int)
    (actualDir prefixPart : String) (entries : List String) (files : List (String × Int))
    (h : scanDirectory env firstSlice lastSlice actualDir prefixPart entries = .ok files) :
    files = entries.filterMap (acceptedFile env firstSlice lastSlice actualDir prefixPart) := by
  have := scan_foldlM_ok env firstSlice lastSlice actualDir prefixPart entries [] files h
  simpa using this

/-- The number of accepted files is the number of candidate entries whose
index lies in the slice range. -/
theorem length_filterMap_acceptedFile (env : LoadEnv) (firstSlice lastSlice : Int)
    (actualDir prefixPart : String) (entries : List String) :
    (entries.filterMap (acceptedFile env firstSlice lastSlice actualDir prefixPart)).length =
      acceptedCount env firstSlice lastSlice actualDir prefixPart entries := by
  unfold acceptedCount
  induction entries with
  | nil => rfl
  | cons a t ih =>
    rw [List.filterMap_cons, List.countP_cons, ← ih]
    have hacc : acceptedFile env firstSlice lastSlice actualDir prefixPart a =
        match candidateIndex env actualDir prefixPart a with
        | some i =>
          if inSliceRange firstSlice lastSlice i then some (fullPathOf actualDir a, i) else none
        | none => none := rfl
    cases hc : candidateIndex env actualDir prefixPart a with
    | none =>
      rw [hc] at hacc
      rw [hacc]
      simp
    | some i =>
      rw [hc] at hacc
      simp only [] at hacc
      by_cases hr : inSliceRange firstSlice lastSlice i
      · rw [if_pos hr] at hacc
        rw [hacc]
        simp [hr]
      · rw [if_neg hr] at hacc
        rw [hacc]
        simp [hr]

/-! ## The copy loops of the loader -/

/-- A loop nest over `(a, b)` that stores `val a b` at `idx a b`, for an
index that is injective on the rectangle and inside the buffer: the length
is kept, every `idx a b` holds `val a b` and every other entry is kept. -/
theorem scatter_spec {α : Type} (w h : Nat) (idx : Nat → Nat → Nat) (val : Nat → Nat → α)
    (data : List α)
    (hinj : ∀ a b a' b', a < w → b < h → a' < w → b' < h → idx a b = idx a' b' →
      a = a' ∧ b = b')
    (hlt : ∀ a b, a < w → b < h → idx a b < data.length) :
    let out := (List.range h).foldl
      (fun data b => (List.range w).foldl (fun data a => data.set (idx a b) (val a b)) data)
      data
    out.length = data.length ∧
      (∀ a b, a < w → b < h → ∀ d, out.getD (idx a b) d = val a b) ∧
      (∀ j, (∀ a b, a < w → b < h → j ≠ idx a b) → ∀ d, out.getD j d = data.getD j d) := by
  intro out
  have key := foldl_range_invariant
    (fun k (o : List α) => k ≤ h → (o.length = data.length ∧
      (∀ a b, a < w → b < k → ∀ d, o.getD (idx a b) d = val a b) ∧
      (∀ j, (∀ a b, a < w → b < k → j ≠ idx a b) → ∀ d, o.getD j d = data.getD j d)))
    (fun data b => (List.range w).foldl (fun data a => data.set (idx a b) (val a b)) data)
    data h
    (fun _ => ⟨rfl, fun a b _ hb => absurd hb (Nat.not_lt_zero b), fun _ _ _ => rfl⟩) ?_
  · exact key (Nat.le_refl h)
  · intro k o hk hP _
    obtain ⟨hl, hprev, hrest⟩ := hP (Nat.le_of_lt hk)
    have inner := foldl_range_invariant
      (fun i (o' : List α) => i ≤ w → (o'.length = data.length ∧
        (∀ a b, a < w → b < k → ∀ d, o'.getD (idx a b) d = val a b) ∧
        (∀ a, a < i → ∀ d, o'.getD (idx a k) d = val a k) ∧
        (∀ j, (∀ a b, a < w → b < k → j ≠ idx a b) → (∀ a, a < i → j ≠ idx a k) →
          ∀ d, o'.getD j d = data.getD j d)))
      (fun data a => data.set (idx a k) (val a k)) o w
      (fun _ => ⟨hl, hprev, fun a ha => absurd ha (Nat.not_lt_zero a),
        fun j hj _ d => hrest j hj d⟩) ?_
    · obtain ⟨il, iprev, irow, irest⟩ := inner (Nat.le_refl w)
      refine ⟨il, ?_, ?_⟩
      · intro a b ha hb d
        rcases Nat.lt_succ_iff_lt_or_eq.mp hb with hlt' | heq
        · exact iprev a b ha hlt' d
        · subst heq; exact irow a ha d
      · intro j hj d
        exact irest j (fun a b ha hb => hj a b ha (Nat.lt_succ_of_lt hb))
          (fun a ha => hj a k ha (Nat.lt_succ_self k)) d
    · intro i o' hi hQ _
      obtain ⟨ol, oprev, orow, orest⟩ := hQ (Nat.le_of_lt hi)
      refine ⟨by rw [List.length_set]; exact ol, ?_, ?_, ?_⟩
      · intro a b ha hb d
        rw [getD_set_of_ne]
        · exact oprev a b ha hb d
        · intro e
          have := (hinj i k a b hi hk ha (Nat.lt_trans hb hk) e).2
          omega
      · intro a ha d
        rcases Nat.lt_succ_iff_lt_or_eq.mp ha with hlt' | heq
        · rw [getD_set_of_ne]
          · exact orow a hlt' d
          · intro e
            have := (hinj i k a k hi hk (Nat.lt_trans hlt' hi) hk e).1
            omega
        · subst heq
          exact getD_set_self o' _ _ d (by rw [ol]; exact hlt a k hi hk)
      · intro j hj hrow d
        rw [getD_set_of_ne]
        · exact orest j hj (fun a ha => hrow a (Nat.lt_succ_of_lt ha)) d
        · exact fun e => hrow i (Nat.lt_succ_self i) e.symm

/-- The copy of slice `z` into a buffer of `width * height * depth`
samples: the length is kept, the samples of slice `z` are the pixels and
the samples of the other slices are kept. -/
theorem copySlice_spec (width height depth z : Nat) (hz : z < depth) (sliceData data : List Byte)
    (hlen : data.length = width * height * depth) :
    (copySlice width height z sliceData data).length = width * height * depth ∧
      (∀ x y, x < width → y < height →
        (copySlice width height z sliceData data).getD (x + width * (y + height * z)) 0 =
          sliceData.getD (y * width + x) 0) ∧
      (∀ x y z', x < width → y < height → z' ≠ z →
        (copySlice width height z sliceData data).getD (x + width * (y + height * z')) 0 =
          data.getD (x + width * (y + height * z')) 0) := by
  have key := scatter_spec width height (fun col row => col + width * (row + height * z))
    (fun col row => sliceData.getD (row * width + col) 0) data
    (fun a b a' b' ha hb ha' hb' e =>
      ⟨(flat_index_inj ha hb ha' hb' e).1, (flat_index_inj ha hb ha' hb' e).2.1⟩)
    (fun a b ha hb => by rw [hlen]; exact flat_index_lt ha hb hz)
  obtain ⟨kl, kval, krest⟩ := key
  refine ⟨by rw [← hlen]; exact kl, fun x y hx hy => kval x y hx hy 0, ?_⟩
  intro x y z' hx hy hne
  apply krest
  intro a b ha hb e
  exact hne (flat_index_inj hx hy ha hb e).2.2

theorem copySlice_length (width height z : Nat) (sliceData data : List Byte) :
    (copySlice width height z sliceData data).length = data.length := by
  unfold copySlice
  apply foldl_range_invariant (fun _ (o : List Byte) => o.length = data.length)
  · rfl
  · intro k o _ ho
    apply foldl_range_invariant (fun _ (o' : List Byte) => o'.length = data.length)
    · exact ho
    · intro i o' _ ho'
      rw [List.length_set]
      exact ho'

/-! ## The slice loop of the loader -/

/-- Slice `z` of the sorted files decodes with the expected dimensions. -/
theorem loadSlice_ok_iff (env : LoadEnv) (files : List (String × Int)) (width height : Nat)
    (data out : List Byte) (z : Nat) :
    loadSlice env files width height data z = .ok out ↔
      ∃ s, env.stbi_load (files.getD z ("", 0)).1 = some s ∧ s.w = width ∧ s.h = height ∧
        out = copySlice width height z s.pixels data := by
  unfold loadSlice
  simp only []
  cases hdec : env.stbi_load (files.getD z ("", 0)).1 with
  | none =>
    simp only []
    constructor
    · intro h; cases h
    · rintro ⟨s, hs, -⟩; cases hs
  | some s =>
    simp only []
    by_cases hm : s.w ≠ width ∨ s.h ≠ height
    · rw [if_pos hm]
      constructor
      · intro h; cases h
      · rintro ⟨s', hs', hw, hh, -⟩
        cases hs'
        omega
    · rw [if_neg hm]
      constructor
      · intro h
        cases h
        exact ⟨s, rfl, by omega, by omega, rfl⟩
      · rintro ⟨s', hs', -, -, hout⟩
        cases hs'
        rw [hout]

/-- A failing step of the slice loop keeps the buffer and reports a decode
failure or a dimension mismatch, as the case is. -/
theorem loadSlice_error (env : LoadEnv) (files : List (String × Int)) (width height : Nat)
    (data d : List Byte) (z : Nat) (why : LoadResult)
    (h : loadSlice env files width height data z = .error (why, d)) :
    d = data ∧
      ((why = .sliceFailed ∧ env.stbi_load (files.getD z ("", 0)).1 = none) ∨
       (why = .dimensionMismatch ∧ ∃ s, env.stbi_load (files.getD z ("", 0)).1 = some s ∧
          (s.w ≠ width ∨ s.h ≠ height))) := by
  unfold loadSlice at h
  simp only [] at h
  cases hdec : env.stbi_load (files.getD z ("", 0)).1 with
  | none =>
    rw [hdec] at h
    cases h
    exact ⟨rfl, Or.inl ⟨rfl, rfl⟩⟩
  | some s =>
    rw [hdec] at h
    simp only [] at h
    by_cases hm : s.w ≠ width ∨ s.h ≠ height
    · rw [if_pos hm] at h
      cases h
      exact ⟨rfl, Or.inr ⟨rfl, s, rfl, hm⟩⟩
    · rw [if_neg hm] at h
      cases h

/-- The slice loop when every slice decodes with the expected dimensions:
it ends normally, keeps the length of the buffer and, in a buffer of
`width * height * depth` samples, leaves the pixels of slice `z` at the
positions of layer `z`. -/
theorem loadSlices_good (env : LoadEnv) (files : List (String × Int))
    (width height depth : Nat) (data : List Byte)
    (hgood : ∀ z, z < depth → ∃ s, env.stbi_load (files.getD z ("", 0)).1 = some s ∧
      s.w = width ∧ s.h = height) :
    ∃ out, loadSlices env files width height depth data = .ok out ∧
      out.length = data.length ∧
      (data.length = width * height * depth → ∀ z, z < depth → ∀ s,
        env.stbi_load (files.getD z ("", 0)).1 = some s → ∀ x y, x < width → y < height →
          out.getD (x + width * (y + height * z)) 0 = s.pixels.getD (y * width + x) 0) := by
  have hloop := foldlM_invariant_ok (loadSlice env files width height) (List.range depth)
    (fun k (buf : List Byte) => buf.length = data.length ∧
      (data.length = width * height * depth → ∀ z, z < k → ∀ s,
        env.stbi_load (files.getD z ("", 0)).1 = some s → ∀ x y, x < width → y < height →
          buf.getD (x + width * (y + height * z)) 0 = s.pixels.getD (y * width + x) 0))
    data ⟨rfl, fun _ z hz => absurd hz (Nat.not_lt_zero z)⟩ ?_
  · obtain ⟨out, hrun, hlen, hval⟩ := hloop
    rw [List.length_range] at hval
    exact ⟨out, hrun, hlen, hval⟩
  · intro k hk buf ⟨hlen, hprev⟩
    rw [List.length_range] at hk
    have hgetk : (List.range depth).get ⟨k, by rw [List.length_range]; exact hk⟩ = k := by
      show (List.range depth)[k] = k
      rw [List.getElem_range]
    rw [hgetk]
    obtain ⟨s, hs, hw, hh⟩ := hgood k hk
    refine ⟨copySlice width height k s.pixels buf,
      (loadSlice_ok_iff env files width height buf _ k).mpr ⟨s, hs, hw, hh, rfl⟩, ?_, ?_⟩
    · rw [copySlice_length, hlen]
    · intro hfit z hz s' hs' x y hx hy
      obtain ⟨-, hval, hrest⟩ := copySlice_spec width height depth k hk s.pixels buf
        (by rw [hlen, hfit])
      rcases Nat.lt_succ_iff_lt_or_eq.mp hz with hlt | heq
      · rw [hrest x y z hx hy (Nat.ne_of_lt hlt)]
        exact hprev hfit z hlt s' hs' x y hx hy
      · subst heq
        rw [hs] at hs'
        cases hs'
        exact hval x y hx hy

/-- A slice loop that ends normally has decoded every slice with the
expected dimensions. -/
theorem loadSlices_ok (env : LoadEnv) (files : List (String × Int))
    (width height depth : Nat) (data out : List Byte)
    (hrun : loadSlices env files width height depth data = .ok out) :
    ∀ z, z < depth → ∃ s, env.stbi_load (files.getD z ("", 0)).1 = some s ∧
      s.w = width ∧ s.h = height := by
  intro z hz
  obtain ⟨s, s', -, hstep⟩ := range_foldlM_ok _ data out depth hrun z hz
  obtain ⟨d, hd, hw, hh, -⟩ := (loadSlice_ok_iff env files width height s s' z).mp hstep
  exact ⟨d, hd, hw, hh⟩

/-- A slice loop that fails: the buffer has kept its length, and there is a
first slice that does not decode with the expected dimensions, whose kind
of failure is reported. -/
theorem loadSlices_error (env : LoadEnv) (files : List (String × Int))
    (width height depth : Nat) (data d : List Byte) (why : LoadResult)
    (hrun : loadSlices env files width height depth data = .error (why, d)) :
    d.length = data.length ∧ ∃ k, k < depth ∧
      (∀ z, z < k → ∃ s, env.stbi_load (files.getD z ("", 0)).1 = some s ∧
        s.w = width ∧ s.h = height) ∧
      ((why = .sliceFailed ∧ env.stbi_load (files.getD k ("", 0)).1 = none) ∨
       (why = .dimensionMismatch ∧ ∃ s, env.stbi_load (files.getD k ("", 0)).1 = some s ∧
          (s.w ≠ width ∨ s.h ≠ height))) := by
  obtain ⟨k, s, hk, hs, hstep⟩ := range_foldlM_error _ data (why, d) depth hrun
  obtain ⟨hd, hkind⟩ := loadSlice_error env files width height s d k why hstep
  have hlen : s.length = data.length := by
    refine foldlM_preserves (fun (buf : List Byte) => buf.length = data.length) _ _ data s rfl
      ?_ hs
    intro b z b' hb hz
    obtain ⟨p, -, -, -, hb'⟩ := (loadSlice_ok_iff env files width height b b' z).mp hz
    rw [hb', copySlice_length, hb]
  refine ⟨by rw [hd, hlen], k, hk, ?_, hkind⟩
  exact loadSlices_ok env files width height k data s hs

/-! ## The stages of the loader -/

/-- The ways through `loadVolumeFromSlices`, each with the result and the
volume it leaves. -/
theorem load_outcome (env : LoadEnv) (vol : Volume) (folderPath : String) :
    (env.readdir (splitDirectoryAndPrefix env folderPath).1 = none ∧
      loadVolumeFromSlices env vol folderPath = (.cannotOpenDirectory, vol.cleared)) ∨
    ∃ entries, env.readdir (splitDirectoryAndPrefix env folderPath).1 = some entries ∧
      ((∃ e, scanDirectory env vol.firstSlice vol.lastSlice
          (splitDirectoryAndPrefix env folderPath).1
          (splitDirectoryAndPrefix env folderPath).2 entries = .error e ∧
        loadVolumeFromSlices env vol folderPath = (.thrown e, vol.cleared)) ∨
      ∃ files, scanDirectory env vol.firstSlice vol.lastSlice
          (splitDirectoryAndPrefix env folderPath).1
          (splitDirectoryAndPrefix env folderPath).2 entries = .ok files ∧
        ((files = [] ∧
          loadVolumeFromSlices env vol folderPath = (.noSlicesFound, vol.cleared)) ∨
        (files ≠ [] ∧
          ((env.stbi_load ((env.sort files).getD 0 ("", 0)).1 = none ∧
            loadVolumeFromSlices env vol folderPath =
              (.firstSliceFailed, { vol.cleared with depth := (env.sort files).length })) ∨
          ∃ first, env.stbi_load ((env.sort files).getD 0 ("", 0)).1 = some first ∧
            ((∃ why d, loadSlices env (env.sort files) first.w first.h (env.sort files).length
                (List.replicate ((first.w * first.h * (env.sort files).length) % 2 ^ 64) 0) =
                  .error (why, d) ∧
              loadVolumeFromSlices env vol folderPath =
                (why, { vol.cleared with width := first.w, height := first.h,
                                         depth := (env.sort files).length, data := d })) ∨
            (∃ out, loadSlices env (env.sort files) first.w first.h (env.sort files).length
                (List.replicate ((first.w * first.h * (env.sort files).length) % 2 ^ 64) 0) =
                  .ok out ∧
              loadVolumeFromSlices env vol folderPath =
                (.success, { vol.cleared with width := first.w, height := first.h,
                                              depth := (env.sort files).length,
                                              data := out }))))))) := by
  cases hdir : env.readdir (splitDirectoryAndPrefix env folderPath).1 with
  | none =>
    left
    refine ⟨rfl, ?_⟩
    unfold loadVolumeFromSlices
    simp only [hdir]
  | some entries =>
    right
    refine ⟨entries, rfl, ?_⟩
    cases hscan : scanDirectory env vol.firstSlice vol.lastSlice
        (splitDirectoryAndPrefix env folderPath).1
        (splitDirectoryAndPrefix env folderPath).2 entries with
    | error e =>
      left
      refine ⟨e, rfl, ?_⟩
      unfold loadVolumeFromSlices
      simp only [hdir, hscan]
    | ok files =>
      right
      refine ⟨files, rfl, ?_⟩
      by_cases hne : files = []
      · left
        refine ⟨hne, ?_⟩
        unfold loadVolumeFromSlices
        simp only [hdir, hscan, hne, List.isEmpty_nil, if_true]
      · right
        refine ⟨hne, ?_⟩
        have hemp : files.isEmpty = false := by
          cases files with
          | nil => exact absurd rfl hne
          | cons a t => rfl
        cases hfirst : env.stbi_load ((env.sort files).getD 0 ("", 0)).1 with
        | none =>
          left
          refine ⟨rfl, ?_⟩
          unfold loadVolumeFromSlices
          simp only [hdir, hscan, hemp, hfirst]
          rfl
        | some first =>
          right
          refine ⟨first, rfl, ?_⟩
          cases hloop : loadSlices env (env.sort files) first.w first.h (env.sort files).length
              (List.replicate ((first.w * first.h * (env.sort files).length) % 2 ^ 64) 0) with
          | error p =>
            left
            refine ⟨p.1, p.2, rfl, ?_⟩
            unfold loadVolumeFromSlices
            simp only [hdir, hscan, hemp, hfirst, hloop]
            rfl
          | ok out =>
            right
            refine ⟨out, rfl, ?_⟩
            unfold loadVolumeFromSlices
            simp only [hdir, hscan, hemp, hfirst, hloop]
            rfl

/-- Sorting by insertion on the index is a sort as `std::sort` performs
it. -/
theorem insertionSort_sortsByIndex :
    SortsByIndex (List.insertionSort (fun (a b : String × Int) => a.2 ≤ b.2)) := by
  intro files
  haveI : IsTotal (String × Int) (fun a b => a.2 ≤ b.2) := ⟨fun a b => le_total a.2 b.2⟩
  haveI : IsTrans (String × Int) (fun a b => a.2 ≤ b.2) :=
    ⟨fun a b c hab hbc => le_trans hab hbc⟩
  exact ⟨List.perm_insertionSort _ files, List.sorted_insertionSort _ files⟩

/-- A scan that ends with an exception met a file whose index
`parseSliceNumber` could not convert. -/
theorem scan_foldlM_error (env : LoadEnv) (firstSlice lastSlice : Int)
    (actualDir prefixPart : String) (entries : List String) (init : List (String × Int))
    (e : Exception)
    (h : entries.foldlM (scanEntry env firstSlice lastSlice actualDir prefixPart) init =
      .error e) :
    ∃ fname, fname ∈ entries ∧ parseSliceNumber fname = .error e := by
  induction entries generalizing init with
  | nil => cases h
  | cons a t ih =>
    rw [List.foldlM_cons] at h
    cases hstep : scanEntry env firstSlice lastSlice actualDir prefixPart init a with
    | ok mid =>
      rw [hstep, ok_bind] at h
      obtain ⟨fname, hmem, hp⟩ := ih mid h
      exact ⟨fname, List.mem_cons_of_mem a hmem, hp⟩
    | error e' =>
      rw [hstep] at h
      have he : e' = e := by cases h; rfl
      subst he
      refine ⟨a, List.mem_cons_self a t, ?_⟩
      unfold scanEntry at hstep
      split at hstep
      · cases hstep
      · split at hstep
        · cases hstep
        · simp only [] at hstep
          split at hstep
          · split at hstep
            · rename_i e2 hp
              cases hstep
              exact hp
            · cases hstep
            · split at hstep <;> cases hstep
          · cases hstep

/-- A successful load went through every stage. -/
theorem load_success (env : LoadEnv) (vol : Volume) (folderPath : String) (v' : Volume)
    (hload : loadVolumeFromSlices env vol folderPath = (.success, v')) :
    ∃ entries files first out,
      env.readdir (splitDirectoryAndPrefix env folderPath).1 = some entries ∧
      scanDirectory env vol.firstSlice vol.lastSlice (splitDirectoryAndPrefix env folderPath).1
        (splitDirectoryAndPrefix env folderPath).2 entries = .ok files ∧
      files ≠ [] ∧
      env.stbi_load ((env.sort files).getD 0 ("", 0)).1 = some first ∧
      loadSlices env (env.sort files) first.w first.h (env.sort files).length
        (List.replicate ((first.w * first.h * (env.sort files).length) % 2 ^ 64) 0) = .ok out ∧
      v' = { vol.cleared with width := first.w, height := first.h,
                              depth := (env.sort files).length, data := out } := by
  rcases load_outcome env vol folderPath with ⟨-, h⟩ | ⟨entries, hdir, hrest⟩
  · rw [h] at hload
    cases hload
  · rcases hrest with ⟨e, -, h⟩ | ⟨files, hscan, hrest⟩
    · rw [h] at hload
      cases hload
    · rcases hrest with ⟨-, h⟩ | ⟨hne, hrest⟩
      · rw [h] at hload
        cases hload
      · rcases hrest with ⟨-, h⟩ | ⟨first, hfirst, hrest⟩
        · rw [h] at hload
          cases hload
        · rcases hrest with ⟨why, d, hloop, h⟩ | ⟨out, hloop, h⟩
          · rw [h] at hload
            obtain ⟨-, k, -, -, hkind⟩ := loadSlices_error _ _ _ _ _ _ _ _ hloop
            have hw : why = .success := by cases hload; rfl
            rw [hw] at hkind
            rcases hkind with ⟨hk, -⟩ | ⟨hk, -⟩ <;> cases hk
          · rw [h] at hload
            refine ⟨entries, files, first, out, hdir, hscan, hne, hfirst, hloop, ?_⟩
            cases hload
            rfl

/-- A list sorted by index whose indices are distinct is strictly
ascending. -/
theorem strictly_ascending_of_nodup (l : List (String × Int))
    (hs : l.Pairwise (fun a b => a.2 ≤ b.2)) (hn : (l.map Prod.snd).Nodup) :
    l.Pairwise (fun a b => a.2 < b.2) := by
  have hne : l.Pairwise (fun a b => a.2 ≠ b.2) := by
    have := hn
    unfold List.Nodup at this
    rw [List.pairwise_map] at this
    exact this
  exact (hs.and hne).imp (fun ⟨h1, h2⟩ => lt_of_le_of_ne h1 h2)

/-- Two strictly ascending lists of the same files are equal. -/
theorem strictly_ascending_unique (l g : List (String × Int)) (hp : g.Perm l)
    (hl : l.Pairwise (fun a b => a.2 < b.2)) (hg : g.Pairwise (fun a b => a.2 < b.2)) :
    g = l := by
  haveI : IsAntisymm (String × Int) (fun a b => a.2 < b.2) :=
    ⟨fun a b hab hba => absurd hab (lt_asymm hba)⟩
  exact List.eq_of_perm_of_sorted hp hg hl


/-! ## The loader -/

/-- C17: after a successful load whose accepted files have pairwise distinct
indices, and whose volume fits the 64-bit element count of the buffer, let
`f` be the accepted files in ascending order of index (there is exactly one
such order, and `depth` is its length); then for every `z` in `[0, depth)`
the file `f[z]` decodes to a slice of the width and height of the volume,
and `voxel(x, y, z)` is pixel `y * width + x` of that slice for all
in-range `(x, y)`: a slice is placed at its position in the sorted order,
and width and height are those of `f[0]`. -/
theorem load_places_slices_by_sort_position (env : LoadEnv) (vol : Volume)
    (folderPath : String) (v' : Volume) (hsort : SortsByIndex env.sort)
    (hload : loadVolumeFromSlices env vol folderPath = (.success, v'))
    (hfit : v'.width * v'.height * v'.depth < 2 ^ 64) :
    ∃ entries, env.readdir (splitDirectoryAndPrefix env folderPath).1 = some entries ∧
      (((entries.filterMap (acceptedFile env vol.firstSlice vol.lastSlice
          (splitDirectoryAndPrefix env folderPath).1
          (splitDirectoryAndPrefix env folderPath).2)).map Prod.snd).Nodup →
        ∃ f : List (String × Int),
          f.Perm (entries.filterMap (acceptedFile env vol.firstSlice vol.lastSlice
            (splitDirectoryAndPrefix env folderPath).1
            (splitDirectoryAndPrefix env folderPath).2)) ∧
          f.Pairwise (fun a b => a.2 < b.2) ∧
          (∀ g : List (String × Int),
            g.Perm (entries.filterMap (acceptedFile env vol.firstSlice vol.lastSlice
              (splitDirectoryAndPrefix env folderPath).1
              (splitDirectoryAndPrefix env folderPath).2)) →
            g.Pairwise (fun a b => a.2 < b.2) → g = f) ∧
          v'.depth = f.length ∧ 1 ≤ v'.depth ∧
          ∀ z, z < v'.depth → ∃ s, env.stbi_load (f.getD z ("", 0)).1 = some s ∧
            s.w = v'.width ∧ s.h = v'.height ∧
            ∀ x y, x < v'.width → y < v'.height →
              v'.voxel x y z = s.pixels.getD (y * v'.width + x) 0) := by
  obtain ⟨entries, files, first, out, hdir, hscan, hne, -, hloop, hv⟩ :=
    load_success env vol folderPath v' hload
  refine ⟨entries, hdir, ?_⟩
  rw [← scanDirectory_ok _ _ _ _ _ _ _ hscan]
  intro hnodup
  obtain ⟨hperm, hsorted⟩ := hsort files
  have hstrict : (env.sort files).Pairwise (fun a b => a.2 < b.2) :=
    strictly_ascending_of_nodup _ hsorted ((hperm.map Prod.snd).nodup_iff.mpr hnodup)
  have hgood := loadSlices_ok _ _ _ _ _ _ _ hloop
  obtain ⟨out', hrun', -, hval⟩ := loadSlices_good env (env.sort files) first.w first.h
    (env.sort files).length
    (List.replicate ((first.w * first.h * (env.sort files).length) % 2 ^ 64) 0) hgood
  rw [hloop] at hrun'
  have hout : out' = out := by cases hrun'; rfl
  subst hout
  have hw : v'.width = first.w := by rw [hv]
  have hh : v'.height = first.h := by rw [hv]
  have hd : v'.depth = (env.sort files).length := by rw [hv]
  have hdata : v'.data = out' := by rw [hv]
  rw [hw, hh, hd] at hfit
  have hlen : (List.replicate ((first.w * first.h * (env.sort files).length) % 2 ^ 64)
      (0 : Byte)).length = first.w * first.h * (env.sort files).length := by
    rw [List.length_replicate, Nat.mod_eq_of_lt hfit]
  have hpos : 1 ≤ (env.sort files).length := by
    rw [hperm.length_eq]
    cases files with
    | nil => exact absurd rfl hne
    | cons a t => simp
  refine ⟨env.sort files, hperm, hstrict,
    fun g hg hgs => strictly_ascending_unique _ g (hg.trans hperm.symm) hstrict hgs, hd,
    by rw [hd]; exact hpos, ?_⟩
  intro z hz
  rw [hd] at hz
  obtain ⟨s, hs, hsw, hsh⟩ := hgood z hz
  refine ⟨s, hs, by rw [hw, hsw], by rw [hh, hsh], ?_⟩
  intro x y hx hy
  rw [hw] at hx ⊢
  rw [hh] at hy
  have := hval hlen z hz s hs x y hx hy
  unfold Volume.voxel
  rw [hdata, hw, hh]
  exact this

/-- Witness for C17: the files `vol2.png` and `vol1.png` of `scans`, read in
this order by the scan, are placed in the order of their indices and make
up the 3x2x2 test volume. -/
theorem load_places_slices_by_sort_position_witness :
    SortsByIndex scansFolder.sort ∧
      loadVolumeFromSlices scansFolder { Volume.empty with lastSlice := 2 } "scans/vol" =
        (.success, { testVolume with lastSlice := 2 }) ∧
      scanDirectory scansFolder 1 2 "scans" "vol"
        [".", "..", "vol2.png", "notes.txt", "vol1.png", "vol10.png", "bad1.png",
          "mix3.png", "mix1.png", "mix2.png"] =
        .ok [("scans/vol2.png", 2), ("scans/vol1.png", 1)] ∧
      ∃ entries, scansFolder.readdir (splitDirectoryAndPrefix scansFolder "scans/vol").1 =
        some entries ∧
        (((entries.filterMap (acceptedFile scansFolder 1 2
            (splitDirectoryAndPrefix scansFolder "scans/vol").1
            (splitDirectoryAndPrefix scansFolder "scans/vol").2)).map Prod.snd).Nodup →
          ∃ f : List (String × Int),
            f.Perm (entries.filterMap (acceptedFile scansFolder 1 2
              (splitDirectoryAndPrefix scansFolder "scans/vol").1
              (splitDirectoryAndPrefix scansFolder "scans/vol").2)) ∧
            f.Pairwise (fun a b => a.2 < b.2) ∧
            (∀ g : List (String × Int),
              g.Perm (entries.filterMap (acceptedFile scansFolder 1 2
                (splitDirectoryAndPrefix scansFolder "scans/vol").1
                (splitDirectoryAndPrefix scansFolder "scans/vol").2)) →
              g.Pairwise (fun a b => a.2 < b.2) → g = f) ∧
            (2 : Nat) = f.length ∧ 1 ≤ 2 ∧
            ∀ z, z < 2 → ∃ s, scansFolder.stbi_load (f.getD z ("", 0)).1 = some s ∧
              s.w = 3 ∧ s.h = 2 ∧
              ∀ x y, x < 3 → y < 2 →
                ({ testVolume with lastSlice := 2 } : Volume).voxel x y z =
                  s.pixels.getD (y * 3 + x) 0) :=
  ⟨insertionSort_sortsByIndex, rfl, rfl,
    load_places_slices_by_sort_position scansFolder { Volume.empty with lastSlice := 2 }
      "scans/vol" { testVolume with lastSlice := 2 } insertionSort_sortsByIndex rfl
      (by decide)⟩


theorem sorted_length_pos (env : LoadEnv) (hsort : SortsByIndex env.sort)
    (files : List (String × Int)) (hne : files ≠ []) : 1 ≤ (env.sort files).length := by
  rw [(hsort files).1.length_eq]
  cases files with
  | nil => exact absurd rfl hne
  | cons a t => simp

/-- The first slice that the slice loop rejects is not slice 0, which the
loader has decoded before. -/
theorem loadSlices_error_later (env : LoadEnv) (files : List (String × Int))
    (first : DecodedSlice) (depth : Nat) (data d : List Byte) (why : LoadResult)
    (hfirst : env.stbi_load (files.getD 0 ("", 0)).1 = some first)
    (hrun : loadSlices env files first.w first.h depth data = .error (why, d)) :
    d.length = data.length ∧ ∃ k, 1 ≤ k ∧ k < depth ∧
      (∀ z, z < k → ∃ s, env.stbi_load (files.getD z ("", 0)).1 = some s ∧
        s.w = first.w ∧ s.h = first.h) ∧
      ((why = .sliceFailed ∧ env.stbi_load (files.getD k ("", 0)).1 = none) ∨
       (why = .dimensionMismatch ∧ ∃ s, env.stbi_load (files.getD k ("", 0)).1 = some s ∧
          (s.w ≠ first.w ∨ s.h ≠ first.h))) := by
  obtain ⟨hlen, k, hk, hgood, hkind⟩ := loadSlices_error _ _ _ _ _ _ _ _ hrun
  refine ⟨hlen, k, ?_, hk, hgood, hkind⟩
  rcases Nat.eq_zero_or_pos k with h0 | hpos
  · subst h0
    rcases hkind with ⟨-, hnone⟩ | ⟨-, s, hs, hm⟩
    · rw [hfirst] at hnone
      cases hnone
    · rw [hfirst] at hs
      cases hs
      omega
  · exact hpos

/-- The slice loop over the first `k` of the `depth` layers of a buffer of
`width * height * depth` samples: the layers below `k` hold the pixels of
their slices and the layers from `k` on are as they were. -/
theorem loadSlices_prefix (env : LoadEnv) (files : List (String × Int))
    (width height depth k : Nat) (hk : k ≤ depth) (data out : List Byte)
    (hrun : loadSlices env files width height k data = .ok out)
    (hlen : data.length = width * height * depth) :
    out.length = data.length ∧
      (∀ z, z < k → ∀ s, env.stbi_load (files.getD z ("", 0)).1 = some s →
        ∀ x y, x < width → y < height →
          out.getD (x + width * (y + height * z)) 0 = s.pixels.getD (y * width + x) 0) ∧
      (∀ z, k ≤ z → ∀ x y, x < width → y < height →
        out.getD (x + width * (y + height * z)) 0 =
          data.getD (x + width * (y + height * z)) 0) := by
  have hgood := loadSlices_ok env files width height k data out hrun
  have hloop := foldlM_invariant_ok (loadSlice env files width height) (List.range k)
    (fun j (buf : List Byte) => j ≤ k → (buf.length = data.length ∧
      (∀ z, z < j → ∀ s, env.stbi_load (files.getD z ("", 0)).1 = some s →
        ∀ x y, x < width → y < height →
          buf.getD (x + width * (y + height * z)) 0 = s.pixels.getD (y * width + x) 0) ∧
      (∀ z, j ≤ z → ∀ x y, x < width → y < height →
        buf.getD (x + width * (y + height * z)) 0 =
          data.getD (x + width * (y + height * z)) 0)))
    data (fun _ => ⟨rfl, fun z hz => absurd hz (Nat.not_lt_zero z), fun _ _ _ _ _ _ => rfl⟩) ?_
  · obtain ⟨out', hrun', hinv⟩ := hloop
    rw [List.length_range] at hinv
    have e : loadSlices env files width height k data = .ok out' := hrun'
    rw [hrun] at e
    cases e
    exact hinv (Nat.le_refl k)
  · intro j hj buf hprev
    rw [List.length_range] at hj
    obtain ⟨hbl, hlow, hhigh⟩ := hprev (Nat.le_of_lt hj)
    have hgetj : (List.range k).get ⟨j, by rw [List.length_range]; exact hj⟩ = j := by
      show (List.range k)[j] = j
      rw [List.getElem_range]
    rw [hgetj]
    obtain ⟨s, hs, hw, hh⟩ := hgood j hj
    refine ⟨copySlice width height j s.pixels buf,
      (loadSlice_ok_iff env files width height buf _ j).mpr ⟨s, hs, hw, hh, rfl⟩, fun _ => ?_⟩
    obtain ⟨-, hval, hrest⟩ := copySlice_spec width height depth j (by omega) s.pixels buf
      (by rw [hbl, hlen])
    refine ⟨by rw [copySlice_length, hbl], ?_, ?_⟩
    · intro z hz s' hs' x y hx hy
      rcases Nat.lt_succ_iff_lt_or_eq.mp hz with hlt | heq
      · rw [hrest x y z hx hy (Nat.ne_of_lt hlt)]
        exact hlow z hlt s' hs' x y hx hy
      · subst heq
        rw [hs] at hs'
        cases hs'
        exact hval x y hx hy
    · intro z hz x y hx hy
      rw [hrest x y z hx hy (by omega)]
      exact hhigh z (by omega) x y hx hy

/-- A slice loop that fails, with the buffer it leaves: the buffer after
the slices before the first slice that does not decode with the expected
dimensions. -/
theorem loadSlices_error_buffer (env : LoadEnv) (files : List (String × Int))
    (width height depth : Nat) (data d : List Byte) (why : LoadResult)
    (hrun : loadSlices env files width height depth data = .error (why, d)) :
    ∃ k, k < depth ∧ loadSlices env files width height k data = .ok d ∧
      ((why = .sliceFailed ∧ env.stbi_load (files.getD k ("", 0)).1 = none) ∨
       (why = .dimensionMismatch ∧ ∃ s, env.stbi_load (files.getD k ("", 0)).1 = some s ∧
          (s.w ≠ width ∨ s.h ≠ height))) := by
  obtain ⟨k, s, hk, hs, hstep⟩ := range_foldlM_error _ data (why, d) depth hrun
  obtain ⟨hd, hkind⟩ := loadSlice_error env files width height s d k why hstep
  subst hd
  exact ⟨k, hk, hs, hkind⟩

theorem getD_replicate_zero (n idx : Nat) : (List.replicate n (0 : Byte)).getD idx 0 = 0 := by
  by_cases h : idx < n
  · rw [List.getD_eq_getElem _ _ (by rw [List.length_replicate]; exact h)]
    exact List.getElem_replicate _ _
  · rw [List.getD_eq_default _ _ (by rw [List.length_replicate]; omega)]

/-- The volume that a load leaves when it ends with "Failed to load slice"
or with "Slice dimension mismatch". -/
theorem load_later_failure (env : LoadEnv) (vol : Volume) (folderPath : String)
    (hlater : (loadVolumeFromSlices env vol folderPath).1 = .sliceFailed ∨
      (loadVolumeFromSlices env vol folderPath).1 = .dimensionMismatch) :
    ∃ entries files first k,
      env.readdir (splitDirectoryAndPrefix env folderPath).1 = some entries ∧
      scanDirectory env vol.firstSlice vol.lastSlice
        (splitDirectoryAndPrefix env folderPath).1
        (splitDirectoryAndPrefix env folderPath).2 entries = .ok files ∧
      env.stbi_load ((env.sort files).getD 0 ("", 0)).1 = some first ∧
      (loadVolumeFromSlices env vol folderPath).2.width = first.w ∧
      (loadVolumeFromSlices env vol folderPath).2.height = first.h ∧
      (loadVolumeFromSlices env vol folderPath).2.depth = (env.sort files).length ∧
      1 ≤ k ∧ k < (env.sort files).length ∧
      (((loadVolumeFromSlices env vol folderPath).1 = .sliceFailed ∧
          env.stbi_load ((env.sort files).getD k ("", 0)).1 = none) ∨
        ((loadVolumeFromSlices env vol folderPath).1 = .dimensionMismatch ∧
          ∃ s, env.stbi_load ((env.sort files).getD k ("", 0)).1 = some s ∧
            (s.w ≠ first.w ∨ s.h ≠ first.h))) ∧
      (first.w * first.h * (env.sort files).length < 2 ^ 64 →
        (∀ z, z < k → ∃ s, env.stbi_load ((env.sort files).getD z ("", 0)).1 = some s ∧
          s.w = first.w ∧ s.h = first.h ∧
          ∀ x y, x < first.w → y < first.h →
            (loadVolumeFromSlices env vol folderPath).2.voxel x y z =
              s.pixels.getD (y * first.w + x) 0) ∧
        (∀ z, k ≤ z → ∀ x y, x < first.w → y < first.h →
          (loadVolumeFromSlices env vol folderPath).2.voxel x y z = 0)) := by
  rcases load_outcome env vol folderPath with ⟨-, h⟩ | ⟨entries, hdir, hrest⟩
  · rw [h] at hlater
    rcases hlater with hc | hc <;> cases hc
  rcases hrest with ⟨e, -, h⟩ | ⟨files, hscan, hrest⟩
  · rw [h] at hlater
    rcases hlater with hc | hc <;> cases hc
  rcases hrest with ⟨-, h⟩ | ⟨hne, hrest⟩
  · rw [h] at hlater
    rcases hlater with hc | hc <;> cases hc
  rcases hrest with ⟨-, h⟩ | ⟨first, hfirst, hrest⟩
  · rw [h] at hlater
    rcases hlater with hc | hc <;> cases hc
  rcases hrest with ⟨why, d, hloop, h⟩ | ⟨out, hloop, h⟩
  · obtain ⟨k, hk, hpre, hkind⟩ := loadSlices_error_buffer _ _ _ _ _ _ _ _ hloop
    have hgood := loadSlices_ok _ _ _ _ _ _ _ hpre
    have hk1 : 1 ≤ k := by
      rcases Nat.eq_zero_or_pos k with h0 | hpos
      · subst h0
        rcases hkind with ⟨-, hnone⟩ | ⟨-, s, hs, hm⟩
        · rw [hfirst] at hnone
          cases hnone
        · rw [hfirst] at hs
          cases hs
          omega
      · exact hpos
    rw [h]
    refine ⟨entries, files, first, k, hdir, hscan, hfirst, rfl, rfl, rfl, hk1, hk, ?_, ?_⟩
    · rcases hkind with ⟨hw, hnone⟩ | ⟨hw, hm⟩
      · exact Or.inl ⟨hw, hnone⟩
      · exact Or.inr ⟨hw, hm⟩
    · intro hfit
      obtain ⟨-, hlow, hhigh⟩ := loadSlices_prefix env (env.sort files) first.w first.h
        (env.sort files).length k (Nat.le_of_lt hk) _ d hpre
        (by rw [List.length_replicate, Nat.mod_eq_of_lt hfit])
      constructor
      · intro z hz
        obtain ⟨s, hs, hsw, hsh⟩ := hgood z hz
        exact ⟨s, hs, hsw, hsh, fun x y hx hy => hlow z hz s hs x y hx hy⟩
      · intro z hz x y hx hy
        show d.getD (x + first.w * (y + first.h * z)) 0 = 0
        rw [hhigh z hz x y hx hy]
        exact getD_replicate_zero _ _
  · rw [h] at hlater
    rcases hlater with hc | hc <;> cases hc

/-- The volume after a failed load, by the way the load ends: reset exactly
when it ends with "Cannot open directory", with "No slices found" or with
the exception of `std::stoi`; with `depth` at least 1 and no buffer after
"Failed to load first slice"; with `depth` at least 2 and an allocated
buffer after "Failed to load slice" or "Slice dimension mismatch"; `depth`
is the number of accepted files in the three cases. -/
theorem load_failure_shape (env : LoadEnv) (vol : Volume) (folderPath : String)
    (hsort : SortsByIndex env.sort) :
    ((loadVolumeFromSlices env vol folderPath).2.IsReset ↔
      ((loadVolumeFromSlices env vol folderPath).1 = .cannotOpenDirectory ∨
        (loadVolumeFromSlices env vol folderPath).1 = .noSlicesFound ∨
        ∃ e, (loadVolumeFromSlices env vol folderPath).1 = .thrown e)) ∧
    ((loadVolumeFromSlices env vol folderPath).1 = .firstSliceFailed →
      (loadVolumeFromSlices env vol folderPath).2.width = 0 ∧
      (loadVolumeFromSlices env vol folderPath).2.height = 0 ∧
      (loadVolumeFromSlices env vol folderPath).2.data = [] ∧
      1 ≤ (loadVolumeFromSlices env vol folderPath).2.depth) ∧
    (((loadVolumeFromSlices env vol folderPath).1 = .sliceFailed ∨
        (loadVolumeFromSlices env vol folderPath).1 = .dimensionMismatch) →
      2 ≤ (loadVolumeFromSlices env vol folderPath).2.depth ∧
      (loadVolumeFromSlices env vol folderPath).2.data.length =
        ((loadVolumeFromSlices env vol folderPath).2.width *
          (loadVolumeFromSlices env vol folderPath).2.height *
          (loadVolumeFromSlices env vol folderPath).2.depth) % 2 ^ 64) ∧
    (((loadVolumeFromSlices env vol folderPath).1 = .firstSliceFailed ∨
        (loadVolumeFromSlices env vol folderPath).1 = .sliceFailed ∨
        (loadVolumeFromSlices env vol folderPath).1 = .dimensionMismatch) →
      ∃ entries, env.readdir (splitDirectoryAndPrefix env folderPath).1 = some entries ∧
        (loadVolumeFromSlices env vol folderPath).2.depth =
          acceptedCount env vol.firstSlice vol.lastSlice
            (splitDirectoryAndPrefix env folderPath).1
            (splitDirectoryAndPrefix env folderPath).2 entries) := by
  have hreset : vol.cleared.IsReset := ⟨rfl, rfl, rfl, rfl⟩
  have hcount : ∀ entries files,
      scanDirectory env vol.firstSlice vol.lastSlice (splitDirectoryAndPrefix env folderPath).1
        (splitDirectoryAndPrefix env folderPath).2 entries = .ok files →
      (env.sort files).length = acceptedCount env vol.firstSlice vol.lastSlice
        (splitDirectoryAndPrefix env folderPath).1
        (splitDirectoryAndPrefix env folderPath).2 entries := by
    intro entries files hscan
    rw [(hsort files).1.length_eq, scanDirectory_ok _ _ _ _ _ _ _ hscan,
      length_filterMap_acceptedFile]
  rcases load_outcome env vol folderPath with ⟨-, h⟩ | ⟨entries, hdir, hrest⟩
  · rw [h]
    refine ⟨⟨fun _ => Or.inl rfl, fun _ => hreset⟩, ?_, ?_, ?_⟩
    · intro hc; cases hc
    · rintro (hc | hc) <;> cases hc
    · rintro (hc | hc | hc) <;> cases hc
  · rcases hrest with ⟨e, -, h⟩ | ⟨files, hscan, hrest⟩
    · rw [h]
      refine ⟨⟨fun _ => Or.inr (Or.inr ⟨e, rfl⟩), fun _ => hreset⟩, ?_, ?_, ?_⟩
      · intro hc; cases hc
      · rintro (hc | hc) <;> cases hc
      · rintro (hc | hc | hc) <;> cases hc
    · rcases hrest with ⟨-, h⟩ | ⟨hne, hrest⟩
      · rw [h]
        refine ⟨⟨fun _ => Or.inr (Or.inl rfl), fun _ => hreset⟩, ?_, ?_, ?_⟩
        · intro hc; cases hc
        · rintro (hc | hc) <;> cases hc
        · rintro (hc | hc | hc) <;> cases hc
      · have hpos := sorted_length_pos env hsort files hne
        rcases hrest with ⟨-, h⟩ | ⟨first, hfirst, hrest⟩
        · rw [h]
          refine ⟨⟨?_, ?_⟩, fun _ => ⟨rfl, rfl, rfl, hpos⟩, ?_,
            fun _ => ⟨entries, hdir, hcount entries files hscan⟩⟩
          · intro hr
            have h0 : (env.sort files).length = 0 := hr.2.2.1
            omega
          · rintro (hc | hc | ⟨e, hc⟩) <;> cases hc
          · rintro (hc | hc) <;> cases hc
        · rcases hrest with ⟨why, d, hloop, h⟩ | ⟨out, hloop, h⟩
          · obtain ⟨hlen, k, hk1, hk, -, hkind⟩ :=
              loadSlices_error_later env (env.sort files) first _ _ d why hfirst hloop
            rw [h]
            refine ⟨⟨?_, ?_⟩, ?_, ?_, fun _ => ⟨entries, hdir, hcount entries files hscan⟩⟩
            · intro hr
              have h0 : (env.sort files).length = 0 := hr.2.2.1
              omega
            · rintro (hc | hc | ⟨e, hc⟩) <;>
                rcases hkind with ⟨hw, -⟩ | ⟨hw, -⟩ <;>
                · have hc' : why = _ := hc
                  rw [hw] at hc'
                  cases hc'
            · intro hc
              have hc' : why = .firstSliceFailed := hc
              rcases hkind with ⟨hw, -⟩ | ⟨hw, -⟩ <;>
              · rw [hw] at hc'
                cases hc'
            · intro _
              refine ⟨by show 2 ≤ (env.sort files).length; omega, ?_⟩
              show d.length = _
              rw [hlen, List.length_replicate]
          · rw [h]
            refine ⟨⟨?_, ?_⟩, ?_, ?_, ?_⟩
            · intro hr
              have h0 : (env.sort files).length = 0 := hr.2.2.1
              omega
            · rintro (hc | hc | ⟨e, hc⟩) <;> cases hc
            · intro hc; cases hc
            · rintro (hc | hc) <;> cases hc
            · rintro (hc | hc | hc) <;> cases hc

/-- C16, as the code has it: a load leaves the volume reset (`width =
height = depth = 0`, empty buffer) exactly when it ends with "Cannot open
directory", with "No slices found" or with the exception of `std::stoi`.
When it ends with "Failed to load first slice", width and height are 0 and
the buffer is empty, but `depth` is at least 1; when it ends with "Failed
to load slice" or "Slice dimension mismatch", `depth` is at least 2 and the
buffer is allocated with the element count of the dimensions.  In these
three cases `depth` is the number of accepted files.  In the last two the
load has stopped at the first slice `k >= 1`, in sorted order, that does
not decode or decodes to another size than the first slice; width and
height are those of the first slice, and, when `width * height * depth` is
below `2^64`, the layers before `k` hold the pixels of their slices and the
layers from `k` on are zero. -/
theorem load_failure_state (env : LoadEnv) (vol : Volume) (folderPath : String)
    (hsort : SortsByIndex env.sort) :
    ((loadVolumeFromSlices env vol folderPath).2.IsReset ↔
      ((loadVolumeFromSlices env vol folderPath).1 = .cannotOpenDirectory ∨
        (loadVolumeFromSlices env vol folderPath).1 = .noSlicesFound ∨
        ∃ e, (loadVolumeFromSlices env vol folderPath).1 = .thrown e)) ∧
    ((loadVolumeFromSlices env vol folderPath).1 = .firstSliceFailed →
      (loadVolumeFromSlices env vol folderPath).2.width = 0 ∧
      (loadVolumeFromSlices env vol folderPath).2.height = 0 ∧
      (loadVolumeFromSlices env vol folderPath).2.data = [] ∧
      1 ≤ (loadVolumeFromSlices env vol folderPath).2.depth) ∧
    (((loadVolumeFromSlices env vol folderPath).1 = .sliceFailed ∨
        (loadVolumeFromSlices env vol folderPath).1 = .dimensionMismatch) →
      2 ≤ (loadVolumeFromSlices env vol folderPath).2.depth ∧
      (loadVolumeFromSlices env vol folderPath).2.data.length =
        ((loadVolumeFromSlices env vol folderPath).2.width *
          (loadVolumeFromSlices env vol folderPath).2.height *
          (loadVolumeFromSlices env vol folderPath).2.depth) % 2 ^ 64) ∧
    (((loadVolumeFromSlices env vol folderPath).1 = .firstSliceFailed ∨
        (loadVolumeFromSlices env vol folderPath).1 = .sliceFailed ∨
        (loadVolumeFromSlices env vol folderPath).1 = .dimensionMismatch) →
      ∃ entries, env.readdir (splitDirectoryAndPrefix env folderPath).1 = some entries ∧
        (loadVolumeFromSlices env vol folderPath).2.depth =
          acceptedCount env vol.firstSlice vol.lastSlice
            (splitDirectoryAndPrefix env folderPath).1
            (splitDirectoryAndPrefix env folderPath).2 entries) ∧
    (((loadVolumeFromSlices env vol folderPath).1 = .sliceFailed ∨
        (loadVolumeFromSlices env vol folderPath).1 = .dimensionMismatch) →
      ∃ entries files first k,
        env.readdir (splitDirectoryAndPrefix env folderPath).1 = some entries ∧
        scanDirectory env vol.firstSlice vol.lastSlice
          (splitDirectoryAndPrefix env folderPath).1
          (splitDirectoryAndPrefix env folderPath).2 entries = .ok files ∧
        env.stbi_load ((env.sort files).getD 0 ("", 0)).1 = some first ∧
        (loadVolumeFromSlices env vol folderPath).2.width = first.w ∧
        (loadVolumeFromSlices env vol folderPath).2.height = first.h ∧
        (loadVolumeFromSlices env vol folderPath).2.depth = (env.sort files).length ∧
        1 ≤ k ∧ k < (env.sort files).length ∧
        (((loadVolumeFromSlices env vol folderPath).1 = .sliceFailed ∧
            env.stbi_load ((env.sort files).getD k ("", 0)).1 = none) ∨
          ((loadVolumeFromSlices env vol folderPath).1 = .dimensionMismatch ∧
            ∃ s, env.stbi_load ((env.sort files).getD k ("", 0)).1 = some s ∧
              (s.w ≠ first.w ∨ s.h ≠ first.h))) ∧
        (first.w * first.h * (env.sort files).length < 2 ^ 64 →
          (∀ z, z < k → ∃ s, env.stbi_load ((env.sort files).getD z ("", 0)).1 = some s ∧
            s.w = first.w ∧ s.h = first.h ∧
            ∀ x y, x < first.w → y < first.h →
              (loadVolumeFromSlices env vol folderPath).2.voxel x y z =
                s.pixels.getD (y * first.w + x) 0) ∧
          (∀ z, k ≤ z → ∀ x y, x < first.w → y < first.h →
            (loadVolumeFromSlices env vol folderPath).2.voxel x y z = 0))) := by
  obtain ⟨h1, h2, h3, h4⟩ := load_failure_shape env vol folderPath hsort
  exact ⟨h1, h2, h3, h4, load_later_failure env vol folderPath⟩

/-- Counterexample for C16: loading `scans/vol` ends with "Slice dimension
mismatch" at the third file and leaves a 3x2x3 volume whose first two
layers are populated; loading `scans/bad` into the 3x2x2 test volume ends
with "Failed to load first slice" and leaves `depth = 1`. -/
theorem load_failure_not_reset_counterexample :
    loadVolumeFromSlices scansFolder Volume.empty "scans/vol" =
        (.dimensionMismatch,
          { width := 3, height := 2, depth := 3, channels := 1,
            data := [10, 11, 12, 13, 14, 15, 50, 51, 52, 53, 54, 55, 0, 0, 0, 0, 0, 0] }) ∧
      ¬ (loadVolumeFromSlices scansFolder Volume.empty "scans/vol").2.IsReset ∧
      loadVolumeFromSlices scansFolder testVolume "scans/bad" =
        (.firstSliceFailed,
          { width := 0, height := 0, depth := 1, channels := 1, data := [] }) ∧
      (loadVolumeFromSlices scansFolder testVolume "scans/bad").2.depth ≠ 0 :=
  ⟨rfl, by decide, rfl, by decide⟩

/-- Witness for C16: the failed loads of `scans/vol`, which stops at the
third of three files with the first two layers in place, and of
`scans/none`. -/
theorem load_failure_state_witness :
    SortsByIndex scansFolder.sort ∧
      (loadVolumeFromSlices scansFolder Volume.empty "scans/vol").1 = .dimensionMismatch ∧
      2 ≤ (loadVolumeFromSlices scansFolder Volume.empty "scans/vol").2.depth ∧
      (loadVolumeFromSlices scansFolder testVolume "scans/none").1 = .noSlicesFound ∧
      (loadVolumeFromSlices scansFolder testVolume "scans/none").2.IsReset ∧
      (loadVolumeFromSlices scansFolder Volume.empty "scans/vol").2.data =
        [10, 11, 12, 13, 14, 15, 50, 51, 52, 53, 54, 55, 0, 0, 0, 0, 0, 0] ∧
      ∃ (first : DecodedSlice) (k : Nat),
        (loadVolumeFromSlices scansFolder Volume.empty "scans/vol").2.width = first.w ∧
        (loadVolumeFromSlices scansFolder Volume.empty "scans/vol").2.height = first.h ∧
        1 ≤ k := by
  obtain ⟨-, -, first, k, -, -, -, hw, hh, -, hk, -⟩ :=
    (load_failure_state scansFolder Volume.empty "scans/vol"
      insertionSort_sortsByIndex).2.2.2.2 (Or.inr rfl)
  exact ⟨insertionSort_sortsByIndex, rfl,
    ((load_failure_state scansFolder Volume.empty "scans/vol"
      insertionSort_sortsByIndex).2.2.1 (Or.inr rfl)).1, rfl,
    (load_failure_state scansFolder testVolume "scans/none"
      insertionSort_sortsByIndex).1.mpr (Or.inr (Or.inl rfl)), rfl, first, k, hw, hh, hk⟩


/-- The report of a load that stops in the slice loop is that of the first
slice, in sorted order, that does not decode with the dimensions of the
first slice: "Slice dimension mismatch" exactly when that slice decodes to
another size, "Failed to load slice" exactly when it does not decode. -/
theorem load_first_rejected_slice (env : LoadEnv) (vol : Volume) (folderPath : String)
    (entries : List String) (files : List (String × Int))
    (hdir : env.readdir (splitDirectoryAndPrefix env folderPath).1 = some entries)
    (hscan : scanDirectory env vol.firstSlice vol.lastSlice
      (splitDirectoryAndPrefix env folderPath).1 (splitDirectoryAndPrefix env folderPath).2
      entries = .ok files)
    (hne : files ≠ []) :
    ((loadVolumeFromSlices env vol folderPath).1 = .dimensionMismatch ↔
      ∃ first, env.stbi_load ((env.sort files).getD 0 ("", 0)).1 = some first ∧
        ∃ k, k < (env.sort files).length ∧
          (∀ z, z < k → ∃ s, env.stbi_load ((env.sort files).getD z ("", 0)).1 = some s ∧
            s.w = first.w ∧ s.h = first.h) ∧
          ∃ s, env.stbi_load ((env.sort files).getD k ("", 0)).1 = some s ∧
            (s.w ≠ first.w ∨ s.h ≠ first.h)) ∧
    ((loadVolumeFromSlices env vol folderPath).1 = .sliceFailed ↔
      ∃ first, env.stbi_load ((env.sort files).getD 0 ("", 0)).1 = some first ∧
        ∃ k, k < (env.sort files).length ∧
          (∀ z, z < k → ∃ s, env.stbi_load ((env.sort files).getD z ("", 0)).1 = some s ∧
            s.w = first.w ∧ s.h = first.h) ∧
          env.stbi_load ((env.sort files).getD k ("", 0)).1 = none) := by
  rcases load_outcome env vol folderPath with ⟨hd, -⟩ | ⟨entries', hdir', hrest⟩
  · rw [hdir] at hd
    cases hd
  rw [hdir] at hdir'
  cases hdir'
  rcases hrest with ⟨e, hscan', -⟩ | ⟨files', hscan', hrest⟩
  · rw [hscan] at hscan'
    cases hscan'
  rw [hscan] at hscan'
  cases hscan'
  rcases hrest with ⟨hnil, -⟩ | ⟨-, hrest⟩
  · exact absurd hnil hne
  rcases hrest with ⟨hnone, h⟩ | ⟨first, hfirst, hrest⟩
  · rw [h]
    constructor
    · constructor
      · intro hc; cases hc
      · rintro ⟨first', hfirst', -⟩
        rw [hnone] at hfirst'
        cases hfirst'
    · constructor
      · intro hc; cases hc
      · rintro ⟨first', hfirst', -⟩
        rw [hnone] at hfirst'
        cases hfirst'
  rcases hrest with ⟨why, d, hloop, h⟩ | ⟨out, hloop, h⟩
  · obtain ⟨-, j, -, hj, hgood, hkind⟩ :=
      loadSlices_error_later env (env.sort files) first _ _ d why hfirst hloop
    rw [h]
    constructor
    · constructor
      · intro hc
        have hc' : why = .dimensionMismatch := hc
        rcases hkind with ⟨hw, -⟩ | ⟨-, s, hs, hm⟩
        · rw [hw] at hc'
          cases hc'
        · exact ⟨first, hfirst, j, hj, hgood, s, hs, hm⟩
      · rintro ⟨first', hfirst', k, hk, hgoodk, s, hs, hm⟩
        rw [hfirst] at hfirst'
        cases hfirst'
        rcases hkind with ⟨-, hjnone⟩ | ⟨hw, -⟩
        · exfalso
          rcases Nat.lt_trichotomy j k with hlt | heq | hgt
          · obtain ⟨s', hs', -⟩ := hgoodk j hlt
            rw [hs'] at hjnone
            cases hjnone
          · subst heq
            rw [hs] at hjnone
            cases hjnone
          · obtain ⟨s', hs', hw', hh'⟩ := hgood k hgt
            rw [hs] at hs'
            cases hs'
            omega
        · exact hw
    · constructor
      · intro hc
        have hc' : why = .sliceFailed := hc
        rcases hkind with ⟨-, hjnone⟩ | ⟨hw, -⟩
        · exact ⟨first, hfirst, j, hj, hgood, hjnone⟩
        · rw [hw] at hc'
          cases hc'
      · rintro ⟨first', hfirst', k, hk, hgoodk, hknone⟩
        rw [hfirst] at hfirst'
        cases hfirst'
        rcases hkind with ⟨hw, -⟩ | ⟨-, s, hs, hm⟩
        · exact hw
        · exfalso
          rcases Nat.lt_trichotomy j k with hlt | heq | hgt
          · obtain ⟨s', hs', hw', hh'⟩ := hgoodk j hlt
            rw [hs] at hs'
            cases hs'
            omega
          · subst heq
            rw [hs] at hknone
            cases hknone
          · obtain ⟨s', hs', -⟩ := hgood k hgt
            rw [hs'] at hknone
            cases hknone
  · have hgood := loadSlices_ok _ _ _ _ _ _ _ hloop
    rw [h]
    constructor
    · constructor
      · intro hc; cases hc
      · rintro ⟨first', hfirst', k, hk, -, s, hs, hm⟩
        rw [hfirst] at hfirst'
        cases hfirst'
        obtain ⟨s', hs', hw', hh'⟩ := hgood k hk
        rw [hs] at hs'
        cases hs'
        omega
    · constructor
      · intro hc; cases hc
      · rintro ⟨first', hfirst', k, hk, -, hknone⟩
        obtain ⟨s', hs', -⟩ := hgood k hk
        rw [hs'] at hknone
        cases hknone

/-- The outcome of a load whose scan ends with at least one accepted file,
when some slice decodes to another size than the first, and the condition
of success. -/
theorem load_dimension_outcome (env : LoadEnv) (vol : Volume) (folderPath : String)
    (entries : List String) (files : List (String × Int))
    (hdir : env.readdir (splitDirectoryAndPrefix env folderPath).1 = some entries)
    (hscan : scanDirectory env vol.firstSlice vol.lastSlice
      (splitDirectoryAndPrefix env folderPath).1 (splitDirectoryAndPrefix env folderPath).2
      entries = .ok files)
    (hne : files ≠ []) :
    (∀ first, env.stbi_load ((env.sort files).getD 0 ("", 0)).1 = some first →
      ∀ k, k < (env.sort files).length →
        (∃ s, env.stbi_load ((env.sort files).getD k ("", 0)).1 = some s ∧
          (s.w ≠ first.w ∨ s.h ≠ first.h)) →
        ((loadVolumeFromSlices env vol folderPath).1 = .sliceFailed ∨
          (loadVolumeFromSlices env vol folderPath).1 = .dimensionMismatch) ∧
        ((∀ z, z < k → env.stbi_load ((env.sort files).getD z ("", 0)).1 ≠ none) →
          (loadVolumeFromSlices env vol folderPath).1 = .dimensionMismatch)) ∧
    ((loadVolumeFromSlices env vol folderPath).1 = .success ↔
      ∃ first, env.stbi_load ((env.sort files).getD 0 ("", 0)).1 = some first ∧
        ∀ z, z < (env.sort files).length →
          ∃ s, env.stbi_load ((env.sort files).getD z ("", 0)).1 = some s ∧
            s.w = first.w ∧ s.h = first.h) := by
  rcases load_outcome env vol folderPath with ⟨hd, -⟩ | ⟨entries', hdir', hrest⟩
  · rw [hdir] at hd
    cases hd
  rw [hdir] at hdir'
  cases hdir'
  rcases hrest with ⟨e, hscan', -⟩ | ⟨files', hscan', hrest⟩
  · rw [hscan] at hscan'
    cases hscan'
  rw [hscan] at hscan'
  cases hscan'
  rcases hrest with ⟨hnil, -⟩ | ⟨-, hrest⟩
  · exact absurd hnil hne
  rcases hrest with ⟨hnone, h⟩ | ⟨first, hfirst, hrest⟩
  · rw [h]
    constructor
    · intro first' hfirst'
      rw [hnone] at hfirst'
      cases hfirst'
    · constructor
      · intro hc; cases hc
      · rintro ⟨first', hfirst', -⟩
        rw [hnone] at hfirst'
        cases hfirst'
  rcases hrest with ⟨why, d, hloop, h⟩ | ⟨out, hloop, h⟩
  · obtain ⟨-, j, -, hj, hgood, hkind⟩ :=
      loadSlices_error_later env (env.sort files) first _ _ d why hfirst hloop
    rw [h]
    constructor
    · intro first' hfirst' k hk ⟨s, hs, hm⟩
      rw [hfirst] at hfirst'
      cases hfirst'
      constructor
      · rcases hkind with ⟨hw, -⟩ | ⟨hw, -⟩
        · exact Or.inl hw
        · exact Or.inr hw
      · intro hdec
        rcases hkind with ⟨-, hjnone⟩ | ⟨hw, -⟩
        · exfalso
          rcases Nat.lt_trichotomy j k with hlt | heq | hgt
          · exact hdec j hlt hjnone
          · subst heq
            rw [hs] at hjnone
            cases hjnone
          · obtain ⟨s', hs', hw', hh'⟩ := hgood k hgt
            rw [hs] at hs'
            cases hs'
            omega
        · exact hw
    · constructor
      · intro hc
        have hc' : why = .success := hc
        rcases hkind with ⟨hw, -⟩ | ⟨hw, -⟩ <;>
        · rw [hw] at hc'
          cases hc'
      · rintro ⟨first', hfirst', hall⟩
        rw [hfirst] at hfirst'
        cases hfirst'
        obtain ⟨s, hs, hsw, hsh⟩ := hall j hj
        rcases hkind with ⟨-, hjnone⟩ | ⟨-, s', hs', hm⟩
        · rw [hs] at hjnone
          cases hjnone
        · rw [hs] at hs'
          cases hs'
          omega
  · have hgood := loadSlices_ok _ _ _ _ _ _ _ hloop
    rw [h]
    constructor
    · intro first' hfirst' k hk ⟨s, hs, hm⟩
      rw [hfirst] at hfirst'
      cases hfirst'
      obtain ⟨s', hs', hw', hh'⟩ := hgood k hk
      rw [hs] at hs'
      cases hs'
      omega
    · exact ⟨fun _ => ⟨first, hfirst, hgood⟩, fun _ => rfl⟩

/-- C20, as the code has it: for a scan that ends with the accepted files
`files`, at least one, let `sorted` be their sorted sequence.  If the first
slice decodes and some slice `k` decodes to another width or height, the
load returns failure, reported as "Failed to load slice" or as "Slice
dimension mismatch"; it is reported as a dimension mismatch when every
slice before `k` decodes.  The load succeeds if and only if the first slice
decodes and every slice decodes with its width and height.  The report of
the failure is that of the first slice, in sorted order, that does not
decode with the width and height of the first slice: the load ends with
"Slice dimension mismatch" if and only if that slice decodes to another
size, and with "Failed to load slice" if and only if it does not decode. -/
theorem load_dimension_check (env : LoadEnv) (vol : Volume) (folderPath : String)
    (entries : List String) (files : List (String × Int))
    (hdir : env.readdir (splitDirectoryAndPrefix env folderPath).1 = some entries)
    (hscan : scanDirectory env vol.firstSlice vol.lastSlice
      (splitDirectoryAndPrefix env folderPath).1 (splitDirectoryAndPrefix env folderPath).2
      entries = .ok files)
    (hne : files ≠ []) :
    (∀ first, env.stbi_load ((env.sort files).getD 0 ("", 0)).1 = some first →
      ∀ k, k < (env.sort files).length →
        (∃ s, env.stbi_load ((env.sort files).getD k ("", 0)).1 = some s ∧
          (s.w ≠ first.w ∨ s.h ≠ first.h)) →
        ((loadVolumeFromSlices env vol folderPath).1 = .sliceFailed ∨
          (loadVolumeFromSlices env vol folderPath).1 = .dimensionMismatch) ∧
        ((∀ z, z < k → env.stbi_load ((env.sort files).getD z ("", 0)).1 ≠ none) →
          (loadVolumeFromSlices env vol folderPath).1 = .dimensionMismatch)) ∧
    ((loadVolumeFromSlices env vol folderPath).1 = .success ↔
      ∃ first, env.stbi_load ((env.sort files).getD 0 ("", 0)).1 = some first ∧
        ∀ z, z < (env.sort files).length →
          ∃ s, env.stbi_load ((env.sort files).getD z ("", 0)).1 = some s ∧
            s.w = first.w ∧ s.h = first.h) ∧
    ((loadVolumeFromSlices env vol folderPath).1 = .dimensionMismatch ↔
      ∃ first, env.stbi_load ((env.sort files).getD 0 ("", 0)).1 = some first ∧
        ∃ k, k < (env.sort files).length ∧
          (∀ z, z < k → ∃ s, env.stbi_load ((env.sort files).getD z ("", 0)).1 = some s ∧
            s.w = first.w ∧ s.h = first.h) ∧
          ∃ s, env.stbi_load ((env.sort files).getD k ("", 0)).1 = some s ∧
            (s.w ≠ first.w ∨ s.h ≠ first.h)) ∧
    ((loadVolumeFromSlices env vol folderPath).1 = .sliceFailed ↔
      ∃ first, env.stbi_load ((env.sort files).getD 0 ("", 0)).1 = some first ∧
        ∃ k, k < (env.sort files).length ∧
          (∀ z, z < k → ∃ s, env.stbi_load ((env.sort files).getD z ("", 0)).1 = some s ∧
            s.w = first.w ∧ s.h = first.h) ∧
          env.stbi_load ((env.sort files).getD k ("", 0)).1 = none) := by
  obtain ⟨h1, h2⟩ := load_dimension_outcome env vol folderPath entries files hdir hscan hne
  obtain ⟨h3, h4⟩ := load_first_rejected_slice env vol folderPath entries files hdir hscan hne
  exact ⟨h1, h2, h3, h4⟩

/-- Counterexample for C20: of the sorted files `mix1.png`, `mix2.png`,
`mix3.png` the third decodes to a width other than that of the first, and
the load ends with "Failed to load slice" at the second, not with "Slice
dimension mismatch". -/
theorem load_mismatch_behind_decode_failure_counterexample :
    scanDirectory scansFolder 1 (-1) "scans" "mix"
        [".", "..", "vol2.png", "notes.txt", "vol1.png", "vol10.png", "bad1.png",
          "mix3.png", "mix1.png", "mix2.png"] =
        .ok [("scans/mix3.png", 3), ("scans/mix1.png", 1), ("scans/mix2.png", 2)] ∧
      scansFolder.sort [("scans/mix3.png", 3), ("scans/mix1.png", 1), ("scans/mix2.png", 2)] =
        [("scans/mix1.png", 1), ("scans/mix2.png", 2), ("scans/mix3.png", 3)] ∧
      scansFolder.stbi_load "scans/mix1.png" = some { w := 1, h := 1, pixels := [7] } ∧
      scansFolder.stbi_load "scans/mix2.png" = none ∧
      scansFolder.stbi_load "scans/mix3.png" = some { w := 2, h := 1, pixels := [8, 9] } ∧
      (loadVolumeFromSlices scansFolder Volume.empty "scans/mix").1 = .sliceFailed ∧
      (loadVolumeFromSlices scansFolder Volume.empty "scans/mix").1 ≠ .dimensionMismatch :=
  ⟨rfl, rfl, rfl, rfl, rfl, rfl, by decide⟩

/-- Witness for C20: loading `scans/vol` without an upper bound meets
`vol10.png`, of another size than `vol1.png`, after two slices that decode,
and ends with "Slice dimension mismatch". -/
theorem load_dimension_check_witness :
    scansFolder.readdir (splitDirectoryAndPrefix scansFolder "scans/vol").1 =
        some [".", "..", "vol2.png", "notes.txt", "vol1.png", "vol10.png", "bad1.png",
          "mix3.png", "mix1.png", "mix2.png"] ∧
      scanDirectory scansFolder Volume.empty.firstSlice Volume.empty.lastSlice
        (splitDirectoryAndPrefix scansFolder "scans/vol").1
        (splitDirectoryAndPrefix scansFolder "scans/vol").2
        [".", "..", "vol2.png", "notes.txt", "vol1.png", "vol10.png", "bad1.png",
          "mix3.png", "mix1.png", "mix2.png"] =
        .ok [("scans/vol2.png", 2), ("scans/vol1.png", 1), ("scans/vol10.png", 10)] ∧
      (loadVolumeFromSlices scansFolder Volume.empty "scans/vol").1 = .dimensionMismatch :=
  ⟨rfl, rfl,
    ((load_dimension_check scansFolder Volume.empty "scans/vol"
      [".", "..", "vol2.png", "notes.txt", "vol1.png", "vol10.png", "bad1.png",
        "mix3.png", "mix1.png", "mix2.png"]
      [("scans/vol2.png", 2), ("scans/vol1.png", 1), ("scans/vol10.png", 10)] rfl rfl
      (by decide)).1 { w := 3, h := 2, pixels := [10, 11, 12, 13, 14, 15] } rfl 2 (by decide)
      ⟨{ w := 2, h := 2, pixels := [1, 2, 3, 4] }, rfl, Or.inl (by decide)⟩).2
      (by decide)⟩


/-! ## Kernel sizes and dispatch of the blurs -/

/-- C25: an even kernel size is corrected to the next odd one, never
rejected: for every volume, every even `kernelSize` (in particular every
even `kernelSize >= 0`) and every sigma, the median blur with `kernelSize`
is the median blur with `kernelSize + 1`, outcome and volume, and the
Gaussian blur with `kernelSize` is the Gaussian blur with
`kernelSize + 1`. -/
theorem blur_even_kernel_corrected {F : Type} (ops : FloatOps F) (volume : Volume)
    (kernelSize : Int) (sigma : F) (heven : kernelSize % 2 = 0) :
    apply3DMedianBlur volume kernelSize = apply3DMedianBlur volume (kernelSize + 1) ∧
      apply3DGaussianBlur ops volume kernelSize sigma =
        apply3DGaussianBlur ops volume (kernelSize + 1) sigma := by
  have h1 : kernelSize.tmod 2 = 0 := by
    rcases Int.emod_two_eq_zero_or_one kernelSize with h | h
    · obtain ⟨c, hc⟩ := Int.dvd_of_emod_eq_zero h
      rw [hc, Int.mul_tmod_right]
    · omega
  have h2 : ¬ ((kernelSize + 1).tmod 2 = 0) := by
    intro h
    have hd : (2 : Int) ∣ kernelSize + 1 := Int.dvd_of_tmod_eq_zero h
    omega
  constructor
  · unfold apply3DMedianBlur
    simp only [h1, h2, if_true, if_false]
  · unfold apply3DGaussianBlur
    simp only [h1, h2, if_true, if_false]

set_option maxRecDepth 4096 in
/-- Witness for C25: kernel sizes 2 and 3 on the 3x2x2 test volume. -/
theorem blur_even_kernel_corrected_witness :
    (2 : Int) % 2 = 0 ∧
      apply3DMedianBlur testVolume 2 = apply3DMedianBlur testVolume (2 + 1) ∧
      apply3DGaussianBlur byteOps testVolume 2 7 =
        apply3DGaussianBlur byteOps testVolume (2 + 1) 7 ∧
      (apply3DMedianBlur testVolume 2).1 = .ok () ∧
      (apply3DMedianBlur testVolume 2).2.data =
        [13, 13, 14, 13, 14, 15, 50, 51, 52, 51, 52, 52] :=
  ⟨by decide, (blur_even_kernel_corrected byteOps testVolume 2 7 (by decide)).1,
    (blur_even_kernel_corrected byteOps testVolume 2 7 (by decide)).2, rfl, rfl⟩

/-- C28: an unknown identifier is a no-op for its operation.  For every
volume and every projection type other than `"MIP"`, `"MinIP"`, `"AIP"` and
`"AIPMedian"`, `applyProjection3D` calls no projection and produces no
buffer; for every blur type other than `"Gaussian"` and `"Median"`,
`apply3DBlur` returns normally and leaves the volume as it is; and
`"Gaussian"` and `"Median"` are `apply3DGaussianBlur` and
`apply3DMedianBlur` with the kernel size converted to `int`. -/
theorem unknown_identifier_is_noop {F : Type} (ops : FloatOps F) (toInt : F → Int)
    (vol : Volume) (kernelSize sigma : F) :
    (∀ projType zStart zEnd, projType ≠ "MIP" → projType ≠ "MinIP" → projType ≠ "AIP" →
      projType ≠ "AIPMedian" → applyProjection3D vol projType zStart zEnd = none) ∧
    (∀ blurType, blurType ≠ "Gaussian" → blurType ≠ "Median" →
      apply3DBlur ops toInt vol blurType kernelSize sigma = (.ok (), vol)) ∧
    apply3DBlur ops toInt vol "Gaussian" kernelSize sigma =
      apply3DGaussianBlur ops vol (toInt kernelSize) sigma ∧
    apply3DBlur ops toInt vol "Median" kernelSize sigma =
      apply3DMedianBlur vol (toInt kernelSize) := by
  refine ⟨?_, ?_, ?_, ?_⟩
  · intro projType zStart zEnd h1 h2 h3 h4
    unfold applyProjection3D
    rw [if_neg h1, if_neg h2, if_neg h3, if_neg h4]
  · intro blurType h1 h2
    unfold apply3DBlur
    rw [if_neg h1, if_neg h2]
  · unfold apply3DBlur
    rw [if_pos rfl]
  · unfold apply3DBlur
    rw [if_neg (by decide), if_pos rfl]

/-- Witness for C28: the projection type `"mip"` and the blur type `"Box"`
on the 3x2x2 test volume. -/
theorem unknown_identifier_is_noop_witness :
    applyProjection3D testVolume "mip" 0 (-1) = none ∧
      apply3DBlur byteOps (fun b => (b.val : Int)) testVolume "Box" 3 2 =
        (.ok (), testVolume) :=
  ⟨(unknown_identifier_is_noop byteOps (fun b => (b.val : Int)) testVolume 3 2).1 "mip" 0 (-1)
      (by decide) (by decide) (by decide) (by decide),
    (unknown_identifier_is_noop byteOps (fun b => (b.val : Int)) testVolume 3 2).2.1 "Box"
      (by decide) (by decide)⟩


/-! ## Buffers compared entry by entry -/

/-- Two buffers of `w * h` entries that agree at every `x + w * y` are
equal. -/
theorem list_eq_of_index2 {α : Type} (w h : Nat) (l1 l2 : List α) (d : α)
    (h1 : l1.length = w * h) (h2 : l2.length = w * h)
    (hval : ∀ x y, x < w → y < h → l1.getD (x + w * y) d = l2.getD (x + w * y) d) :
    l1 = l2 := by
  apply List.ext_getElem (by rw [h1, h2])
  intro i hi1 hi2
  have hw : 0 < w := by
    rcases Nat.eq_zero_or_pos w with h0 | hp
    · rw [h1, h0, Nat.zero_mul] at hi1
      exact absurd hi1 (Nat.not_lt_zero i)
    · exact hp
  have hx : i % w < w := Nat.mod_lt i hw
  have hy : i / w < h := by
    rw [h1] at hi1
    exact Nat.div_lt_of_lt_mul hi1
  have hi : i % w + w * (i / w) = i := Nat.mod_add_div i w
  have key := hval (i % w) (i / w) hx hy
  rw [hi, List.getD_eq_getElem _ d hi1, List.getD_eq_getElem _ d hi2] at key
  exact key

/-- Two buffers of `w * h * dp` entries that agree at every
`x + w * (y + h * z)` are equal. -/
theorem list_eq_of_index3 {α : Type} (w h dp : Nat) (l1 l2 : List α) (d : α)
    (h1 : l1.length = w * h * dp) (h2 : l2.length = w * h * dp)
    (hval : ∀ x y z, x < w → y < h → z < dp →
      l1.getD (x + w * (y + h * z)) d = l2.getD (x + w * (y + h * z)) d) :
    l1 = l2 := by
  apply list_eq_of_index2 w (h * dp) l1 l2 d (by rw [h1]; ring) (by rw [h2]; ring)
  intro x j hx hj
  have hh : 0 < h := by
    rcases Nat.eq_zero_or_pos h with h0 | hp
    · rw [h0, Nat.zero_mul] at hj
      exact absurd hj (Nat.not_lt_zero j)
    · exact hp
  have hy : j % h < h := Nat.mod_lt j hh
  have hz : j / h < dp := Nat.div_lt_of_lt_mul hj
  have hj' : j % h + h * (j / h) = j := Nat.mod_add_div j h
  have key := hval x (j % h) (j / h) hx hy hz
  rw [hj'] at key
  exact key

/-! ## Projection buffers and their persisted form -/

/-- The encoder call of `writeGrayPNG`: three channels, lines of
`3 * width` bytes, and every sample of the buffer three times in a row. -/
theorem writeGrayPNG_spec (buffer : List Byte) (width height : Nat) :
    (writeGrayPNG buffer width height).width = width ∧
      (writeGrayPNG buffer width height).height = height ∧
      (writeGrayPNG buffer width height).channels = 3 ∧
      (writeGrayPNG buffer width height).stride_in_bytes = 3 * width ∧
      (writeGrayPNG buffer width height).data.length = 3 * width * height ∧
      ∀ i, i < width * height →
        (writeGrayPNG buffer width height).data.getD (3 * i) 0 = buffer.getD i 0 ∧
        (writeGrayPNG buffer width height).data.getD (3 * i + 1) 0 = buffer.getD i 0 ∧
        (writeGrayPNG buffer width height).data.getD (3 * i + 2) 0 = buffer.getD i 0 := by
  have key := foldl_range_invariant
    (fun k (rgb : List Byte) => k ≤ width * height → (rgb.length = 3 * width * height ∧
      ∀ i, i < k → rgb.getD (3 * i) 0 = buffer.getD i 0 ∧
        rgb.getD (3 * i + 1) 0 = buffer.getD i 0 ∧ rgb.getD (3 * i + 2) 0 = buffer.getD i 0))
    (fun rgb i =>
      let g := buffer.getD i 0
      ((rgb.set (3 * i + 0) g).set (3 * i + 1) g).set (3 * i + 2) g)
    (List.replicate (3 * width * height) 0) (width * height)
    (fun _ => ⟨List.length_replicate _ _, fun i hi => absurd hi (Nat.not_lt_zero i)⟩) ?_
  · exact ⟨rfl, rfl, rfl, rfl, (key (Nat.le_refl _)).1, (key (Nat.le_refl _)).2⟩
  · intro k rgb hk hP _
    obtain ⟨hl, hprev⟩ := hP (Nat.le_of_lt hk)
    have hroom : 3 * k + 2 < rgb.length := by
      rw [hl]
      have : 3 * (k + 1) ≤ 3 * (width * height) := Nat.mul_le_mul_left 3 hk
      have e : 3 * (width * height) = 3 * width * height := by ring
      omega
    simp only [Nat.add_zero]
    refine ⟨by simp [hl], ?_⟩
    intro i hi
    rcases Nat.lt_succ_iff_lt_or_eq.mp hi with hlt | heq
    · obtain ⟨p0, p1, p2⟩ := hprev i hlt
      refine ⟨?_, ?_, ?_⟩
      · rw [getD_set_of_ne _ _ _ (by omega), getD_set_of_ne _ _ _ (by omega),
          getD_set_of_ne _ _ _ (by omega)]
        exact p0
      · rw [getD_set_of_ne _ _ _ (by omega), getD_set_of_ne _ _ _ (by omega),
          getD_set_of_ne _ _ _ (by omega)]
        exact p1
      · rw [getD_set_of_ne _ _ _ (by omega), getD_set_of_ne _ _ _ (by omega),
          getD_set_of_ne _ _ _ (by omega)]
        exact p2
    · subst heq
      refine ⟨?_, ?_, ?_⟩
      · rw [getD_set_of_ne _ _ _ (by omega), getD_set_of_ne _ _ _ (by omega),
          getD_set_self _ _ _ _ (by omega)]
      · rw [getD_set_of_ne _ _ _ (by omega),
          getD_set_self _ _ _ _ (by rw [List.length_set]; omega)]
      · rw [getD_set_self _ _ _ _ (by rw [List.length_set, List.length_set]; omega)]

theorem fill_replicate_length {α : Type} (w h : Nat) (f : Nat → Nat → α) (a : α) :
    (fillXY w h f (List.replicate (w * h) a)).length = w * h :=
  (fillXY_spec w h f _ (List.length_replicate _ _)).1

theorem MIP_length (v : Volume) (hw : 1 ≤ v.width) (hh : 1 ≤ v.height) (hd : 1 ≤ v.depth) :
    ∃ out, MIP v = .ok out ∧ out.length = v.width * v.height := by
  unfold MIP
  simp only []
  rw [if_neg (by omega)]
  exact ⟨_, rfl, fill_replicate_length _ _ _ _⟩

theorem MinIP_length (v : Volume) :
    ∃ out, MinIP v = .ok out ∧ out.length = v.width * v.height :=
  ⟨_, rfl, fill_replicate_length _ _ _ _⟩

theorem AIPMedian_length (v : Volume) (hw : 1 ≤ v.width) (hh : 1 ≤ v.height)
    (hd : 1 ≤ v.depth) :
    ∃ out, AIPMedian v = .ok out ∧ out.length = v.width * v.height := by
  unfold AIPMedian
  simp only []
  rw [if_neg (by omega)]
  exact ⟨_, rfl, fill_replicate_length _ _ _ _⟩

theorem averages_length (w h d : Nat) (hd : d ≠ 0) (accum : List Nat) :
    ∃ out, fillXYM w h (fun x y => meanOf (accum.getD (x + w * y) 0) d)
        (List.replicate (w * h) 0) = .ok out ∧ out.length = w * h := by
  refine ⟨_, fillXYM_eq_ok w h _ (fun x y => toByte (accum.getD (x + w * y) 0 / d)) _ ?_,
    fill_replicate_length _ _ _ _⟩
  intro x y _ _
  unfold meanOf
  rw [if_neg hd]

theorem AIP_length (v : Volume) (hd : 1 ≤ v.depth) :
    ∃ out, AIP v = .ok out ∧ out.length = v.width * v.height := by
  unfold AIP
  simp only []
  exact averages_length _ _ _ (by omega) _

theorem MIPSlab_length (v : Volume) (zStart zEnd : Int) :
    ∃ out, MIPSlab v zStart zEnd = .ok out ∧ out.length = v.width * v.height :=
  ⟨_, rfl, fill_replicate_length _ _ _ _⟩

theorem MinIPSlab_length (v : Volume) (zStart zEnd : Int) :
    ∃ out, MinIPSlab v zStart zEnd = .ok out ∧ out.length = v.width * v.height :=
  ⟨_, rfl, fill_replicate_length _ _ _ _⟩

theorem AIPSlab_length (v : Volume) (zStart zEnd : Int) :
    ∃ out, AIPSlab v zStart zEnd = .ok out ∧ out.length = v.width * v.height := by
  have hr := slabBounds_range v zStart zEnd
  rcases hsb : slabBounds v zStart zEnd with ⟨a, b⟩
  rw [hsb] at hr
  unfold AIPSlab
  rw [hsb]
  simp only []
  exact averages_length _ _ _ (by simp only [] at hr; omega) _

theorem intRange_self (z : Int) : intRange z z = [z] := by
  unfold intRange
  have h : (z + 1 - z).toNat = 1 := by omega
  rw [h]
  simp [List.range_succ]

theorem slabBounds_single (v : Volume) (z : Nat) (hz : z < v.depth) :
    slabBounds v z z = ((z : Int), (z : Int)) := by
  unfold slabBounds
  simp only []
  have h1 : max 0 (min (z : Int) ((v.depth : Int) - 1)) = (z : Int) := by omega
  rw [h1, if_neg (by omega)]

theorem maxStep_zero (val : Byte) : maxStep 0 val = val := by
  unfold maxStep
  split
  · rfl
  · rename_i h
    apply Fin.ext
    have h2 : ¬ ((0 : Byte).val < val.val) := h
    have h0 : (0 : Byte).val = 0 := rfl
    omega

theorem minStep_top (val : Byte) : minStep 255 val = val := by
  unfold minStep
  split
  · rfl
  · rename_i h
    apply Fin.ext
    have h2 : ¬ (val.val < (255 : Byte).val) := h
    have h0 : (255 : Byte).val = 255 := rfl
    have := val.isLt
    omega

theorem foldl_digits_eq_decimalValue (digits : List Char) :
    digits.foldl (fun (n : Nat) (c : Char) => 10 * n + (c.toNat - 48)) 0 =
      decimalValue digits := by
  unfold decimalValue
  induction digits using List.reverseRecOn with
  | nil => rfl
  | append_singleton l c ih =>
    rw [List.foldl_append, List.foldl_cons, List.foldl_nil, ih, List.map_append,
      List.reverse_append, List.map_cons, List.map_nil, List.reverse_singleton,
      List.singleton_append, Nat.ofDigits_cons]
    ring

theorem stoi_eq (digits : List Char) :
    stoi digits =
      if decimalValue digits > 2147483647 then .error (.out_of_range "stoi")
      else .ok ((decimalValue digits : Nat) : Int) := by
  unfold stoi
  simp only []
  rw [foldl_digits_eq_decimalValue]

theorem dropWhile_append_of_all {α : Type} (p : α → Bool) (l1 l2 : List α)
    (h : ∀ x, x ∈ l1 → p x = true) : (l1 ++ l2).dropWhile p = l2.dropWhile p := by
  induction l1 with
  | nil => rfl
  | cons a t ih =>
    rw [List.cons_append, List.dropWhile_cons, if_pos (h a (List.mem_cons_self a t))]
    exact ih (fun x hx => h x (List.mem_cons_of_mem a hx))

theorem takeWhile_append_of_all {α : Type} (p : α → Bool) (l1 l2 : List α)
    (h : ∀ x, x ∈ l1 → p x = true) (h2 : ∀ x, l2.head? = some x → p x = false) :
    (l1 ++ l2).takeWhile p = l1 := by
  induction l1 with
  | nil =>
    cases l2 with
    | nil => rfl
    | cons b t =>
      rw [List.nil_append, List.takeWhile_cons, h2 b rfl]
      rfl
  | cons a t ih =>
    rw [List.cons_append, List.takeWhile_cons, if_pos (h a (List.mem_cons_self a t)),
      ih (fun x hx => h x (List.mem_cons_of_mem a hx))]

/-- The result of `parseSliceNumber` on a name `base ++ ".png"` with a
non-empty base. -/
theorem parseSliceNumber_base (filename : String) (base : List Char) (hb : base ≠ [])
    (hname : filename.data = base ++ ['.', 'p', 'n', 'g']) :
    parseSliceNumber filename =
      if (base.reverse.dropWhile fun c => !c.isDigit).isEmpty then .ok none
      else (stoi (((base.reverse.dropWhile fun c => !c.isDigit).takeWhile
        Char.isDigit).reverse)).map some := by
  have hlen : filename.data.length = base.length + 4 := by rw [hname]; simp
  have hpos : 0 < base.length := List.length_pos.mpr hb
  unfold parseSliceNumber
  simp only []
  rw [if_neg (by omega)]
  have h4 : filename.data.length - 4 = base.length := by omega
  rw [h4, hname, List.drop_left, List.take_left, if_neg (by simp)]

theorem stoi_map_ne_none (digits : List Char) : (stoi digits).map some ≠ .ok none := by
  rw [stoi_eq]
  split <;> intro h <;> cases h

theorem ends_in_png (filename : String) (h5 : ¬ filename.data.length < 5)
    (hext : filename.data.drop (filename.data.length - 4) = ['.', 'p', 'n', 'g']) :
    ∃ base, base ≠ [] ∧ filename.data = base ++ ['.', 'p', 'n', 'g'] := by
  refine ⟨filename.data.take (filename.data.length - 4), ?_, ?_⟩
  · intro h
    have := congrArg List.length h
    rw [List.length_take] at this
    simp only [List.length_nil] at this
    omega
  · rw [← hext, List.take_append_drop]

/-- C21, as the code has it: `parseSliceNumber` fails (returns `false`)
exactly on the names that do not end in `.png` after a base name holding a
decimal digit.  On a name `pre ++ digits ++ tail ++ ".png"`, where `digits`
is a maximal run of digits and `tail` holds no digit, it reads the decimal
value of `digits` when this fits an `int`, and throws `std::out_of_range`
otherwise: the index is the last run of digits of the base name, also when
other characters stand between it and the extension. -/
theorem parseSliceNumber_spec (filename : String) :
    (parseSliceNumber filename ≠ .ok none ↔
      ∃ base, filename.data = base ++ ['.', 'p', 'n', 'g'] ∧
        ∃ c, c ∈ base ∧ c.isDigit = true) ∧
    (∀ pre digits tail : List Char,
      filename.data = pre ++ digits ++ tail ++ ['.', 'p', 'n', 'g'] → digits ≠ [] →
      (∀ c, c ∈ digits → c.isDigit = true) → (∀ c, c ∈ tail → c.isDigit = false) →
      (∀ c, pre.getLast? = some c → c.isDigit = false) →
      parseSliceNumber filename =
        if decimalValue digits > 2147483647 then .error (.out_of_range "stoi")
        else .ok (some ((decimalValue digits : Nat) : Int))) := by
  constructor
  · constructor
    · intro hne
      by_cases h5 : filename.data.length < 5
      · exact absurd (parseSliceNumber_short filename h5) hne
      · by_cases hext : filename.data.drop (filename.data.length - 4) = ['.', 'p', 'n', 'g']
        · obtain ⟨base, hb, hname⟩ := ends_in_png filename h5 hext
          refine ⟨base, hname, ?_⟩
          rw [parseSliceNumber_base filename base hb hname] at hne
          by_contra hno
          apply hne
          have hall : ∀ x, x ∈ base.reverse → (!x.isDigit) = true := by
            intro x hx
            rw [List.mem_reverse] at hx
            cases hd : x.isDigit with
            | false => rfl
            | true => exact absurd ⟨x, hx, hd⟩ hno
          rw [List.dropWhile_eq_nil_iff.mpr hall]
          rfl
        · exfalso
          apply hne
          unfold parseSliceNumber
          simp only []
          rw [if_neg h5, if_pos hext]
    · rintro ⟨base, hname, c, hc, hd⟩
      have hb : base ≠ [] := List.ne_nil_of_mem hc
      rw [parseSliceNumber_base filename base hb hname]
      have hne : (base.reverse.dropWhile fun c => !c.isDigit) ≠ [] := by
        intro h
        have := List.dropWhile_eq_nil_iff.mp h c (List.mem_reverse.mpr hc)
        rw [hd] at this
        cases this
      have hemp : (base.reverse.dropWhile fun c => !c.isDigit).isEmpty = false := by
        cases hl : (base.reverse.dropWhile fun c => !c.isDigit) with
        | nil => exact absurd hl hne
        | cons a t => rfl
      rw [hemp]
      exact stoi_map_ne_none _
  · intro pre digits tail hname hdig hall htail hpre
    have hb : pre ++ digits ++ tail ≠ [] := by
      intro h
      have := congrArg List.length h
      have hp : 0 < digits.length := List.length_pos.mpr hdig
      simp only [List.length_append, List.length_nil] at this
      omega
    rw [parseSliceNumber_base filename (pre ++ digits ++ tail) hb hname]
    have hrev : (pre ++ digits ++ tail).reverse = tail.reverse ++ (digits.reverse ++ pre.reverse) := by
      simp [List.reverse_append, List.append_assoc]
    have hdrop : ((pre ++ digits ++ tail).reverse.dropWhile fun c => !c.isDigit) =
        digits.reverse ++ pre.reverse := by
      rw [hrev, dropWhile_append_of_all _ _ _ (fun x hx => by
        rw [htail x (List.mem_reverse.mp hx)]; rfl)]
      cases hd : digits.reverse with
      | nil =>
        exact absurd (List.reverse_eq_nil_iff.mp hd) hdig
      | cons a t =>
        have ha : a.isDigit = true := by
          apply hall
          rw [← List.mem_reverse, hd]
          exact List.mem_cons_self a t
        rw [List.cons_append, List.dropWhile_cons, ha]
        rfl
    have htake : (digits.reverse ++ pre.reverse).takeWhile Char.isDigit = digits.reverse := by
      apply takeWhile_append_of_all
      · intro x hx
        exact hall x (List.mem_reverse.mp hx)
      · intro x hx
        rw [List.head?_reverse] at hx
        exact hpre x hx
    have hemp : (digits.reverse ++ pre.reverse).isEmpty = false := by
      cases hd : digits.reverse with
      | nil => exact absurd (List.reverse_eq_nil_iff.mp hd) hdig
      | cons a t => rfl
    rw [hdrop, hemp, htake, List.reverse_reverse, stoi_eq, if_neg (by decide)]
    by_cases hbig : decimalValue digits > 2147483647
    · rw [if_pos hbig, if_pos hbig]
      rfl
    · rw [if_neg hbig, if_neg hbig]
      rfl

/-- Counterexample for C21: `vol12abc.png` has no digit directly before the
extension and is accepted with the index 12. -/
theorem parseSliceNumber_skips_letters_counterexample :
    parseSliceNumber "vol12abc.png" = .ok (some 12) ∧
      ("vol12abc.png".data.reverse.drop 4).head? = some 'c' ∧ 'c'.isDigit = false :=
  ⟨rfl, rfl, rfl⟩

/-- Witness for C21: the names `vol3_007.png`, with the index 7, and
`vol.png`, without a digit. -/
theorem parseSliceNumber_spec_witness :
    parseSliceNumber "vol3_007.png" = .ok (some 7) ∧ decimalValue ['0', '0', '7'] = 7 ∧
      parseSliceNumber "vol.png" = .ok none := by
  have h := (parseSliceNumber_spec "vol3_007.png").2 ['v', 'o', 'l', '3', '_']
    ['0', '0', '7'] [] rfl (by decide) (by decide) (by decide) (by decide)
  have hv : decimalValue ['0', '0', '7'] = 7 := by decide
  rw [hv] at h
  refine ⟨h, hv, ?_⟩
  by_contra hne
  obtain ⟨base, hname, c, hc, hd⟩ := (parseSliceNumber_spec "vol.png").1.mp hne
  have hbase : base = ['v', 'o', 'l'] := by
    have h1 : "vol.png".data = ['v', 'o', 'l'] ++ ['.', 'p', 'n', 'g'] := rfl
    rw [h1] at hname
    exact (List.append_cancel_right hname).symm
  subst hbase
  simp only [List.mem_cons, List.mem_singleton, List.not_mem_nil, or_false] at hc
  rcases hc with rfl | rfl | rfl <;> exact absurd hd (by decide)


/-! ## The extension of the slice files -/

/-- A name that `parseSliceNumber` does not reject ends in `.png` after a
base name that holds a digit. -/
theorem parseSliceNumber_base_of_ne (filename : String)
    (hne : parseSliceNumber filename ≠ .ok none) :
    ∃ base, filename.data = base ++ ['.', 'p', 'n', 'g'] ∧ base ≠ [] := by
  by_cases h5 : filename.data.length < 5
  · exact absurd (parseSliceNumber_short filename h5) hne
  · by_cases hext : filename.data.drop (filename.data.length - 4) = ['.', 'p', 'n', 'g']
    · obtain ⟨base, hb, hname⟩ := ends_in_png filename h5 hext
      exact ⟨base, hname, hb⟩
    · exfalso
      apply hne
      unfold parseSliceNumber
      simp only []
      rw [if_neg h5, if_pos hext]

/-- C22, as the code has it: the loader never reads the member `extension`.
Whatever extension is configured, the load ends in the same way and leaves
the same volume (apart from the member itself), and a file is accepted only
if its name ends in `.png`. -/
theorem load_ignores_extension (env : LoadEnv) (vol : Volume) (folderPath : String)
    (e : String) :
    loadVolumeFromSlices env { vol with extension := e } folderPath =
        ((loadVolumeFromSlices env vol folderPath).1,
          { (loadVolumeFromSlices env vol folderPath).2 with extension := e }) ∧
      ∀ actualDir prefixPart fname,
        acceptedFile env vol.firstSlice vol.lastSlice actualDir prefixPart fname ≠ none →
          ∃ base, fname.data = base ++ ['.', 'p', 'n', 'g'] := by
  constructor
  · unfold loadVolumeFromSlices Volume.cleared
    simp only []
    split
    · rfl
    · split
      · rfl
      · split
        · rfl
        · split
          · rfl
          · split <;> rfl
  · intro actualDir prefixPart fname hacc
    have hparse : parseSliceNumber fname ≠ .ok none := by
      intro hp
      apply hacc
      have hc : candidateIndex env actualDir prefixPart fname = none := by
        unfold candidateIndex
        rw [hp]
        split <;> rfl
      unfold acceptedFile
      rw [hc]
    obtain ⟨base, hname, -⟩ := (parseSliceNumber_base_of_ne fname hparse)
    exact ⟨base, hname⟩

/-- Failing input for C22: with the extension `jpg` configured, the load of
`mixed` takes `s1.png` and neither `s1.jpg` nor `s2.jpg`. -/
theorem load_extension_counterexample :
    loadVolumeFromSlices mixedFolder { Volume.empty with extension := "jpg" } "mixed" =
        (.success, { width := 1, height := 1, depth := 1, channels := 1, data := [9],
                     extension := "jpg" }) ∧
      acceptedFile mixedFolder 1 (-1) "mixed" "" "s1.jpg" = none ∧
      acceptedFile mixedFolder 1 (-1) "mixed" "" "s2.jpg" = none ∧
      acceptedFile mixedFolder 1 (-1) "mixed" "" "s1.png" = some ("mixed/s1.png", 1) :=
  ⟨rfl, rfl, rfl, rfl⟩

/-- Witness for C22 on the directory `mixed`. -/
theorem load_ignores_extension_witness :
    loadVolumeFromSlices mixedFolder { Volume.empty with extension := "jpg" } "mixed" =
      ((loadVolumeFromSlices mixedFolder Volume.empty "mixed").1,
        { (loadVolumeFromSlices mixedFolder Volume.empty "mixed").2 with
          extension := "jpg" }) :=
  (load_ignores_extension mixedFolder Volume.empty "mixed" "jpg").1


/-! ## The median blur of a constant volume -/

/-- The voxels of the median blur with an odd kernel size whose cube is
below `2^31`: the brute-force medians of the windows of the original
volume. -/
theorem apply3DMedianBlur_voxels (v : Volume) (hc : v.channels = 1)
    (hw : 1 ≤ v.width) (hh : 1 ≤ v.height) (hd : 1 ≤ v.depth) (hinv : v.LengthInv)
    (kernelSize : Nat) (hodd : kernelSize % 2 = 1) (hbound : kernelSize ^ 3 < 2 ^ 31) :
    ∃ out, apply3DMedianBlur v kernelSize = (.ok (), { v with data := out }) ∧
      out.length = v.data.length ∧
      ∀ x y z, x < v.width → y < v.height → z < v.depth →
        out.getD (x + v.width * (y + v.height * z)) 0 = bruteForceMedian v kernelSize x y z := by
  have hk : 2 * (kernelSize / 2) + 1 = kernelSize := by omega
  have hodd' : ¬ ((kernelSize : Int).tmod 2 = 0) := by
    rw [show (2 : Int) = ((2 : Nat) : Int) from rfl, ← Int.ofNat_tmod, hodd]
    decide
  have hrad : (kernelSize : Int).tdiv 2 = ((kernelSize / 2 : Nat) : Int) := by
    rw [show (2 : Int) = ((2 : Nat) : Int) from rfl, ← Int.ofNat_tdiv]
  obtain ⟨out, hres, hlen, hval⟩ :=
    apply3DMedianBlur_scans v hc hw hh hd hinv kernelSize hodd' (kernelSize / 2) hrad
  refine ⟨out, hres, hlen, ?_⟩
  intro x y z hx hy hz
  have hlenS : (windowSamples v (kernelSize / 2) x y z).length = kernelSize ^ 3 := by
    rw [length_windowSamples, hk]
  have hfew : (windowSamples v (kernelSize / 2) x y z).length < 2147483648 := by
    rw [hlenS]
    exact hbound
  rw [hval x y z hx hy hz, wrapHist_countOf _ hfew, medianPos_fits kernelSize hbound]
  unfold bruteForceMedian
  apply medianScan_countOf _ hfew
  rw [hlenS]
  have : 0 < kernelSize ^ 3 := Nat.pos_pow_of_pos 3 (by omega)
  omega

theorem getD_of_all_eq {α : Type} (l : List α) (c d : α) (i : Nat) (hi : i < l.length)
    (h : ∀ a, a ∈ l → a = c) : l.getD i d = c := by
  rw [List.getD_eq_getElem l d hi]
  exact h _ (List.getElem_mem hi)

/-- The brute-force median of a window of equal samples is that sample. -/
theorem bruteForceMedian_constant (v : Volume) (hw : 1 ≤ v.width) (hh : 1 ≤ v.height)
    (hd : 1 ≤ v.depth) (c : Byte)
    (hconst : ∀ x y z, x < v.width → y < v.height → z < v.depth → v.voxel x y z = c)
    (kernelSize : Nat) (hodd : kernelSize % 2 = 1) (x y z : Nat) :
    bruteForceMedian v kernelSize x y z = c := by
  have hk : 2 * (kernelSize / 2) + 1 = kernelSize := by omega
  have hperm := List.perm_insertionSort (· ≤ ·) (windowSamples v (kernelSize / 2) x y z)
  unfold bruteForceMedian
  apply getD_of_all_eq
  · rw [hperm.length_eq, length_windowSamples, hk]
    have : 0 < kernelSize ^ 3 := Nat.pos_pow_of_pos 3 (by omega)
    omega
  · intro a ha
    have ha' := hperm.mem_iff.mp ha
    unfold windowSamples at ha'
    simp only [List.mem_flatMap, List.mem_map] at ha'
    obtain ⟨dz, -, dy, -, dx, -, rfl⟩ := ha'
    have rx := clamp_range ((x : Int) + dx) ((v.width : Int) - 1) (by omega)
    have ry := clamp_range ((y : Int) + dy) ((v.height : Int) - 1) (by omega)
    have rz := clamp_range ((z : Int) + dz) ((v.depth : Int) - 1) (by omega)
    apply hconst <;> omega

/-! ## A kernel whose cube passes `INT_MAX` -/

/-- Every sample of a window of a constant volume is the constant. -/
theorem windowSamples_constant (v : Volume) (hw : 1 ≤ v.width) (hh : 1 ≤ v.height)
    (hd : 1 ≤ v.depth) (c : Byte)
    (hconst : ∀ x y z, x < v.width → y < v.height → z < v.depth → v.voxel x y z = c)
    (r x y z : Nat) : ∀ a, a ∈ windowSamples v r x y z → a = c := by
  intro a ha
  unfold windowSamples at ha
  simp only [List.mem_flatMap, List.mem_map] at ha
  obtain ⟨dz, -, dy, -, dx, -, rfl⟩ := ha
  have rx := clamp_range ((x : Int) + dx) ((v.width : Int) - 1) (by omega)
  have ry := clamp_range ((y : Int) + dy) ((v.height : Int) - 1) (by omega)
  have rz := clamp_range ((z : Int) + dz) ((v.depth : Int) - 1) (by omega)
  apply hconst <;> omega

/-- The histogram of a list of equal samples: every sample is in the bin of
the common value. -/
theorem countOf_constant (S : List Byte) (c : Byte) (h : ∀ a, a ∈ S → a = c) (i : Nat) :
    countOf S i = if i = c.val then (S.length : Int) else 0 := by
  unfold countOf
  by_cases e : i = c.val
  · rw [if_pos e]
    congr 1
    apply List.countP_eq_length.mpr
    intro a ha
    rw [h a ha, e]
    exact decide_eq_true rfl
  · rw [if_neg e]
    have : S.countP (fun b => decide (b.val = i)) = 0 := by
      apply List.countP_eq_zero.mpr
      intro a ha
      rw [h a ha]
      simpa using fun h' => e h'.symm
    rw [this]
    rfl

/-- The scan stops at bin 0 when the count of bin 0 exceeds the threshold. -/
theorem medianScan_first (h : Histogram) (pos : Int) (h0 : wrapInt32 (0 + h 0) > pos) :
    medianScan h pos = 0 := by
  unfold medianScan
  rw [List.range_eq_range', show (256 : Nat) = 255 + 1 from rfl, List.range'_succ]
  unfold scanBins
  rw [if_pos h0]

theorem pointVolume_constant : ∀ x y z, x < pointVolume.width → y < pointVolume.height →
    z < pointVolume.depth → pointVolume.voxel x y z = 7 := by
  intro x y z hx hy hz
  have hx0 : x = 0 := by have : pointVolume.width = 1 := rfl; omega
  have hy0 : y = 0 := by have : pointVolume.height = 1 := rfl; omega
  have hz0 : z = 0 := by have : pointVolume.depth = 1 := rfl; omega
  subst hx0 hy0 hz0
  rfl

/-- The 32-bit threshold of the scan for the kernel size 1291. -/
theorem medianPos_1291 :
    (wrapInt32 (wrapInt32 ((1291 : Int) * 1291) * 1291)).tdiv 2 = -1071641062 := by
  decide

/-- The median blur with kernel size 1291, whose cube is above `2^31`, on
the volume of the single voxel 7: the threshold of the scan is negative,
the scan stops at bin 0 and the voxel becomes 0. -/
theorem pointVolume_blur_1291 :
    apply3DMedianBlur pointVolume 1291 = (.ok (), { pointVolume with data := [0] }) := by
  obtain ⟨out, hres, hlen, hval⟩ := apply3DMedianBlur_scans pointVolume rfl (by decide)
    (by decide) (by decide) (by decide) 1291 (by decide) 645 (by decide)
  have h0 := hval 0 0 0 (by decide) (by decide) (by decide)
  have hbin : countOf (windowSamples pointVolume 645 0 0 0) 0 = 0 := by
    rw [countOf_constant _ 7 (windowSamples_constant pointVolume (by decide) (by decide)
      (by decide) 7 pointVolume_constant 645 0 0 0), if_neg (by decide)]
  have hscan : medianScan (wrapHist (countOf (windowSamples pointVolume 645 0 0 0)))
      ((wrapInt32 (wrapInt32 ((1291 : Int) * 1291) * 1291)).tdiv 2) = 0 := by
    apply medianScan_first
    rw [medianPos_1291]
    show wrapInt32 (0 + wrapInt32 (countOf (windowSamples pointVolume 645 0 0 0) 0)) > _
    rw [hbin]
    decide
  rw [hscan] at h0
  have hout : out = [0] := by
    have hl : out.length = 1 := hlen
    match out, hl, h0 with
    | [b], _, hb => exact congrArg (fun t => [t]) hb
  rw [hres, hout]

/-- Three nested loops that store `g a b c` at `idx a b c`, for an index
that is injective on the box and inside the buffer: the length is kept and
every `idx a b c` holds `g a b c`. -/
theorem scatter3_spec {α : Type} (n1 n2 n3 : Nat) (idx : Nat → Nat → Nat → Nat)
    (g : Nat → Nat → Nat → α) (init : List α)
    (hinj : ∀ a b c a' b' c', a < n1 → b < n2 → c < n3 → a' < n1 → b' < n2 → c' < n3 →
      idx a b c = idx a' b' c' → a = a' ∧ b = b' ∧ c = c')
    (hlt : ∀ a b c, a < n1 → b < n2 → c < n3 → idx a b c < init.length) :
    ((List.range n1).foldl (fun s a => (List.range n2).foldl (fun s b =>
        (List.range n3).foldl (fun s c => s.set (idx a b c) (g a b c)) s) s) init).length =
        init.length ∧
      ∀ a b c, a < n1 → b < n2 → c < n3 → ∀ d,
        ((List.range n1).foldl (fun s a => (List.range n2).foldl (fun s b =>
          (List.range n3).foldl (fun s c => s.set (idx a b c) (g a b c)) s) s) init).getD
            (idx a b c) d = g a b c := by
  have key := foldl_range_invariant
    (fun k (s : List α) => k ≤ n1 → (s.length = init.length ∧
      ∀ a b c, a < k → b < n2 → c < n3 → ∀ d, s.getD (idx a b c) d = g a b c))
    (fun s a => (List.range n2).foldl (fun s b =>
        (List.range n3).foldl (fun s c => s.set (idx a b c) (g a b c)) s) s)
    init n1 (fun _ => ⟨rfl, fun a b c ha => absurd ha (Nat.not_lt_zero a)⟩) ?_
  · exact ⟨(key (Nat.le_refl _)).1, fun a b c ha hb hc d => (key (Nat.le_refl _)).2 a b c ha hb hc d⟩
  · intro k s hk hP _
    obtain ⟨hl, hprev⟩ := hP (Nat.le_of_lt hk)
    obtain ⟨sl, sval, srest⟩ := scatter_spec n3 n2 (fun c b => idx k b c) (fun c b => g k b c) s
      (fun c b c' b' hc hb hc' hb' e => by
        have := hinj k b c k b' c' hk hb hc hk hb' hc' e
        exact ⟨this.2.2, this.2.1⟩)
      (fun c b hc hb => by rw [hl]; exact hlt k b c hk hb hc)
    refine ⟨by rw [sl, hl], ?_⟩
    intro a b c ha hb hc d
    rcases Nat.lt_succ_iff_lt_or_eq.mp ha with hlt' | heq
    · rw [srest (idx a b c) (fun c' b' hc' hb' e => by
        have := (hinj a b c k b' c' (Nat.lt_trans hlt' hk) hb hc hk hb' hc' e).1
        omega) d]
      exact hprev a b c hlt' hb hc d
    · subst heq
      exact sval c b hc hb d

/-- Three nested loops whose body computes a sample without failure and
stores it. -/
theorem scatter3_ok {ε : Type} (n1 n2 n3 : Nat) (idx : Nat → Nat → Nat → Nat)
    (val : Nat → Nat → Nat → Except ε Byte) (g : Nat → Nat → Nat → Byte) (init : List Byte)
    (hval : ∀ a b c, a < n1 → b < n2 → c < n3 → val a b c = .ok (g a b c))
    (hinj : ∀ a b c a' b' c', a < n1 → b < n2 → c < n3 → a' < n1 → b' < n2 → c' < n3 →
      idx a b c = idx a' b' c' → a = a' ∧ b = b' ∧ c = c')
    (hlt : ∀ a b c, a < n1 → b < n2 → c < n3 → idx a b c < init.length) :
    ∃ out, (List.range n1).foldlM (fun buf (a : Nat) =>
        (List.range n2).foldlM (fun buf (b : Nat) =>
          (List.range n3).foldlM (fun buf (c : Nat) => do
            let v ← val a b c
            pure (buf.set (idx a b c) v)) buf) buf) init = .ok out ∧
      out.length = init.length ∧
      ∀ a b c, a < n1 → b < n2 → c < n3 → out.getD (idx a b c) 0 = g a b c := by
  obtain ⟨hl, hv⟩ := scatter3_spec n1 n2 n3 idx g init hinj hlt
  refine ⟨_, ?_, hl, fun a b c ha hb hc => hv a b c ha hb hc 0⟩
  apply foldlM_eq_ok_foldl
  intro a ha s
  apply foldlM_eq_ok_foldl
  intro b hb s2
  apply foldlM_eq_ok_foldl
  intro c hc s3
  rw [hval a b c (List.mem_range.mp ha) (List.mem_range.mp hb) (List.mem_range.mp hc)]
  rfl

/-- A convolution whose taps are read without failure is the sample of the
specification. -/
theorem convolveTaps_ok {F : Type} (ops : FloatOps F) (kernel : List F) (radius : Int)
    (read : Int → Except Exception Byte) (rd : Int → Byte)
    (h : ∀ t, t ∈ intRange (-radius) radius → read t = .ok (rd t)) :
    convolveTaps ops kernel radius read = .ok (blurSample ops kernel radius rd) := by
  unfold convolveTaps blurSample
  rw [foldlM_eq_ok_foldl _
    (fun (acc : F × F) (t : Int) =>
      (ops.add acc.1 (ops.mul (ops.ofByte (rd t))
        (kernel.getD (t + radius).toNat (ops.ofInt 0))),
      ops.add acc.2 (kernel.getD (t + radius).toNat (ops.ofInt 0))))]
  · rfl
  · intro t ht acc
    rw [h t ht]
    rfl

/-- A sample depends on the taps of its window only. -/
theorem blurSample_congr {F : Type} (ops : FloatOps F) (kernel : List F) (radius : Int)
    (rd rd' : Int → Byte) (h : ∀ t, t ∈ intRange (-radius) radius → rd t = rd' t) :
    blurSample ops kernel radius rd = blurSample ops kernel radius rd' := by
  unfold blurSample
  simp only []
  have hfold : ∀ (init : F × F),
      (intRange (-radius) radius).foldl
        (fun (acc : F × F) (t : Int) =>
          (ops.add acc.1 (ops.mul (ops.ofByte (rd t))
            (kernel.getD (t + radius).toNat (ops.ofInt 0))),
          ops.add acc.2 (kernel.getD (t + radius).toNat (ops.ofInt 0)))) init =
      (intRange (-radius) radius).foldl
        (fun (acc : F × F) (t : Int) =>
          (ops.add acc.1 (ops.mul (ops.ofByte (rd' t))
            (kernel.getD (t + radius).toNat (ops.ofInt 0))),
          ops.add acc.2 (kernel.getD (t + radius).toNat (ops.ofInt 0)))) init := by
    intro init
    apply List.foldl_ext
    intro acc t ht
    rw [h t ht]
  rw [hfold]


theorem clampIndex_lt (t : Int) (n : Nat) (hn : 1 ≤ n) : clampIndex t n < n := by
  unfold clampIndex
  omega

/-- The Gaussian blur on a single-channel volume that satisfies the
buffer-length invariant: it returns normally, and the voxel at `(x, y, z)`
of the result is the sample of the pass along Z over the 8-bit result of
the pass along Y over the 8-bit result of the pass along X over the
volume. -/
theorem apply3DGaussianBlur_passes {F : Type} (ops : FloatOps F) (v : Volume)
    (hc : v.channels = 1) (hinv : v.LengthInv) (kernelSize : Int) (sigma : F) :
    ∃ out, apply3DGaussianBlur ops v kernelSize sigma = (.ok (), { v with data := out }) ∧
      out.length = v.data.length ∧
      ∀ x y z, x < v.width → y < v.height → z < v.depth →
        out.getD (x + v.width * (y + v.height * z)) 0 =
          passXYZ ops
            (generateGaussianKernel ops
              (if kernelSize.tmod 2 = 0 then kernelSize + 1 else kernelSize) sigma)
            ((if kernelSize.tmod 2 = 0 then kernelSize + 1 else kernelSize).tdiv 2) v x y z := by
  generalize hks : (if kernelSize.tmod 2 = 0 then kernelSize + 1 else kernelSize) = ks
  generalize hker : generateGaussianKernel ops ks sigma = kernel
  generalize hr : ks.tdiv 2 = r
  have hlen0 : (List.replicate v.data.length (0 : Byte)).length = v.width * v.height * v.depth := by
    rw [List.length_replicate]
    exact hinv
  -- the pass along X
  obtain ⟨T1, h1, l1, v1⟩ := scatter3_ok v.depth v.height v.width
    (fun z y x => x + v.width * (y + v.height * z))
    (fun z y x => convolveTaps ops kernel r
      (fun dx => v.getVoxel (max 0 (min ((x : Int) + dx) ((v.width : Int) - 1))) y z))
    (fun z y x => passX ops kernel r v x y z) (List.replicate v.data.length 0)
    (fun z y x hz hy hx => by
      apply convolveTaps_ok
      intro dx _
      have hrange : 0 ≤ max 0 (min ((x : Int) + dx) ((v.width : Int) - 1)) ∧
          max 0 (min ((x : Int) + dx) ((v.width : Int) - 1)) < v.width := by omega
      rw [getVoxel_of_inRange v hc _ y z hrange ⟨by omega, by omega⟩ ⟨by omega, by omega⟩,
        Int.toNat_ofNat, Int.toNat_ofNat]
      rfl)
    (fun z y x z' y' x' _ hy hx _ hy' hx' e => by
      have := flat_index_inj hx hy hx' hy' e
      exact ⟨this.2.2, this.2.1, this.1⟩)
    (fun z y x hz hy hx => by rw [hlen0]; exact flat_index_lt hx hy hz)
  -- the pass along Y
  obtain ⟨T2, h2, l2, v2⟩ := scatter3_ok v.depth v.width v.height
    (fun z x y => x + v.width * (y + v.height * z))
    (fun z x y => convolveTaps ops kernel r
      (fun dy => pure (T1.getD (x + v.width *
        ((max 0 (min ((y : Int) + dy) ((v.height : Int) - 1))).toNat + v.height * z)) 0)))
    (fun z x y => passXY ops kernel r v x y z) (List.replicate v.data.length 0)
    (fun z x y hz hx hy => by
      have hct := convolveTaps_ok ops kernel r
        (fun dy => pure (T1.getD (x + v.width *
          ((max 0 (min ((y : Int) + dy) ((v.height : Int) - 1))).toNat + v.height * z)) 0))
        (fun dy => T1.getD (x + v.width *
          ((max 0 (min ((y : Int) + dy) ((v.height : Int) - 1))).toNat + v.height * z)) 0)
        (fun _ _ => rfl)
      show convolveTaps ops kernel r
        (fun dy => pure (T1.getD (x + v.width *
          ((max 0 (min ((y : Int) + dy) ((v.height : Int) - 1))).toNat + v.height * z)) 0)) =
        .ok (passXY ops kernel r v x y z)
      rw [hct]
      congr 1
      unfold passXY
      apply blurSample_congr
      intro dy _
      exact v1 z (clampIndex ((y : Int) + dy) v.height) x hz
        (clampIndex_lt _ _ (by omega)) hx)
    (fun z x y z' x' y' _ hx hy _ hx' hy' e => by
      have := flat_index_inj hx hy hx' hy' e
      exact ⟨this.2.2, this.1, this.2.1⟩)
    (fun z x y hz hx hy => by rw [hlen0]; exact flat_index_lt hx hy hz)
  -- the pass along Z
  obtain ⟨T3, h3, l3, v3⟩ := scatter3_ok v.height v.width v.depth
    (fun y x z => x + v.width * (y + v.height * z))
    (fun y x z => convolveTaps ops kernel r
      (fun dz => pure (T2.getD (x + v.width *
        (y + v.height * (max 0 (min ((z : Int) + dz) ((v.depth : Int) - 1))).toNat)) 0)))
    (fun y x z => passXYZ ops kernel r v x y z) v.data
    (fun y x z hy hx hz => by
      have hct := convolveTaps_ok ops kernel r
        (fun dz => pure (T2.getD (x + v.width *
          (y + v.height * (max 0 (min ((z : Int) + dz) ((v.depth : Int) - 1))).toNat)) 0))
        (fun dz => T2.getD (x + v.width *
          (y + v.height * (max 0 (min ((z : Int) + dz) ((v.depth : Int) - 1))).toNat)) 0)
        (fun _ _ => rfl)
      show convolveTaps ops kernel r
        (fun dz => pure (T2.getD (x + v.width *
          (y + v.height * (max 0 (min ((z : Int) + dz) ((v.depth : Int) - 1))).toNat)) 0)) =
        .ok (passXYZ ops kernel r v x y z)
      rw [hct]
      congr 1
      unfold passXYZ
      apply blurSample_congr
      intro dz _
      exact v2 (clampIndex ((z : Int) + dz) v.depth) x y
        (clampIndex_lt _ _ (by omega)) hx hy)
    (fun y x z y' x' z' hy hx _ hy' hx' _ e => by
      have := flat_index_inj hx hy hx' hy' e
      exact ⟨this.2.1, this.1, this.2.2⟩)
    (fun y x z hy hx hz => by rw [hinv]; exact flat_index_lt hx hy hz)
  refine ⟨T3, ?_, l3, fun x y z hx hy hz => v3 y x z hy hx hz⟩
  unfold apply3DGaussianBlur
  simp only []
  rw [hks, hker, hr, h1]
  simp only []
  rw [h2]
  simp only []
  rw [h3]


/-! ## The Gaussian blur with a one-tap kernel -/

theorem intRange_zero : intRange (-0) 0 = [0] := by decide

/-- Under the laws of a one-tap kernel the kernel of size 1 is the single
weight 1. -/
theorem generateGaussianKernel_one {F : Type} (ops : FloatOps F) (sigma : F)
    (hlaws : OneTapLaws ops sigma) : generateGaussianKernel ops 1 sigma = [ops.ofInt 1] := by
  obtain ⟨hexp, hadd, hdiv, -⟩ := hlaws
  unfold generateGaussianKernel
  have hr : (1 : Int).tdiv 2 = 0 := by decide
  simp only [hr, intRange_zero, List.foldl_cons, List.foldl_nil]
  have h0 : (-(0 * 0) : Int) = 0 := by decide
  have h1 : ((0 : Int) + 0).toNat = 0 := by decide
  have h2 : (1 : Int).toNat = 1 := by decide
  rw [h0, h1, h2, hexp, hadd]
  show [ops.div (ops.ofInt 1) (ops.ofInt 1)] = _
  rw [hdiv]

/-- Under the laws of a one-tap kernel a sample of the convolution is its
own tap. -/
theorem blurSample_one {F : Type} (ops : FloatOps F) (sigma : F)
    (hlaws : OneTapLaws ops sigma) (rd : Int → Byte) :
    blurSample ops [ops.ofInt 1] 0 rd = rd 0 := by
  obtain ⟨-, hadd, -, hs⟩ := hlaws
  obtain ⟨hmul, hadds, hdivs, hto⟩ := hs (rd 0)
  unfold blurSample
  simp only [intRange_zero, List.foldl_cons, List.foldl_nil]
  have h1 : ((0 : Int) + 0).toNat = 0 := by decide
  rw [h1]
  show ops.toByte (ops.div (ops.add (ops.ofInt 0) (ops.mul (ops.ofByte (rd 0)) (ops.ofInt 1)))
    (ops.add (ops.ofInt 0) (ops.ofInt 1))) = rd 0
  rw [hmul, hadds, hadd, hdivs, hto]

theorem clampIndex_self (x n : Nat) (hx : x < n) : clampIndex ((x : Int) + 0) n = x := by
  unfold clampIndex
  omega

/-- Under the laws of a one-tap kernel, for every single-channel volume
that satisfies the buffer-length invariant, the kernel of size 1 is the
single weight 1 and the Gaussian blur with kernel size 1 returns normally
and leaves the volume as it is. -/
theorem one_tap_identity_of_laws {F : Type} (ops : FloatOps F) (v : Volume)
    (hc : v.channels = 1) (hinv : v.LengthInv) (sigma : F) (hlaws : OneTapLaws ops sigma) :
    generateGaussianKernel ops 1 sigma = [ops.ofInt 1] ∧
      apply3DGaussianBlur ops v 1 sigma = (.ok (), v) := by
  have hker := generateGaussianKernel_one ops sigma hlaws
  refine ⟨hker, ?_⟩
  obtain ⟨out, hres, hlen, hval⟩ := apply3DGaussianBlur_passes ops v hc hinv 1 sigma
  have hks : (if (1 : Int).tmod 2 = 0 then (1 : Int) + 1 else 1) = 1 := by decide
  have hr : (1 : Int).tdiv 2 = 0 := by decide
  rw [hks, hker, hr] at hval
  have hout : out = v.data := by
    apply list_eq_of_index3 v.width v.height v.depth out v.data 0 (by rw [hlen]; exact hinv)
      hinv
    intro x y z hx hy hz
    rw [hval x y z hx hy hz]
    unfold passXYZ
    rw [blurSample_one ops sigma hlaws, clampIndex_self z _ hz]
    unfold passXY
    rw [blurSample_one ops sigma hlaws, clampIndex_self y _ hy]
    unfold passX
    rw [blurSample_one ops sigma hlaws, clampIndex_self x _ hx]
    rfl
  rw [hres, hout]

/-! ## Double arithmetic on the values of a one-tap kernel -/

theorem bitLengthAux_spec (fuel n : Nat) (hn : n ≠ 0) (hf : n ≤ fuel) :
    2 ^ (bitLengthAux fuel n - 1) ≤ n ∧ n < 2 ^ bitLengthAux fuel n := by
  induction fuel generalizing n with
  | zero => omega
  | succ fuel ih =>
    unfold bitLengthAux
    rw [if_neg hn]
    by_cases h2 : n / 2 = 0
    · have h1 : n = 1 := by omega
      subst h1
      have hz : bitLengthAux fuel (1 / 2) = 0 := by
        cases fuel with
        | zero => rfl
        | succ f => unfold bitLengthAux; rfl
      rw [hz]
      decide
    · obtain ⟨hlo, hhi⟩ := ih (n / 2) h2 (by omega)
      have hpos : 1 ≤ bitLengthAux fuel (n / 2) := by
        rcases Nat.eq_zero_or_pos (bitLengthAux fuel (n / 2)) with h0 | hp
        · rw [h0] at hhi
          omega
        · exact hp
      have e1 : bitLengthAux fuel (n / 2) + 1 - 1 = (bitLengthAux fuel (n / 2) - 1) + 1 := by
        omega
      rw [e1, Nat.pow_succ, Nat.pow_succ]
      constructor <;> omega

/-- The number of binary digits of a number other than 0. -/
theorem bitLength_spec (n : Nat) (hn : n ≠ 0) :
    2 ^ (bitLength n - 1) ≤ n ∧ n < 2 ^ bitLength n :=
  bitLengthAux_spec n n hn (Nat.le_refl n)

/-- A number between `2^(a - 1)` and `2^a` has `a` binary digits. -/
theorem bitLength_eq (n a : Nat) (hlo : 2 ^ (a - 1) ≤ n) (hhi : n < 2 ^ a) (ha : 1 ≤ a) :
    bitLength n = a := by
  have hn : n ≠ 0 := by
    have : 0 < 2 ^ (a - 1) := Nat.pos_pow_of_pos _ (by decide)
    omega
  obtain ⟨h1, h2⟩ := bitLength_spec n hn
  have hb : 1 ≤ bitLength n := by
    rcases Nat.eq_zero_or_pos (bitLength n) with h0 | hp
    · rw [h0] at h2
      omega
    · exact hp
  have l1 : a - 1 < bitLength n :=
    (Nat.pow_lt_pow_iff_right (by decide : 1 < 2)).mp (lt_of_le_of_lt hlo h2)
  have l2 : bitLength n - 1 < a :=
    (Nat.pow_lt_pow_iff_right (by decide : 1 < 2)).mp (lt_of_le_of_lt h1 hhi)
  omega

/-- A number below `2^a` has at most `a` binary digits. -/
theorem bitLength_le (n a : Nat) (hn : n ≠ 0) (hhi : n < 2 ^ a) : bitLength n ≤ a := by
  obtain ⟨h1, -⟩ := bitLength_spec n hn
  have hb : 1 ≤ bitLength n := by
    obtain ⟨-, h2⟩ := bitLength_spec n hn
    rcases Nat.eq_zero_or_pos (bitLength n) with h0 | hp
    · rw [h0] at h2
      omega
    · exact hp
  have l2 : bitLength n - 1 < a :=
    (Nat.pow_lt_pow_iff_right (by decide : 1 < 2)).mp (lt_of_le_of_lt h1 hhi)
  omega

/-- The rounded quotient of a multiple of `2^k` by `2^k` is the exact
quotient. -/
theorem roundShift_exact (m k : Nat) : roundShift (m * 2 ^ k) k false = m := by
  have hpos : 0 < 2 ^ k := Nat.pos_pow_of_pos _ (by decide)
  have hhalf : 0 < 2 ^ (k - 1) := Nat.pos_pow_of_pos _ (by decide)
  unfold roundShift
  simp only [Nat.mul_mod_left, Nat.mul_div_cancel _ hpos]
  rw [if_neg]
  rintro (h | ⟨h, -⟩) <;> omega

/-- Rounding a value of the format gives the value: the number
`m * 2^k * 2^(e - k)` rounds to mantissa `m` and exponent `e`. -/
theorem roundToDouble_exact (s : Bool) (m : Nat) (e : Int) (k : Nat) (hm : m ≠ 0)
    (hc : IsBinary64 m e) :
    roundToDouble s (m * 2 ^ k) (e - k) false = .finite s m e := by
  have hpos : 0 < 2 ^ k := Nat.pos_pow_of_pos _ (by decide)
  have hmk : m * 2 ^ k ≠ 0 := Nat.mul_ne_zero hm (Nat.ne_of_gt hpos)
  have h53 : m < 2 ^ 53 := by
    rcases hc with ⟨-, h⟩ | ⟨-, h, -⟩
    · have : (2 : Nat) ^ 52 < 2 ^ 53 := by norm_num
      omega
    · exact h
  have hexp : max (e - (k : Int) + (bitLength (m * 2 ^ k) : Int) - 53) (-1074) = e := by
    rcases hc with ⟨he, hlt⟩ | ⟨hlo, hhi, he1, -⟩
    · have hb : bitLength (m * 2 ^ k) ≤ 52 + k := by
        apply bitLength_le _ _ hmk
        rw [Nat.pow_add]
        exact Nat.mul_lt_mul_of_pos_right hlt hpos
      omega
    · have hb : bitLength (m * 2 ^ k) = 53 + k := by
        apply bitLength_eq
        · rw [show 53 + k - 1 = 52 + k by omega, Nat.pow_add]
          exact Nat.mul_le_mul_right _ hlo
        · rw [Nat.pow_add]
          exact Nat.mul_lt_mul_of_pos_right hhi hpos
        · omega
      omega
  have hle : e ≤ 971 := by
    rcases hc with ⟨he, -⟩ | ⟨-, -, -, he⟩ <;> omega
  unfold roundToDouble
  simp only [if_neg hmk, hexp]
  have hrounded : (if e ≤ e - (k : Int) then m * 2 ^ k * 2 ^ (e - (k : Int) - e).toNat
      else roundShift (m * 2 ^ k) (e - (e - (k : Int))).toNat false) = m := by
    rcases Nat.eq_zero_or_pos k with h0 | hk
    · subst h0
      rw [if_pos (by omega)]
      have : (e - ((0 : Nat) : Int) - e).toNat = 0 := by omega
      rw [this]
      simp
    · rw [if_neg (by omega)]
      have : (e - (e - (k : Int))).toNat = k := by omega
      rw [this]
      exact roundShift_exact m k
  rw [hrounded, if_neg (by omega), if_neg (by omega)]

namespace Double

theorem ofInt_zero : ofInt 0 = .finite false 0 (-1074) := rfl

theorem ofInt_one : ofInt 1 = .finite false (2 ^ 52) (-52) := by decide

theorem ofInt_two : ofInt 2 = .finite false (2 ^ 52) (-51) := by decide

/-- The conversion of an `unsigned char` other than 0 is a value of the
format whose mantissa, shifted by its exponent, is the sample. -/
theorem ofInt_byte (s : Byte) (hs : s.val ≠ 0) :
    ∃ (m k : Nat), ofInt (s.val : Int) = .finite false m (-(k : Int)) ∧ m ≠ 0 ∧
      IsBinary64 m (-(k : Int)) ∧ 1 ≤ k ∧ m = s.val * 2 ^ k := by
  have hlt := s.isLt
  have hL := bitLength_spec s.val hs
  have hL8 : bitLength s.val ≤ 8 := bitLength_le s.val 8 hs (by norm_num)
  have hL1 : 1 ≤ bitLength s.val := by
    rcases Nat.eq_zero_or_pos (bitLength s.val) with h0 | hp
    · rw [h0] at hL
      omega
    · exact hp
  refine ⟨s.val * 2 ^ (53 - bitLength s.val), 53 - bitLength s.val, ?_, ?_, ?_, by omega, rfl⟩
  · unfold ofInt roundToDouble
    have hneg : decide (((s.val : Nat) : Int) < 0) = false := by
      apply decide_eq_false
      omega
    have habs : ((s.val : Nat) : Int).natAbs = s.val := Int.natAbs_ofNat _
    simp only [hneg, habs, if_neg hs]
    have hexp : max ((0 : Int) + (bitLength s.val : Int) - 53) (-1074) =
        -((53 - bitLength s.val : Nat) : Int) := by omega
    rw [hexp]
    have hrounded : (if -((53 - bitLength s.val : Nat) : Int) ≤ 0 then
        s.val * 2 ^ ((0 : Int) - -((53 - bitLength s.val : Nat) : Int)).toNat
      else roundShift s.val (-((53 - bitLength s.val : Nat) : Int) - 0).toNat false) =
        s.val * 2 ^ (53 - bitLength s.val) := by
      rw [if_pos (by omega)]
      have hsh : ((0 : Int) - -((53 - bitLength s.val : Nat) : Int)).toNat =
          53 - bitLength s.val := by omega
      rw [hsh]
    rw [hrounded]
    have hm : s.val * 2 ^ (53 - bitLength s.val) < 2 ^ 53 := by
      have : s.val * 2 ^ (53 - bitLength s.val) <
          2 ^ bitLength s.val * 2 ^ (53 - bitLength s.val) :=
        Nat.mul_lt_mul_of_pos_right hL.2 (Nat.pos_pow_of_pos _ (by decide))
      rw [← Nat.pow_add, show bitLength s.val + (53 - bitLength s.val) = 53 by omega] at this
      exact this
    have hne53 : ¬ (s.val * 2 ^ (53 - bitLength s.val) = 2 ^ 53) := by omega
    have hne971 : ¬ (-((53 - bitLength s.val : Nat) : Int) > 971) := by omega
    rw [if_neg hne53, if_neg hne971]
  · exact Nat.mul_ne_zero hs (Nat.ne_of_gt (Nat.pos_pow_of_pos _ (by decide)))
  · right
    refine ⟨?_, ?_, by omega, by omega⟩
    · have : 2 ^ (bitLength s.val - 1) * 2 ^ (53 - bitLength s.val) ≤
          s.val * 2 ^ (53 - bitLength s.val) := Nat.mul_le_mul_right _ hL.1
      rw [← Nat.pow_add, show bitLength s.val - 1 + (53 - bitLength s.val) = 52 by omega]
        at this
      exact this
    · have : s.val * 2 ^ (53 - bitLength s.val) <
          2 ^ bitLength s.val * 2 ^ (53 - bitLength s.val) :=
        Nat.mul_lt_mul_of_pos_right hL.2 (Nat.pos_pow_of_pos _ (by decide))
      rw [← Nat.pow_add, show bitLength s.val + (53 - bitLength s.val) = 53 by omega] at this
      exact this

theorem toByte_zero (s : Bool) (e : Int) : toByte (.finite s 0 e) = 0 := by
  unfold toByte
  simp

/-- The product of a value of the format with 1 is the value. -/
theorem mul_ofInt_one (s : Bool) (m : Nat) (e : Int) (hc : IsBinary64 m e) :
    mul (.finite s m e) (ofInt 1) = .finite s m e := by
  rw [ofInt_one]
  show roundToDouble (xor s false) (m * 2 ^ 52) (e + -52) false = _
  rw [Bool.xor_false]
  rcases Nat.eq_zero_or_pos m with h0 | hp
  · subst h0
    rcases hc with ⟨he, -⟩ | ⟨h, -⟩
    · rw [he]
      rfl
    · exact absurd h (by norm_num)
  · exact roundToDouble_exact s m e 52 (by omega) hc

/-- The quotient of a value of the format by 1 is the value. -/
theorem div_ofInt_one (s : Bool) (m : Nat) (e : Int) (hc : IsBinary64 m e) :
    div (.finite s m e) (ofInt 1) = .finite s m e := by
  rw [ofInt_one]
  show (if 2 ^ 52 = 0 then (if m = 0 then Double.nan else .infinity (xor s false))
    else roundToDouble (xor s false) (m * 2 ^ 128 / 2 ^ 52) (e - -52 - 128)
      (decide (m * 2 ^ 128 % 2 ^ 52 ≠ 0))) = _
  have hq : m * 2 ^ 128 / 2 ^ 52 = m * 2 ^ 76 := by
    rw [show (2 : Nat) ^ 128 = 2 ^ 76 * 2 ^ 52 by norm_num, ← Nat.mul_assoc]
    exact Nat.mul_div_cancel _ (by norm_num)
  have hr : m * 2 ^ 128 % 2 ^ 52 = 0 := by
    rw [show (2 : Nat) ^ 128 = 2 ^ 76 * 2 ^ 52 by norm_num, ← Nat.mul_assoc]
    exact Nat.mul_mod_left _ _
  rw [if_neg (by norm_num), hq, hr, Bool.xor_false]
  have hd : decide ((0 : Nat) ≠ 0) = false := by decide
  rw [hd, show e - -52 - 128 = e - ((76 : Nat) : Int) by omega]
  rcases Nat.eq_zero_or_pos m with h0 | hp
  · subst h0
    rcases hc with ⟨he, -⟩ | ⟨h, -⟩
    · rw [he]
      rfl
    · exact absurd h (by norm_num)
  · exact roundToDouble_exact s m e 76 (by omega) hc

/-- The sum of `+0` and a value of the format other than zero is the
value. -/
theorem ofInt_zero_add (t : Bool) (n : Nat) (f : Int) (hn : n ≠ 0) (hc : IsBinary64 n f) :
    add (ofInt 0) (.finite t n f) = .finite t n f := by
  have hf : -1074 ≤ f := by
    rcases hc with ⟨he, -⟩ | ⟨-, -, he, -⟩ <;> omega
  have hround := roundToDouble_exact t n f (f - -1074).toNat hn hc
  rw [show f - (((f - -1074).toNat : Nat) : Int) = -1074 by omega] at hround
  have hpos : 0 < n * 2 ^ (f - -1074).toNat :=
    Nat.mul_pos (by omega) (Nat.pos_pow_of_pos _ (by decide))
  rw [ofInt_zero]
  unfold add
  simp only [Nat.zero_mul, Nat.cast_zero, Int.mul_zero, Int.zero_add]
  have hlow : min (-1074) f = -1074 := by omega
  rw [hlow]
  generalize n * 2 ^ (f - -1074).toNat = x at hpos hround
  have hne : ¬ ((if t = true then (-1 : Int) else 1) * (x : Int) = 0) := by
    cases t
    · show ¬ ((1 : Int) * (x : Int) = 0)
      omega
    · show ¬ ((-1 : Int) * (x : Int) = 0)
      omega
  have hsign : decide ((if t = true then (-1 : Int) else 1) * (x : Int) < 0) = t := by
    cases t
    · apply decide_eq_false
      show ¬ ((1 : Int) * (x : Int) < 0)
      omega
    · apply decide_eq_true
      show (-1 : Int) * (x : Int) < 0
      omega
  have habs : ((if t = true then (-1 : Int) else 1) * (x : Int)).natAbs = x := by
    cases t
    · show ((1 : Int) * (x : Int)).natAbs = x
      omega
    · show ((-1 : Int) * (x : Int)).natAbs = x
      omega
  rw [if_neg hne, hsign, habs]
  exact hround

end Double

/-- The arithmetic of a one-tap kernel in binary64: the laws hold for every
sigma for which the product `2.0 * sigma * sigma`, as computed, is a number
other than zero. -/
theorem binary64_oneTapLaws (expFinite : Double → Double) (sigma : Double)
    (hsigma : (Double.mul (Double.mul (Double.ofInt 2) sigma) sigma).IsNonzeroNumber) :
    OneTapLaws (binary64Ops expFinite) sigma := by
  have hone : IsBinary64 (2 ^ 52) (-52) := by
    right
    norm_num
  unfold OneTapLaws
  simp only [binary64Ops]
  refine ⟨?_, ?_, ?_, ?_⟩
  · generalize Double.mul (Double.mul (Double.ofInt 2) sigma) sigma = d at hsigma
    rw [Double.ofInt_zero]
    cases d with
    | nan => exact absurd hsigma id
    | infinity t => rfl
    | finite t n f =>
      have hn : n ≠ 0 := hsigma
      show Double.exp expFinite (if n = 0 then _ else _) = _
      rw [if_neg hn]
      simp only [Nat.zero_mul, Nat.zero_div]
      rfl
  · rw [Double.ofInt_one]
    exact Double.ofInt_zero_add false _ _ (by norm_num) hone
  · have h := Double.div_ofInt_one false _ _ hone
    rw [← Double.ofInt_one] at h
    exact h
  · intro s
    by_cases hs : s.val = 0
    · have hs0 : s = 0 := Fin.ext hs
      subst hs0
      have hz : Double.ofInt (((0 : Byte).val : Nat) : Int) = .finite false 0 (-1074) := rfl
      have hzero : IsBinary64 0 (-1074) := by
        left
        norm_num
      rw [hz]
      exact ⟨Double.mul_ofInt_one false 0 _ hzero, rfl, Double.div_ofInt_one false 0 _ hzero,
        Double.toByte_zero false _⟩
    · obtain ⟨m, k, hof, hm, hc, hk, hmk⟩ := Double.ofInt_byte s hs
      rw [hof]
      refine ⟨Double.mul_ofInt_one false m _ hc, Double.ofInt_zero_add false m _ hm hc,
        Double.div_ofInt_one false m _ hc, ?_⟩
      have hlt := s.isLt
      have hq : m / 2 ^ k = s.val := by
        rw [hmk]
        exact Nat.mul_div_cancel _ (Nat.pos_pow_of_pos _ (by decide))
      unfold Double.toByte
      have hneg : ¬ (0 ≤ -(k : Int)) := by omega
      have hsh : (- -(k : Int)).toNat = k := by omega
      simp only [if_neg hneg, hsh, hq, if_neg hs, Bool.false_eq_true, if_false]
      rw [if_pos (by omega)]
      apply Fin.ext
      exact toByte_val_of_lt hlt

/-- When the product `2.0 * sigma * sigma` is zero or NaN, the weight of
the kernel of size 1 is NaN. -/
theorem generateGaussianKernel_nan (expFinite : Double → Double) (sigma : Double)
    (hsigma : ¬ (Double.mul (Double.mul (Double.ofInt 2) sigma) sigma).IsNonzeroNumber) :
    generateGaussianKernel (binary64Ops expFinite) 1 sigma = [Double.nan] := by
  unfold generateGaussianKernel
  have hr : (1 : Int).tdiv 2 = 0 := by decide
  simp only [hr, intRange_zero, List.foldl_cons, List.foldl_nil]
  have h0 : (-(0 * 0) : Int) = 0 := by decide
  have h1 : ((0 : Int) + 0).toNat = 0 := by decide
  have h2 : (1 : Int).toNat = 1 := by decide
  rw [h0, h1, h2]
  simp only [binary64Ops]
  generalize Double.mul (Double.mul (Double.ofInt 2) sigma) sigma = d at hsigma
  rw [Double.ofInt_zero]
  cases d with
  | nan => rfl
  | infinity t => exact absurd trivial hsigma
  | finite t n f =>
    have hn : n = 0 := by
      by_contra h
      exact hsigma h
    subst hn
    rfl

theorem intRange_cons {lo hi : Int} (h : lo ≤ hi) : intRange lo hi = lo :: intRange (lo + 1) hi := by
  unfold intRange
  have e : (hi + 1 - lo).toNat = (hi + 1 - (lo + 1)).toNat + 1 := by omega
  rw [e, List.range_succ_eq_map, List.map_cons, List.map_map]
  congr 1
  · simp
  · apply List.map_congr_left
    intro i _
    simp only [Function.comp]
    push_cast
    ring

theorem intRange_nil {lo hi : Int} (h : hi < lo) : intRange lo hi = [] := by
  unfold intRange
  have e : (hi + 1 - lo).toNat = 0 := by omega
  rw [e]
  rfl

theorem swapAt_self (vec : List Int) (i : Int) : swapAt vec i i = vec := by
  unfold swapAt
  simp only []
  apply List.ext_getElem (by simp)
  intro k h1 h2
  by_cases hk : i.toNat = k
  · subst hk
    simp [List.getD_eq_getElem?_getD, h2]
  · simp [List.getElem_set, hk]

theorem swapAt_append (X M Y : List Int) (b x : Int) :
    swapAt (X ++ b :: (M ++ x :: Y)) (X.length : Int) ((X.length + 1 + M.length : Nat) : Int) =
      X ++ x :: (M ++ b :: Y) := by
  unfold swapAt
  simp only [Int.toNat_ofNat]
  have ha : (X ++ b :: (M ++ x :: Y)).getD X.length 0 = b := by
    rw [List.getD_eq_getElem?_getD, List.getElem?_append_right (Nat.le_refl _), Nat.sub_self]
    simp
  have hb : (X ++ b :: (M ++ x :: Y)).getD (X.length + 1 + M.length) 0 = x := by
    rw [List.getD_eq_getElem?_getD, List.getElem?_append_right (by omega)]
    have e : X.length + 1 + M.length - X.length = M.length + 1 := by omega
    rw [e, List.getElem?_cons_succ, List.getElem?_append_right (Nat.le_refl _), Nat.sub_self]
    simp
  rw [ha, hb]
  have h1 : (X ++ b :: (M ++ x :: Y)).set X.length x = X ++ x :: (M ++ x :: Y) := by
    rw [List.set_append_right _ _ (Nat.le_refl _), Nat.sub_self]
    rfl
  rw [h1, List.set_append_right _ _ (by omega)]
  have e : X.length + 1 + M.length - X.length = M.length + 1 := by omega
  rw [e, List.set_cons_succ, List.set_append_right _ _ (Nat.le_refl _), Nat.sub_self]
  rfl

theorem getD_at_length (X Y : List Int) (x : Int) : (X ++ x :: Y).getD X.length 0 = x := by
  rw [List.getD_eq_getElem?_getD, List.getElem?_append_right (Nat.le_refl _), Nat.sub_self]
  simp

/-- The swap of the element behind `X ++ B` with the first element of `B`,
or with itself when `B` is empty. -/
theorem swapAt_front (X B Y : List Int) (x : Int) :
    ∃ B', swapAt (X ++ (B ++ x :: Y)) (X.length : Int) ((X.length : Int) + B.length) =
        X ++ x :: (B' ++ Y) ∧ B'.Perm B := by
  cases B with
  | nil =>
    refine ⟨[], ?_, List.Perm.refl _⟩
    have e : (X.length : Int) + (([] : List Int).length : Int) = (X.length : Int) := by simp
    rw [e, swapAt_self]
    rfl
  | cons b M =>
    refine ⟨M ++ [b], ?_, ?_⟩
    · have e : (X.length : Int) + ((b :: M).length : Int) =
          ((X.length + 1 + M.length : Nat) : Int) := by
        simp only [List.length_cons]
        push_cast
        ring
      rw [e]
      have := swapAt_append X M Y b x
      simp only [List.cons_append, List.append_assoc, List.singleton_append] at this ⊢
      exact this
    · exact (List.perm_append_singleton b M).trans (List.Perm.refl _)

/-- The loop of `partition` from `j = lo` on, with the elements before `j`
already parted into those below the pivot, `A`, and the others, `B`. -/
theorem partition_loop (p : Int) (pre post : List Int) :
    ∀ (rest A B : List Int) (lo hi i : Int),
      lo = (pre.length : Int) + A.length + B.length → hi = lo + rest.length - 1 →
      i = (pre.length : Int) + A.length - 1 →
      (∀ a, a ∈ A → a < p) → (∀ b, b ∈ B → p ≤ b) →
      ∃ A' B', (intRange lo hi).foldl (partitionStep p)
            (pre ++ (A ++ (B ++ (rest ++ p :: post))), i) =
          (pre ++ (A' ++ (B' ++ p :: post)), (pre.length : Int) + A'.length - 1) ∧
        (A' ++ B').Perm (A ++ (B ++ rest)) ∧ (∀ a, a ∈ A' → a < p) ∧
        (∀ b, b ∈ B' → p ≤ b) := by
  intro rest
  induction rest with
  | nil =>
    intro A B lo hi i hlo hhi hi' hA hB
    refine ⟨A, B, ?_, by simp, hA, hB⟩
    rw [intRange_nil (by rw [hhi]; simp), hi']
    simp
  | cons x rest ih =>
    intro A B lo hi i hlo hhi hi' hA hB
    have hlen : ((x :: rest).length : Int) = (rest.length : Int) + 1 := by simp
    rw [intRange_cons (by rw [hhi, hlen]; omega), List.foldl_cons]
    have hx : (pre ++ (A ++ (B ++ (x :: rest ++ p :: post)))).getD lo.toNat 0 = x := by
      have e : lo.toNat = (pre ++ (A ++ B)).length := by
        simp only [List.length_append]
        omega
      have e2 : pre ++ (A ++ (B ++ (x :: rest ++ p :: post))) =
          (pre ++ (A ++ B)) ++ x :: (rest ++ p :: post) := by
        simp [List.append_assoc]
      rw [e, e2, getD_at_length]
    by_cases hlt : x < p
    · obtain ⟨B', hswap, hperm⟩ := swapAt_front (pre ++ A) B (rest ++ p :: post) x
      have hlenB : B'.length = B.length := hperm.length_eq
      have hstep : partitionStep p (pre ++ (A ++ (B ++ (x :: rest ++ p :: post))), i) lo =
          (pre ++ ((A ++ [x]) ++ (B' ++ (rest ++ p :: post))), i + 1) := by
        unfold partitionStep
        simp only []
        rw [hx, if_pos hlt]
        have e1 : (((pre ++ A).length : Nat) : Int) = i + 1 := by
          simp only [List.length_append]
          omega
        have e3 : (((pre ++ A).length : Nat) : Int) + (B.length : Int) = lo := by
          simp only [List.length_append]
          omega
        rw [e3, e1] at hswap
        have e2 : pre ++ (A ++ (B ++ (x :: rest ++ p :: post))) =
            (pre ++ A) ++ (B ++ x :: (rest ++ p :: post)) := by
          simp [List.append_assoc]
        rw [e2, hswap]
        simp [List.append_assoc]
      rw [hstep]
      have hA' : ∀ a, a ∈ A ++ [x] → a < p := by
        intro a ha
        rcases List.mem_append.mp ha with h | h
        · exact hA a h
        · rw [List.mem_singleton.mp h]
          exact hlt
      have hB' : ∀ b, b ∈ B' → p ≤ b := fun b hb => hB b (hperm.mem_iff.mp hb)
      obtain ⟨A2, B2, hrun, hp2, hA2, hB2⟩ := ih (A ++ [x]) B' (lo + 1) hi (i + 1)
        (by simp only [List.length_append, List.length_singleton]; omega)
        (by omega)
        (by simp only [List.length_append, List.length_singleton]; omega) hA' hB'
      refine ⟨A2, B2, hrun, ?_, hA2, hB2⟩
      refine hp2.trans ?_
      have : (A ++ [x] ++ (B' ++ rest)).Perm (A ++ [x] ++ (B ++ rest)) :=
        List.Perm.append_left _ (List.Perm.append_right _ hperm)
      refine this.trans ?_
      rw [List.append_assoc]
      apply List.Perm.append_left
      simp only [List.singleton_append]
      exact (List.perm_middle).symm
    · have hstep : partitionStep p (pre ++ (A ++ (B ++ (x :: rest ++ p :: post))), i) lo =
          (pre ++ (A ++ ((B ++ [x]) ++ (rest ++ p :: post))), i) := by
        unfold partitionStep
        simp only []
        rw [hx, if_neg hlt]
        simp [List.append_assoc]
      rw [hstep]
      have hB' : ∀ b, b ∈ B ++ [x] → p ≤ b := by
        intro b hb
        rcases List.mem_append.mp hb with h | h
        · exact hB b h
        · rw [List.mem_singleton.mp h]
          omega
      obtain ⟨A2, B2, hrun, hp2, hA2, hB2⟩ := ih A (B ++ [x]) (lo + 1) hi i
        (by simp only [List.length_append, List.length_singleton]; omega)
        (by omega) hi' hA hB'
      refine ⟨A2, B2, hrun, ?_, hA2, hB2⟩
      refine hp2.trans ?_
      simp [List.append_assoc]
/-- The call `partition(vec, low, high)` on a segment `seg` followed by its
pivot `p`: the segment is parted around the pivot. -/
theorem partition_spec (pre seg post : List Int) (p : Int) :
    ∃ L R, partition (pre ++ (seg ++ p :: post)) (pre.length : Int)
          ((pre.length : Int) + seg.length) =
        (pre ++ (L ++ p :: (R ++ post)), (pre.length : Int) + L.length) ∧
      (L ++ R).Perm seg ∧ (∀ a, a ∈ L → a < p) ∧ (∀ b, b ∈ R → p ≤ b) := by
  have hp : (pre ++ (seg ++ p :: post)).getD ((pre.length : Int) + seg.length).toNat 0 = p := by
    have e : ((pre.length : Int) + seg.length).toNat = (pre ++ seg).length := by
      simp only [List.length_append]
      omega
    have e2 : pre ++ (seg ++ p :: post) = (pre ++ seg) ++ p :: post := by
      simp [List.append_assoc]
    rw [e, e2, getD_at_length]
  obtain ⟨A, B, hrun, hperm, hA, hB⟩ := partition_loop p pre post seg [] []
    (pre.length : Int) ((pre.length : Int) + seg.length - 1) ((pre.length : Int) - 1)
    (by simp) (by omega) (by simp) (by simp) (by simp)
  obtain ⟨B', hswap, hperm'⟩ := swapAt_front (pre ++ A) B post p
  refine ⟨A, B', ?_, ?_, hA, fun b hb => hB b (hperm'.mem_iff.mp hb)⟩
  · unfold partition
    simp only []
    rw [hp]
    simp only [List.nil_append] at hrun
    rw [hrun]
    simp only []
    have hlen : seg.length = A.length + B.length := by
      have := hperm.length_eq
      simp only [List.length_append, List.nil_append] at this
      omega
    have e1 : (pre.length : Int) + A.length - 1 + 1 = ((pre ++ A).length : Nat) := by
      simp only [List.length_append]
      omega
    have e2 : (pre.length : Int) + seg.length = (((pre ++ A).length : Nat) : Int) + B.length := by
      simp only [List.length_append]
      omega
    have e3 : pre ++ (A ++ (B ++ p :: post)) = (pre ++ A) ++ (B ++ p :: post) := by
      simp [List.append_assoc]
    rw [e2, e1, e3, hswap]
    simp [List.append_assoc]
  · simp only [List.nil_append] at hperm
    exact (List.Perm.append_left A hperm').trans hperm

/-- The call `quickSort(vec, low, high)` on a segment of the vector sorts the
segment in place and returns when the fuel is the length of the segment
or more. -/
theorem quickSort_spec : ∀ (fuel : Nat) (pre seg post : List Int), seg.length ≤ fuel + 1 →
    ∃ seg', quickSort fuel (pre ++ (seg ++ post)) (pre.length : Int)
          ((pre.length : Int) + seg.length - 1) = some (pre ++ (seg' ++ post)) ∧
      seg'.Perm seg ∧ seg'.Sorted (fun a b => a ≤ b) := by
  intro fuel
  induction fuel with
  | zero =>
    intro pre seg post h
    refine ⟨seg, ?_, List.Perm.refl _, ?_⟩
    · unfold quickSort
      rw [if_neg (by omega)]
    · match seg, h with
      | [], _ => exact List.sorted_nil
      | [a], _ => exact List.sorted_singleton a
  | succ fuel ih =>
    intro pre seg post h
    by_cases hs : seg.length ≤ 1
    · refine ⟨seg, ?_, List.Perm.refl _, ?_⟩
      · unfold quickSort
        rw [if_neg (by omega)]
      · match seg, hs with
        | [], _ => exact List.sorted_nil
        | [a], _ => exact List.sorted_singleton a
    · have hne : seg ≠ [] := by
        intro h0
        rw [h0] at hs
        simp at hs
      obtain ⟨seg0, p, rfl⟩ : ∃ seg0 p, seg = seg0 ++ [p] :=
        ⟨seg.dropLast, seg.getLast hne, (List.dropLast_append_getLast hne).symm⟩
      have hlen : ((seg0 ++ [p]).length : Int) = (seg0.length : Int) + 1 := by simp
      have hlen0 : seg0.length ≤ fuel + 1 := by
        simp only [List.length_append, List.length_singleton] at h
        omega
      obtain ⟨L, R, hpart, hperm, hL, hR⟩ := partition_spec pre seg0 post p
      have hpart' : partition (pre ++ ((seg0 ++ [p]) ++ post)) (pre.length : Int)
          ((pre.length : Int) + (seg0 ++ [p]).length - 1) =
          (pre ++ (L ++ p :: (R ++ post)), (pre.length : Int) + L.length) := by
        have e1 : pre ++ ((seg0 ++ [p]) ++ post) = pre ++ (seg0 ++ p :: post) := by
          simp [List.append_assoc]
        have e2 : (pre.length : Int) + (seg0 ++ [p]).length - 1 =
            (pre.length : Int) + seg0.length := by
          rw [hlen]
          omega
        rw [e1, e2]
        exact hpart
      have hLR : L.length + R.length = seg0.length := by
        have := hperm.length_eq
        simp only [List.length_append] at this
        exact this
      obtain ⟨L', hL', hpL, hsL⟩ := ih pre L (p :: (R ++ post)) (by omega)
      obtain ⟨R', hR', hpR, hsR⟩ := ih (pre ++ (L' ++ [p])) R post (by omega)
      refine ⟨L' ++ p :: R', ?_, ?_, ?_⟩
      · unfold quickSort
        rw [if_pos (by rw [hlen]; omega), hpart']
        simp only []
        have e1 : (pre.length : Int) + L.length - 1 = (pre.length : Int) + L.length - 1 := rfl
        rw [hL', Option.some_bind]
        have e2 : pre ++ (L' ++ p :: (R ++ post)) = (pre ++ (L' ++ [p])) ++ (R ++ post) := by
          simp [List.append_assoc]
        have e3 : (pre.length : Int) + L.length + 1 = ((pre ++ (L' ++ [p])).length : Nat) := by
          have := hpL.length_eq
          simp only [List.length_append, List.length_singleton]
          omega
        have e4 : (pre.length : Int) + (seg0 ++ [p]).length - 1 =
            (((pre ++ (L' ++ [p])).length : Nat) : Int) + R.length - 1 := by
          have := hpL.length_eq
          simp only [List.length_append, List.length_singleton]
          omega
        rw [e2, e3, e4, hR']
        simp [List.append_assoc]
      · have h1 : (L' ++ p :: R').Perm (L ++ p :: R) :=
          List.Perm.append hpL (List.Perm.cons p hpR)
        refine h1.trans ?_
        refine (List.perm_middle).trans ?_
        refine List.Perm.trans ?_ (List.perm_append_singleton p seg0).symm
        exact List.Perm.cons p hperm
      · unfold List.Sorted
        rw [List.pairwise_append]
        refine ⟨hsL, ?_, ?_⟩
        · rw [List.pairwise_cons]
          exact ⟨fun b hb => hR b (hpR.mem_iff.mp hb), hsR⟩
        · intro a ha b hb
          have ha' : a < p := hL a (hpL.mem_iff.mp ha)
          rcases List.mem_cons.mp hb with h | h
          · omega
          · have := hR b (hpR.mem_iff.mp h)
            omega

/-- The call `quickSort(vec, 0, vec.size() - 1)` of `customSort` returns
within the fuel of the model, and `customSort` gives its result. -/
theorem customSort_returns (vec : List Int) :
    ∃ s, quickSort vec.length vec 0 ((vec.length : Int) - 1) = some s ∧ customSort vec = s ∧
      s.Perm vec ∧ s.Sorted (fun a b => a ≤ b) := by
  obtain ⟨s, hs, hperm, hsorted⟩ := quickSort_spec vec.length [] vec [] (by omega)
  simp only [List.nil_append, List.append_nil, List.length_nil, Nat.cast_zero, zero_add] at hs
  refine ⟨s, hs, ?_, hperm, hsorted⟩
  unfold customSort
  rw [hs]
  rfl

/-- The function `customSort` returns a sorted permutation of the vector. -/
theorem customSort_spec (vec : List Int) :
    (customSort vec).Perm vec ∧ (customSort vec).Sorted (fun a b => a ≤ b) := by
  obtain ⟨s, -, e, hperm, hsorted⟩ := customSort_returns vec
  rw [e]
  exact ⟨hperm, hsorted⟩
/-! ## The median blur of images -/

/-- A loop that appends one value to each of three vectors collects the
three lists of values. -/
theorem foldl_collect3 {ι : Type} (f g h : ι → Int) (l : List ι) :
    ∀ (A B C : List Int),
      l.foldl (fun (vals : List Int × List Int × List Int) a =>
          (vals.1 ++ [f a], vals.2.1 ++ [g a], vals.2.2 ++ [h a])) (A, B, C) =
        (A ++ l.map f, B ++ l.map g, C ++ l.map h) := by
  induction l with
  | nil => intro A B C; simp
  | cons a t ih =>
    intro A B C
    rw [List.foldl_cons, ih]
    simp [List.append_assoc]

/-- The clamping expression of the 2D filters is the replicate-border
coordinate. -/
theorem min_max_eq_clampIndex (t : Int) (n : Nat) (hn : 1 ≤ n) :
    min (max t 0) ((n : Int) - 1) = ((clampIndex t n : Nat) : Int) := by
  unfold clampIndex
  omega

/-- The sample of channel `c` that `collectSample` reads at `(ky, kx)`. -/
theorem sampleOffset_eq (img : Image) (x y : Nat) (hx : x < img.width) (hy : y < img.height)
    (ky kx : Int) (c : Nat) :
    ((min (max ((y : Int) + ky) 0) ((img.height : Int) - 1) * img.width +
        min (max ((x : Int) + kx) 0) ((img.width : Int) - 1)) * img.channels + (c : Int)).toNat =
      (clampIndex ((y : Int) + ky) img.height * img.width +
        clampIndex ((x : Int) + kx) img.width) * img.channels + c := by
  rw [min_max_eq_clampIndex _ _ (by omega), min_max_eq_clampIndex _ _ (by omega)]
  rw [← Int.toNat_ofNat ((clampIndex ((y : Int) + ky) img.height * img.width +
        clampIndex ((x : Int) + kx) img.width) * img.channels + c)]
  congr 1

/-- The three vectors that the window loops of `medianBlur` collect at the
pixel `(x, y)` are the window samples of the three channels. -/
theorem collect_window (img : Image) (r : Nat) (x y : Nat) (hx : x < img.width)
    (hy : y < img.height) :
    (intRange (-(r : Int)) r).foldl
        (fun vals ky => (intRange (-(r : Int)) r).foldl
          (fun vals kx => collectSample img x y vals ky kx) vals)
        (([], [], []) : List Int × List Int × List Int) =
      ((windowSamples2D img r x y 0).map (fun b => (b.val : Int)),
        (windowSamples2D img r x y 1).map (fun b => (b.val : Int)),
        (windowSamples2D img r x y 2).map (fun b => (b.val : Int))) := by
  have hfun : (fun (vals : List Int × List Int × List Int) (ky : Int) =>
        (intRange (-(r : Int)) r).foldl
          (fun vals kx => collectSample img x y vals ky kx) vals) =
      (fun acc ky => (((intRange (-(r : Int)) r).map (fun kx => (ky, kx))).foldl
          (fun (vals : List Int × List Int × List Int) (p : Int × Int) =>
            (vals.1 ++ [((img.data.getD ((clampIndex ((y : Int) + p.1) img.height * img.width +
                clampIndex ((x : Int) + p.2) img.width) * img.channels + 0) 0).val : Int)],
              vals.2.1 ++ [((img.data.getD ((clampIndex ((y : Int) + p.1) img.height * img.width +
                clampIndex ((x : Int) + p.2) img.width) * img.channels + 1) 0).val : Int)],
              vals.2.2 ++ [((img.data.getD ((clampIndex ((y : Int) + p.1) img.height * img.width +
                clampIndex ((x : Int) + p.2) img.width) * img.channels + 2) 0).val : Int)]))
          acc)) := by
    funext vals ky
    rw [List.foldl_map]
    congr 1
    funext vals kx
    unfold collectSample
    simp only []
    have h0 := sampleOffset_eq img x y hx hy ky kx 0
    have h1 := sampleOffset_eq img x y hx hy ky kx 1
    have h2 := sampleOffset_eq img x y hx hy ky kx 2
    simp only [Nat.cast_zero, Nat.cast_one, Nat.cast_ofNat, add_zero] at h0 h1 h2
    rw [h0, h1, h2]
    rfl
  rw [hfun, foldl_flatMap_eq, foldl_collect3]
  unfold windowSamples2D
  simp only [List.nil_append, List.map_flatMap, List.map_map]
  rfl
theorem toByteOfInt_val (b : Byte) : toByteOfInt (b.val : Int) = b := by
  unfold toByteOfInt toByte
  apply Fin.ext
  have := b.isLt
  show ((b.val : Int) % 256).toNat % 256 = b.val
  omega

/-- The quicksort of the values of a window of bytes is the values of any
ascending arrangement of the window. -/
theorem customSort_bytes (W s : List Byte) (hperm : s.Perm W)
    (hsorted : s.Sorted (fun a b => a ≤ b)) :
    customSort (W.map (fun b => (b.val : Int))) = s.map (fun b => (b.val : Int)) := by
  obtain ⟨hp, hs⟩ := customSort_spec (W.map (fun b => (b.val : Int)))
  have hp2 : (s.map (fun b => (b.val : Int))).Perm (W.map (fun b => (b.val : Int))) :=
    hperm.map _
  have hs2 : (s.map (fun b => (b.val : Int))).Sorted (fun a b => a ≤ b) := by
    unfold List.Sorted
    rw [List.pairwise_map]
    apply List.Pairwise.imp _ hsorted
    intro a b hab
    have : a.val ≤ b.val := hab
    omega
  exact List.eq_of_perm_of_sorted (hp.trans hp2.symm) hs hs2

/-- The median that `medianBlur` stores for a window of bytes is the middle
element of any ascending arrangement of the window. -/
theorem median_of_window (W s : List Byte) (hperm : s.Perm W)
    (hsorted : s.Sorted (fun a b => a ≤ b)) :
    toByteOfInt ((customSort (W.map (fun b => (b.val : Int)))).getD
        ((customSort (W.map (fun b => (b.val : Int)))).length / 2) 0) =
      s.getD (W.length / 2) 0 := by
  rw [customSort_bytes W s hperm hsorted, List.length_map, hperm.length_eq]
  have h : (s.map (fun b => (b.val : Int))).getD (W.length / 2) 0 =
      (((s.getD (W.length / 2) 0 : Byte).val : Nat) : Int) := by
    rw [show (0 : Int) = (fun (b : Byte) => (b.val : Int)) 0 from rfl, List.getD_map]
  rw [h, toByteOfInt_val]

theorem length_flatMap_map {ι κ β : Type} (l : List ι) (m : List κ) (g : ι → κ → β) :
    (l.flatMap fun a => m.map (g a)).length = l.length * m.length := by
  induction l with
  | nil => simp
  | cons a t ih =>
    rw [List.flatMap_cons, List.length_append, ih, List.length_map, List.length_cons]
    ring

theorem intRange_length (lo hi : Int) : (intRange lo hi).length = (hi + 1 - lo).toNat := by
  unfold intRange
  simp

/-- The window of an odd kernel size `k` has `k * k` samples. -/
theorem windowSamples2D_length (img : Image) (k : Nat) (hodd : k % 2 = 1) (x y c : Nat) :
    (windowSamples2D img (k / 2) x y c).length = k * k := by
  unfold windowSamples2D
  rw [length_flatMap_map, intRange_length]
  have e : (((k / 2 : Nat) : Int) + 1 - -((k / 2 : Nat) : Int)).toNat = k := by omega
  rw [e]
/-- The median blur of a 3-channel image whose buffer has `width * height *
3` samples: the dimensions and the length of the buffer are kept, and the
sample of channel `c` of the pixel `(x, y)` is the stored median of the
quicksorted window of that channel of the image before the call. -/
theorem medianBlur_entries (img : Image) (hc : img.channels = 3)
    (hlen : img.data.length = img.width * img.height * 3) (k : Nat) (hodd : k % 2 = 1) :
    (medianBlur img k).width = img.width ∧ (medianBlur img k).height = img.height ∧
      (medianBlur img k).channels = img.channels ∧
      (medianBlur img k).data.length = img.data.length ∧
      ∀ x y c, x < img.width → y < img.height → c < 3 →
        (medianBlur img k).data.getD ((y * img.width + x) * 3 + c) 0 =
          toByteOfInt ((customSort ((windowSamples2D img (k / 2) x y c).map
              (fun b => (b.val : Int)))).getD
            ((customSort ((windowSamples2D img (k / 2) x y c).map
              (fun b => (b.val : Int)))).length / 2) 0) := by
  have hodd' : ¬ ((k : Int).tmod 2 = 0) := by
    rw [show (2 : Int) = ((2 : Nat) : Int) from rfl, ← Int.ofNat_tmod, hodd]
    decide
  have hrad : (k : Int).tdiv 2 = ((k / 2 : Nat) : Int) := by
    rw [show (2 : Int) = ((2 : Nat) : Int) from rfl, ← Int.ofNat_tdiv]
  have htake : img.data.take (img.width * img.height * img.channels) = img.data := by
    rw [hc, ← hlen, List.take_length]
  have hdrop : img.data.drop (img.width * img.height * img.channels) = [] := by
    rw [hc, ← hlen, List.drop_length]
  have hloop : (List.range img.height).foldl
      (fun output y => (List.range img.width).foldl
        (fun output x =>
          let vals := (intRange (-((k / 2 : Nat) : Int)) ((k / 2 : Nat) : Int)).foldl
            (fun vals ky => (intRange (-((k / 2 : Nat) : Int)) ((k / 2 : Nat) : Int)).foldl
              (fun vals kx => collectSample img x y vals ky kx) vals)
            (([], [], []) : List Int × List Int × List Int)
          let rVals := customSort vals.1
          let gVals := customSort vals.2.1
          let bVals := customSort vals.2.2
          let offset := (y * img.width + x) * img.channels
          ((output.set offset (toByteOfInt (rVals.getD (rVals.length / 2) 0))).set (offset + 1)
            (toByteOfInt (gVals.getD (gVals.length / 2) 0))).set (offset + 2)
            (toByteOfInt (bVals.getD (bVals.length / 2) 0)))
        output)
      img.data =
    (List.range img.height).foldl (fun s y => (List.range img.width).foldl (fun s x =>
        (List.range 3).foldl (fun s c => s.set ((y * img.width + x) * 3 + c)
          (toByteOfInt ((customSort ((windowSamples2D img (k / 2) x y c).map
              (fun b => (b.val : Int)))).getD
            ((customSort ((windowSamples2D img (k / 2) x y c).map
              (fun b => (b.val : Int)))).length / 2) 0))) s) s) img.data := by
    apply List.foldl_ext
    intro s y hy
    apply List.foldl_ext
    intro s x hx
    simp only []
    rw [collect_window img (k / 2) x y (List.mem_range.mp hx) (List.mem_range.mp hy), hc]
    rfl
  have hdata : (medianBlur img k).data =
      (List.range img.height).foldl (fun s y => (List.range img.width).foldl (fun s x =>
        (List.range 3).foldl (fun s c => s.set ((y * img.width + x) * 3 + c)
          (toByteOfInt ((customSort ((windowSamples2D img (k / 2) x y c).map
              (fun b => (b.val : Int)))).getD
            ((customSort ((windowSamples2D img (k / 2) x y c).map
              (fun b => (b.val : Int)))).length / 2) 0))) s) s) img.data := by
    unfold medianBlur
    simp only []
    rw [if_neg hodd', hrad, htake, hdrop, List.append_nil]
    exact hloop
  have hsc := scatter3_spec img.height img.width 3
    (fun y x c => (y * img.width + x) * 3 + c)
    (fun y x c => toByteOfInt ((customSort ((windowSamples2D img (k / 2) x y c).map
              (fun b => (b.val : Int)))).getD
            ((customSort ((windowSamples2D img (k / 2) x y c).map
              (fun b => (b.val : Int)))).length / 2) 0))
    img.data
    (by
      intro a b c a' b' c' ha hb hc1 ha' hb' hc1' h
      simp only [] at h
      have h1 : a * img.width + b = a' * img.width + b' := by omega
      have h2 : c = c' := by omega
      have hb1 : (b + img.width * a) / img.width = a := by
        rw [Nat.add_mul_div_left _ _ (by omega), Nat.div_eq_of_lt hb, Nat.zero_add]
      have hb2 : (b' + img.width * a') / img.width = a' := by
        rw [Nat.add_mul_div_left _ _ (by omega), Nat.div_eq_of_lt hb', Nat.zero_add]
      have h3 : b + img.width * a = b' + img.width * a' := by
        rw [Nat.mul_comm img.width a, Nat.mul_comm img.width a']
        omega
      have h4 : a = a' := by rw [← hb1, ← hb2, h3]
      subst h4
      exact ⟨rfl, by omega, h2⟩)
    (by
      intro a b c ha hb hc1
      simp only []
      rw [hlen]
      have h1 : a * img.width + b < img.width * img.height := by
        calc a * img.width + b < a * img.width + img.width := by omega
          _ = img.width * (a + 1) := by ring
          _ ≤ img.width * img.height := Nat.mul_le_mul_left _ ha
      omega)
  refine ⟨rfl, rfl, rfl, ?_, ?_⟩
  · rw [hdata]
    exact hsc.1
  · intro x y c hx hy hc1
    rw [hdata]
    exact hsc.2 y x c hy hx hc1 0
theorem window_one (img : Image) (x y c : Nat) (hx : x < img.width) (hy : y < img.height) :
    windowSamples2D img (1 / 2) x y c =
      [img.data.getD ((y * img.width + x) * img.channels + c) 0] := by
  unfold windowSamples2D
  rw [show ((1 / 2 : Nat) : Int) = 0 from rfl, intRange_zero]
  simp only [List.flatMap_cons, List.flatMap_nil, List.map_cons, List.map_nil, List.append_nil]
  rw [clampIndex_self y img.height hy, clampIndex_self x img.width hx]

theorem intRange_zero_cast (d : Nat) :
    intRange 0 ((d : Int) - 1) = (List.range d).map (fun (z : Nat) => (z : Int)) := by
  unfold intRange
  have e : ((d : Int) - 1 + 1 - 0).toNat = d := by omega
  rw [e]
  apply List.map_congr_left
  intro i _
  omega

theorem slabBounds_whole (v : Volume) (hd : 1 ≤ v.depth) (zStart zEnd : Int)
    (hs : zStart ≤ 0) (he : (v.depth : Int) - 1 ≤ zEnd) :
    slabBounds v zStart zEnd = (0, (v.depth : Int) - 1) := by
  unfold slabBounds
  have h1 : max 0 (min zStart ((v.depth : Int) - 1)) = 0 := by omega
  have h2 : max 0 (min zEnd ((v.depth : Int) - 1)) = (v.depth : Int) - 1 := by omega
  simp only [h1, h2]
  rw [if_neg (by omega)]

/-- The three slab projections over the whole depth are the full-volume
projections. -/
theorem slab_whole_eq_full (v : Volume) (hw : 1 ≤ v.width) (hh : 1 ≤ v.height)
    (hd : 1 ≤ v.depth) (zStart zEnd : Int) (hs : zStart ≤ 0)
    (he : (v.depth : Int) - 1 ≤ zEnd) :
    MIPSlab v zStart zEnd = MIP v ∧ MinIPSlab v zStart zEnd = MinIP v ∧
      AIPSlab v zStart zEnd = AIP v := by
  have hsb := slabBounds_whole v hd zStart zEnd hs he
  have hg : ¬ (v.width ≤ 0 ∨ v.height ≤ 0 ∨ v.depth ≤ 0) := by omega
  have hdiv : ((v.depth : Int) - 1 - 0 + 1).toNat = v.depth := by omega
  refine ⟨?_, ?_, ?_⟩
  · unfold MIPSlab MIP
    rw [hsb]
    simp only []
    rw [if_neg hg, intRange_zero_cast]
    simp only [List.foldl_map, Int.toNat_ofNat]
  · unfold MinIPSlab MinIP
    rw [hsb]
    simp only []
    rw [intRange_zero_cast]
    simp only [List.foldl_map, Int.toNat_ofNat]
  · unfold AIPSlab AIP
    rw [hsb]
    simp only []
    rw [intRange_zero_cast, hdiv]
    simp only [List.foldl_map, Int.toNat_ofNat]

/-- The dispatcher on bounds that it takes as a slab request. -/
theorem applyProjection3D_slab (vol : Volume) (zStart zEnd : Int) (h : zStart > 0 ∨ zEnd ≥ 0) :
    applyProjection3D vol "MIP" zStart zEnd =
        some (MIPSlab vol (max zStart 0)
          (if zEnd < 0 then (vol.depth : Int) - 1 else min zEnd ((vol.depth : Int) - 1))) ∧
      applyProjection3D vol "MinIP" zStart zEnd =
        some (MinIPSlab vol (max zStart 0)
          (if zEnd < 0 then (vol.depth : Int) - 1 else min zEnd ((vol.depth : Int) - 1))) ∧
      applyProjection3D vol "AIP" zStart zEnd =
        some (AIPSlab vol (max zStart 0)
          (if zEnd < 0 then (vol.depth : Int) - 1 else min zEnd ((vol.depth : Int) - 1))) := by
  refine ⟨?_, ?_, ?_⟩
  · unfold applyProjection3D
    rw [if_pos rfl, if_pos h]
  · unfold applyProjection3D
    rw [if_neg (by decide), if_pos rfl, if_pos h]
  · unfold applyProjection3D
    rw [if_neg (by decide), if_neg (by decide), if_pos rfl, if_pos h]

/-- The dispatcher on bounds that it takes as no slab request. -/
theorem applyProjection3D_full (vol : Volume) (zStart zEnd : Int)
    (h : ¬ (zStart > 0 ∨ zEnd ≥ 0)) :
    applyProjection3D vol "MIP" zStart zEnd = some (MIP vol) ∧
      applyProjection3D vol "MinIP" zStart zEnd = some (MinIP vol) ∧
      applyProjection3D vol "AIP" zStart zEnd = some (AIP vol) := by
  refine ⟨?_, ?_, ?_⟩
  · unfold applyProjection3D
    rw [if_pos rfl, if_neg h]
  · unfold applyProjection3D
    rw [if_neg (by decide), if_pos rfl, if_neg h]
  · unfold applyProjection3D
    rw [if_neg (by decide), if_neg (by decide), if_pos rfl, if_neg h]

theorem applyProjection3D_median (vol : Volume) (zStart zEnd : Int) :
    applyProjection3D vol "AIPMedian" zStart zEnd = some (AIPMedian vol) := by
  unfold applyProjection3D
  rw [if_neg (by decide), if_neg (by decide), if_neg (by decide), if_pos rfl]

/-- C35: for every volume with all dimensions at least 1 and all bounds
`zStart <= 0` and `zEnd >= depth - 1`, `MIPSlab`, `MinIPSlab` and `AIPSlab`
are `MIP`, `MinIP` and `AIP`, outcome and buffer; and `applyProjection3D`
with the bounds `(0, depth - 1)`, which it takes as a slab request, gives
what it gives with bounds `zs <= 0`, `ze < 0`, which it takes as no slab
request, for each of the four projection types. -/
theorem whole_depth_slab_is_full_projection (v : Volume) (hw : 1 ≤ v.width)
    (hh : 1 ≤ v.height) (hd : 1 ≤ v.depth) (zStart zEnd : Int) (hs : zStart ≤ 0)
    (he : (v.depth : Int) - 1 ≤ zEnd) :
    MIPSlab v zStart zEnd = MIP v ∧ MinIPSlab v zStart zEnd = MinIP v ∧
      AIPSlab v zStart zEnd = AIP v ∧
      (∃ out, MIP v = .ok out ∧ out.length = v.width * v.height) ∧
      (∃ out, MinIP v = .ok out ∧ out.length = v.width * v.height) ∧
      (∃ out, AIP v = .ok out ∧ out.length = v.width * v.height) ∧
      ∀ projType, projType ∈ ["MIP", "MinIP", "AIP", "AIPMedian"] →
        ∀ zs ze : Int, zs ≤ 0 → ze < 0 →
          applyProjection3D v projType 0 ((v.depth : Int) - 1) =
            applyProjection3D v projType zs ze := by
  obtain ⟨h1, h2, h3⟩ := slab_whole_eq_full v hw hh hd zStart zEnd hs he
  obtain ⟨k1, k2, k3⟩ := slab_whole_eq_full v hw hh hd 0 ((v.depth : Int) - 1)
    (le_refl _) (le_refl _)
  refine ⟨h1, h2, h3, MIP_length v hw hh hd, MinIP_length v, AIP_length v hd, ?_⟩
  intro projType hmem zs ze hzs hze
  have hslab : (0 : Int) > 0 ∨ (v.depth : Int) - 1 ≥ 0 := Or.inr (by omega)
  have hfull : ¬ (zs > 0 ∨ ze ≥ 0) := by omega
  have hmin : min ((v.depth : Int) - 1) ((v.depth : Int) - 1) = (v.depth : Int) - 1 :=
    min_self _
  simp only [List.mem_cons, List.mem_singleton, List.not_mem_nil, or_false] at hmem
  obtain ⟨s1, s2, s3⟩ := applyProjection3D_slab v 0 ((v.depth : Int) - 1) hslab
  obtain ⟨f1, f2, f3⟩ := applyProjection3D_full v zs ze hfull
  rw [if_neg (by omega), hmin, max_self] at s1 s2 s3
  rcases hmem with rfl | rfl | rfl | rfl
  · rw [s1, f1, k1]
  · rw [s2, f2, k2]
  · rw [s3, f3, k3]
  · rw [applyProjection3D_median, applyProjection3D_median]

/-- Witness for C35: the 3x2x2 test volume with the bounds `(0, 1)` of
`Projections3DTests::testAIPSlab`. -/
theorem whole_depth_slab_is_full_projection_witness :
    1 ≤ testVolume.width ∧ (0 : Int) ≤ 0 ∧ (testVolume.depth : Int) - 1 ≤ 1 ∧
      AIPSlab testVolume 0 1 = AIP testVolume ∧
      AIP testVolume = .ok [30, 31, 32, 33, 34, 35] ∧
      applyProjection3D testVolume "AIP" 0 ((testVolume.depth : Int) - 1) =
        applyProjection3D testVolume "AIP" (-1) (-1) := by
  have h := whole_depth_slab_is_full_projection testVolume (by decide) (by decide) (by decide)
    0 1 (by decide) (by decide)
  exact ⟨by decide, by decide, by decide, h.2.2.1, rfl,
    h.2.2.2.2.2.2 "AIP" (by simp) (-1) (-1) (by decide) (by decide)⟩
/-! ## The reads of the slab projections -/

/-- C37: for every volume with depth at least 1 that satisfies the
buffer-length invariant and all integers `zStart`, `zEnd`, the clamped and
ordered bounds satisfy `0 <= startZ <= endZ <= depth - 1`; every index
`x + width * (y + height * z)` that the slab projections read, for `z` in
`[startZ, endZ]` and in-range `(x, y)`, is below the length of the buffer,
`width * height * depth`; the divisor `endZ - startZ + 1` of `AIPSlab` is
at least 1; and the three slab projections return a buffer. -/
theorem slab_reads_in_bounds (v : Volume) (hd : 1 ≤ v.depth) (hinv : v.LengthInv)
    (zStart zEnd : Int) :
    0 ≤ (slabBounds v zStart zEnd).1 ∧
      (slabBounds v zStart zEnd).1 ≤ (slabBounds v zStart zEnd).2 ∧
      (slabBounds v zStart zEnd).2 ≤ (v.depth : Int) - 1 ∧
      (∀ z, z ∈ intRange (slabBounds v zStart zEnd).1 (slabBounds v zStart zEnd).2 →
        ∀ x y, x < v.width → y < v.height →
          z.toNat < v.depth ∧
          x + v.width * (y + v.height * z.toNat) < v.data.length ∧
          x + v.width * (y + v.height * z.toNat) < v.width * v.height * v.depth) ∧
      1 ≤ (slabBounds v zStart zEnd).2 - (slabBounds v zStart zEnd).1 + 1 ∧
      (∃ out, MIPSlab v zStart zEnd = .ok out ∧ out.length = v.width * v.height) ∧
      (∃ out, MinIPSlab v zStart zEnd = .ok out ∧ out.length = v.width * v.height) ∧
      (∃ out, AIPSlab v zStart zEnd = .ok out ∧ out.length = v.width * v.height) := by
  have hb : 0 ≤ (slabBounds v zStart zEnd).1 ∧
      (slabBounds v zStart zEnd).1 ≤ (slabBounds v zStart zEnd).2 ∧
      (slabBounds v zStart zEnd).2 ≤ (v.depth : Int) - 1 := by
    unfold slabBounds
    simp only []
    split <;> simp only [] <;> omega
  obtain ⟨h0, h1, h2⟩ := hb
  refine ⟨h0, h1, h2, ?_, by omega, MIPSlab_length v zStart zEnd,
    MinIPSlab_length v zStart zEnd, AIPSlab_length v zStart zEnd⟩
  intro z hz x y hx hy
  obtain ⟨hlo, hhi⟩ := mem_intRange.mp hz
  have hzd : z.toNat < v.depth := by omega
  have hlt := flat_index_lt hx hy hzd
  refine ⟨hzd, ?_, hlt⟩
  rw [hinv]
  exact hlt

/-- Witness for C37: the 3x2x2 test volume with the bounds `(5, -3)`, which
are clamped to `(1, 0)` and ordered to `(0, 1)`. -/
theorem slab_reads_in_bounds_witness :
    1 ≤ testVolume.depth ∧ testVolume.LengthInv ∧ slabBounds testVolume 5 (-3) = (0, 1) ∧
      (1 : Int) ≤ (slabBounds testVolume 5 (-3)).2 - (slabBounds testVolume 5 (-3)).1 + 1 ∧
      ∃ out, AIPSlab testVolume 5 (-3) = .ok out ∧
        out.length = testVolume.width * testVolume.height :=
  ⟨by decide, by decide, by decide,
    (slab_reads_in_bounds testVolume (by decide) (by decide) 5 (-3)).2.2.2.2.1,
    (slab_reads_in_bounds testVolume (by decide) (by decide) 5 (-3)).2.2.2.2.2.2.2⟩

/-! ## Projections of a volume without slices -/

/-- A loop nest whose body fails at `(0, 0)` fails with that failure. -/
theorem fillXYM_fails {ε α : Type} (w h : Nat) (hw : 1 ≤ w) (hh : 1 ≤ h)
    (f : Nat → Nat → Except ε α) (e : ε) (hf : f 0 0 = .error e) (output : List α) :
    fillXYM w h f output = .error e := by
  unfold fillXYM
  apply range_foldlM_fails _ output output e 0 h (by omega) rfl
  apply range_foldlM_fails _ output output e 0 w (by omega) rfl
  rw [hf]
  rfl

/-- C38, as the code has it: on a volume with depth 0 and width and height
at least 1, `MIP` and `AIPMedian` stop at their guard and produce no
buffer, `MinIP`, which has no guard, produces a buffer of `width * height`
entries 255, and `AIP`, which has no guard either, evaluates `sumVal / d`
with `d = 0`. -/
theorem zero_depth_projections (v : Volume) (hd : v.depth = 0) (hw : 1 ≤ v.width)
    (hh : 1 ≤ v.height) :
    MIP v = .error .zeroDimensions ∧ AIPMedian v = .error .zeroDimensions ∧
      MinIP v = .ok (List.replicate (v.width * v.height) 255) ∧
      AIP v = .error .divisionByZero := by
  refine ⟨?_, ?_, ?_, ?_⟩
  · unfold MIP
    simp only []
    rw [if_pos (by omega)]
  · unfold AIPMedian
    simp only []
    rw [if_pos (by omega)]
  · unfold MinIP
    simp only []
    congr 1
    obtain ⟨hl, hget⟩ := fillXY_spec v.width v.height
      (fun x y => (List.range v.depth).foldl
        (fun minVal z => minStep minVal (v.voxel x y z)) 255)
      (List.replicate (v.width * v.height) 255) (by simp)
    apply list_eq_of_index2 v.width v.height _ _ 0 hl (by simp)
    intro x y hx hy
    rw [hget x y hx hy, hd, List.getD_eq_getElem _ _ (by
      rw [List.length_replicate]
      exact index2_lt hx hy)]
    simp
  · unfold AIP
    simp only []
    apply fillXYM_fails _ _ hw hh
    unfold meanOf
    rw [if_pos hd]

/-- Witness for C38: the volume of the constructor call `Volume(2, 1, 0)`. -/
theorem zero_depth_projections_witness :
    (Volume.presized 2 1 0).depth = 0 ∧ (Volume.presized 2 1 0).data = [] ∧
      MIP (Volume.presized 2 1 0) = .error .zeroDimensions ∧
      AIPMedian (Volume.presized 2 1 0) = .error .zeroDimensions ∧
      MinIP (Volume.presized 2 1 0) = .ok [255, 255] ∧
      AIP (Volume.presized 2 1 0) = .error .divisionByZero := by
  have h := zero_depth_projections (Volume.presized 2 1 0) rfl (by decide) (by decide)
  exact ⟨rfl, rfl, h.1, h.2.1, h.2.2.1, h.2.2.2⟩
/-! ## The order of the projections -/

/-- The entries at `(x, y)` of the four full-volume projections. -/
theorem projection_entries (v : Volume) (hw : 1 ≤ v.width) (hh : 1 ≤ v.height)
    (hd : 1 ≤ v.depth) (x y : Nat) (hx : x < v.width) (hy : y < v.height) :
    ∃ lo mean med hi, MinIP v = .ok lo ∧ AIP v = .ok mean ∧ AIPMedian v = .ok med ∧
      MIP v = .ok hi ∧
      lo.getD (x + v.width * y) 0 =
        (List.range v.depth).foldl (fun minVal z => minStep minVal (v.voxel x y z)) 255 ∧
      (mean.getD (x + v.width * y) 0).val =
        ((∑ z ∈ Finset.range v.depth, (v.voxel x y z).val) % 2 ^ 32) / v.depth ∧
      med.getD (x + v.width * y) 0 =
        columnMedian v.depth ((List.range v.depth).map (fun z => v.voxel x y z)) ∧
      hi.getD (x + v.width * y) 0 =
        (List.range v.depth).foldl (fun maxVal z => maxStep maxVal (v.voxel x y z)) 0 := by
  have hg : ¬ (v.width ≤ 0 ∨ v.height ≤ 0 ∨ v.depth ≤ 0) := by omega
  have hd0 : v.depth ≠ 0 := by omega
  obtain ⟨-, hlo⟩ := fillXY_spec v.width v.height
    (fun x y => (List.range v.depth).foldl (fun minVal z => minStep minVal (v.voxel x y z)) 255)
    (List.replicate (v.width * v.height) 255) (by simp)
  obtain ⟨-, hhi⟩ := fillXY_spec v.width v.height
    (fun x y => (List.range v.depth).foldl (fun maxVal z => maxStep maxVal (v.voxel x y z)) 0)
    (List.replicate (v.width * v.height) 0) (by simp)
  obtain ⟨-, hmed⟩ := fillXY_spec v.width v.height
    (fun x y => columnMedian v.depth
      ((List.range v.depth).foldl (fun vals z => vals.set z (v.voxel x y z))
        (List.replicate v.depth 0)))
    (List.replicate (v.width * v.height) 0) (by simp)
  obtain ⟨-, hacc⟩ := fillXY_spec v.width v.height
    (fun x y => (List.range v.depth).foldl (fun sumVal z => sumStep sumVal (v.voxel x y z)) 0)
    (List.replicate (v.width * v.height) 0) (by simp)
  obtain ⟨-, hmean⟩ := fillXY_spec v.width v.height
    (fun x y => toByte ((fillXY v.width v.height
        (fun x y => (List.range v.depth).foldl
          (fun sumVal z => sumStep sumVal (v.voxel x y z)) 0)
        (List.replicate (v.width * v.height) 0)).getD (x + v.width * y) 0 / v.depth))
    (List.replicate (v.width * v.height) 0) (by simp)
  have hrun : AIP v = .ok (fillXY v.width v.height
      (fun x y => toByte ((fillXY v.width v.height
        (fun x y => (List.range v.depth).foldl
          (fun sumVal z => sumStep sumVal (v.voxel x y z)) 0)
        (List.replicate (v.width * v.height) 0)).getD (x + v.width * y) 0 / v.depth))
      (List.replicate (v.width * v.height) 0)) := by
    unfold AIP
    apply fillXYM_eq_ok
    intro x y _ _
    unfold meanOf
    rw [if_neg hd0]
  have hsum : ∑ z ∈ Finset.range v.depth, (v.voxel x y z).val ≤ 255 * v.depth :=
    sum_range_le _ _ _ (fun z => byte_val_le _)
  refine ⟨_, _, _, _, rfl, hrun, by unfold AIPMedian; simp only []; rw [if_neg hg],
    by unfold MIP; simp only []; rw [if_neg hg], hlo x y hx hy 0, ?_, ?_, hhi x y hx hy 0⟩
  · rw [hmean x y hx hy, hacc x y hx hy, foldl_sumStep _ _ _ (by norm_num), Nat.zero_add,
      sum_map_range (fun z => (v.voxel x y z).val)]
    exact toByte_val_of_lt (wrapped_mean_lt _ _ hd hsum)
  · rw [hmed x y hx hy, fill_range_eq_map v.depth (fun z => v.voxel x y z) _ (by simp)]

/-- A sum over a range is between the multiples of a lower and an upper
bound of its terms. -/
theorem sum_range_between (g : Nat → Nat) (d lo hi : Nat)
    (h : ∀ z, z < d → lo ≤ g z ∧ g z ≤ hi) :
    lo * d ≤ ∑ z ∈ Finset.range d, g z ∧ ∑ z ∈ Finset.range d, g z ≤ hi * d := by
  induction d with
  | zero => simp
  | succ k ih =>
    rw [Finset.sum_range_succ]
    obtain ⟨h1, h2⟩ := ih (fun z hz => h z (Nat.lt_succ_of_lt hz))
    obtain ⟨h3, h4⟩ := h k (Nat.lt_succ_self k)
    constructor
    · calc lo * (k + 1) = lo * k + lo := by ring
        _ ≤ _ := Nat.add_le_add h1 h3
    · calc _ ≤ hi * k + hi := Nat.add_le_add h2 h4
        _ = hi * (k + 1) := by ring

/-- The median of a column, as `AIPMedian` computes it, is between two
bounds of the column. -/
theorem columnMedian_between (d : Nat) (hd : 1 ≤ d) (vals : List Byte) (hlen : vals.length = d)
    (lo hi : Byte) (h : ∀ b, b ∈ vals → lo ≤ b ∧ b ≤ hi) :
    lo ≤ columnMedian d vals ∧ columnMedian d vals ≤ hi := by
  have hslen : (vals.insertionSort (· ≤ ·)).length = d := by
    rw [List.length_insertionSort, hlen]
  have hmem : ∀ i, i < d → lo ≤ (vals.insertionSort (· ≤ ·)).getD i 0 ∧
      (vals.insertionSort (· ≤ ·)).getD i 0 ≤ hi := by
    intro i hi'
    rw [List.getD_eq_getElem _ _ (by rw [hslen]; exact hi')]
    apply h
    exact (List.perm_insertionSort _ _).mem_iff.mp (List.getElem_mem _)
  unfold columnMedian
  simp only []
  by_cases hodd : d % 2 = 1
  · rw [if_pos hodd]
    exact hmem (d / 2) (by omega)
  · rw [if_neg hodd]
    obtain ⟨a1, a2⟩ := hmem (d / 2 - 1) (by omega)
    obtain ⟨b1, b2⟩ := hmem (d / 2) (by omega)
    have c1 := byte_val_le ((vals.insertionSort (· ≤ ·)).getD (d / 2 - 1) 0)
    have c2 := byte_val_le ((vals.insertionSort (· ≤ ·)).getD (d / 2) 0)
    have hv : (toByte ((((vals.insertionSort (· ≤ ·)).getD (d / 2 - 1) 0).val +
        ((vals.insertionSort (· ≤ ·)).getD (d / 2) 0).val) / 2)).val =
        (((vals.insertionSort (· ≤ ·)).getD (d / 2 - 1) 0).val +
        ((vals.insertionSort (· ≤ ·)).getD (d / 2) 0).val) / 2 :=
      toByte_val_of_lt (by omega)
    have a1' : lo.val ≤ ((vals.insertionSort (· ≤ ·)).getD (d / 2 - 1) 0).val := a1
    have a2' : ((vals.insertionSort (· ≤ ·)).getD (d / 2 - 1) 0).val ≤ hi.val := a2
    have b1' : lo.val ≤ ((vals.insertionSort (· ≤ ·)).getD (d / 2) 0).val := b1
    have b2' : ((vals.insertionSort (· ≤ ·)).getD (d / 2) 0).val ≤ hi.val := b2
    constructor
    · show lo.val ≤ _
      rw [hv]
      omega
    · show _ ≤ hi.val
      rw [hv]
      omega
theorem deepColumn_range_sum :
    ∑ z ∈ Finset.range 16843010, (deepColumn.voxel 0 0 z).val = 255 * 16843010 := by
  have h : ∀ z ∈ Finset.range 16843010, (deepColumn.voxel 0 0 z).val = 255 := by
    intro z hz
    rw [deepColumn_voxel z (Finset.mem_range.mp hz)]
    rfl
  rw [Finset.sum_congr rfl h, Finset.sum_const, Finset.card_range, smul_eq_mul, Nat.mul_comm]

/-- The average projection of the deep column: the 32-bit sum has wrapped
to 254 and the entry is `254 / 16843010 = 0`. -/
theorem deepColumn_AIP : AIP deepColumn = .ok [0] := by
  have hdepth : deepColumn.depth = 16843010 := rfl
  have hw : deepColumn.width = 1 := rfl
  have hh : deepColumn.height = 1 := rfl
  have hd1 : 1 ≤ deepColumn.depth := by rw [hdepth]; omega
  obtain ⟨lo, mean, med, hi, -, hmean, -, -, -, emean, -, -⟩ :=
    projection_entries deepColumn (by rw [hw]) (by rw [hh]) hd1 0 0
      (by rw [hw]; omega) (by rw [hh]; omega)
  obtain ⟨mean', hmean', lmean⟩ := AIP_length deepColumn hd1
  rw [hmean] at hmean'
  cases hmean'
  rw [hw, hh] at lmean
  rw [hw] at emean
  obtain ⟨b, hb⟩ := List.length_eq_one.mp lmean
  have e3 : 255 * 16843010 % 2 ^ 32 / 16843010 = 0 := by norm_num
  rw [hdepth, deepColumn_range_sum, e3, hb] at emean
  have eb : b = 0 := Fin.ext emean
  rw [hmean, hb, eb]

/-- The histogram that the row loop holds at `x` is the histogram of the
window centred at `(x, y, z)`, as 32-bit bins hold it. -/
theorem histogramAt_eq (v : Volume) (hc : v.channels = 1) (hw : 1 ≤ v.width)
    (hh : 1 ≤ v.height) (hd : 1 ≤ v.depth) (r : Nat) (pos : Int) (y z x : Nat)
    (hx : x < v.width) :
    histogramAt v (r : Int) pos y z x =
      .ok (wrapHist (countOf (windowSamples v r x y z))) := by
  have hloop := foldlM_invariant_ok (slideWindow v (r : Int) pos y z) (List.range' 1 x)
    (fun k (st : Histogram × List Byte) => st.1 = wrapHist (countOf (windowSamples v r k y z)))
    (wrapHist (countOf (windowSamples v r 0 y z)), []) rfl ?_
  · obtain ⟨moved, hmoved, h1⟩ := hloop
    rw [List.length_range'] at h1
    unfold histogramAt
    rw [firstWindowHistogram_ok v hc hw hh hd r y z, ok_bind, hmoved, ok_bind, ← h1]
    rfl
  · intro k hk st hst
    rw [List.length_range'] at hk
    have hget : (List.range' 1 x).get ⟨k, by rw [List.length_range']; exact hk⟩ = k + 1 := by
      show (List.range' 1 x)[k] = k + 1
      rw [List.getElem_range']
      omega
    rw [hget, slideWindow_ok v hc hh hd r pos y z k (by omega) st hst]
    exact ⟨_, rfl, rfl⟩

/-- The bins of the histogram of a list of samples sum to its length. -/
theorem countOf_total (S : List Byte) :
    ∑ i ∈ Finset.range 256, countOf S i = (S.length : Int) := by
  rw [show (256 : Nat) = 255 + 1 from rfl, sum_countOf_range]
  congr 1
  apply List.countP_eq_length.mpr
  intro b _
  have := b.isLt
  simp only [decide_eq_true_eq]
  omega

/-- A histogram whose cumulative counts are in the range of `int` and
whose 256 bins sum to more than `pos` has a first bin at which the
cumulative count exceeds `pos`, and the scan returns it. -/
theorem medianScan_reaches (h : Histogram) (pos : Int)
    (hrange : ∀ a, a ≤ 256 → -2147483648 ≤ ∑ i ∈ Finset.range a, h i ∧
      ∑ i ∈ Finset.range a, h i < 2147483648)
    (htotal : pos < ∑ i ∈ Finset.range 256, h i) :
    ∃ t, t < 256 ∧ pos < ∑ i ∈ Finset.range (t + 1), h i ∧
      (∀ j, j < t → (∑ i ∈ Finset.range (j + 1), h i) ≤ pos) ∧ medianScan h pos = t := by
  have hex : ∃ t, pos < ∑ i ∈ Finset.range (t + 1), h i := ⟨255, htotal⟩
  classical
  have hat := Nat.find_spec hex
  have hle : Nat.find hex ≤ 255 := Nat.find_min' hex htotal
  have hbelow : ∀ j, j < Nat.find hex → (∑ i ∈ Finset.range (j + 1), h i) ≤ pos := by
    intro j hj
    have := Nat.find_min hex hj
    omega
  exact ⟨Nat.find hex, by omega, hat, hbelow,
    scanBins_finds h pos _ (by omega) hrange hbelow hat⟩

/-- C33, for the kernel sizes for which it holds: in `apply3DMedianBlur` on
a single-channel volume with width, height and depth at least 1 and an odd
`kernelSize >= 1` whose cube is below `2^31` (the odd sizes up to 1289),
the histogram that the row loop holds when it computes the output at
`(x, y, z)`, after the initialisation of the row at `x = 0` and the slide
steps for `1, ..., x`, is the histogram of the window centred there: every
bin is non-negative, the 256 bins sum to `kernelSize^3`, the threshold of
the scan is `kernelSize^3 / 2`, and the scan stops at a bin, the first one
at which the cumulative count exceeds the threshold; it does not run to its
end.  Under the buffer-length invariant the bin is the voxel that the blur
stores at `(x, y, z)`. -/
theorem median_histogram_invariant (v : Volume) (hc : v.channels = 1) (hw : 1 ≤ v.width)
    (hh : 1 ≤ v.height) (hd : 1 ≤ v.depth) (kernelSize : Nat) (hodd : kernelSize % 2 = 1)
    (hbound : kernelSize ^ 3 < 2 ^ 31)
    (x y z : Nat) (hx : x < v.width) (hy : y < v.height) (hz : z < v.depth) :
    ∃ hist, histogramAt v ((kernelSize : Int).tdiv 2)
          ((wrapInt32 (wrapInt32 ((kernelSize : Int) * kernelSize) * kernelSize)).tdiv 2)
          y z x = .ok hist ∧
      hist = countOf (windowSamples v (kernelSize / 2) x y z) ∧
      (∀ i, 0 ≤ hist i) ∧ (∀ i, 256 ≤ i → hist i = 0) ∧
      ∑ i ∈ Finset.range 256, hist i = ((kernelSize ^ 3 : Nat) : Int) ∧
      (wrapInt32 (wrapInt32 ((kernelSize : Int) * kernelSize) * kernelSize)).tdiv 2 =
        ((kernelSize ^ 3 / 2 : Nat) : Int) ∧
      ∃ t, t < 256 ∧
        ((kernelSize ^ 3 / 2 : Nat) : Int) < ∑ i ∈ Finset.range (t + 1), hist i ∧
        (∀ j, j < t → (∑ i ∈ Finset.range (j + 1), hist i) ≤
          ((kernelSize ^ 3 / 2 : Nat) : Int)) ∧
        medianScan hist
          ((wrapInt32 (wrapInt32 ((kernelSize : Int) * kernelSize) * kernelSize)).tdiv 2) = t ∧
        (v.LengthInv → ((apply3DMedianBlur v kernelSize).2.voxel x y z).val = t) := by
  have hk : 2 * (kernelSize / 2) + 1 = kernelSize := by omega
  have hrad : (kernelSize : Int).tdiv 2 = ((kernelSize / 2 : Nat) : Int) := by
    rw [show (2 : Int) = ((2 : Nat) : Int) from rfl, ← Int.ofNat_tdiv]
  have hpos := medianPos_fits kernelSize hbound
  have hlenS : (windowSamples v (kernelSize / 2) x y z).length = kernelSize ^ 3 := by
    rw [length_windowSamples, hk]
  have hfew : (windowSamples v (kernelSize / 2) x y z).length < 2147483648 := by
    rw [hlenS]
    exact hbound
  have htotal : ∑ i ∈ Finset.range 256, countOf (windowSamples v (kernelSize / 2) x y z) i =
      ((kernelSize ^ 3 : Nat) : Int) := by
    rw [countOf_total, hlenS]
  have hcube : 0 < kernelSize ^ 3 := Nat.pos_pow_of_pos 3 (by omega)
  refine ⟨countOf (windowSamples v (kernelSize / 2) x y z), ?_, rfl,
    fun i => countOf_nonneg _ i, ?_, htotal, hpos, ?_⟩
  · rw [hrad, histogramAt_eq v hc hw hh hd (kernelSize / 2) _ y z x hx,
      wrapHist_countOf _ hfew]
  · intro i hi
    unfold countOf
    have : (windowSamples v (kernelSize / 2) x y z).countP (fun b => decide (b.val = i)) = 0 := by
      apply List.countP_eq_zero.mpr
      intro b _
      have := b.isLt
      simp only [decide_eq_true_eq]
      omega
    rw [this]
    rfl
  · have hlt : kernelSize ^ 3 / 2 < kernelSize ^ 3 := by omega
    rw [hpos]
    obtain ⟨t, ht, h1, h2, h3⟩ := medianScan_reaches
      (countOf (windowSamples v (kernelSize / 2) x y z))
      ((kernelSize ^ 3 / 2 : Nat) : Int)
      (fun a _ => countOf_partial_range _ hfew a) (by
        rw [htotal]
        exact_mod_cast hlt)
    refine ⟨t, ht, h1, h2, h3, ?_⟩
    intro hinv
    obtain ⟨out, hres, -, hval⟩ :=
      apply3DMedianBlur_voxels v hc hw hh hd hinv kernelSize hodd hbound
    have hvox : (apply3DMedianBlur v kernelSize).2.voxel x y z =
        out.getD (x + v.width * (y + v.height * z)) 0 := by
      rw [hres]
      rfl
    rw [hvox, hval x y z hx hy hz]
    unfold bruteForceMedian
    rw [← medianScan_countOf _ hfew (kernelSize ^ 3 / 2) (by rw [hlenS]; exact hlt), h3]
    exact toByte_val_of_lt ht

/-- Witness for C33: the 3x2x2 test volume with kernel size 3 at the last
voxel of a row, `(2, 1, 1)`, after two slide steps. -/
theorem median_histogram_invariant_witness :
    testVolume.channels = 1 ∧ 3 % 2 = 1 ∧ 3 ^ 3 < 2 ^ 31 ∧
      ∃ hist, histogramAt testVolume ((3 : Int).tdiv 2)
          ((wrapInt32 (wrapInt32 ((3 : Int) * 3) * 3)).tdiv 2) 1 1 2 = .ok hist ∧
        ∑ i ∈ Finset.range 256, hist i = 27 ∧ medianScan hist 13 = 52 := by
  obtain ⟨hist, h1, h2, -, -, h5, -⟩ :=
    median_histogram_invariant testVolume rfl (by decide) (by decide) (by decide) 3 (by decide)
      (by norm_num) 2 1 1 (by decide) (by decide) (by decide)
  refine ⟨rfl, by decide, by norm_num, hist, h1, h5, ?_⟩
  rw [h2]
  decide

/-- Counterexample for C33: with the kernel size 1291 on the volume of the
single voxel 7, the window holds `1291^3 = 2151685171` samples, all of them
7; the 32-bit bin 7 holds -2143282125, the bins do not sum to `1291^3`, and
the scan stops at the empty bin 0. -/
theorem median_histogram_wrap_counterexample :
    pointVolume.channels = 1 ∧ 1291 % 2 = 1 ∧
      (windowSamples pointVolume (1291 / 2) 0 0 0).length = 1291 ^ 3 ∧
      (∀ a, a ∈ windowSamples pointVolume (1291 / 2) 0 0 0 → a = 7) ∧
      ∃ hist, histogramAt pointVolume ((1291 : Int).tdiv 2)
          ((wrapInt32 (wrapInt32 ((1291 : Int) * 1291) * 1291)).tdiv 2) 0 0 0 = .ok hist ∧
        hist 7 = -2143282125 ∧ hist 0 = 0 ∧
        ∑ i ∈ Finset.range 256, hist i ≠ ((1291 ^ 3 : Nat) : Int) ∧
        medianScan hist
          ((wrapInt32 (wrapInt32 ((1291 : Int) * 1291) * 1291)).tdiv 2) = 0 := by
  have hall := windowSamples_constant pointVolume (by decide) (by decide) (by decide) 7
    pointVolume_constant 645 0 0 0
  have hlenS : (windowSamples pointVolume 645 0 0 0).length = 1291 ^ 3 :=
    length_windowSamples pointVolume 645 0 0 0
  have hrad : (1291 : Int).tdiv 2 = ((645 : Nat) : Int) := by decide
  have hbin : ∀ i, wrapHist (countOf (windowSamples pointVolume 645 0 0 0)) i =
      if i = 7 then -2143282125 else 0 := by
    intro i
    show wrapInt32 (countOf (windowSamples pointVolume 645 0 0 0) i) = _
    rw [countOf_constant _ 7 hall i, hlenS, show ((7 : Byte).val) = 7 from rfl]
    by_cases e : i = 7
    · rw [if_pos e, if_pos e]
      decide
    · rw [if_neg e, if_neg e]
      decide
  refine ⟨rfl, by decide, hlenS, hall,
    wrapHist (countOf (windowSamples pointVolume 645 0 0 0)), ?_, ?_, ?_, ?_, ?_⟩
  · rw [hrad]
    exact histogramAt_eq pointVolume rfl (by decide) (by decide) (by decide) 645 _ 0 0 0
      (by decide)
  · rw [hbin, if_pos rfl]
  · rw [hbin, if_neg (by decide)]
  · rw [Finset.sum_congr rfl (fun i _ => hbin i), Finset.sum_ite_eq' (Finset.range 256) 7
      (fun _ => (-2143282125 : Int)), if_pos (by simp)]
    norm_num
  · apply medianScan_first
    rw [medianPos_1291, hbin, if_neg (by decide)]
    decide

/-! ## Brightness -/

theorem stdClamp_eq_clamp (t lo hi : Int) : stdClamp t lo hi = clamp t lo hi := rfl

theorem stdClamp_byte_range (t : Int) : 0 ≤ stdClamp t 0 255 ∧ stdClamp t 0 255 ≤ 255 := by
  unfold stdClamp
  split
  · omega
  · split <;> omega

theorem toByteOfInt_of_range (i : Int) (h0 : 0 ≤ i) (h1 : i ≤ 255) :
    ((toByteOfInt i).val : Int) = i := by
  unfold toByteOfInt toByte
  show ((((i % 256).toNat % 256 : Nat)) : Int) = i
  omega

/-- A loop over the positions `0, ..., n - 1` of a buffer that replaces the
entry at `j` by a function of it, or leaves the buffer as it is: every
position below `n` holds the function of the entry it held before the loop. -/
theorem foldl_update_each {α : Type} (skip : Nat → Prop) [DecidablePred skip]
    (g : α → α) (d : α) (init : List α) (n : Nat) :
    ((List.range n).foldl
        (fun out j => if skip j then out else out.set j (g (out.getD j d))) init).length =
        init.length ∧
      ∀ j, j < init.length →
        ((List.range n).foldl
          (fun out j => if skip j then out else out.set j (g (out.getD j d))) init).getD j d =
          if j < n ∧ ¬ skip j then g (init.getD j d) else init.getD j d := by
  have key := foldl_range_invariant
    (fun k (out : List α) => k ≤ n → (out.length = init.length ∧
      ∀ j, j < init.length →
        out.getD j d = if j < k ∧ ¬ skip j then g (init.getD j d) else init.getD j d))
    (fun out j => if skip j then out else out.set j (g (out.getD j d))) init n
    (fun _ => ⟨rfl, fun j _ => by rw [if_neg (by omega)]⟩) ?_
  · exact key (Nat.le_refl n)
  · intro k out hk ih hk1
    obtain ⟨hl, hv⟩ := ih (by omega)
    by_cases hs : skip k
    · simp only [if_pos hs]
      refine ⟨hl, ?_⟩
      intro j hj
      rw [hv j hj]
      by_cases hjk : j = k
      · subst hjk
        rw [if_neg (fun h => h.2 hs), if_neg (fun h => h.2 hs)]
      · by_cases hlt : j < k ∧ ¬ skip j
        · rw [if_pos hlt, if_pos ⟨by omega, hlt.2⟩]
        · rw [if_neg hlt, if_neg (fun h => hlt ⟨by omega, h.2⟩)]
    · simp only [if_neg hs]
      refine ⟨by rw [List.length_set, hl], ?_⟩
      intro j hj
      by_cases hjk : j = k
      · subst hjk
        rw [getD_set_self _ _ _ _ (by rw [hl]; exact hj), hv j hj,
          if_neg (fun h => absurd h.1 (Nat.lt_irrefl j)), if_pos ⟨Nat.lt_succ_self j, hs⟩]
      · rw [getD_set_of_ne _ _ _ (fun h => hjk h.symm), hv j hj]
        by_cases hlt : j < k ∧ ¬ skip j
        · rw [if_pos hlt, if_pos ⟨by omega, hlt.2⟩]
        · rw [if_neg hlt, if_neg (fun h => hlt ⟨by omega, h.2⟩)]

/-- C32, with the sum as the code takes it: for every image whose buffer has
`width * height * channels` samples, in particular with 1, 3 or 4 channels,
and every brightness value other than 0, `apply_Brightness` returns, keeps
width, height, channels and the length of the buffer, leaves the alpha
samples of a 4-channel image (the positions `j` with `j % 4 = 3`) as they
are, and sets every other sample `s` to `clamp(t, 0, 255)`, where `t` is the
sum `s + value` reduced to 32 bits; for an `int` value of at most
`INT_MAX - 255 = 2147483392` the sum is exact and the sample becomes
`clamp(s + value, 0, 255)`.  On the 2x2 grayscale image
`[100, 150, 200, 250]` with value 20 the result is `[120, 170, 220, 255]`. -/
theorem apply_Brightness_spec (luminance : Int → Byte → Byte → Byte → Int) (img : Image)
    (hlen : img.data.length = img.width * img.height * img.channels) (value : Int)
    (hv : value ≠ 0) :
    (∃ out, apply_Brightness luminance img value = some out ∧
      out.width = img.width ∧ out.height = img.height ∧ out.channels = img.channels ∧
      out.data.length = img.data.length ∧
      ∀ j, j < img.width * img.height * img.channels →
        (img.channels = 4 ∧ j % 4 = 3 → out.data.getD j 0 = img.data.getD j 0) ∧
        (¬ (img.channels = 4 ∧ j % 4 = 3) →
          ((out.data.getD j 0).val : Int) =
            clamp (wrapInt32 (((img.data.getD j 0).val : Int) + value)) 0 255 ∧
          (-2147483648 ≤ value → value ≤ 2147483392 →
            ((out.data.getD j 0).val : Int) =
              clamp (((img.data.getD j 0).val : Int) + value) 0 255))) ∧
    (apply_Brightness luminance brightnessImg 20).map (fun out => out.data) =
      some [120, 170, 220, 255] := by
  refine ⟨?_, rfl⟩
  have htake : img.data.take (img.width * img.height * img.channels) = img.data := by
    rw [← hlen, List.take_length]
  have hdrop : img.data.drop (img.width * img.height * img.channels) = [] := by
    rw [← hlen, List.drop_length]
  obtain ⟨hl, hval⟩ := foldl_update_each
    (fun j => img.channels = 4 ∧ j % img.channels = 3)
    (fun (s : Byte) => toByteOfInt (stdClamp (wrapInt32 ((s.val : Int) + value)) 0 255)) 0
    img.data (img.width * img.height * img.channels)
  have hrun : apply_Brightness luminance img value = some { img with data :=
      (List.foldl
        (fun out j => if img.channels = 4 ∧ j % img.channels = 3 then out
          else out.set j
            (toByteOfInt (stdClamp (wrapInt32 (((out.getD j 0).val : Int) + value)) 0 255)))
        img.data (List.range (img.width * img.height * img.channels))) } := by
    unfold apply_Brightness
    simp only []
    rw [if_neg hv, htake, hdrop]
    simp only [Option.map_some', List.append_nil]
  refine ⟨_, hrun, rfl, rfl, rfl, hl, ?_⟩
  intro j hj
  have hget := hval j (by rw [hlen]; exact hj)
  constructor
  · intro ⟨h4, h3⟩
    show (List.getD _ j 0 : Byte) = _
    rw [hget, if_neg (fun h => h.2 ⟨h4, by rw [h4]; exact h3⟩)]
  · intro hno
    refine ⟨?_, fun hlo hhi => ?_⟩
    · show (((List.getD _ j 0 : Byte)).val : Int) = _
      rw [hget, if_pos ⟨hj, fun h => hno ⟨h.1, by rw [← h.1]; exact h.2⟩⟩,
        toByteOfInt_of_range _ (stdClamp_byte_range _).1 (stdClamp_byte_range _).2,
        stdClamp_eq_clamp]
    · have hs := (img.data.getD j 0).isLt
      have hexact := wrapInt32_of_range (((img.data.getD j 0).val : Int) + value)
        (by omega) (by omega)
      show (((List.getD _ j 0 : Byte)).val : Int) = _
      rw [hget, if_pos ⟨hj, fun h => hno ⟨h.1, by rw [← h.1]; exact h.2⟩⟩,
        toByteOfInt_of_range _ (stdClamp_byte_range _).1 (stdClamp_byte_range _).2,
        stdClamp_eq_clamp, hexact]

/-- Counterexample for C32: with the value `INT_MAX = 2147483647` the sums
`s + value` of the samples 100, 150, 200 and 250 pass `INT_MAX`; the 32-bit
sums are negative and every sample becomes 0, where `clamp(s + value, 0,
255)` is 255. -/
theorem apply_Brightness_overflow_counterexample :
    (2147483647 : Int) ≠ 0 ∧
      apply_Brightness (fun sum _ _ _ => sum) brightnessImg 2147483647 =
        some { brightnessImg with data := [0, 0, 0, 0] } ∧
      wrapInt32 ((100 : Int) + 2147483647) = -2147483549 ∧
      clamp ((100 : Int) + 2147483647) 0 255 = 255 :=
  ⟨by decide, rfl, by decide, by decide⟩

/-- Witness for C32: a 1x1 image of four channels with value -20; the
alpha sample 77 is kept and the sample 10 saturates at 0. -/
theorem apply_Brightness_spec_witness :
    alphaImg.data.length = alphaImg.width * alphaImg.height * alphaImg.channels ∧
      apply_Brightness (fun sum _ _ _ => sum) alphaImg (-20) =
        some { alphaImg with data := [230, 0, 108, 77] } ∧
      ∃ out, apply_Brightness (fun sum _ _ _ => sum) alphaImg (-20) = some out ∧
        out.data.length = alphaImg.data.length := by
  obtain ⟨out, h1, -, -, -, h5, -⟩ :=
    (apply_Brightness_spec (fun sum _ _ _ => sum) alphaImg rfl (-20) (by decide)).1
  exact ⟨rfl, rfl, out, h1, h5⟩
/-! ## The accesses of the 2D blurs on a grayscale image -/

theorem last_pixel_index (w h : Nat) (hw : 1 ≤ w) (hh : 1 ≤ h) :
    (h - 1) * w + (w - 1) + 1 = w * h := by
  obtain ⟨w', rfl⟩ : ∃ w', w = w' + 1 := ⟨w - 1, by omega⟩
  obtain ⟨h', rfl⟩ : ∃ h', h = h' + 1 := ⟨h - 1, by omega⟩
  simp only [Nat.add_sub_cancel]
  ring

/-- The writes of the blurs at the last pixel of a grayscale image. -/
theorem blurAccesses_writes (img : Image) (hc : img.channels = 1) (hw : 1 ≤ img.width)
    (hh : 1 ≤ img.height) (kernelSize : Int) :
    Access.write ((img.width * img.height : Nat) : Int) ∈ blurAccesses img kernelSize ∧
      Access.write (((img.width * img.height : Nat) : Int) + 1) ∈
        blurAccesses img kernelSize := by
  have e := last_pixel_index img.width img.height hw hh
  have hoff : ((((img.height - 1) * img.width + (img.width - 1)) * img.channels : Nat) : Int) + 1 =
      ((img.width * img.height : Nat) : Int) := by
    rw [hc, Nat.mul_one, ← e]
    push_cast
    ring
  unfold blurAccesses
  simp only []
  constructor
  · apply List.mem_flatMap.mpr
    refine ⟨img.height - 1, List.mem_range.mpr (by omega), ?_⟩
    apply List.mem_flatMap.mpr
    refine ⟨img.width - 1, List.mem_range.mpr (by omega), ?_⟩
    apply List.mem_append_right
    rw [hoff]
    simp
  · apply List.mem_flatMap.mpr
    refine ⟨img.height - 1, List.mem_range.mpr (by omega), ?_⟩
    apply List.mem_flatMap.mpr
    refine ⟨img.width - 1, List.mem_range.mpr (by omega), ?_⟩
    apply List.mem_append_right
    rw [show ((((img.height - 1) * img.width + (img.width - 1)) * img.channels : Nat) : Int) + 2 =
        ((img.width * img.height : Nat) : Int) + 1 by rw [← hoff]; ring]
    simp

/-- The reads of the blurs at the last pixel of a grayscale image, for a
kernel size that is not negative. -/
theorem blurAccesses_reads (img : Image) (hc : img.channels = 1) (hw : 1 ≤ img.width)
    (hh : 1 ≤ img.height) (kernelSize : Int) (hk : 0 ≤ kernelSize) :
    Access.read ((img.width * img.height : Nat) : Int) ∈ blurAccesses img kernelSize ∧
      Access.read (((img.width * img.height : Nat) : Int) + 1) ∈
        blurAccesses img kernelSize := by
  have e := last_pixel_index img.width img.height hw hh
  have hr : 0 ≤ (if kernelSize.tmod 2 = 0 then kernelSize + 1 else kernelSize).tdiv 2 := by
    apply Int.tdiv_nonneg
    · split <;> omega
    · omega
  have hmem : (0 : Int) ∈ intRange
      (-(if kernelSize.tmod 2 = 0 then kernelSize + 1 else kernelSize).tdiv 2)
      ((if kernelSize.tmod 2 = 0 then kernelSize + 1 else kernelSize).tdiv 2) :=
    mem_intRange.mpr ⟨by omega, hr⟩
  have hnx : min (max (((img.width - 1 : Nat) : Int) + 0) 0) ((img.width : Int) - 1) =
      ((img.width - 1 : Nat) : Int) := by omega
  have hny : min (max (((img.height - 1 : Nat) : Int) + 0) 0) ((img.height : Int) - 1) =
      ((img.height - 1 : Nat) : Int) := by omega
  have hoff : (((img.height - 1 : Nat) : Int) * img.width + ((img.width - 1 : Nat) : Int)) *
      img.channels + 1 = ((img.width * img.height : Nat) : Int) := by
    rw [hc, ← e]
    push_cast
    ring
  have hwin : Access.read ((img.width * img.height : Nat) : Int) ∈
        windowAccesses img ((if kernelSize.tmod 2 = 0 then kernelSize + 1 else kernelSize).tdiv 2)
          (img.width - 1) (img.height - 1) ∧
      Access.read (((img.width * img.height : Nat) : Int) + 1) ∈
        windowAccesses img ((if kernelSize.tmod 2 = 0 then kernelSize + 1 else kernelSize).tdiv 2)
          (img.width - 1) (img.height - 1) := by
    unfold windowAccesses
    constructor
    · apply List.mem_flatMap.mpr
      refine ⟨0, hmem, ?_⟩
      apply List.mem_flatMap.mpr
      refine ⟨0, hmem, ?_⟩
      simp only []
      rw [hnx, hny, hoff]
      simp
    · apply List.mem_flatMap.mpr
      refine ⟨0, hmem, ?_⟩
      apply List.mem_flatMap.mpr
      refine ⟨0, hmem, ?_⟩
      simp only []
      rw [hnx, hny, show (((img.height - 1 : Nat) : Int) * img.width +
        ((img.width - 1 : Nat) : Int)) * img.channels + 2 =
        ((img.width * img.height : Nat) : Int) + 1 by rw [← hoff]; ring]
      simp
  unfold blurAccesses
  simp only []
  constructor
  · apply List.mem_flatMap.mpr
    refine ⟨img.height - 1, List.mem_range.mpr (by omega), ?_⟩
    apply List.mem_flatMap.mpr
    refine ⟨img.width - 1, List.mem_range.mpr (by omega), ?_⟩
    exact List.mem_append_left _ hwin.1
  · apply List.mem_flatMap.mpr
    refine ⟨img.height - 1, List.mem_range.mpr (by omega), ?_⟩
    apply List.mem_flatMap.mpr
    refine ⟨img.width - 1, List.mem_range.mpr (by omega), ?_⟩
    exact List.mem_append_left _ hwin.2

/-- C31, as the code has it: on every image with one channel and width and
height at least 1, each of `boxBlur`, `gaussianBlur` and `medianBlur`, with
any kernel size, writes `output[width * height]` and
`output[width * height + 1]`, and with a kernel size that is not negative
reads `data[width * height]` and `data[width * height + 1]`: the three
channels of the last pixel are accessed, of which the buffers of
`width * height * channels` samples hold one. -/
theorem blurs_leave_grayscale_buffer (img : Image) (hc : img.channels = 1)
    (hw : 1 ≤ img.width) (hh : 1 ≤ img.height) (kernelSize : Int) :
    ∀ trace, trace ∈ [boxBlurAccesses img kernelSize, gaussianBlurAccesses img kernelSize,
        medianBlurAccesses img kernelSize] →
      Access.write ((img.width * img.height : Nat) : Int) ∈ trace ∧
      Access.write (((img.width * img.height : Nat) : Int) + 1) ∈ trace ∧
      (0 ≤ kernelSize →
        Access.read ((img.width * img.height : Nat) : Int) ∈ trace ∧
        Access.read (((img.width * img.height : Nat) : Int) + 1) ∈ trace) ∧
      ¬ (Access.write ((img.width * img.height : Nat) : Int)).InBounds
        (img.width * img.height * img.channels) ∧
      ¬ (Access.read ((img.width * img.height : Nat) : Int)).InBounds
        (img.width * img.height * img.channels) ∧
      ¬ ∀ a, a ∈ trace → a.InBounds (img.width * img.height * img.channels) := by
  have hwr := blurAccesses_writes img hc hw hh kernelSize
  have hout : ¬ (Access.write ((img.width * img.height : Nat) : Int)).InBounds
      (img.width * img.height * img.channels) := by
    intro h
    have h2 : ((img.width * img.height : Nat) : Int) <
        ((img.width * img.height * img.channels : Nat) : Int) := h.2
    rw [hc, Nat.mul_one] at h2
    omega
  have hout2 : ¬ (Access.read ((img.width * img.height : Nat) : Int)).InBounds
      (img.width * img.height * img.channels) := by
    intro h
    have h2 : ((img.width * img.height : Nat) : Int) <
        ((img.width * img.height * img.channels : Nat) : Int) := h.2
    rw [hc, Nat.mul_one] at h2
    omega
  have hall : Access.write ((img.width * img.height : Nat) : Int) ∈ blurAccesses img kernelSize ∧
      Access.write (((img.width * img.height : Nat) : Int) + 1) ∈ blurAccesses img kernelSize ∧
      (0 ≤ kernelSize →
        Access.read ((img.width * img.height : Nat) : Int) ∈ blurAccesses img kernelSize ∧
        Access.read (((img.width * img.height : Nat) : Int) + 1) ∈
          blurAccesses img kernelSize) ∧
      ¬ (Access.write ((img.width * img.height : Nat) : Int)).InBounds
        (img.width * img.height * img.channels) ∧
      ¬ (Access.read ((img.width * img.height : Nat) : Int)).InBounds
        (img.width * img.height * img.channels) ∧
      ¬ ∀ a, a ∈ blurAccesses img kernelSize →
        a.InBounds (img.width * img.height * img.channels) :=
    ⟨hwr.1, hwr.2, blurAccesses_reads img hc hw hh kernelSize, hout, hout2,
      fun h => hout (h _ hwr.1)⟩
  intro trace hmem
  simp only [List.mem_cons, List.mem_singleton, List.not_mem_nil, or_false] at hmem
  rcases hmem with rfl | rfl | rfl
  · exact hall
  · exact hall
  · exact hall

/-- Failing input for C31: the 3x3 grayscale image of
`Filters2DTests::testBoxBlur` with kernel size 3, whose buffer has 9
samples.  At the last pixel `(2, 2)` the window loops read the three
channels of the clamped neighbours, among them `data[9]` and `data[10]`,
and the pixel loop ends with the writes of `output[9]` and `output[10]`. -/
theorem blur_grayscale_counterexample :
    grayImg.channels = 1 ∧ grayImg.data.length = 9 ∧
      windowAccesses grayImg ((3 : Int).tdiv 2) 2 2 =
        [Access.read 4, Access.read 5, Access.read 6, Access.read 5, Access.read 6,
         Access.read 7, Access.read 5, Access.read 6, Access.read 7,
         Access.read 7, Access.read 8, Access.read 9, Access.read 8, Access.read 9,
         Access.read 10, Access.read 8, Access.read 9, Access.read 10,
         Access.read 7, Access.read 8, Access.read 9, Access.read 8, Access.read 9,
         Access.read 10, Access.read 8, Access.read 9, Access.read 10] ∧
      Access.read 9 ∈ boxBlurAccesses grayImg 3 ∧
      Access.read 10 ∈ boxBlurAccesses grayImg 3 ∧
      Access.write 9 ∈ boxBlurAccesses grayImg 3 ∧
      Access.write 10 ∈ boxBlurAccesses grayImg 3 ∧
      ¬ (Access.write 9).InBounds (grayImg.width * grayImg.height * grayImg.channels) ∧
      ¬ (Access.read 9).InBounds (grayImg.width * grayImg.height * grayImg.channels) :=
  ⟨rfl, rfl, rfl,
    (blurAccesses_reads grayImg rfl (by decide) (by decide) 3 (by decide)).1,
    (blurAccesses_reads grayImg rfl (by decide) (by decide) 3 (by decide)).2,
    (blurAccesses_writes grayImg rfl (by decide) (by decide) 3).1,
    (blurAccesses_writes grayImg rfl (by decide) (by decide) 3).2,
    by decide, by decide⟩

/-- Witness for C31 on the image of the test. -/
theorem blurs_leave_grayscale_buffer_witness :
    grayImg.channels = 1 ∧ Access.write 9 ∈ medianBlurAccesses grayImg 3 ∧
      Access.read 10 ∈ gaussianBlurAccesses grayImg 3 := by
  have h := blurs_leave_grayscale_buffer grayImg rfl (by decide) (by decide) 3
  exact ⟨rfl, (h (medianBlurAccesses grayImg 3) (by simp)).1,
    ((h (gaussianBlurAccesses grayImg 3) (by simp)).2.2.1 (by decide)).2⟩
/-! ## The reads of the edge detection -/

/-- The accesses of `DetectEdges` with `RobertsCross` at the pixel `(x, y)`. -/
theorem robertsCross_pixel (img : Image) (x y : Nat) (hx : x < img.width)
    (hy : y < img.height) :
    ∀ a, a ∈ [Access.read (((y : Int)) * img.width + x),
        Access.read (((y : Int) + 1) * img.width + ((x : Int) + 1)),
        Access.read (((y : Int) + 1) * img.width + x),
        Access.read ((y : Int) * img.width + ((x : Int) + 1)),
        Access.write ((y * img.width + x : Nat) : Int)] →
      a ∈ detectEdgesAccesses img EdgeDetectorType.RobertsCross := by
  intro a ha
  unfold detectEdgesAccesses
  simp only []
  apply List.mem_flatMap.mpr
  refine ⟨y, List.mem_range.mpr hy, ?_⟩
  apply List.mem_flatMap.mpr
  refine ⟨x, List.mem_range.mpr hx, ?_⟩
  simpa using ha

/-- The accesses of `DetectEdges` with a 3x3 operator are inside a buffer of
`width * height` samples. -/
theorem detectEdges_window_in_bounds (img : Image) (type : EdgeDetectorType)
    (ht : type ≠ EdgeDetectorType.RobertsCross) :
    ∀ a, a ∈ detectEdgesAccesses img type → a.InBounds (img.width * img.height) := by
  intro a ha
  unfold detectEdgesAccesses at ha
  simp only [] at ha
  obtain ⟨y, hy, ha⟩ := List.mem_flatMap.mp ha
  obtain ⟨x, hx, ha⟩ := List.mem_flatMap.mp ha
  have hy' := List.mem_range.mp hy
  have hx' := List.mem_range.mp hx
  have hdec : decide (type = EdgeDetectorType.RobertsCross) = false := decide_eq_false ht
  rw [hdec] at ha
  rcases List.mem_append.mp ha with ha | ha
  · rw [if_pos (by simp)] at ha
    obtain ⟨ky, -, ha⟩ := List.mem_flatMap.mp ha
    obtain ⟨kx, -, ha⟩ := List.mem_flatMap.mp ha
    rw [min_max_eq_clampIndex _ _ (by omega), min_max_eq_clampIndex _ _ (by omega)] at ha
    have hlt : clampIndex ((x : Int) + kx) img.width +
        img.width * clampIndex ((y : Int) + ky) img.height < img.width * img.height :=
      index2_lt (clampIndex_lt _ _ (by omega)) (clampIndex_lt _ _ (by omega))
    have hidx : ((clampIndex ((y : Int) + ky) img.height : Nat) : Int) * img.width +
        ((clampIndex ((x : Int) + kx) img.width : Nat) : Int) =
        ((clampIndex ((x : Int) + kx) img.width +
          img.width * clampIndex ((y : Int) + ky) img.height : Nat) : Int) := by
      push_cast
      ring
    rw [hidx] at ha
    have ha' : a = Access.read ((clampIndex ((x : Int) + kx) img.width +
          img.width * clampIndex ((y : Int) + ky) img.height : Nat) : Int) := by
      simpa using ha
    rw [ha']
    exact ⟨by show (0 : Int) ≤ ((_ : Nat) : Int); omega,
      by show ((_ : Nat) : Int) < ((_ : Nat) : Int); omega⟩
  · have ha' : a = Access.write ((y * img.width + x : Nat) : Int) := by simpa using ha
    have hlt : x + img.width * y < img.width * img.height := index2_lt hx' hy'
    rw [ha']
    refine ⟨by show (0 : Int) ≤ ((_ : Nat) : Int); omega, ?_⟩
    show ((y * img.width + x : Nat) : Int) < ((img.width * img.height : Nat) : Int)
    rw [show y * img.width + x = x + img.width * y by ring]
    omega

/-- C40, as the code has it: on every image with width and height at least
1, `DetectEdges` with `RobertsCross` reads, for every pixel `(x, y)`, the
indices `y * width + x`, `(y + 1) * width + (x + 1)`, `(y + 1) * width + x`
and `y * width + (x + 1)` without clamping.  For every pixel of the last
row the second and the third are at least `width * height`, and for the
last pixel so is the fourth: they are outside a buffer of
`width * height` samples.  With the operators Sobel, Prewitt and Scharr,
whose neighbours are clamped, every access is inside the buffer. -/
theorem robertsCross_reads_past_buffer (img : Image) (hw : 1 ≤ img.width)
    (hh : 1 ≤ img.height) :
    (∀ x y, x < img.width → y < img.height →
      Access.read ((y : Int) * img.width + x) ∈
        detectEdgesAccesses img EdgeDetectorType.RobertsCross ∧
      Access.read (((y : Int) + 1) * img.width + ((x : Int) + 1)) ∈
        detectEdgesAccesses img EdgeDetectorType.RobertsCross ∧
      Access.read (((y : Int) + 1) * img.width + x) ∈
        detectEdgesAccesses img EdgeDetectorType.RobertsCross ∧
      Access.read ((y : Int) * img.width + ((x : Int) + 1)) ∈
        detectEdgesAccesses img EdgeDetectorType.RobertsCross) ∧
    (∀ x, x < img.width →
      ¬ (Access.read ((((img.height - 1 : Nat) : Int) + 1) * img.width +
        ((x : Int) + 1))).InBounds (img.width * img.height) ∧
      ¬ (Access.read ((((img.height - 1 : Nat) : Int) + 1) * img.width + x)).InBounds
        (img.width * img.height)) ∧
    ¬ (Access.read (((img.height - 1 : Nat) : Int) * img.width +
      (((img.width - 1 : Nat) : Int) + 1))).InBounds (img.width * img.height) ∧
    (¬ ∀ a, a ∈ detectEdgesAccesses img EdgeDetectorType.RobertsCross →
      a.InBounds (img.width * img.height)) ∧
    (∀ type, type ≠ EdgeDetectorType.RobertsCross →
      ∀ a, a ∈ detectEdgesAccesses img type → a.InBounds (img.width * img.height)) := by
  have hrow : ((img.height - 1 : Nat) : Int) + 1 = img.height := by omega
  have hlast : ∀ x, x < img.width →
      ¬ (Access.read ((((img.height - 1 : Nat) : Int) + 1) * img.width + x)).InBounds
        (img.width * img.height) := by
    intro x _ h
    have h2 : (((img.height - 1 : Nat) : Int) + 1) * img.width + x <
        ((img.width * img.height : Nat) : Int) := h.2
    rw [hrow] at h2
    push_cast at h2
    have e : (img.height : Int) * img.width = (img.width : Int) * img.height := by ring
    omega
  refine ⟨?_, ?_, ?_, ?_, fun type ht => detectEdges_window_in_bounds img type ht⟩
  · intro x y hx hy
    have h := robertsCross_pixel img x y hx hy
    exact ⟨h _ (by simp), h _ (by simp), h _ (by simp), h _ (by simp)⟩
  · intro x hx
    refine ⟨?_, hlast x hx⟩
    intro h
    have h2 : (((img.height - 1 : Nat) : Int) + 1) * img.width + ((x : Int) + 1) <
        ((img.width * img.height : Nat) : Int) := h.2
    rw [hrow] at h2
    push_cast at h2
    have e : (img.height : Int) * img.width = (img.width : Int) * img.height := by ring
    omega
  · intro h
    have h2 : ((img.height - 1 : Nat) : Int) * img.width + (((img.width - 1 : Nat) : Int) + 1) <
        ((img.width * img.height : Nat) : Int) := h.2
    have e := last_pixel_index img.width img.height hw hh
    have e2 : ((img.height - 1 : Nat) : Int) * img.width + (((img.width - 1 : Nat) : Int) + 1) =
        ((img.width * img.height : Nat) : Int) := by
      rw [← e]
      push_cast
      ring
    omega
  · intro hall
    have hmem := (robertsCross_pixel img 0 (img.height - 1) (by omega) (by omega)) _
      (show Access.read ((((img.height - 1 : Nat) : Int) + 1) * img.width + ((0 : Nat) : Int)) ∈ _
        by simp)
    exact hlast 0 (by omega) (hall _ hmem)

/-- Witness for C40: on a 2x2 image `RobertsCross` reads the indices 4, 5
and 6 of a buffer of 4 samples; at the pixel `(0, 0)` it reads 0, 3, 2
and 1. -/
theorem robertsCross_reads_past_buffer_witness :
    edgeImg.data.length = 4 ∧
      detectEdgesAccesses edgeImg EdgeDetectorType.RobertsCross =
        [Access.read 0, Access.read 3, Access.read 2, Access.read 1, Access.write 0,
         Access.read 1, Access.read 4, Access.read 3, Access.read 2, Access.write 1,
         Access.read 2, Access.read 5, Access.read 4, Access.read 3, Access.write 2,
         Access.read 3, Access.read 6, Access.read 5, Access.read 4, Access.write 3] ∧
      (¬ ∀ a, a ∈ detectEdgesAccesses edgeImg EdgeDetectorType.RobertsCross →
        a.InBounds (edgeImg.width * edgeImg.height)) ∧
      ∀ a, a ∈ detectEdgesAccesses edgeImg EdgeDetectorType.Sobel →
        a.InBounds (edgeImg.width * edgeImg.height) :=
  ⟨rfl, rfl, (robertsCross_reads_past_buffer edgeImg (by decide) (by decide)).2.2.2.1,
    (robertsCross_reads_past_buffer edgeImg (by decide) (by decide)).2.2.2.2
      EdgeDetectorType.Sobel (by decide)⟩
/-! ## The bounds that `main` hands to the projections -/

/-- A run of the volume mode that computes a projection has loaded the
volume and dispatched on the bounds of the command line. -/
theorem mainProjection_some (env : LoadEnv) (opts : CommandOptions) (projType : String)
    (vol : Volume) (out : Option (Except ProjectionFailure (List Byte)))
    (hrun : mainProjection env opts projType = some (vol, out)) :
    loadVolumeFromSlices env (mainVolume opts) opts.inputPath = (.success, vol) ∧
      out = applyProjection3D vol projType opts.firstIndex opts.lastIndex := by
  unfold mainProjection at hrun
  split at hrun
  · rename_i vol' heq
    simp only [Option.some.injEq, Prod.mk.injEq] at hrun
    obtain ⟨h1, h2⟩ := hrun
    subst h1
    exact ⟨heq, h2.symm⟩
  · cases hrun

/-- C36, as the code has it: when the volume mode of `main` computes a
projection, the bounds handed to `applyProjection3D` are the options
`firstIndex` and `lastIndex`, which have also filtered the slice files.
With the default options the projection is the full one.  With
`firstIndex >= 1` (and `lastIndex` negative or at least 1) on a loaded
volume of depth at least 2, the projections MIP, MinIP and AIP are slabs
whose lower bound is at least 1: the loaded slice `z = 0` is not scanned. -/
theorem main_projection_skips_loaded_slices (env : LoadEnv) (opts : CommandOptions)
    (projType : String) (vol : Volume) (out : Option (Except ProjectionFailure (List Byte)))
    (hrun : mainProjection env opts projType = some (vol, out)) :
    loadVolumeFromSlices env (mainVolume opts) opts.inputPath = (.success, vol) ∧
    out = applyProjection3D vol projType opts.firstIndex opts.lastIndex ∧
    (opts.firstIndex ≤ 0 → opts.lastIndex < 0 →
      applyProjection3D vol "MIP" opts.firstIndex opts.lastIndex = some (MIP vol) ∧
      applyProjection3D vol "MinIP" opts.firstIndex opts.lastIndex = some (MinIP vol) ∧
      applyProjection3D vol "AIP" opts.firstIndex opts.lastIndex = some (AIP vol)) ∧
    (1 ≤ opts.firstIndex → (opts.lastIndex < 0 ∨ 1 ≤ opts.lastIndex) → 2 ≤ vol.depth →
      applyProjection3D vol "MIP" opts.firstIndex opts.lastIndex =
        some (MIPSlab vol (max opts.firstIndex 0)
          (if opts.lastIndex < 0 then (vol.depth : Int) - 1
            else min opts.lastIndex ((vol.depth : Int) - 1))) ∧
      applyProjection3D vol "MinIP" opts.firstIndex opts.lastIndex =
        some (MinIPSlab vol (max opts.firstIndex 0)
          (if opts.lastIndex < 0 then (vol.depth : Int) - 1
            else min opts.lastIndex ((vol.depth : Int) - 1))) ∧
      applyProjection3D vol "AIP" opts.firstIndex opts.lastIndex =
        some (AIPSlab vol (max opts.firstIndex 0)
          (if opts.lastIndex < 0 then (vol.depth : Int) - 1
            else min opts.lastIndex ((vol.depth : Int) - 1))) ∧
      1 ≤ (slabBounds vol (max opts.firstIndex 0)
          (if opts.lastIndex < 0 then (vol.depth : Int) - 1
            else min opts.lastIndex ((vol.depth : Int) - 1))).1 ∧
      (0 : Int) ∉ intRange
        (slabBounds vol (max opts.firstIndex 0)
          (if opts.lastIndex < 0 then (vol.depth : Int) - 1
            else min opts.lastIndex ((vol.depth : Int) - 1))).1
        (slabBounds vol (max opts.firstIndex 0)
          (if opts.lastIndex < 0 then (vol.depth : Int) - 1
            else min opts.lastIndex ((vol.depth : Int) - 1))).2) := by
  obtain ⟨hload, hout⟩ := mainProjection_some env opts projType vol out hrun
  refine ⟨hload, hout, ?_, ?_⟩
  · intro h1 h2
    exact applyProjection3D_full vol _ _ (by omega)
  · intro h1 h2 h3
    obtain ⟨s1, s2, s3⟩ := applyProjection3D_slab vol opts.firstIndex opts.lastIndex
      (Or.inl (by omega))
    have hlo : 1 ≤ (slabBounds vol (max opts.firstIndex 0)
          (if opts.lastIndex < 0 then (vol.depth : Int) - 1
            else min opts.lastIndex ((vol.depth : Int) - 1))).1 := by
      unfold slabBounds
      simp only []
      split
      · split <;> simp only [] <;> omega
      · split <;> simp only [] <;> omega
    refine ⟨s1, s2, s3, hlo, ?_⟩
    intro hmem
    have := (mem_intRange.mp hmem).1
    omega

/-- Failing input for C36: the directory `stack` holds the slices 1, 2 and 3
with the pixels 10, 110 and 210.  With `-f 1` all three are loaded and the
minimum projection of `main` is 110, of the slices `z = 1, 2`; the minimum
over the loaded slices is 10.  With `-f 2 -l 3` the slices 2 and 3 are
loaded and the projection of `main` is 210, of the slice `z = 1` alone; the
minimum over the loaded slices is 110. -/
theorem main_projection_counterexample :
    mainProjection stackFolder { inputPath := "stack", firstIndex := 1 } "MinIP" =
        some ({ width := 1, height := 1, depth := 3, channels := 1, data := [10, 110, 210] },
          some (.ok [110])) ∧
      MinIP { width := 1, height := 1, depth := 3, channels := 1, data := [10, 110, 210] } =
        .ok [10] ∧
      mainProjection stackFolder { inputPath := "stack", firstIndex := 2, lastIndex := 3 }
          "MinIP" =
        some ({ width := 1, height := 1, depth := 2, channels := 1, data := [110, 210],
                firstSlice := 2, lastSlice := 3 },
          some (.ok [210])) ∧
      MinIP { width := 1, height := 1, depth := 2, channels := 1, data := [110, 210] } =
        .ok [110] ∧
      mainProjection stackFolder { inputPath := "stack" } "MinIP" =
        some ({ width := 1, height := 1, depth := 3, channels := 1, data := [10, 110, 210] },
          some (.ok [10])) :=
  ⟨rfl, rfl, rfl, rfl, rfl⟩

/-- Witness for C36: the directory `stack` with `-f 1`. -/
theorem main_projection_skips_loaded_slices_witness :
    mainProjection stackFolder { inputPath := "stack", firstIndex := 1 } "MIP" =
        some ({ width := 1, height := 1, depth := 3, channels := 1, data := [10, 110, 210] },
          some (.ok [210])) ∧
      (0 : Int) ∉ intRange
        (slabBounds { width := 1, height := 1, depth := 3, channels := 1,
                      data := [10, 110, 210] } (max 1 0) (if (-1 : Int) < 0 then
                        ((3 : Nat) : Int) - 1 else min (-1) (((3 : Nat) : Int) - 1))).1
        (slabBounds { width := 1, height := 1, depth := 3, channels := 1,
                      data := [10, 110, 210] } (max 1 0) (if (-1 : Int) < 0 then
                        ((3 : Nat) : Int) - 1 else min (-1) (((3 : Nat) : Int) - 1))).2 :=
  ⟨rfl, ((main_projection_skips_loaded_slices stackFolder
      { inputPath := "stack", firstIndex := 1 } "MIP"
      { width := 1, height := 1, depth := 3, channels := 1, data := [10, 110, 210] }
      (some (.ok [210])) rfl).2.2.2 (by decide) (by decide) (by decide)).2.2.2.2⟩

end PhotoEditor
